import Mathlib

/-!
# A verification development for the software triangle rasterizer

Shallow embedding of `engine/core.hpp` and `engine/lib.cpp`, of the viewport
and the triangle clip of `lab-2/engine/.cpp/renderer.cpp`, and of the light
model of `lab-3/engine/.cpp/renderer.cpp`.

Modelling conventions.

* `float` scene values are exact rationals (`ℚ`); the vector kernel and the
  light model are written over an arbitrary field `K` so that they can also be
  read over the reals.
* `int` canvas coordinates are unbounded integers (`Int`): signed overflow is
  undefined in C++ and is outside the model.  Integer division is the
  truncating `Int.tdiv`, float-to-int conversion is `truncToInt`.
* Functions whose C++ run can leave the exact-arithmetic fragment return
  `Option`; `none` stands for undefined behaviour (an out-of-bounds index,
  `pop_back` on an empty vector, a float-to-int conversion of a non-finite
  value), a thrown exception (`resize` with a negative length) or a
  non-finite float (a division by zero whose result is used).
* Mutable objects are passed and returned explicitly.
* The section `F32` repeats the routines with every `float` operation rounded to
  binary32, as the compiled program computes; it serves the runs that separate
  the program from its reading in exact arithmetic.
-/

namespace Engine

/-! ## Data model (core.hpp, lines 13-85) -/

abbrev SceneCoordinate := ℚ

abbrev CanvasCoordinate := Int

/-- Four byte channels of `struct Color`; each field is a value of `uint8_t`. -/
structure Color where
  r : Nat
  g : Nat
  b : Nat
  a : Nat
deriving DecidableEq, Repr

/-- The `struct Vector3` of core.hpp with scalars in `K`. -/
structure Vector3 (K : Type) where
  x : K
  y : K
  z : K
deriving DecidableEq, Repr

namespace Vector3

variable {K : Type}

/-- The `operator +` of `Vector3`. -/
def add [Add K] (u other : Vector3 K) : Vector3 K :=
  { x := u.x + other.x, y := u.y + other.y, z := u.z + other.z }

/-- The `operator -` of `Vector3`. -/
def sub [Sub K] (u other : Vector3 K) : Vector3 K :=
  { x := u.x - other.x, y := u.y - other.y, z := u.z - other.z }

/-- The `operator * (float coef)` of `Vector3`. -/
def smul [Mul K] (u : Vector3 K) (coef : K) : Vector3 K :=
  { x := u.x * coef, y := u.y * coef, z := u.z * coef }

/-- The method `Vector3::Cross`. -/
def Cross [Mul K] [Sub K] (u other : Vector3 K) : Vector3 K :=
  { x := u.y * other.z - other.y * u.z,
    y := u.z * other.x - u.x * other.z,
    z := u.x * other.y - other.x * u.y }

/-- The method `Vector3::Dot`. -/
def Dot [Mul K] [Add K] (u other : Vector3 K) : K :=
  u.x * other.x + u.y * other.y + u.z * other.z

end Vector3

/-- The `struct CanvasPoint`; its `operator ==` is the derived equality. -/
structure CanvasPoint where
  x : Int
  y : Int
deriving DecidableEq, Repr

/-- The `struct Line` (fields `begin`, `end`). -/
structure Line where
  begin_ : Vector3 ℚ
  end_ : Vector3 ℚ
deriving DecidableEq, Repr

/-- The `struct Triangle`: `points[3]`, `normals[3]`, `color`, `specular`. -/
structure Triangle where
  p0 : Vector3 ℚ
  p1 : Vector3 ℚ
  p2 : Vector3 ℚ
  n0 : Vector3 ℚ
  n1 : Vector3 ℚ
  n2 : Vector3 ℚ
  color : Color
  specular : ℚ
deriving DecidableEq, Repr

/-- Conversion `static_cast<int>(float)`: truncation toward zero. -/
def truncToInt (q : ℚ) : Int :=
  Int.tdiv q.num (q.den : Int)

/-! ## The pixel sink interface and the depth-buffered sink (core.hpp, 165-212) -/

/-- The abstract class `IViewport` over a state type `V`.  `PutPixel` may
leave the model (an implementation that writes out of its buffer). -/
structure IViewport (V : Type) where
  PutPixel : V → CanvasPoint → Color → Option V
  Width : V → Int
  Height : V → Int

/-- A viewport whose `PutPixel` never fails on states satisfying `Inv`, and
keeps `Inv`. -/
def IViewport.Safe {V : Type} (I : IViewport V) (Inv : V → Prop) : Prop :=
  ∀ v p c, Inv v → ∃ v1, I.PutPixel v p c = some v1 ∧ Inv v1

/-- The private members of `class ViewportWithZBuffer`; the referenced
`IViewport&` is carried as the state `viewport`. -/
structure ViewportWithZBuffer (V : Type) where
  zbuffer : List (List ℚ)
  viewport : V
  center : CanvasPoint
  size : CanvasPoint
deriving DecidableEq

namespace ViewportWithZBuffer

variable {V : Type}

/-- The constructor `ViewportWithZBuffer(IViewport&)`: `Height` rows of `Width`
zeros; `center = (-Width / 2, -Height / 2)` with truncating division; a negative
dimension makes the `vector` constructor throw. -/
def new (I : IViewport V) (viewport : V) : Option (ViewportWithZBuffer V) :=
  if I.Width viewport < 0 ∨ I.Height viewport < 0 then none
  else some
    { zbuffer := List.replicate (I.Height viewport).toNat
        (List.replicate (I.Width viewport).toNat 0)
      viewport := viewport
      center := { x := Int.tdiv (-(I.Width viewport)) 2, y := Int.tdiv (-(I.Height viewport)) 2 }
      size := { x := I.Width viewport, y := I.Height viewport } }

/-- The method `CanBeChanged`: the range check on the translated point, then the
strict depth test, which stores `z` on success.  Returns the flag and the sink;
`none` when `__zbuffer[y][x]` would be read out of bounds. -/
def CanBeChanged (s : ViewportWithZBuffer V) (point : CanvasPoint) (z : ℚ) :
    Option (Bool × ViewportWithZBuffer V) :=
  let x := point.x - s.center.x
  let y := point.y - s.center.y
  if x < 0 ∨ y < 0 ∨ s.size.x ≤ x ∨ s.size.y ≤ y then some (false, s)
  else
    match s.zbuffer[y.toNat]? with
    | none => none
    | some row =>
      match row[x.toNat]? with
      | none => none
      | some cell =>
        if z > cell then
          some (true, { s with zbuffer := s.zbuffer.set y.toNat (row.set x.toNat z) })
        else some (false, s)

/-- The method `PutPixel(point, z, color)`: forwards the untranslated point to
the wrapped viewport when `CanBeChanged` accepts. -/
def PutPixel (I : IViewport V) (s : ViewportWithZBuffer V) (point : CanvasPoint) (z : ℚ)
    (color : Color) : Option (ViewportWithZBuffer V) :=
  match s.CanBeChanged point z with
  | none => none
  | some (true, s1) =>
    match I.PutPixel s1.viewport point color with
    | none => none
    | some v => some { s1 with viewport := v }
  | some (false, s1) => some s1

/-- The method `Width()`. -/
def Width (s : ViewportWithZBuffer V) : Int := s.size.x

/-- The method `Height()`. -/
def Height (s : ViewportWithZBuffer V) : Int := s.size.y

/-- The depth stored at buffer row `y`, column `x` (`0` outside the buffer). -/
def depthAt (s : ViewportWithZBuffer V) (y x : Int) : ℚ :=
  (s.zbuffer.getD y.toNat []).getD x.toNat 0

/-- Shape invariant established by the constructor: `size.y` rows of `size.x`
cells, non-negative sizes, and `center = (-size.x / 2, -size.y / 2)`. -/
def WellFormed (s : ViewportWithZBuffer V) : Prop :=
  0 ≤ s.size.x ∧ 0 ≤ s.size.y ∧
  s.zbuffer.length = s.size.y.toNat ∧
  (∀ row ∈ s.zbuffer, row.length = s.size.x.toNat) ∧
  s.center = { x := Int.tdiv (-s.size.x) 2, y := Int.tdiv (-s.size.y) 2 }

/-- One call `PutPixel(point, z, color)` as data. -/
structure Write where
  point : CanvasPoint
  z : ℚ
  color : Color
deriving DecidableEq

/-- A finite sequence of `PutPixel` calls, run left to right. -/
def putAll (I : IViewport V) : ViewportWithZBuffer V → List Write → Option (ViewportWithZBuffer V)
  | s, [] => some s
  | s, w :: ws =>
    match s.PutPixel I w.point w.z w.color with
    | none => none
    | some s1 => putAll I s1 ws

/-- The `z` values of the calls of a sequence that passed the depth test at
buffer cell `(y, x)`, in order, starting from sink `s`. -/
def passingAt (I : IViewport V) (y x : Int) :
    ViewportWithZBuffer V → List Write → List ℚ
  | _, [] => []
  | s, w :: ws =>
    match s.PutPixel I w.point w.z w.color with
    | none => []
    | some s1 =>
      if (s.CanBeChanged w.point w.z).map Prod.fst = some true ∧
          w.point.x - s.center.x = x ∧ w.point.y - s.center.y = y then
        w.z :: passingAt I y x s1 ws
      else passingAt I y x s1 ws

/-- The `z` values of all calls of a sequence whose translated point is the
buffer cell `(y, x)` of a sink with the given `center`. -/
def attemptedAt (center : CanvasPoint) (y x : Int) (ws : List Write) : List ℚ :=
  (ws.filter (fun w => w.point.x - center.x = x ∧ w.point.y - center.y = y)).map (fun w => w.z)

end ViewportWithZBuffer

/-! ## The canvas wrapper (lib.cpp, 27-31 and 131-173) -/

/-- The `struct Canvas`: the caller's pixel buffer (one `Color` per `ColorDTO`)
with its dimensions. -/
structure Canvas where
  pixels : List Color
  width : Int
  height : Int
deriving DecidableEq

namespace CanvasViewport

/-- The method `ValidateCoordinates`. -/
def ValidateCoordinates (canvas : Canvas) (x y : Int) : Bool :=
  if x < 0 ∨ canvas.width ≤ x then false
  else if y < 0 ∨ canvas.height ≤ y then false
  else true

/-- The method `CanvasViewport::PutPixel`: translate, validate, then store the
four channels at `pixels[y * width + x]`; `none` when that index is outside
the buffer. -/
def PutPixel (canvas : Canvas) (point : CanvasPoint) (color : Color) : Option Canvas :=
  let cx := Int.tdiv canvas.width 2
  let cy := Int.tdiv canvas.height 2
  let x := point.x + cx
  let y := cy - point.y
  if !ValidateCoordinates canvas x y then some canvas
  else
    let index := y * canvas.width + x
    if 0 ≤ index ∧ index.toNat < canvas.pixels.length then
      some { canvas with pixels := canvas.pixels.set index.toNat color }
    else none

/-- The class `CanvasViewport` as an `IViewport`. -/
def viewport : IViewport Canvas :=
  { PutPixel := PutPixel
    Width := fun canvas => canvas.width
    Height := fun canvas => canvas.height }

end CanvasViewport

/-! ## One pixel under a sequence of calls -/

/-- The effect of one accepted-or-rejected `PutPixel` call on the depth and the
colour of the pixel it is aimed at: the strict depth test of `CanBeChanged`,
then the store of `z` and of the colour. -/
def pixelStep (st : ℚ × Color) (w : ViewportWithZBuffer.Write) : ℚ × Color :=
  if w.z > st.1 then (w.z, w.color) else st

/-- The depth and the colour of one pixel after the calls aimed at it, in
order. -/
def pixelRun (st : ℚ × Color) (ws : List ViewportWithZBuffer.Write) : ℚ × Color :=
  ws.foldl pixelStep st

/-- The shape of a canvas of `W` by `H` pixels: its dimensions and the length of
its buffer. -/
def Canvas.HasShape (canvas : Canvas) (W H : Int) : Prop :=
  canvas.width = W ∧ canvas.height = H ∧ canvas.pixels.length = (W * H).toNat

/-- The buffer index `y' * W + x'` that `CanvasViewport::PutPixel` computes for
a point on a `W` by `H` canvas (lines 152-159 of lib.cpp). -/
def CanvasViewport.index (W H : Int) (point : CanvasPoint) : Int :=
  (Int.tdiv H 2 - point.y) * W + (point.x + Int.tdiv W 2)

/-- The coordinate test of `CanvasViewport::PutPixel` on a `W` by `H` canvas
(`ValidateCoordinates` on the translated point). -/
def CanvasViewport.Valid (W H : Int) (point : CanvasPoint) : Prop :=
  0 ≤ point.x + Int.tdiv W 2 ∧ point.x + Int.tdiv W 2 < W ∧
  0 ≤ Int.tdiv H 2 - point.y ∧ Int.tdiv H 2 - point.y < H

/-- The range check of `CanBeChanged` on the translated point. -/
def ViewportWithZBuffer.InRange {V : Type} (s : ViewportWithZBuffer V) (point : CanvasPoint) :
    Prop :=
  0 ≤ point.x - s.center.x ∧ point.x - s.center.x < s.size.x ∧
  0 ≤ point.y - s.center.y ∧ point.y - s.center.y < s.size.y

/-! ## The light model (core.hpp, 88-162) -/

/-- The two library functions of `<cmath>` the light model calls, `sqrt` and
`pow`, taken as parameters. -/
structure FloatMath (K : Type) where
  sqrt : K → K
  pow : K → K → K

/-- The method `Vector3::Length`. -/
def Vector3.Length {K : Type} [Add K] [Mul K] (fm : FloatMath K) (u : Vector3 K) : K :=
  fm.sqrt (u.x * u.x + u.y * u.y + u.z * u.z)

/-- The class hierarchy under `Light` as a tagged variant; every variant
carries the base-class member `intensity`. -/
inductive Light (K : Type) where
  | AmbientLight (intensity : K)
  | PointLight (intensity : K) (position : Vector3 K)
  | DirectionalLight (intensity : K) (direction : Vector3 K)
deriving DecidableEq

namespace Light

variable {K : Type}

/-- The member `Light::intensity`. -/
def intensity : Light K → K
  | AmbientLight i => i
  | PointLight i _ => i
  | DirectionalLight i _ => i

/-- The body of `PointLight::ComputeIntensity`. -/
def pointIntensity [LinearOrderedField K] (fm : FloatMath K) (position P N : Vector3 K)
    (specular : K) : K :=
  let L := position.sub P
  let n_dot_l := N.Dot L
  let result : K := 0
  let result := if n_dot_l > 0 then result + n_dot_l / (N.Length fm * L.Length fm) else result
  if specular ≠ 0 then
    let R := ((N.smul 2).smul (N.Dot L)).sub L
    let r_dot_v := R.Dot (P.smul (-1))
    if r_dot_v > 0 then result + fm.pow (r_dot_v / (R.Length fm * P.Length fm)) specular
    else result
  else result

/-- The body of `DirectionalLight::ComputeIntensity`: the accumulator
`result` is computed and the function then executes `return 0.0`. -/
def directionalIntensity [LinearOrderedField K] (fm : FloatMath K) (intensity : K)
    (direction P N : Vector3 K) (specular : K) : K :=
  let n_dot_l := N.Dot direction
  let result : K := 0
  let result :=
    if n_dot_l > 0 then result + intensity * n_dot_l / (N.Length fm * direction.Length fm)
    else result
  let _result :=
    if specular ≠ 0 then
      let R := ((N.smul 2).smul (N.Dot direction)).sub direction
      let r_dot_v := R.Dot (P.smul (-1))
      if r_dot_v > 0 then result + fm.pow (r_dot_v / (R.Length fm * P.Length fm)) specular
      else result
    else result
  0

/-- The virtual method `ComputeIntensity(P, N, specular)`, dispatched on the
variant. -/
def ComputeIntensity [LinearOrderedField K] (fm : FloatMath K) (light : Light K)
    (P N : Vector3 K) (specular : K) : K :=
  match light with
  | AmbientLight _ => 1
  | PointLight _ position => pointIntensity fm position P N specular
  | DirectionalLight i direction => directionalIntensity fm i direction P N specular

end Light

/-! ## The renderer (core.hpp, 215-619) -/

inductive RenderMode where
  | WIREFRAME
  | FILL
deriving DecidableEq, Repr

inductive ProjectionType where
  | ISOMETRIC
  | PERSPECTIVE
deriving DecidableEq, Repr

/-- The `struct Config`; `viewSize[0]`, `viewSize[1]` are `viewSize0`,
`viewSize1`. -/
structure Config where
  d : ℚ
  viewSize0 : ℚ
  viewSize1 : ℚ
  mode : RenderMode
  projection : ProjectionType
deriving DecidableEq, Repr

/-- A loop `for (int i = start; ...; i++)` that runs `n` times over a state,
stopping at the first failing iteration. -/
def forLoop {σ : Type} (body : Int → σ → Option σ) : Nat → Int → σ → Option σ
  | 0, _, s => some s
  | n + 1, i, s =>
    match body i s with
    | none => none
    | some s1 => forLoop body n (i + 1) s1

/-- The call `values.resize(n)`: keep the first `n` entries, pad with zeros. -/
def resize (values : List ℚ) (n : Nat) : List ℚ :=
  values.take n ++ List.replicate (n - values.length) 0

/-- The call `values.pop_back()`, undefined on an empty vector. -/
def pop_back (values : List ℚ) : Option (List ℚ) :=
  if values = [] then none else some values.dropLast

/-- The conversion `(unsigned char) v` of a float: truncation; undefined when
the truncated value is negative. -/
def toUChar (v : ℚ) : Option Nat :=
  if v ≤ -1 then none else some (truncToInt v).toNat

namespace Renderer

/-- The value `h.Dot(n)` computed by `IsBackFacing` (lines 240-243). -/
def IsBackFacing.hDotN (triangle : Triangle) : ℚ :=
  let v := triangle.p1.sub triangle.p0
  let w := triangle.p2.sub triangle.p0
  let n := v.Cross w
  let h := ((triangle.p0.add triangle.p1).add triangle.p2).smul (1 / 3)
  h.Dot n

/-- The method `IsBackFacing`: `return h.Dot(n) < 0.0f`. -/
def IsBackFacing (triangle : Triangle) : Bool :=
  decide (IsBackFacing.hDotN triangle < 0)

/-- The method `ToCanvasCoordinates`.  A zero view extent makes the quotient
non-finite and its conversion to `int` undefined. -/
def ToCanvasCoordinates (config : Config) (canvasSize : Int × Int) (x y : ℚ) :
    Option CanvasPoint :=
  if config.viewSize0 = 0 ∨ config.viewSize1 = 0 then none
  else some
    { x := truncToInt (x / config.viewSize0 * (canvasSize.1 : ℚ))
      y := truncToInt (y / config.viewSize1 * (canvasSize.2 : ℚ)) }

/-- The method `PerspectiveProject`.  With `point.z = 0` the quotients are
non-finite and their conversion to `int` is undefined. -/
def PerspectiveProject (config : Config) (canvasSize : Int × Int) (point : Vector3 ℚ) :
    Option CanvasPoint :=
  if point.z = 0 then none
  else ToCanvasCoordinates config canvasSize
    (point.x * config.d / point.z) (point.y * config.d / point.z)

/-- The method `IsometricProject`. -/
def IsometricProject (config : Config) (canvasSize : Int × Int) (point : Vector3 ℚ) :
    Option CanvasPoint :=
  ToCanvasCoordinates config canvasSize point.x point.y

/-- The method `ProjectPoint`. -/
def ProjectPoint (config : Config) (canvasSize : Int × Int) (point : Vector3 ℚ) :
    Option CanvasPoint :=
  if config.projection = ProjectionType.ISOMETRIC then IsometricProject config canvasSize point
  else PerspectiveProject config canvasSize point

/-- The loop of `Interpolate`: `n` iterations from index `t`, each storing the
accumulator at `values[t - i0]` and adding the step `a`. -/
def Interpolate.fill (a : ℚ) (i0 : Int) : Nat → Int → ℚ → List ℚ → List ℚ
  | 0, _, _, values => values
  | n + 1, t, d, values => Interpolate.fill a i0 n (t + 1) (d + a) (values.set (t - i0).toNat d)

/-- The method `Interpolate(i0, d0, i1, d1, values)`, returning the output
vector.  `resize` throws for a negative length (`i1 < i0 - 1`). -/
def Interpolate (i0 : Int) (d0 : ℚ) (i1 : Int) (d1 : ℚ) (values : List ℚ) : Option (List ℚ) :=
  if i0 = i1 then some (values ++ [d0])
  else if i1 - i0 + 1 < 0 then none
  else
    let values := resize values (i1 - i0 + 1).toNat
    let a := (d1 - d0) / ((i1 - i0 : Int) : ℚ)
    some (Interpolate.fill a i0 (i1 - i0 + 1).toNat i0 d0 values)

/-- The method `IsOutOfVisibleRange`. -/
def IsOutOfVisibleRange (config : Config) (point : Vector3 ℚ) : Bool :=
  decide (point.z ≤ config.d)

/-- The method `CutLine`.  When `delta.z = 0` the float quotient `t` is an
infinity or a NaN, the test `0 <= t && t <= 1` is false, and the line is
returned unchanged. -/
def CutLine (config : Config) (line : Line) : Line :=
  let delta := line.end_.sub line.begin_
  if delta.z = 0 then line
  else
    let t := (config.d - line.begin_.z) / delta.z
    let point := line.begin_.add (delta.smul t)
    if 0 ≤ t ∧ t ≤ 1 then
      if delta.z > 0 then { begin_ := point, end_ := line.end_ }
      else { begin_ := line.begin_, end_ := point }
    else line

/-- The local `t` of `CutLine` (line 296): `(d - begin.z) / delta.z`. -/
def CutLine.t (config : Config) (line : Line) : ℚ :=
  (config.d - line.begin_.z) / (line.end_.sub line.begin_).z

/-- The local `point` of `CutLine` (line 297): `begin + delta * t`. -/
def CutLine.point (config : Config) (line : Line) : Vector3 ℚ :=
  line.begin_.add ((line.end_.sub line.begin_).smul (CutLine.t config line))

/-- A projected endpoint with its scene depth, `pair<CanvasPoint, SceneCoordinate>`. -/
abbrev DepthPoint := CanvasPoint × ℚ

/-- The clipping step of `DrawLine` (lines 318-320): `CutLine` is applied when
one endpoint is out of visible range. -/
def DrawLine.clip (config : Config) (line : Line) : Line :=
  if IsOutOfVisibleRange config line.begin_ || IsOutOfVisibleRange config line.end_ then
    CutLine config line
  else line

/-- The endpoints `a`, `b` as the horizontal branch of `DrawLine` uses them:
swapped when `a.first.x > b.first.x`. -/
def DrawLine.orderX (a b : DepthPoint) : DepthPoint × DepthPoint :=
  if a.1.x > b.1.x then (b, a) else (a, b)

/-- The endpoints `a`, `b` as the vertical branch of `DrawLine` uses them:
swapped when `a.first.y > b.first.y`. -/
def DrawLine.orderY (a b : DepthPoint) : DepthPoint × DepthPoint :=
  if a.1.y > b.1.y then (b, a) else (a, b)

/-- The rasterizing part of `DrawLine` (lines 325-366) on the projected
endpoints `a`, `b`. -/
def DrawLine.raster {V : Type} (I : IViewport V) (viewport : ViewportWithZBuffer V)
    (a b : DepthPoint) (color : Color) : Option (ViewportWithZBuffer V) :=
  if a.1 = b.1 then viewport.PutPixel I a.1 a.2 color
  else if (a.1.x - b.1.x).natAbs > (a.1.y - b.1.y).natAbs then
    let ab := DrawLine.orderX a b
    match Interpolate ab.1.1.x (ab.1.1.y : ℚ) ab.2.1.x (ab.2.1.y : ℚ) [],
        Interpolate ab.1.1.x ab.1.2 ab.2.1.x ab.2.2 [] with
    | some ys, some zs =>
      forLoop (fun i vp =>
        match ys[i.toNat]?, zs[i.toNat]? with
        | some y, some z => vp.PutPixel I { x := ab.1.1.x + i, y := truncToInt y } z color
        | _, _ => none) (ab.2.1.x - ab.1.1.x + 1).toNat 0 viewport
    | _, _ => none
  else
    let ab := DrawLine.orderY a b
    match Interpolate ab.1.1.y (ab.1.1.x : ℚ) ab.2.1.y (ab.2.1.x : ℚ) [],
        Interpolate ab.1.1.y ab.1.2 ab.2.1.y ab.2.2 [] with
    | some xs, some zs =>
      forLoop (fun i vp =>
        match xs[i.toNat]?, zs[i.toNat]? with
        | some x, some z => vp.PutPixel I { x := truncToInt x, y := ab.1.1.y + i } z color
        | _, _ => none) (ab.2.1.y - ab.1.1.y + 1).toNat 0 viewport
    | _, _ => none

/-- The `(i0, i1)` arguments of the calls of `Interpolate` made by the
rasterizing part of `DrawLine`, in program order. -/
def DrawLine.interpolateCalls (a b : DepthPoint) : List (Int × Int) :=
  if a.1 = b.1 then []
  else if (a.1.x - b.1.x).natAbs > (a.1.y - b.1.y).natAbs then
    let ab := DrawLine.orderX a b
    [(ab.1.1.x, ab.2.1.x), (ab.1.1.x, ab.2.1.x)]
  else
    let ab := DrawLine.orderY a b
    [(ab.1.1.y, ab.2.1.y), (ab.1.1.y, ab.2.1.y)]

/-- The method `DrawLine`. -/
def DrawLine {V : Type} (I : IViewport V) (config : Config) (viewport : ViewportWithZBuffer V)
    (line : Line) (color : Color) : Option (ViewportWithZBuffer V) :=
  let canvasSize := (viewport.Width, viewport.Height)
  if IsOutOfVisibleRange config line.begin_ && IsOutOfVisibleRange config line.end_ then
    some viewport
  else
    let _line := DrawLine.clip config line
    match ProjectPoint config canvasSize _line.begin_, ProjectPoint config canvasSize _line.end_ with
    | some pa, some pb => DrawLine.raster I viewport (pa, _line.begin_.z) (pb, _line.end_.z) color
    | _, _ => none

/-- The method `DrawBorderedTriangle`. -/
def DrawBorderedTriangle {V : Type} (I : IViewport V) (config : Config)
    (viewport : ViewportWithZBuffer V) (triangle : Triangle) : Option (ViewportWithZBuffer V) :=
  match DrawLine I config viewport { begin_ := triangle.p0, end_ := triangle.p1 } triangle.color with
  | none => none
  | some v1 =>
    match DrawLine I config v1 { begin_ := triangle.p1, end_ := triangle.p2 } triangle.color with
    | none => none
    | some v2 => DrawLine I config v2 { begin_ := triangle.p2, end_ := triangle.p0 } triangle.color

/-- The method `ComputeLighting`. -/
def ComputeLighting (fm : FloatMath ℚ) (p n : Vector3 ℚ) (lights : List (Light ℚ))
    (specular : ℚ) : ℚ :=
  lights.foldl
    (fun totalIntensity light =>
      totalIntensity + light.ComputeIntensity fm p n specular * light.intensity) 0

/-- An entry of `points[3]` in `DrawFilledTriangleImpl`:
`tuple<CanvasPoint, SceneCoordinate, float>`. -/
structure Vertex where
  p : CanvasPoint
  z : ℚ
  l : ℚ
deriving DecidableEq, Repr

/-- The call `sort(points, points + 3, by canvas y)`: for three elements the
standard library runs an insertion sort (the second element is placed, then the
third), which keeps ties in their input order. -/
def sortByY (a b c : Vertex) : Vertex × Vertex × Vertex :=
  let ab := if b.p.y < a.p.y then (b, a) else (a, b)
  if c.p.y < ab.1.p.y then (c, ab.1, ab.2)
  else if c.p.y < ab.2.p.y then (ab.1, c, ab.2)
  else (ab.1, ab.2, c)

/-- The block repeated three times in `DrawFilledTriangleImpl` (lines 423-442)
for an attribute with values `d0`, `d1`, `d2` at rows `y0`, `y1`, `y2`: the
long-edge array and the short-edge array (`pop_back`, then append). -/
def edgeArrays (y0 : Int) (d0 : ℚ) (y1 : Int) (d1 : ℚ) (y2 : Int) (d2 : ℚ) :
    Option (List ℚ × List ℚ) :=
  match Interpolate y0 d0 y2 d2 [], Interpolate y0 d0 y1 d1 [], Interpolate y1 d1 y2 d2 [] with
  | some d02, some d012, some d12 =>
    match pop_back d012 with
    | some d012 => some (d02, d012 ++ d12)
    | none => none
  | _, _, _ => none

/-- The colour written at one pixel (lines 460-465): each of `r`, `g`, `b`
times the intensity, capped at 255 and converted to a byte; alpha unchanged. -/
def shade (color : Color) (l : ℚ) : Option Color :=
  match toUChar (min 255 ((color.r : ℚ) * l)), toUChar (min 255 ((color.g : ℚ) * l)),
      toUChar (min 255 ((color.b : ℚ) * l)) with
  | some r, some g, some b => some { r := r, g := g, b := b, a := color.a }
  | _, _, _ => none

/-- The span of a scanline after the conditional swap (lines 445-453):
`(x1, x2, l1, l2, z1, z2)`. -/
def scanlineEnds (xa xb la lb za zb : ℚ) : Int × Int × ℚ × ℚ × ℚ × ℚ :=
  let x1 := truncToInt xa
  let x2 := truncToInt xb
  if x2 < x1 then (x2, x1, lb, la, zb, za) else (x1, x2, la, lb, za, zb)

/-- The body of the scanline loop (lines 445-472) for row index `i`. -/
def scanline {V : Type} (I : IViewport V) (color : Color) (y0 : Int)
    (x02 x012 z02 z012 l02 l012 : List ℚ) (i : Int) (viewport : ViewportWithZBuffer V) :
    Option (ViewportWithZBuffer V) :=
  match x02[i.toNat]?, x012[i.toNat]?, l02[i.toNat]?, l012[i.toNat]?, z02[i.toNat]?,
      z012[i.toNat]? with
  | some xa, some xb, some la, some lb, some za, some zb =>
    let e := scanlineEnds xa xb la lb za zb
    match Interpolate e.1 e.2.2.2.2.1 e.2.1 e.2.2.2.2.2 [],
        Interpolate e.1 e.2.2.1 e.2.1 e.2.2.2.1 [] with
    | some zs, some ls =>
      forLoop (fun j vp =>
        match ls[j.toNat]?, zs[j.toNat]? with
        | some l, some z =>
          match shade color l with
          | some c => vp.PutPixel I { x := e.1 + j, y := y0 + i } z c
          | none => none
        | _, _ => none) (e.2.1 - e.1 + 1).toNat 0 viewport
    | _, _ => none
  | _, _, _, _, _, _ => none

/-- The reciprocal `1 / z` of a depth; for `z = 0` the float result is an
infinity, outside the model. -/
def recip (z : ℚ) : Option ℚ :=
  if z = 0 then none else some (1 / z)

/-- The three entries of `points[3]` after the sort (lines 400-417). -/
def sortedVertices (fm : FloatMath ℚ) (config : Config) (canvasSize : Int × Int)
    (triangle : Triangle) (lights : List (Light ℚ)) : Option (Vertex × Vertex × Vertex) :=
  match ProjectPoint config canvasSize triangle.p0, ProjectPoint config canvasSize triangle.p1,
      ProjectPoint config canvasSize triangle.p2 with
  | some q0, some q1, some q2 =>
    some (sortByY
      { p := q0, z := triangle.p0.z,
        l := ComputeLighting fm triangle.p0 triangle.n0 lights triangle.specular }
      { p := q1, z := triangle.p1.z,
        l := ComputeLighting fm triangle.p1 triangle.n1 lights triangle.specular }
      { p := q2, z := triangle.p2.z,
        l := ComputeLighting fm triangle.p2 triangle.n2 lights triangle.specular })
  | _, _, _ => none

/-- The method `DrawFilledTriangleImpl`. -/
def DrawFilledTriangleImpl {V : Type} (I : IViewport V) (fm : FloatMath ℚ) (config : Config)
    (viewport : ViewportWithZBuffer V) (triangle : Triangle) (lights : List (Light ℚ)) :
    Option (ViewportWithZBuffer V) :=
  if IsBackFacing triangle then some viewport
  else
    match sortedVertices fm config (viewport.Width, viewport.Height) triangle lights with
    | none => none
    | some (v0, v1, v2) =>
      match edgeArrays v0.p.y (v0.p.x : ℚ) v1.p.y (v1.p.x : ℚ) v2.p.y (v2.p.x : ℚ),
          recip v0.z, recip v1.z, recip v2.z with
      | some (x02, x012), some r0, some r1, some r2 =>
        match edgeArrays v0.p.y r0 v1.p.y r1 v2.p.y r2,
            edgeArrays v0.p.y v0.l v1.p.y v1.l v2.p.y v2.l with
        | some (z02, z012), some (l02, l012) =>
          forLoop (scanline I triangle.color v0.p.y x02 x012 z02 z012 l02 l012)
            (v2.p.y - v0.p.y + 1).toNat 0 viewport
        | _, _ => none
      | _, _, _, _ => none

/-- The triangle built by the aggregate `{ {a, b, c}, {normals}, color }` in
`DrawFilledTriangle`: `specular` is not named and takes its default `0.0`. -/
def clipped (triangle : Triangle) (a b c : Vector3 ℚ) : Triangle :=
  { p0 := a, p1 := b, p2 := c
    n0 := triangle.n0, n1 := triangle.n1, n2 := triangle.n2
    color := triangle.color, specular := 0 }

/-- The triangles `DrawFilledTriangle` passes to `DrawFilledTriangleImpl`, in
call order, following its chain of `if` / `else if` (lines 482-600). -/
def DrawFilledTriangle.calls (config : Config) (triangle : Triangle) : List Triangle :=
  let a := triangle.p0
  let b := triangle.p1
  let c := triangle.p2
  if IsOutOfVisibleRange config a && IsOutOfVisibleRange config b then
    let a1 := (CutLine config { begin_ := a, end_ := c }).begin_
    let b1 := (CutLine config { begin_ := b, end_ := c }).begin_
    [clipped triangle a1 b1 c]
  else if IsOutOfVisibleRange config a && IsOutOfVisibleRange config c then
    let a1 := (CutLine config { begin_ := a, end_ := b }).begin_
    let c1 := (CutLine config { begin_ := b, end_ := c }).end_
    [clipped triangle a1 b c1]
  else if IsOutOfVisibleRange config b && IsOutOfVisibleRange config c then
    let b1 := (CutLine config { begin_ := a, end_ := b }).end_
    let c1 := (CutLine config { begin_ := a, end_ := c }).end_
    [clipped triangle a b1 c1]
  else if IsOutOfVisibleRange config a then
    let a1 := (CutLine config { begin_ := a, end_ := b }).begin_
    let a2 := (CutLine config { begin_ := a, end_ := c }).begin_
    [clipped triangle a1 b c, clipped triangle a2 b c]
  else if IsOutOfVisibleRange config b then
    let b1 := (CutLine config { begin_ := a, end_ := b }).end_
    let b2 := (CutLine config { begin_ := b, end_ := c }).begin_
    [clipped triangle a b1 c, clipped triangle a b2 c]
  else if IsOutOfVisibleRange config c then
    let c1 := (CutLine config { begin_ := a, end_ := c }).end_
    let c2 := (CutLine config { begin_ := b, end_ := c }).end_
    [clipped triangle a b c1, clipped triangle a b c2]
  else [triangle]

/-- Consecutive calls of `DrawFilledTriangleImpl` on a list of triangles. -/
def drawFilledAll {V : Type} (I : IViewport V) (fm : FloatMath ℚ) (config : Config)
    (lights : List (Light ℚ)) : ViewportWithZBuffer V → List Triangle →
    Option (ViewportWithZBuffer V)
  | viewport, [] => some viewport
  | viewport, t :: ts =>
    match DrawFilledTriangleImpl I fm config viewport t lights with
    | none => none
    | some v1 => drawFilledAll I fm config lights v1 ts

/-- The method `DrawFilledTriangle`: the calls listed by
`DrawFilledTriangle.calls`, made in order. -/
def DrawFilledTriangle {V : Type} (I : IViewport V) (fm : FloatMath ℚ) (config : Config)
    (viewport : ViewportWithZBuffer V) (triangle : Triangle) (lights : List (Light ℚ)) :
    Option (ViewportWithZBuffer V) :=
  drawFilledAll I fm config lights viewport (DrawFilledTriangle.calls config triangle)

/-- The loop of `Render` over the triangle list. -/
def renderLoop {V : Type} (I : IViewport V) (fm : FloatMath ℚ) (config : Config)
    (lights : List (Light ℚ)) : ViewportWithZBuffer V → List Triangle →
    Option (ViewportWithZBuffer V)
  | viewport, [] => some viewport
  | viewport, triangle :: rest =>
    match (if config.mode = RenderMode.WIREFRAME then
        DrawBorderedTriangle I config viewport triangle
      else DrawFilledTriangle I fm config viewport triangle lights) with
    | none => none
    | some v1 => renderLoop I fm config lights v1 rest

/-- The method `Render`: a fresh depth-buffered sink around `viewport`, then
every triangle in list order; returns the wrapped viewport. -/
def Render {V : Type} (I : IViewport V) (fm : FloatMath ℚ) (config : Config) (viewport : V)
    (triangles : List Triangle) (lights : List (Light ℚ)) : Option V :=
  match ViewportWithZBuffer.new I viewport with
  | none => none
  | some extendedViewport =>
    match renderLoop I fm config lights extendedViewport triangles with
    | none => none
    | some v1 => some v1.viewport

/-! ### The sequence of `PutPixel` calls of each drawing routine

The drawing routines touch the sink only through `PutPixel`, and what they pass
to it does not depend on the sink's content (only on its width and height).
The definitions below read off, from the same source lines, the calls each
routine makes, in program order; the theorems further down show that running
these calls on the sink is what the routine does. -/

/-- Running a computed call sequence on a sink; a failed computation fails. -/
def runWrites {V : Type} (I : IViewport V) (ws : Option (List ViewportWithZBuffer.Write))
    (viewport : ViewportWithZBuffer V) : Option (ViewportWithZBuffer V) :=
  match ws with
  | none => none
  | some l => ViewportWithZBuffer.putAll I viewport l

/-- One call sequence after another. -/
def appendWrites (a b : Option (List ViewportWithZBuffer.Write)) : Option (List ViewportWithZBuffer.Write) :=
  match a, b with
  | some x, some y => some (x ++ y)
  | _, _ => none

/-- The calls of a loop `for (int i = start; ...; i++)` of `n` iterations whose
iteration `i` makes the calls `g i`. -/
def collectWrites (g : Int → Option (List ViewportWithZBuffer.Write)) : Nat → Int → Option (List ViewportWithZBuffer.Write)
  | 0, _ => some []
  | n + 1, i => appendWrites (g i) (collectWrites g n (i + 1))

/-- The calls of the rasterizing part of `DrawLine` (lines 325-366). -/
def DrawLine.writes (a b : DepthPoint) (color : Color) : Option (List ViewportWithZBuffer.Write) :=
  if a.1 = b.1 then some [{ point := a.1, z := a.2, color := color }]
  else if (a.1.x - b.1.x).natAbs > (a.1.y - b.1.y).natAbs then
    let ab := DrawLine.orderX a b
    match Interpolate ab.1.1.x (ab.1.1.y : ℚ) ab.2.1.x (ab.2.1.y : ℚ) [],
        Interpolate ab.1.1.x ab.1.2 ab.2.1.x ab.2.2 [] with
    | some ys, some zs =>
      collectWrites (fun i =>
        match ys[i.toNat]?, zs[i.toNat]? with
        | some y, some z =>
          some [{ point := { x := ab.1.1.x + i, y := truncToInt y }, z := z, color := color }]
        | _, _ => none) (ab.2.1.x - ab.1.1.x + 1).toNat 0
    | _, _ => none
  else
    let ab := DrawLine.orderY a b
    match Interpolate ab.1.1.y (ab.1.1.x : ℚ) ab.2.1.y (ab.2.1.x : ℚ) [],
        Interpolate ab.1.1.y ab.1.2 ab.2.1.y ab.2.2 [] with
    | some xs, some zs =>
      collectWrites (fun i =>
        match xs[i.toNat]?, zs[i.toNat]? with
        | some x, some z =>
          some [{ point := { x := truncToInt x, y := ab.1.1.y + i }, z := z, color := color }]
        | _, _ => none) (ab.2.1.y - ab.1.1.y + 1).toNat 0
    | _, _ => none

/-- The calls of `DrawLine` on a sink of size `canvasSize`. -/
def DrawLine.allWrites (config : Config) (canvasSize : Int × Int) (line : Line) (color : Color) :
    Option (List ViewportWithZBuffer.Write) :=
  if IsOutOfVisibleRange config line.begin_ && IsOutOfVisibleRange config line.end_ then
    some []
  else
    let _line := DrawLine.clip config line
    match ProjectPoint config canvasSize _line.begin_, ProjectPoint config canvasSize _line.end_ with
    | some pa, some pb => DrawLine.writes (pa, _line.begin_.z) (pb, _line.end_.z) color
    | _, _ => none

/-- The calls of `DrawBorderedTriangle` on a sink of size `canvasSize`. -/
def DrawBorderedTriangle.writes (config : Config) (canvasSize : Int × Int)
    (triangle : Triangle) : Option (List ViewportWithZBuffer.Write) :=
  appendWrites
    (DrawLine.allWrites config canvasSize { begin_ := triangle.p0, end_ := triangle.p1 }
      triangle.color)
    (appendWrites
      (DrawLine.allWrites config canvasSize { begin_ := triangle.p1, end_ := triangle.p2 }
        triangle.color)
      (DrawLine.allWrites config canvasSize { begin_ := triangle.p2, end_ := triangle.p0 }
        triangle.color))

/-- The calls of the scanline loop body (lines 445-472) for row index `i`. -/
def scanline.writes (color : Color) (y0 : Int) (x02 x012 z02 z012 l02 l012 : List ℚ) (i : Int) :
    Option (List ViewportWithZBuffer.Write) :=
  match x02[i.toNat]?, x012[i.toNat]?, l02[i.toNat]?, l012[i.toNat]?, z02[i.toNat]?,
      z012[i.toNat]? with
  | some xa, some xb, some la, some lb, some za, some zb =>
    let e := scanlineEnds xa xb la lb za zb
    match Interpolate e.1 e.2.2.2.2.1 e.2.1 e.2.2.2.2.2 [],
        Interpolate e.1 e.2.2.1 e.2.1 e.2.2.2.1 [] with
    | some zs, some ls =>
      collectWrites (fun j =>
        match ls[j.toNat]?, zs[j.toNat]? with
        | some l, some z =>
          match shade color l with
          | some c => some [{ point := { x := e.1 + j, y := y0 + i }, z := z, color := c }]
          | none => none
        | _, _ => none) (e.2.1 - e.1 + 1).toNat 0
    | _, _ => none
  | _, _, _, _, _, _ => none

/-- The calls of `DrawFilledTriangleImpl` on a sink of size `canvasSize`. -/
def DrawFilledTriangleImpl.writes (fm : FloatMath ℚ) (config : Config) (canvasSize : Int × Int)
    (triangle : Triangle) (lights : List (Light ℚ)) : Option (List ViewportWithZBuffer.Write) :=
  if IsBackFacing triangle then some []
  else
    match sortedVertices fm config canvasSize triangle lights with
    | none => none
    | some (v0, v1, v2) =>
      match edgeArrays v0.p.y (v0.p.x : ℚ) v1.p.y (v1.p.x : ℚ) v2.p.y (v2.p.x : ℚ),
          recip v0.z, recip v1.z, recip v2.z with
      | some (x02, x012), some r0, some r1, some r2 =>
        match edgeArrays v0.p.y r0 v1.p.y r1 v2.p.y r2,
            edgeArrays v0.p.y v0.l v1.p.y v1.l v2.p.y v2.l with
        | some (z02, z012), some (l02, l012) =>
          collectWrites (scanline.writes triangle.color v0.p.y x02 x012 z02 z012 l02 l012)
            (v2.p.y - v0.p.y + 1).toNat 0
        | _, _ => none
      | _, _, _, _ => none

/-- The calls of consecutive `DrawFilledTriangleImpl` on a list of triangles. -/
def drawFilledAll.writes (fm : FloatMath ℚ) (config : Config) (canvasSize : Int × Int)
    (lights : List (Light ℚ)) : List Triangle → Option (List ViewportWithZBuffer.Write)
  | [] => some []
  | t :: ts =>
    appendWrites (DrawFilledTriangleImpl.writes fm config canvasSize t lights)
      (drawFilledAll.writes fm config canvasSize lights ts)

/-- The calls of `DrawFilledTriangle` on a sink of size `canvasSize`. -/
def DrawFilledTriangle.writes (fm : FloatMath ℚ) (config : Config) (canvasSize : Int × Int)
    (triangle : Triangle) (lights : List (Light ℚ)) : Option (List ViewportWithZBuffer.Write) :=
  drawFilledAll.writes fm config canvasSize lights (DrawFilledTriangle.calls config triangle)

/-- The calls of the loop of `Render` on a sink of size `canvasSize`. -/
def renderLoop.writes (fm : FloatMath ℚ) (config : Config) (canvasSize : Int × Int)
    (lights : List (Light ℚ)) : List Triangle → Option (List ViewportWithZBuffer.Write)
  | [] => some []
  | triangle :: rest =>
    appendWrites
      (if config.mode = RenderMode.WIREFRAME then
        DrawBorderedTriangle.writes config canvasSize triangle
      else DrawFilledTriangle.writes fm config canvasSize triangle lights)
      (renderLoop.writes fm config canvasSize lights rest)

end Renderer

/-! ## Scene decoding (lib.cpp, 5-128) -/

/-- The `typedef float Vector3DTO[3]`. -/
structure Vector3DTO where
  v0 : ℚ
  v1 : ℚ
  v2 : ℚ
deriving DecidableEq, Repr

/-- The `struct LightDTO`; the `enum LightType` field is carried as its integer
code (`AMBIENT = 0`, `POINT = 1`, `DIRECTION = 2`). -/
structure LightDTO where
  type : Int
  intensity : ℚ
  position : Vector3DTO
deriving DecidableEq, Repr

/-- The `struct ConfigDTO`. -/
structure ConfigDTO where
  d : ℚ
  viewSize0 : ℚ
  viewSize1 : ℚ
  mode : Int
  projection : Int
deriving DecidableEq, Repr

/-- The function `DeserializeVector`. -/
def DeserializeVector (vector : Vector3DTO) : Vector3 ℚ :=
  { x := vector.v0, y := vector.v1, z := vector.v2 }

/-- The function `DeserializeLight`: a `switch` on the type code with the cases
`AMBIENT`, `POINT` and `default`. -/
def DeserializeLight (light : LightDTO) : Light ℚ :=
  if light.type = 0 then Light.AmbientLight light.intensity
  else if light.type = 1 then
    Light.PointLight light.intensity (DeserializeVector light.position)
  else Light.DirectionalLight light.intensity (DeserializeVector light.position)

/-- The first `switch` of `DeserializeConfig`: the local `mode` is assigned in
the cases 1 and 2 and is left uninitialised otherwise. -/
def DeserializeConfig.mode (code : Int) : Option RenderMode :=
  if code = 1 then some RenderMode.WIREFRAME
  else if code = 2 then some RenderMode.FILL
  else none

/-- The second `switch` of `DeserializeConfig`: the local `projection` is
assigned in the cases 1 and 2 and is left uninitialised otherwise. -/
def DeserializeConfig.projection (code : Int) : Option ProjectionType :=
  if code = 1 then some ProjectionType.ISOMETRIC
  else if code = 2 then some ProjectionType.PERSPECTIVE
  else none

/-- The function `DeserializeConfig`; reading an uninitialised local is
undefined. -/
def DeserializeConfig (config : ConfigDTO) : Option Config :=
  match DeserializeConfig.mode config.mode, DeserializeConfig.projection config.projection with
  | some mode, some projection =>
    some { d := config.d, viewSize0 := config.viewSize0, viewSize1 := config.viewSize1,
           mode := mode, projection := projection }
  | _, _ => none

/-! ## The lab-2 renderer (lab-2/engine/.cpp/renderer.cpp)

The structs `Color`, `Vector3`, `CanvasPoint`, `Line` and `Config` of this file
are the ones of core.hpp; its `Triangle` has no normals and no specular
exponent, and its `Viewport` writes into a `vector<vector<Color>>`. -/

namespace Lab2

/-- The `using Canvas = vector<vector<Color>>`, indexed `canvas[x][y]`; `main`
creates it as `Canvas(width, vector<Color>(height))`. -/
abbrev Canvas := List (List Color)

/-- The `struct Triangle` of lab-2: `points[3]` and `color`. -/
structure Triangle where
  p0 : Vector3 ℚ
  p1 : Vector3 ℚ
  p2 : Vector3 ℚ
  color : Color
deriving DecidableEq, Repr

/-- The private members of `class Viewport`; the referenced `Canvas&` is
carried as the state `canvas`. -/
structure Viewport where
  zbuffer : List (List ℚ)
  canvas : Canvas
  center : CanvasPoint
  size : CanvasPoint
deriving DecidableEq

namespace Viewport

/-- The constructor `Viewport(Canvas&)` (lines 101-106): `canvas.size()`
columns of `canvas[0].size()` zeros; `center` from both dimensions; `size` is
`{ canvas.size(), canvas.size() }`.  Reading `canvas[0]` of an empty canvas is
undefined. -/
def new (canvas : Canvas) : Option Viewport :=
  match canvas[0]? with
  | none => none
  | some column =>
    some
      { zbuffer := List.replicate canvas.length (List.replicate column.length 0)
        canvas := canvas
        center := { x := Int.tdiv (-(canvas.length : Int)) 2,
                    y := Int.tdiv (-(column.length : Int)) 2 }
        size := { x := (canvas.length : Int), y := (canvas.length : Int) } }

/-- The method `CanBeChanged` (lines 85-98): the range check on the translated
point, then the strict depth test on `__zbuffer[x][y]`, which stores `z` on
success; `none` when that element does not exist. -/
def CanBeChanged (s : Viewport) (point : CanvasPoint) (z : ℚ) : Option (Bool × Viewport) :=
  let x := point.x - s.center.x
  let y := point.y - s.center.y
  if x < 0 ∨ y < 0 ∨ s.size.x ≤ x ∨ s.size.y ≤ y then some (false, s)
  else
    match s.zbuffer[x.toNat]? with
    | none => none
    | some column =>
      match column[y.toNat]? with
      | none => none
      | some cell =>
        if z > cell then
          some (true, { s with zbuffer := s.zbuffer.set x.toNat (column.set y.toNat z) })
        else some (false, s)

/-- The two indices of the canvas access `__canvas[x][__size.y - y]` of
`PutPixel` (line 111). -/
def canvasIndex (s : Viewport) (point : CanvasPoint) : Int × Int :=
  (point.x - s.center.x, s.size.y - (point.y - s.center.y))

/-- The method `PutPixel` (lines 108-113): when `CanBeChanged` accepts, the
colour is stored at `__canvas[x][__size.y - y]`; `none` when that element does
not exist. -/
def PutPixel (s : Viewport) (point : CanvasPoint) (z : ℚ) (color : Color) : Option Viewport :=
  match s.CanBeChanged point z with
  | none => none
  | some (false, s1) => some s1
  | some (true, s1) =>
    let i := canvasIndex s1 point
    if i.1 < 0 ∨ i.2 < 0 then none
    else
      match s1.canvas[i.1.toNat]? with
      | none => none
      | some column =>
        if i.2.toNat < column.length then
          some { s1 with canvas := s1.canvas.set i.1.toNat (column.set i.2.toNat color) }
        else none

end Viewport

namespace Renderer

/-- The method `IsOutOfVisibleRange` of lab-2 (lines 193-195). -/
def IsOutOfVisibleRange (config : Config) (point : Vector3 ℚ) : Bool :=
  decide (point.z ≤ config.d)

/-- The method `CutLine` of lab-2 (lines 197-211).  When `delta.z = 0` the
float quotient `t` is an infinity or a NaN, the test `0 <= t && t <= 1` is
false, and the line is returned unchanged. -/
def CutLine (config : Config) (line : Line) : Line :=
  let delta := line.end_.sub line.begin_
  if delta.z = 0 then line
  else
    let t := (config.d - line.begin_.z) / delta.z
    let point := line.begin_.add (delta.smul t)
    if 0 ≤ t ∧ t ≤ 1 then
      if delta.z > 0 then { begin_ := point, end_ := line.end_ }
      else { begin_ := line.begin_, end_ := point }
    else line

/-- The local `point` of `CutLine` (line 200): `begin + delta * t`, the
intersection of the line with the plane `z = d`. -/
def CutLine.point (config : Config) (line : Line) : Vector3 ℚ :=
  line.begin_.add ((line.end_.sub line.begin_).smul
    ((config.d - line.begin_.z) / (line.end_.sub line.begin_).z))

/-- The triangles `DrawFilledTriangle` of lab-2 passes to
`DrawFilledTriangleImpl`, in call order, following its chain of `if` /
`else if` (lines 331-370). -/
def DrawFilledTriangle.calls (config : Config) (triangle : Triangle) : List Triangle :=
  let a := triangle.p0
  let b := triangle.p1
  let c := triangle.p2
  if IsOutOfVisibleRange config a && IsOutOfVisibleRange config b then
    let a1 := (CutLine config { begin_ := a, end_ := c }).begin_
    let b1 := (CutLine config { begin_ := b, end_ := c }).begin_
    [{ p0 := a1, p1 := b1, p2 := c, color := triangle.color }]
  else if IsOutOfVisibleRange config a && IsOutOfVisibleRange config c then
    let a1 := (CutLine config { begin_ := a, end_ := b }).begin_
    let c1 := (CutLine config { begin_ := b, end_ := c }).end_
    [{ p0 := a1, p1 := b, p2 := c1, color := triangle.color }]
  else if IsOutOfVisibleRange config b && IsOutOfVisibleRange config c then
    let b1 := (CutLine config { begin_ := a, end_ := b }).end_
    let c1 := (CutLine config { begin_ := a, end_ := c }).end_
    [{ p0 := a, p1 := b1, p2 := c1, color := triangle.color }]
  else if IsOutOfVisibleRange config a then
    let a1 := (CutLine config { begin_ := a, end_ := b }).begin_
    let a2 := (CutLine config { begin_ := a, end_ := c }).begin_
    [{ p0 := a1, p1 := b, p2 := c, color := triangle.color },
     { p0 := a2, p1 := b, p2 := c, color := triangle.color }]
  else if IsOutOfVisibleRange config b then
    let b1 := (CutLine config { begin_ := a, end_ := b }).begin_
    let b2 := (CutLine config { begin_ := b, end_ := c }).end_
    [{ p0 := a, p1 := b1, p2 := c, color := triangle.color },
     { p0 := a, p1 := b2, p2 := c, color := triangle.color }]
  else if IsOutOfVisibleRange config c then
    let c1 := (CutLine config { begin_ := a, end_ := c }).end_
    let c2 := (CutLine config { begin_ := b, end_ := c }).end_
    [{ p0 := a, p1 := b, p2 := c1, color := triangle.color },
     { p0 := a, p1 := b, p2 := c2, color := triangle.color }]
  else [triangle]

end Renderer

end Lab2

/-! ## The light model of lab-3 (lab-3/engine/.cpp/renderer.cpp, 85-159 and 361-375)

The class hierarchy under `Light` is the one of core.hpp, so the variant type
`Light` is shared; the method bodies are translated from the lab-3 file. -/

namespace Lab3

variable {K : Type}

/-- The body of `PointLight::ComputeIntensity` of lab-3 (lines 110-130); its
first line is `Vector3 L = P - position`. -/
def pointIntensity [LinearOrderedField K] (fm : FloatMath K) (position P N : Vector3 K)
    (specular : K) : K :=
  let L := P.sub position
  let n_dot_l := N.Dot L
  let result : K := 0
  let result := if n_dot_l > 0 then result + n_dot_l / (N.Length fm * L.Length fm) else result
  if specular ≠ 0 then
    let R := ((N.smul 2).smul (N.Dot L)).sub L
    let r_dot_v := R.Dot (P.smul (-1))
    if r_dot_v > 0 then result + fm.pow (r_dot_v / (R.Length fm * P.Length fm)) specular
    else result
  else result

/-- The body of `DirectionalLight::ComputeIntensity` of lab-3 (lines 140-158):
the accumulator `result` is computed and the function then executes
`return 0.0`. -/
def directionalIntensity [LinearOrderedField K] (fm : FloatMath K) (intensity : K)
    (direction P N : Vector3 K) (specular : K) : K :=
  let n_dot_l := N.Dot direction
  let result : K := 0
  let result :=
    if n_dot_l > 0 then result + intensity * n_dot_l / (N.Length fm * direction.Length fm)
    else result
  let _result :=
    if specular ≠ 0 then
      let R := ((N.smul 2).smul (N.Dot direction)).sub direction
      let r_dot_v := R.Dot (P.smul (-1))
      if r_dot_v > 0 then result + fm.pow (r_dot_v / (R.Length fm * P.Length fm)) specular
      else result
    else result
  0

/-- The virtual method `ComputeIntensity(P, N, specular)` of lab-3, dispatched
on the variant. -/
def ComputeIntensity [LinearOrderedField K] (fm : FloatMath K) (light : Light K)
    (P N : Vector3 K) (specular : K) : K :=
  match light with
  | Light.AmbientLight _ => 1
  | Light.PointLight _ position => pointIntensity fm position P N specular
  | Light.DirectionalLight i direction => directionalIntensity fm i direction P N specular

/-- The method `ComputeLighting` of lab-3 (lines 361-375). -/
def ComputeLighting (fm : FloatMath ℚ) (p n : Vector3 ℚ) (lights : List (Light ℚ))
    (specular : ℚ) : ℚ :=
  lights.foldl
    (fun totalIntensity light =>
      totalIntensity + ComputeIntensity fm light p n specular * light.intensity) 0

end Lab3

/-- Whether a light is the `DirectionalLight` variant; used to state the removal
of the directional lights from a light list. -/
def Light.isDirectional {K : Type} : Light K → Bool
  | Light.DirectionalLight _ _ => true
  | _ => false

namespace Renderer

/-! ### The drawing routines with the callee `Interpolate` as a parameter

`DrawLine` and `DrawFilledTriangleImpl` once more, from the same source lines,
with every call `Interpolate(i0, d0, i1, d1, values)` made through the parameter
`interp`.  With `interp := Interpolate` they are the routines above; with
another `interp` they show which arguments the routines call it on. -/

/-- The type of the method `Interpolate`. -/
abbrev Interpolator := Int → ℚ → Int → ℚ → List ℚ → Option (List ℚ)

/-- The rasterizing part of `DrawLine` (lines 325-366), calling `interp`. -/
def DrawLine.rasterWith {V : Type} (interp : Interpolator) (I : IViewport V)
    (viewport : ViewportWithZBuffer V) (a b : DepthPoint) (color : Color) :
    Option (ViewportWithZBuffer V) :=
  if a.1 = b.1 then viewport.PutPixel I a.1 a.2 color
  else if (a.1.x - b.1.x).natAbs > (a.1.y - b.1.y).natAbs then
    let ab := DrawLine.orderX a b
    match interp ab.1.1.x (ab.1.1.y : ℚ) ab.2.1.x (ab.2.1.y : ℚ) [],
        interp ab.1.1.x ab.1.2 ab.2.1.x ab.2.2 [] with
    | some ys, some zs =>
      forLoop (fun i vp =>
        match ys[i.toNat]?, zs[i.toNat]? with
        | some y, some z => vp.PutPixel I { x := ab.1.1.x + i, y := truncToInt y } z color
        | _, _ => none) (ab.2.1.x - ab.1.1.x + 1).toNat 0 viewport
    | _, _ => none
  else
    let ab := DrawLine.orderY a b
    match interp ab.1.1.y (ab.1.1.x : ℚ) ab.2.1.y (ab.2.1.x : ℚ) [],
        interp ab.1.1.y ab.1.2 ab.2.1.y ab.2.2 [] with
    | some xs, some zs =>
      forLoop (fun i vp =>
        match xs[i.toNat]?, zs[i.toNat]? with
        | some x, some z => vp.PutPixel I { x := truncToInt x, y := ab.1.1.y + i } z color
        | _, _ => none) (ab.2.1.y - ab.1.1.y + 1).toNat 0 viewport
    | _, _ => none

/-- The method `DrawLine`, calling `interp`. -/
def DrawLineWith {V : Type} (interp : Interpolator) (I : IViewport V) (config : Config)
    (viewport : ViewportWithZBuffer V) (line : Line) (color : Color) :
    Option (ViewportWithZBuffer V) :=
  let canvasSize := (viewport.Width, viewport.Height)
  if IsOutOfVisibleRange config line.begin_ && IsOutOfVisibleRange config line.end_ then
    some viewport
  else
    let _line := DrawLine.clip config line
    match ProjectPoint config canvasSize _line.begin_, ProjectPoint config canvasSize _line.end_ with
    | some pa, some pb =>
      DrawLine.rasterWith interp I viewport (pa, _line.begin_.z) (pb, _line.end_.z) color
    | _, _ => none

/-- The block repeated three times in `DrawFilledTriangleImpl` (lines 423-442),
calling `interp`. -/
def edgeArraysWith (interp : Interpolator) (y0 : Int) (d0 : ℚ) (y1 : Int) (d1 : ℚ) (y2 : Int)
    (d2 : ℚ) : Option (List ℚ × List ℚ) :=
  match interp y0 d0 y2 d2 [], interp y0 d0 y1 d1 [], interp y1 d1 y2 d2 [] with
  | some d02, some d012, some d12 =>
    match pop_back d012 with
    | some d012 => some (d02, d012 ++ d12)
    | none => none
  | _, _, _ => none

/-- The body of the scanline loop (lines 445-472) for row index `i`, calling
`interp`. -/
def scanlineWith {V : Type} (interp : Interpolator) (I : IViewport V) (color : Color) (y0 : Int)
    (x02 x012 z02 z012 l02 l012 : List ℚ) (i : Int) (viewport : ViewportWithZBuffer V) :
    Option (ViewportWithZBuffer V) :=
  match x02[i.toNat]?, x012[i.toNat]?, l02[i.toNat]?, l012[i.toNat]?, z02[i.toNat]?,
      z012[i.toNat]? with
  | some xa, some xb, some la, some lb, some za, some zb =>
    let e := scanlineEnds xa xb la lb za zb
    match interp e.1 e.2.2.2.2.1 e.2.1 e.2.2.2.2.2 [],
        interp e.1 e.2.2.1 e.2.1 e.2.2.2.1 [] with
    | some zs, some ls =>
      forLoop (fun j vp =>
        match ls[j.toNat]?, zs[j.toNat]? with
        | some l, some z =>
          match shade color l with
          | some c => vp.PutPixel I { x := e.1 + j, y := y0 + i } z c
          | none => none
        | _, _ => none) (e.2.1 - e.1 + 1).toNat 0 viewport
    | _, _ => none
  | _, _, _, _, _, _ => none

/-- The method `DrawFilledTriangleImpl`, calling `interp`. -/
def DrawFilledTriangleImplWith {V : Type} (interp : Interpolator) (I : IViewport V)
    (fm : FloatMath ℚ) (config : Config) (viewport : ViewportWithZBuffer V) (triangle : Triangle)
    (lights : List (Light ℚ)) : Option (ViewportWithZBuffer V) :=
  if IsBackFacing triangle then some viewport
  else
    match sortedVertices fm config (viewport.Width, viewport.Height) triangle lights with
    | none => none
    | some (v0, v1, v2) =>
      match edgeArraysWith interp v0.p.y (v0.p.x : ℚ) v1.p.y (v1.p.x : ℚ) v2.p.y (v2.p.x : ℚ),
          recip v0.z, recip v1.z, recip v2.z with
      | some (x02, x012), some r0, some r1, some r2 =>
        match edgeArraysWith interp v0.p.y r0 v1.p.y r1 v2.p.y r2,
            edgeArraysWith interp v0.p.y v0.l v1.p.y v1.l v2.p.y v2.l with
        | some (z02, z012), some (l02, l012) =>
          forLoop (scanlineWith interp I triangle.color v0.p.y x02 x012 z02 z012 l02 l012)
            (v2.p.y - v0.p.y + 1).toNat 0 viewport
        | _, _ => none
      | _, _, _, _ => none

end Renderer

/-! ## The renderer in binary32 arithmetic

The routines of core.hpp once more, with every `float` operation rounded to
the nearest binary32 value (ties to even), the arithmetic the compiled program
performs.  A `float` value is the rational it denotes; `none` stands for a
result that is not finite or for an undefined conversion.  The pixel sink, the
sort and the comparisons involve no rounding and are shared with the exact
model above. -/

namespace F32

/-- The power `2 ^ k` for an integer exponent. -/
def pow2 (k : Int) : ℚ :=
  if 0 ≤ k then ((2 ^ k.toNat : Nat) : ℚ) else 1 / ((2 ^ (-k).toNat : Nat) : ℚ)

/-- The position of the leading bit of `n` (`0` for `n < 2`): the number of
halvings that bring `n` below `2`, by recursion on a bound. -/
def log2 : Nat → Nat → Nat
  | 0, _ => 0
  | bound + 1, n => if n < 2 then 0 else log2 bound (n / 2) + 1

/-- The exponent `e` of a positive rational `a`: `2 ^ e ≤ a < 2 ^ (e + 1)`. -/
def exponent (a : ℚ) : Int :=
  let e : Int := (log2 a.num.natAbs a.num.natAbs : Int) - (log2 a.den a.den : Int)
  if a < pow2 e then e - 1 else e

/-- The integer nearest to a non-negative rational, ties to the even one. -/
def roundHalfEven (m : ℚ) : Nat :=
  let f := m.num.toNat / m.den
  let r := m - (f : ℚ)
  if r < 1 / 2 then f
  else if 1 / 2 < r then f + 1
  else if f % 2 = 0 then f
  else f + 1

/-- Rounding to binary32: 24 significant bits, exponents from `-126` (below it
the spacing stays `2 ^ (-149)`), ties to even; a magnitude that rounds to
`2 ^ 128` or more is an infinity. -/
def round (q : ℚ) : Option ℚ :=
  if q = 0 then some 0
  else
    let a := if q < 0 then -q else q
    let ulp := pow2 (max (exponent a) (-126) - 23)
    let r := (roundHalfEven (a / ulp) : ℚ) * ulp
    if pow2 128 ≤ r then none
    else some (if q < 0 then -r else r)

/-- The `float` sum. -/
def add (a b : ℚ) : Option ℚ := round (a + b)

/-- The `float` difference. -/
def sub (a b : ℚ) : Option ℚ := round (a - b)

/-- The `float` product. -/
def mul (a b : ℚ) : Option ℚ := round (a * b)

/-- The `float` quotient; a division by zero gives an infinity or a NaN. -/
def div (a b : ℚ) : Option ℚ := if b = 0 then none else round (a / b)

/-- The conversion `static_cast<float>(int)`. -/
def ofInt (n : Int) : Option ℚ := round (n : ℚ)

/-- The conversion `static_cast<int>(float)`: truncation toward zero, undefined
when the truncated value is not an `int`. -/
def toInt (q : ℚ) : Option Int :=
  if -2147483648 ≤ truncToInt q ∧ truncToInt q ≤ 2147483647 then some (truncToInt q) else none

/-- The `operator +` of `Vector3`. -/
def Vector3.add (u other : Vector3 ℚ) : Option (Vector3 ℚ) :=
  match F32.add u.x other.x, F32.add u.y other.y, F32.add u.z other.z with
  | some x, some y, some z => some { x := x, y := y, z := z }
  | _, _, _ => none

/-- The `operator -` of `Vector3`. -/
def Vector3.sub (u other : Vector3 ℚ) : Option (Vector3 ℚ) :=
  match F32.sub u.x other.x, F32.sub u.y other.y, F32.sub u.z other.z with
  | some x, some y, some z => some { x := x, y := y, z := z }
  | _, _, _ => none

/-- The `operator * (float coef)` of `Vector3`. -/
def Vector3.smul (u : Vector3 ℚ) (coef : ℚ) : Option (Vector3 ℚ) :=
  match F32.mul u.x coef, F32.mul u.y coef, F32.mul u.z coef with
  | some x, some y, some z => some { x := x, y := y, z := z }
  | _, _, _ => none

/-- The expression `a * b - c * d` of `Vector3::Cross`. -/
def crossTerm (a b c d : ℚ) : Option ℚ :=
  match mul a b, mul c d with
  | some ab, some cd => sub ab cd
  | _, _ => none

/-- The method `Vector3::Cross`. -/
def Vector3.Cross (u other : Vector3 ℚ) : Option (Vector3 ℚ) :=
  match crossTerm u.y other.z other.y u.z, crossTerm u.z other.x u.x other.z,
      crossTerm u.x other.y other.x u.y with
  | some x, some y, some z => some { x := x, y := y, z := z }
  | _, _, _ => none

/-- The method `Vector3::Dot`: `x * other.x + y * other.y + z * other.z`,
added from the left. -/
def Vector3.Dot (u other : Vector3 ℚ) : Option ℚ :=
  match F32.mul u.x other.x, F32.mul u.y other.y, F32.mul u.z other.z with
  | some xx, some yy, some zz =>
    match F32.add xx yy with
    | some s => F32.add s zz
    | none => none
  | _, _, _ => none

/-- The method `Vector3::Length`, with the library `sqrt` of `fm`. -/
def Vector3.Length (fm : FloatMath ℚ) (u : Vector3 ℚ) : Option ℚ :=
  match Vector3.Dot u u with
  | some s => some (fm.sqrt s)
  | none => none

/-- The body of `PointLight::ComputeIntensity`; `result` is accumulated in
`float`. -/
def pointIntensity (fm : FloatMath ℚ) (position P N : Vector3 ℚ) (specular : ℚ) : Option ℚ :=
  match Vector3.sub position P with
  | none => none
  | some L =>
    match Vector3.Dot N L with
    | none => none
    | some n_dot_l =>
      let diffuse : Option ℚ :=
        if n_dot_l > 0 then
          match Vector3.Length fm N, Vector3.Length fm L with
          | some lenN, some lenL =>
            match mul lenN lenL with
            | some den =>
              match div n_dot_l den with
              | some term => add 0 term
              | none => none
            | none => none
          | _, _ => none
        else some 0
      match diffuse with
      | none => none
      | some result =>
        if specular ≠ 0 then
          match Vector3.smul N 2 with
          | none => none
          | some N2 =>
            match Vector3.smul N2 n_dot_l with
            | none => none
            | some N2d =>
              match Vector3.sub N2d L, Vector3.smul P (-1) with
              | some R, some V =>
                match Vector3.Dot R V with
                | none => none
                | some r_dot_v =>
                  if r_dot_v > 0 then
                    match Vector3.Length fm R, Vector3.Length fm P with
                    | some lenR, some lenP =>
                      match mul lenR lenP with
                      | some den =>
                        match div r_dot_v den with
                        | some base => add result (fm.pow base specular)
                        | none => none
                      | none => none
                    | _, _ => none
                  else some result
              | _, _ => none
        else some result

/-- The virtual method `ComputeIntensity`: `AmbientLight` returns `1.0`,
`DirectionalLight` executes `return 0.0`. -/
def ComputeIntensity (fm : FloatMath ℚ) (light : Light ℚ) (P N : Vector3 ℚ) (specular : ℚ) :
    Option ℚ :=
  match light with
  | Light.AmbientLight _ => some 1
  | Light.PointLight _ position => pointIntensity fm position P N specular
  | Light.DirectionalLight _ _ => some 0

/-- The method `ComputeLighting`: `totalIntensity += intensityCoef * light->intensity`
for every light, from `0.0`. -/
def ComputeLighting (fm : FloatMath ℚ) (p n : Vector3 ℚ) (lights : List (Light ℚ))
    (specular : ℚ) : Option ℚ :=
  lights.foldl
    (fun totalIntensity light =>
      match totalIntensity, ComputeIntensity fm light p n specular with
      | some total, some intensityCoef =>
        match mul intensityCoef light.intensity with
        | some term => add total term
        | none => none
      | _, _ => none) (some 0)

/-- The value `h.Dot(n)` computed by `IsBackFacing`; the factor is the `float`
quotient `1.0f / 3.0f`. -/
def IsBackFacing.hDotN (triangle : Triangle) : Option ℚ :=
  match Vector3.sub triangle.p1 triangle.p0, Vector3.sub triangle.p2 triangle.p0,
      Vector3.add triangle.p0 triangle.p1, div 1 3 with
  | some v, some w, some s01, some third =>
    match Vector3.Cross v w, Vector3.add s01 triangle.p2 with
    | some n, some s012 =>
      match Vector3.smul s012 third with
      | some h => Vector3.Dot h n
      | none => none
    | _, _ => none
  | _, _, _, _ => none

/-- The method `IsBackFacing`: `return h.Dot(n) < 0.0f`. -/
def IsBackFacing (triangle : Triangle) : Option Bool :=
  match IsBackFacing.hDotN triangle with
  | some v => some (decide (v < 0))
  | none => none

/-- One coordinate of `ToCanvasCoordinates`:
`static_cast<int>(x / viewSize * static_cast<float>(canvasSize))`. -/
def ToCanvasCoordinate (viewSize : ℚ) (canvasSize : Int) (x : ℚ) : Option Int :=
  match div x viewSize, ofInt canvasSize with
  | some quotient, some size =>
    match mul quotient size with
    | some v => toInt v
    | none => none
  | _, _ => none

/-- The method `ToCanvasCoordinates`. -/
def ToCanvasCoordinates (config : Config) (canvasSize : Int × Int) (x y : ℚ) :
    Option CanvasPoint :=
  match ToCanvasCoordinate config.viewSize0 canvasSize.1 x,
      ToCanvasCoordinate config.viewSize1 canvasSize.2 y with
  | some cx, some cy => some { x := cx, y := cy }
  | _, _ => none

/-- The method `PerspectiveProject`: the arguments are
`point.x * d / point.z` and `point.y * d / point.z`. -/
def PerspectiveProject (config : Config) (canvasSize : Int × Int) (point : Vector3 ℚ) :
    Option CanvasPoint :=
  match mul point.x config.d, mul point.y config.d with
  | some xd, some yd =>
    match div xd point.z, div yd point.z with
    | some x, some y => ToCanvasCoordinates config canvasSize x y
    | _, _ => none
  | _, _ => none

/-- The method `IsometricProject`. -/
def IsometricProject (config : Config) (canvasSize : Int × Int) (point : Vector3 ℚ) :
    Option CanvasPoint :=
  ToCanvasCoordinates config canvasSize point.x point.y

/-- The method `ProjectPoint`. -/
def ProjectPoint (config : Config) (canvasSize : Int × Int) (point : Vector3 ℚ) :
    Option CanvasPoint :=
  if config.projection = ProjectionType.ISOMETRIC then IsometricProject config canvasSize point
  else PerspectiveProject config canvasSize point

/-- The loop of `Interpolate`: `n` iterations from index `t`, each storing the
accumulator at `values[t - i0]` and executing `d += a`.  The accumulator and the
step are `none` when not finite; only a stored accumulator has to be finite. -/
def Interpolate.fill (a : Option ℚ) (i0 : Int) : Nat → Int → Option ℚ → List ℚ → Option (List ℚ)
  | 0, _, _, values => some values
  | _ + 1, _, none, _ => none
  | n + 1, t, some d, values =>
    Interpolate.fill a i0 n (t + 1)
      (match a with
        | some step => add d step
        | none => none)
      (values.set (t - i0).toNat d)

/-- The method `Interpolate(i0, d0, i1, d1, values)`, returning the output
vector; the step is `(d1 - d0) / static_cast<float>(i1 - i0)`. -/
def Interpolate (i0 : Int) (d0 : ℚ) (i1 : Int) (d1 : ℚ) (values : List ℚ) : Option (List ℚ) :=
  if i0 = i1 then some (values ++ [d0])
  else if i1 - i0 + 1 < 0 then none
  else
    let values := resize values (i1 - i0 + 1).toNat
    let a :=
      match sub d1 d0, ofInt (i1 - i0) with
      | some delta, some n => div delta n
      | _, _ => none
    Interpolate.fill a i0 (i1 - i0 + 1).toNat i0 (some d0) values

/-- The method `CutLine`.  When `delta.z = 0` the quotient `t` is an infinity
or a NaN, the test `0 <= t && t <= 1` is false, and the line is returned
unchanged; `point` is needed only when the test holds. -/
def CutLine (config : Config) (line : Line) : Option Line :=
  match Vector3.sub line.end_ line.begin_ with
  | none => none
  | some delta =>
    if delta.z = 0 then some line
    else
      match sub config.d line.begin_.z with
      | none => none
      | some num =>
        match div num delta.z with
        | none => none
        | some t =>
          if 0 ≤ t ∧ t ≤ 1 then
            match Vector3.smul delta t with
            | none => none
            | some step =>
              match Vector3.add line.begin_ step with
              | none => none
              | some point =>
                if delta.z > 0 then some { begin_ := point, end_ := line.end_ }
                else some { begin_ := line.begin_, end_ := point }
          else some line

/-- The clipping step of `DrawLine` (lines 318-320). -/
def DrawLine.clip (config : Config) (line : Line) : Option Line :=
  if Renderer.IsOutOfVisibleRange config line.begin_ ||
      Renderer.IsOutOfVisibleRange config line.end_ then
    CutLine config line
  else some line

/-- The rasterizing part of `DrawLine` (lines 325-366) on the projected
endpoints `a`, `b`: the integer coordinate of an endpoint is converted to
`float` for `Interpolate`, and the interpolated coordinate back to `int`. -/
def DrawLine.raster {V : Type} (I : IViewport V) (viewport : ViewportWithZBuffer V)
    (a b : Renderer.DepthPoint) (color : Color) : Option (ViewportWithZBuffer V) :=
  if a.1 = b.1 then viewport.PutPixel I a.1 a.2 color
  else if (a.1.x - b.1.x).natAbs > (a.1.y - b.1.y).natAbs then
    let ab := Renderer.DrawLine.orderX a b
    match ofInt ab.1.1.y, ofInt ab.2.1.y with
    | some ya, some yb =>
      match Interpolate ab.1.1.x ya ab.2.1.x yb [],
          Interpolate ab.1.1.x ab.1.2 ab.2.1.x ab.2.2 [] with
      | some ys, some zs =>
        forLoop (fun i vp =>
          match ys[i.toNat]?, zs[i.toNat]? with
          | some y, some z =>
            match toInt y with
            | some row => vp.PutPixel I { x := ab.1.1.x + i, y := row } z color
            | none => none
          | _, _ => none) (ab.2.1.x - ab.1.1.x + 1).toNat 0 viewport
      | _, _ => none
    | _, _ => none
  else
    let ab := Renderer.DrawLine.orderY a b
    match ofInt ab.1.1.x, ofInt ab.2.1.x with
    | some xa, some xb =>
      match Interpolate ab.1.1.y xa ab.2.1.y xb [],
          Interpolate ab.1.1.y ab.1.2 ab.2.1.y ab.2.2 [] with
      | some xs, some zs =>
        forLoop (fun i vp =>
          match xs[i.toNat]?, zs[i.toNat]? with
          | some x, some z =>
            match toInt x with
            | some column => vp.PutPixel I { x := column, y := ab.1.1.y + i } z color
            | none => none
          | _, _ => none) (ab.2.1.y - ab.1.1.y + 1).toNat 0 viewport
      | _, _ => none
    | _, _ => none

/-- The method `DrawLine`. -/
def DrawLine {V : Type} (I : IViewport V) (config : Config) (viewport : ViewportWithZBuffer V)
    (line : Line) (color : Color) : Option (ViewportWithZBuffer V) :=
  let canvasSize := (viewport.Width, viewport.Height)
  if Renderer.IsOutOfVisibleRange config line.begin_ &&
      Renderer.IsOutOfVisibleRange config line.end_ then
    some viewport
  else
    match DrawLine.clip config line with
    | none => none
    | some _line =>
      match ProjectPoint config canvasSize _line.begin_,
          ProjectPoint config canvasSize _line.end_ with
      | some pa, some pb =>
        DrawLine.raster I viewport (pa, _line.begin_.z) (pb, _line.end_.z) color
      | _, _ => none

/-- The method `DrawBorderedTriangle`. -/
def DrawBorderedTriangle {V : Type} (I : IViewport V) (config : Config)
    (viewport : ViewportWithZBuffer V) (triangle : Triangle) : Option (ViewportWithZBuffer V) :=
  match DrawLine I config viewport { begin_ := triangle.p0, end_ := triangle.p1 } triangle.color with
  | none => none
  | some v1 =>
    match DrawLine I config v1 { begin_ := triangle.p1, end_ := triangle.p2 } triangle.color with
    | none => none
    | some v2 => DrawLine I config v2 { begin_ := triangle.p2, end_ := triangle.p0 } triangle.color

/-- The three entries of `points[3]` after the sort (lines 400-417). -/
def sortedVertices (fm : FloatMath ℚ) (config : Config) (canvasSize : Int × Int)
    (triangle : Triangle) (lights : List (Light ℚ)) :
    Option (Renderer.Vertex × Renderer.Vertex × Renderer.Vertex) :=
  match ProjectPoint config canvasSize triangle.p0,
      ComputeLighting fm triangle.p0 triangle.n0 lights triangle.specular,
      ProjectPoint config canvasSize triangle.p1,
      ComputeLighting fm triangle.p1 triangle.n1 lights triangle.specular,
      ProjectPoint config canvasSize triangle.p2,
      ComputeLighting fm triangle.p2 triangle.n2 lights triangle.specular with
  | some q0, some l0, some q1, some l1, some q2, some l2 =>
    some (Renderer.sortByY { p := q0, z := triangle.p0.z, l := l0 }
      { p := q1, z := triangle.p1.z, l := l1 } { p := q2, z := triangle.p2.z, l := l2 })
  | _, _, _, _, _, _ => none

/-- The block repeated three times in `DrawFilledTriangleImpl` (lines 423-442):
the long-edge array and the short-edge array (`pop_back`, then append). -/
def edgeArrays (y0 : Int) (d0 : ℚ) (y1 : Int) (d1 : ℚ) (y2 : Int) (d2 : ℚ) :
    Option (List ℚ × List ℚ) :=
  match Interpolate y0 d0 y2 d2 [], Interpolate y0 d0 y1 d1 [], Interpolate y1 d1 y2 d2 [] with
  | some d02, some d012, some d12 =>
    match pop_back d012 with
    | some d012 => some (d02, d012 ++ d12)
    | none => none
  | _, _, _ => none

/-- One channel of the colour written at a pixel (lines 460-465):
`(unsigned char) min(255.0f, channel * l)` with the `float` product. -/
def shadeChannel (channel : Nat) (l : ℚ) : Option Nat :=
  match mul (channel : ℚ) l with
  | some v => toUChar (min 255 v)
  | none => none

/-- The colour written at one pixel (lines 460-465); alpha unchanged. -/
def shade (color : Color) (l : ℚ) : Option Color :=
  match shadeChannel color.r l, shadeChannel color.g l, shadeChannel color.b l with
  | some r, some g, some b => some { r := r, g := g, b := b, a := color.a }
  | _, _, _ => none

/-- The span of a scanline after the conditional swap (lines 445-453); `x1`
and `x2` are the array entries converted to `int`. -/
def scanlineEnds (xa xb la lb za zb : ℚ) : Option (Int × Int × ℚ × ℚ × ℚ × ℚ) :=
  match toInt xa, toInt xb with
  | some x1, some x2 =>
    if x2 < x1 then some (x2, x1, lb, la, zb, za) else some (x1, x2, la, lb, za, zb)
  | _, _ => none

/-- The body of the scanline loop (lines 445-472) for row index `i`. -/
def scanline {V : Type} (I : IViewport V) (color : Color) (y0 : Int)
    (x02 x012 z02 z012 l02 l012 : List ℚ) (i : Int) (viewport : ViewportWithZBuffer V) :
    Option (ViewportWithZBuffer V) :=
  match x02[i.toNat]?, x012[i.toNat]?, l02[i.toNat]?, l012[i.toNat]?, z02[i.toNat]?,
      z012[i.toNat]? with
  | some xa, some xb, some la, some lb, some za, some zb =>
    match scanlineEnds xa xb la lb za zb with
    | none => none
    | some e =>
      match Interpolate e.1 e.2.2.2.2.1 e.2.1 e.2.2.2.2.2 [],
          Interpolate e.1 e.2.2.1 e.2.1 e.2.2.2.1 [] with
      | some zs, some ls =>
        forLoop (fun j vp =>
          match ls[j.toNat]?, zs[j.toNat]? with
          | some l, some z =>
            match shade color l with
            | some c => vp.PutPixel I { x := e.1 + j, y := y0 + i } z c
            | none => none
          | _, _ => none) (e.2.1 - e.1 + 1).toNat 0 viewport
      | _, _ => none
  | _, _, _, _, _, _ => none

/-- The reciprocal `1 / z` of a depth, a `float` quotient. -/
def recip (z : ℚ) : Option ℚ := div 1 z

/-- The method `DrawFilledTriangleImpl`. -/
def DrawFilledTriangleImpl {V : Type} (I : IViewport V) (fm : FloatMath ℚ) (config : Config)
    (viewport : ViewportWithZBuffer V) (triangle : Triangle) (lights : List (Light ℚ)) :
    Option (ViewportWithZBuffer V) :=
  match IsBackFacing triangle with
  | none => none
  | some true => some viewport
  | some false =>
    match sortedVertices fm config (viewport.Width, viewport.Height) triangle lights with
    | none => none
    | some (v0, v1, v2) =>
      match ofInt v0.p.x, ofInt v1.p.x, ofInt v2.p.x, recip v0.z, recip v1.z, recip v2.z with
      | some x0, some x1, some x2, some r0, some r1, some r2 =>
        match edgeArrays v0.p.y x0 v1.p.y x1 v2.p.y x2, edgeArrays v0.p.y r0 v1.p.y r1 v2.p.y r2,
            edgeArrays v0.p.y v0.l v1.p.y v1.l v2.p.y v2.l with
        | some (x02, x012), some (z02, z012), some (l02, l012) =>
          forLoop (scanline I triangle.color v0.p.y x02 x012 z02 z012 l02 l012)
            (v2.p.y - v0.p.y + 1).toNat 0 viewport
        | _, _, _ => none
      | _, _, _, _, _, _ => none

/-- The triangles `DrawFilledTriangle` passes to `DrawFilledTriangleImpl`, in
call order, following its chain of `if` / `else if` (lines 482-600). -/
def DrawFilledTriangle.calls (config : Config) (triangle : Triangle) : Option (List Triangle) :=
  let a := triangle.p0
  let b := triangle.p1
  let c := triangle.p2
  if Renderer.IsOutOfVisibleRange config a && Renderer.IsOutOfVisibleRange config b then
    match CutLine config { begin_ := a, end_ := c }, CutLine config { begin_ := b, end_ := c } with
    | some ac, some bc => some [Renderer.clipped triangle ac.begin_ bc.begin_ c]
    | _, _ => none
  else if Renderer.IsOutOfVisibleRange config a && Renderer.IsOutOfVisibleRange config c then
    match CutLine config { begin_ := a, end_ := b }, CutLine config { begin_ := b, end_ := c } with
    | some ab, some bc => some [Renderer.clipped triangle ab.begin_ b bc.end_]
    | _, _ => none
  else if Renderer.IsOutOfVisibleRange config b && Renderer.IsOutOfVisibleRange config c then
    match CutLine config { begin_ := a, end_ := b }, CutLine config { begin_ := a, end_ := c } with
    | some ab, some ac => some [Renderer.clipped triangle a ab.end_ ac.end_]
    | _, _ => none
  else if Renderer.IsOutOfVisibleRange config a then
    match CutLine config { begin_ := a, end_ := b }, CutLine config { begin_ := a, end_ := c } with
    | some ab, some ac =>
      some [Renderer.clipped triangle ab.begin_ b c, Renderer.clipped triangle ac.begin_ b c]
    | _, _ => none
  else if Renderer.IsOutOfVisibleRange config b then
    match CutLine config { begin_ := a, end_ := b }, CutLine config { begin_ := b, end_ := c } with
    | some ab, some bc =>
      some [Renderer.clipped triangle a ab.end_ c, Renderer.clipped triangle a bc.begin_ c]
    | _, _ => none
  else if Renderer.IsOutOfVisibleRange config c then
    match CutLine config { begin_ := a, end_ := c }, CutLine config { begin_ := b, end_ := c } with
    | some ac, some bc =>
      some [Renderer.clipped triangle a b ac.end_, Renderer.clipped triangle a b bc.end_]
    | _, _ => none
  else some [triangle]

/-- Consecutive calls of `DrawFilledTriangleImpl` on a list of triangles. -/
def drawFilledAll {V : Type} (I : IViewport V) (fm : FloatMath ℚ) (config : Config)
    (lights : List (Light ℚ)) : ViewportWithZBuffer V → List Triangle →
    Option (ViewportWithZBuffer V)
  | viewport, [] => some viewport
  | viewport, t :: ts =>
    match DrawFilledTriangleImpl I fm config viewport t lights with
    | none => none
    | some v1 => drawFilledAll I fm config lights v1 ts

/-- The method `DrawFilledTriangle`. -/
def DrawFilledTriangle {V : Type} (I : IViewport V) (fm : FloatMath ℚ) (config : Config)
    (viewport : ViewportWithZBuffer V) (triangle : Triangle) (lights : List (Light ℚ)) :
    Option (ViewportWithZBuffer V) :=
  match DrawFilledTriangle.calls config triangle with
  | none => none
  | some ts => drawFilledAll I fm config lights viewport ts

/-- The loop of `Render` over the triangle list. -/
def renderLoop {V : Type} (I : IViewport V) (fm : FloatMath ℚ) (config : Config)
    (lights : List (Light ℚ)) : ViewportWithZBuffer V → List Triangle →
    Option (ViewportWithZBuffer V)
  | viewport, [] => some viewport
  | viewport, triangle :: rest =>
    match (if config.mode = RenderMode.WIREFRAME then
        DrawBorderedTriangle I config viewport triangle
      else DrawFilledTriangle I fm config viewport triangle lights) with
    | none => none
    | some v1 => renderLoop I fm config lights v1 rest

/-- The method `Render`. -/
def Render {V : Type} (I : IViewport V) (fm : FloatMath ℚ) (config : Config) (viewport : V)
    (triangles : List Triangle) (lights : List (Light ℚ)) : Option V :=
  match ViewportWithZBuffer.new I viewport with
  | none => none
  | some extendedViewport =>
    match renderLoop I fm config lights extendedViewport triangles with
    | none => none
    | some v1 => some v1.viewport

end F32

/-! ## Concrete scenes used by the closed statements below -/

namespace Sample

/-- Stand-ins for `sqrt` and `pow`; no light of the sample scenes calls them. -/
def floatMath : FloatMath ℚ := { sqrt := fun x => x, pow := fun x _ => x }

/-- An all-zero canvas of `w` by `h` pixels. -/
def blank (w h : Nat) : Canvas :=
  { pixels := List.replicate (w * h) { r := 0, g := 0, b := 0, a := 0 }, width := w, height := h }

def red : Color := { r := 255, g := 0, b := 0, a := 255 }

def zero3 : Vector3 ℚ := { x := 0, y := 0, z := 0 }

/-- Perspective projection, `d = 1`, view extents `(2, 2)`, Fill mode. -/
def configFill : Config :=
  { d := 1, viewSize0 := 2, viewSize1 := 2, mode := RenderMode.FILL,
    projection := ProjectionType.PERSPECTIVE }

/-- Perspective projection, `d = 1`, view extents `(2, 2)`, Wireframe mode. -/
def configWireframe : Config :=
  { d := 1, viewSize0 := 2, viewSize1 := 2, mode := RenderMode.WIREFRAME,
    projection := ProjectionType.PERSPECTIVE }

/-- A triangle from its three points, red, zero normals, no specular. -/
def triangleOf (a b c : Vector3 ℚ) : Triangle :=
  { p0 := a, p1 := b, p2 := c, n0 := zero3, n1 := zero3, n2 := zero3, color := red,
    specular := 0 }

/-- The triangle `(-1,-1,0.5), (1,-1,0.5), (0,1,0.5)`: every vertex at `z <= d = 1`. -/
def triangleBehind : Triangle :=
  triangleOf { x := -1, y := -1, z := 1 / 2 } { x := 1, y := -1, z := 1 / 2 }
    { x := 0, y := 1, z := 1 / 2 }

/-- A back-facing triangle `(0,1,0.5), (1,0,1), (0,0,1)` with every vertex at
`z <= d = 1` and the third one on the near plane. -/
def triangleBackOnPlane : Triangle :=
  triangleOf { x := 0, y := 1, z := 1 / 2 } { x := 1, y := 0, z := 1 }
    { x := 0, y := 0, z := 1 }

/-- A back-facing triangle `(-1,-1,2), (0,1,2), (1,-1,2)` in front of the near
plane. -/
def triangleBack : Triangle :=
  triangleOf { x := -1, y := -1, z := 2 } { x := 0, y := 1, z := 2 }
    { x := 1, y := -1, z := 2 }

/-- A triangle in the plane `z = 0`, which contains the origin. -/
def triangleThroughOrigin : Triangle :=
  triangleOf { x := 1, y := 0, z := 0 } { x := 0, y := 1, z := 0 } { x := 0, y := 0, z := 0 }

/-- A triangle `(-1,-1,0.5), (1,-1,3), (0,1,3)` with its first vertex behind the
near plane `d = 1`, normals `(0,0,-1)` and specular exponent 10. -/
def triangleShiny : Triangle :=
  { p0 := { x := -1, y := -1, z := 1 / 2 }, p1 := { x := 1, y := -1, z := 3 },
    p2 := { x := 0, y := 1, z := 3 },
    n0 := { x := 0, y := 0, z := -1 }, n1 := { x := 0, y := 0, z := -1 },
    n2 := { x := 0, y := 0, z := -1 }, color := red, specular := 10 }

def blue : Color := { r := 0, g := 0, b := 255, a := 255 }

/-- The front-facing red triangle `(-1,-1,2), (1,-1,2), (0,1,2)`. -/
def triangleNear : Triangle :=
  triangleOf { x := -1, y := -1, z := 2 } { x := 1, y := -1, z := 2 } { x := 0, y := 1, z := 2 }

/-- The front-facing blue triangle `(-2,-2,4), (2,-2,4), (0,2,4)`, which
projects onto the same pixels as `triangleNear`. -/
def triangleFar : Triangle :=
  { p0 := { x := -2, y := -2, z := 4 }, p1 := { x := 2, y := -2, z := 4 },
    p2 := { x := 0, y := 2, z := 4 }, n0 := zero3, n1 := zero3, n2 := zero3, color := blue,
    specular := 0 }

/-- The triangle `(-1,-1,2), (1,-1,2), (0,1,2)` with base colour
`(100, 200, 50, 255)`. -/
def triangleOlive : Triangle :=
  { p0 := { x := -1, y := -1, z := 2 }, p1 := { x := 1, y := -1, z := 2 },
    p2 := { x := 0, y := 1, z := 2 }, n0 := zero3, n1 := zero3, n2 := zero3,
    color := { r := 100, g := 200, b := 50, a := 255 }, specular := 0 }

/-- The zero-initialised 2 by 2 sink around `blank 2 2`, as the constructor
builds it. -/
def sink : ViewportWithZBuffer Canvas :=
  { zbuffer := [[0, 0], [0, 0]], viewport := blank 2 2, center := { x := -1, y := -1 },
    size := { x := 2, y := 2 } }

/-- The binary32 value nearest to `0.7`. -/
def float07 : ℚ := 11744051 / 16777216

/-- The binary32 value that follows `3.875`. -/
def float3875next : ℚ := 31 / 8 + 1 / 4194304

/-- Isometric projection with view extents `(1, 1)`, `d = 1`, Fill mode. -/
def configUnit : Config :=
  { d := 1, viewSize0 := 1, viewSize1 := 1, mode := RenderMode.FILL,
    projection := ProjectionType.ISOMETRIC }

/-- Isometric projection with view extents `(8, 8)`, `d = 1`, Fill mode: on a
canvas of 8 by 8 pixels a point `(x, y, z)` with integer `x`, `y` projects to
`(x, y)`. -/
def configPixel : Config :=
  { d := 1, viewSize0 := 8, viewSize1 := 8, mode := RenderMode.FILL,
    projection := ProjectionType.ISOMETRIC }

/-- The front-facing triangle `(-4,-4,z), (4,-4,z), (0,4,z)` of constant depth
`z` and colour `color`. -/
def triangleAt (z : ℚ) (color : Color) : Triangle :=
  { p0 := { x := -4, y := -4, z := z }, p1 := { x := 4, y := -4, z := z },
    p2 := { x := 0, y := 4, z := z }, n0 := zero3, n1 := zero3, n2 := zero3, color := color,
    specular := 0 }

/-- The triangle `(-1,-1,2), (1,-1,2), (0,1,2)` with base colour
`(10, 20, 30, 255)`. -/
def triangleDim : Triangle :=
  { p0 := { x := -1, y := -1, z := 2 }, p1 := { x := 1, y := -1, z := 2 },
    p2 := { x := 0, y := 1, z := 2 }, n0 := zero3, n1 := zero3, n2 := zero3,
    color := { r := 10, g := 20, b := 30, a := 255 }, specular := 0 }

/-- The front-facing red triangle `(-3,-2,2), (-1,-2,2), (-1,1,2)`. -/
def triangleSlanted : Triangle :=
  triangleOf { x := -3, y := -2, z := 2 } { x := -1, y := -2, z := 2 } { x := -1, y := 1, z := 2 }

/-- The zero-initialised 8 by 8 sink around `blank 8 8`, as the constructor
builds it. -/
def sink8 : ViewportWithZBuffer Canvas :=
  { zbuffer := List.replicate 8 (List.replicate 8 0), viewport := blank 8 8,
    center := { x := -4, y := -4 }, size := { x := 8, y := 8 } }

/-- The zero-initialised 4 by 4 sink around `blank 4 4`, as the constructor
builds it. -/
def sink4 : ViewportWithZBuffer Canvas :=
  { zbuffer := List.replicate 4 (List.replicate 4 0), viewport := blank 4 4,
    center := { x := -2, y := -2 }, size := { x := 4, y := 4 } }

end Sample

end Engine

namespace Engine
namespace ViewportWithZBuffer
variable {V : Type}

/-- On a well-formed sink the translated column is `p.x + W / 2`. -/
theorem center_x_of_wellFormed {s : ViewportWithZBuffer V} (h : s.WellFormed) (p : CanvasPoint) :
    p.x - s.center.x = p.x + Int.tdiv s.size.x 2 := by
  obtain ⟨_, _, _, _, hc⟩ := h
  rw [hc]
  simp only [Int.neg_tdiv]
  omega

/-- On a well-formed sink the translated row is `p.y + H / 2`. -/
theorem center_y_of_wellFormed {s : ViewportWithZBuffer V} (h : s.WellFormed) (p : CanvasPoint) :
    p.y - s.center.y = p.y + Int.tdiv s.size.y 2 := by
  obtain ⟨_, _, _, _, hc⟩ := h
  rw [hc]
  simp only [Int.neg_tdiv]
  omega

/-- Inside the range, the row and the cell of a well-formed sink exist. -/
theorem lookup_of_wellFormed {s : ViewportWithZBuffer V} (h : s.WellFormed) {y x : Int}
    (hy0 : 0 ≤ y) (hy1 : y < s.size.y) (hx0 : 0 ≤ x) (hx1 : x < s.size.x) :
    ∃ row, s.zbuffer[y.toNat]? = some row ∧ row.length = s.size.x.toNat ∧
      row[x.toNat]? = some (s.depthAt y x) := by
  obtain ⟨_, _, hlen, hrows, _⟩ := h
  have hy : y.toNat < s.zbuffer.length := by omega
  refine ⟨s.zbuffer[y.toNat], List.getElem?_eq_getElem hy, ?_, ?_⟩
  · exact hrows _ (List.getElem_mem hy)
  · have hr : (s.zbuffer[y.toNat]).length = s.size.x.toNat := hrows _ (List.getElem_mem hy)
    have hx : x.toNat < (s.zbuffer[y.toNat]).length := by omega
    simp [depthAt, List.getD, List.getElem?_eq_getElem hy, List.getElem?_eq_getElem hx]


/-- Reading the depth array after one cell was stored. -/
theorem depthAt_set (s : ViewportWithZBuffer V) (i j : Nat) (row : List ℚ)
    (hrow : s.zbuffer[i]? = some row) (hj : j < row.length) (z : ℚ) (y x : Int) :
    depthAt { s with zbuffer := s.zbuffer.set i (row.set j z) } y x =
      if y.toNat = i ∧ x.toNat = j then z else s.depthAt y x := by
  have hi : i < s.zbuffer.length := by
    by_contra hcon
    rw [List.getElem?_eq_none (by omega)] at hrow
    exact Option.noConfusion hrow
  unfold depthAt
  simp only [List.getD_eq_getElem?_getD, List.getElem?_set]
  by_cases hyi : y.toNat = i
  · subst hyi
    by_cases hxj : x.toNat = j
    · subst hxj
      simp [hi, hj]
    · have hxj2 : ¬ j = x.toNat := fun h => hxj h.symm
      simp [hi, hxj, hxj2, List.getElem?_set, hrow]
  · have hyi2 : ¬ i = y.toNat := fun h => hyi h.symm
    simp [hyi, hyi2]

/-- A point that fails the range check is rejected and nothing is touched. -/
theorem CanBeChanged_reject_range (s : ViewportWithZBuffer V) (p : CanvasPoint) (z : ℚ)
    (h : p.x - s.center.x < 0 ∨ p.y - s.center.y < 0 ∨ s.size.x ≤ p.x - s.center.x ∨
      s.size.y ≤ p.y - s.center.y) :
    s.CanBeChanged p z = some (false, s) := by
  unfold CanBeChanged
  simp only [h, if_true]

/-- Inside the range `CanBeChanged` is the strict depth test on the stored cell. -/
theorem CanBeChanged_in_range {s : ViewportWithZBuffer V} (hwf : s.WellFormed) (p : CanvasPoint)
    (z : ℚ) (hx0 : 0 ≤ p.x - s.center.x) (hx1 : p.x - s.center.x < s.size.x)
    (hy0 : 0 ≤ p.y - s.center.y) (hy1 : p.y - s.center.y < s.size.y) :
    ∃ row, s.zbuffer[(p.y - s.center.y).toNat]? = some row ∧
      (p.x - s.center.x).toNat < row.length ∧
      s.CanBeChanged p z =
        if z > s.depthAt (p.y - s.center.y) (p.x - s.center.x) then
          some (true, { s with
            zbuffer := (s.zbuffer.set (p.y - s.center.y).toNat
              (row.set (p.x - s.center.x).toNat z)) })
        else some (false, s) := by
  obtain ⟨row, hrow, hlen, hcell⟩ := lookup_of_wellFormed hwf hy0 hy1 hx0 hx1
  refine ⟨row, hrow, by omega, ?_⟩
  unfold CanBeChanged
  have hr : ¬ (p.x - s.center.x < 0 ∨ p.y - s.center.y < 0 ∨ s.size.x ≤ p.x - s.center.x ∨
      s.size.y ≤ p.y - s.center.y) := by omega
  simp only [hr, if_false, hrow, hcell]

/-- Storing a cell keeps the shape of the buffer. -/
theorem wellFormed_set {s : ViewportWithZBuffer V} (hwf : s.WellFormed) (i j : Nat)
    (row : List ℚ) (hrow : s.zbuffer[i]? = some row) (z : ℚ) :
    WellFormed { s with zbuffer := s.zbuffer.set i (row.set j z) } := by
  obtain ⟨h1, h2, hlen, hrows, hc⟩ := hwf
  refine ⟨h1, h2, by simpa using hlen, ?_, hc⟩
  intro r hr
  have hrowmem : row ∈ s.zbuffer := List.getElem?_mem hrow
  rcases List.mem_or_eq_of_mem_set hr with h | h
  · exact hrows r h
  · subst h
    simpa using hrows row hrowmem


/-- For non-negative dimensions the constructor returns a well-formed sink of
depth 0 everywhere. -/
theorem new_eq_some (I : IViewport V) (v : V) (hW : 0 ≤ I.Width v) (hH : 0 ≤ I.Height v) :
    ∃ s0, new I v = some s0 ∧ s0.WellFormed ∧ s0.viewport = v ∧
      s0.size = { x := I.Width v, y := I.Height v } ∧ ∀ y x, s0.depthAt y x = 0 := by
  have hn : ¬ (I.Width v < 0 ∨ I.Height v < 0) := by omega
  refine ⟨_, by unfold new; rw [if_neg hn], ?_, rfl, rfl, ?_⟩
  · refine ⟨hW, hH, by simp, ?_, rfl⟩
    intro row hrow
    rw [List.eq_of_mem_replicate hrow]
    simp
  · intro y x
    simp only [depthAt, List.getD_eq_getElem?_getD, List.getElem?_replicate]
    split
    · simp only [Option.getD_some, List.getElem?_replicate]
      split <;> rfl
    · rfl

/-- Every sink returned by the constructor is well-formed, of depth 0. -/
theorem new_fresh (I : IViewport V) (v : V) (s0 : ViewportWithZBuffer V)
    (h : new I v = some s0) :
    s0.WellFormed ∧ s0.viewport = v ∧ s0.size = { x := I.Width v, y := I.Height v } ∧
      ∀ y x, s0.depthAt y x = 0 := by
  unfold new at h
  split at h
  · exact Option.noConfusion h
  · rename_i hn
    obtain ⟨s1, h1, h2⟩ := new_eq_some I v (by omega) (by omega)
    unfold new at h1
    rw [if_neg hn] at h1
    rw [h] at h1
    cases h1
    exact h2

/-- C1: `PutPixel(p, z, color)` on a well-formed sink, with
`bx = p.x + W / 2`, `by = p.y + H / 2` (truncating division).  If
`0 ≤ bx < W`, `0 ≤ by < H` and `z > depth[by][bx]`, the call forwards `p` and
`color` to the wrapped viewport and stores `z` at `depth[by][bx]`, every other
cell keeping its value; otherwise it returns the sink unchanged (no forward, no
store).  A fresh sink has depth 0 everywhere and rejects a write with `z = 0`. -/
theorem PutPixel_forwards_iff (I : IViewport V) (s : ViewportWithZBuffer V)
    (hwf : s.WellFormed) (p : CanvasPoint) (z : ℚ) (color : Color) :
    ((0 ≤ p.x + Int.tdiv s.size.x 2 ∧ p.x + Int.tdiv s.size.x 2 < s.size.x ∧
        0 ≤ p.y + Int.tdiv s.size.y 2 ∧ p.y + Int.tdiv s.size.y 2 < s.size.y ∧
        z > s.depthAt (p.y + Int.tdiv s.size.y 2) (p.x + Int.tdiv s.size.x 2)) →
      ∃ s1 : ViewportWithZBuffer V,
        s.PutPixel I p z color =
          (I.PutPixel s.viewport p color).map (fun v => { s1 with viewport := v }) ∧
        s1.center = s.center ∧ s1.size = s.size ∧ s1.WellFormed ∧
        s1.depthAt (p.y + Int.tdiv s.size.y 2) (p.x + Int.tdiv s.size.x 2) = z ∧
        ∀ y x, 0 ≤ y → 0 ≤ x →
          ¬ (y = p.y + Int.tdiv s.size.y 2 ∧ x = p.x + Int.tdiv s.size.x 2) →
          s1.depthAt y x = s.depthAt y x) ∧
    (¬ (0 ≤ p.x + Int.tdiv s.size.x 2 ∧ p.x + Int.tdiv s.size.x 2 < s.size.x ∧
        0 ≤ p.y + Int.tdiv s.size.y 2 ∧ p.y + Int.tdiv s.size.y 2 < s.size.y ∧
        z > s.depthAt (p.y + Int.tdiv s.size.y 2) (p.x + Int.tdiv s.size.x 2)) →
      s.PutPixel I p z color = some s) ∧
    (∀ (v : V) (s0 : ViewportWithZBuffer V), new I v = some s0 →
      (∀ y x, s0.depthAt y x = 0) ∧ s0.PutPixel I p 0 color = some s0) := by
  have key : ∀ (t : ViewportWithZBuffer V), t.WellFormed → ∀ (q : CanvasPoint) (d : ℚ),
      ¬ (0 ≤ q.x + Int.tdiv t.size.x 2 ∧ q.x + Int.tdiv t.size.x 2 < t.size.x ∧
        0 ≤ q.y + Int.tdiv t.size.y 2 ∧ q.y + Int.tdiv t.size.y 2 < t.size.y ∧
        d > t.depthAt (q.y + Int.tdiv t.size.y 2) (q.x + Int.tdiv t.size.x 2)) →
      t.PutPixel I q d color = some t := by
    intro t twf q d hc
    have ex := center_x_of_wellFormed twf q
    have ey := center_y_of_wellFormed twf q
    by_cases hr : q.x - t.center.x < 0 ∨ q.y - t.center.y < 0 ∨ t.size.x ≤ q.x - t.center.x ∨
        t.size.y ≤ q.y - t.center.y
    · unfold PutPixel
      rw [CanBeChanged_reject_range t q d hr]
    · obtain ⟨row, _, _, hcb⟩ := CanBeChanged_in_range twf q d (by omega) (by omega)
        (by omega) (by omega)
      have hz : ¬ d > t.depthAt (q.y - t.center.y) (q.x - t.center.x) := by
        rw [ex, ey]
        intro hd
        exact hc ⟨by omega, by omega, by omega, by omega, hd⟩
      unfold PutPixel
      rw [hcb, if_neg hz]
  refine ⟨?_, key s hwf p z, ?_⟩
  · rintro ⟨hx0, hx1, hy0, hy1, hz⟩
    have ex := center_x_of_wellFormed hwf p
    have ey := center_y_of_wellFormed hwf p
    obtain ⟨row, hrow, hlen, hcb⟩ := CanBeChanged_in_range hwf p z (by omega) (by omega)
      (by omega) (by omega)
    simp only [ex, ey] at hcb hrow hlen
    rw [if_pos hz] at hcb
    refine ⟨{ s with
        zbuffer := (s.zbuffer.set (p.y + Int.tdiv s.size.y 2).toNat
          (row.set (p.x + Int.tdiv s.size.x 2).toNat z)) },
      ?_, rfl, rfl, wellFormed_set hwf _ _ row hrow z, ?_, ?_⟩
    · unfold PutPixel
      rw [hcb]
      dsimp only
      cases I.PutPixel s.viewport p color <;> rfl
    · rw [depthAt_set s _ _ row hrow hlen]
      simp
    · intro y x hy hx hne
      rw [depthAt_set s _ _ row hrow hlen]
      have : ¬ (y.toNat = (p.y + Int.tdiv s.size.y 2).toNat ∧
          x.toNat = (p.x + Int.tdiv s.size.x 2).toNat) := by
        intro ⟨h1, h2⟩
        exact hne ⟨by omega, by omega⟩
      rw [if_neg this]
  · intro v s0 h0
    obtain ⟨wf0, _, _, hd0⟩ := new_fresh I v s0 h0
    refine ⟨hd0, key s0 wf0 p 0 ?_⟩
    rintro ⟨_, _, _, _, hz⟩
    rw [hd0] at hz
    exact lt_irrefl _ hz


/-- One `PutPixel` call on a well-formed sink over a safe viewport: it
returns, keeps the shape, and replaces the target cell by the maximum of its
value and `z`. -/
theorem PutPixel_step (I : IViewport V) (Inv : V → Prop) (hI : I.Safe Inv)
    {s : ViewportWithZBuffer V} (hwf : s.WellFormed) (hinv : Inv s.viewport)
    (p : CanvasPoint) (z : ℚ) (color : Color) :
    ∃ s1 b, s.CanBeChanged p z = some (b, { s1 with viewport := s.viewport }) ∧
      s.PutPixel I p z color = some s1 ∧ s1.WellFormed ∧ Inv s1.viewport ∧
      s1.center = s.center ∧ s1.size = s.size ∧
      ∀ y x, 0 ≤ y → y < s.size.y → 0 ≤ x → x < s.size.x →
        (b = true ∧ p.x - s.center.x = x ∧ p.y - s.center.y = y ↔
          p.x - s.center.x = x ∧ p.y - s.center.y = y ∧ s.depthAt y x < z) ∧
        s1.depthAt y x =
          if p.x - s.center.x = x ∧ p.y - s.center.y = y then max (s.depthAt y x) z
          else s.depthAt y x := by
  by_cases hr : p.x - s.center.x < 0 ∨ p.y - s.center.y < 0 ∨ s.size.x ≤ p.x - s.center.x ∨
      s.size.y ≤ p.y - s.center.y
  · refine ⟨s, false, CanBeChanged_reject_range s p z hr, ?_, hwf, hinv, rfl, rfl, ?_⟩
    · unfold PutPixel
      rw [CanBeChanged_reject_range s p z hr]
    · intro y x hy0 hy1 hx0 hx1
      have hne : ¬ (p.x - s.center.x = x ∧ p.y - s.center.y = y) := by omega
      refine ⟨?_, by rw [if_neg hne]⟩
      constructor
      · rintro ⟨h, _⟩
        exact absurd h (by decide)
      · rintro ⟨h1, h2, _⟩
        exact absurd ⟨h1, h2⟩ hne
  · obtain ⟨row, hrow, hlen, hcb⟩ := CanBeChanged_in_range hwf p z (by omega) (by omega)
      (by omega) (by omega)
    by_cases hz : z > s.depthAt (p.y - s.center.y) (p.x - s.center.x)
    · rw [if_pos hz] at hcb
      obtain ⟨v1, hv1, hinv1⟩ := hI s.viewport p color hinv
      refine ⟨{ s with
          zbuffer := (s.zbuffer.set (p.y - s.center.y).toNat
            (row.set (p.x - s.center.x).toNat z))
          viewport := v1 }, true, hcb, ?_, wellFormed_set hwf _ _ row hrow z, hinv1, rfl, rfl, ?_⟩
      · unfold PutPixel
        rw [hcb]
        dsimp only
        rw [hv1]
      · intro y x hy0 hy1 hx0 hx1
        have hd := depthAt_set s _ _ row hrow hlen z y x
        have hd2 : depthAt { s with
            zbuffer := (s.zbuffer.set (p.y - s.center.y).toNat
              (row.set (p.x - s.center.x).toNat z))
            viewport := v1 } y x = depthAt { s with
            zbuffer := (s.zbuffer.set (p.y - s.center.y).toNat
              (row.set (p.x - s.center.x).toNat z)) } y x := rfl
        rw [hd2, hd]
        by_cases hc : p.x - s.center.x = x ∧ p.y - s.center.y = y
        · obtain ⟨hcx, hcy⟩ := hc
          subst hcx hcy
          simp only [and_self, if_true, true_and]
          exact ⟨iff_of_true trivial hz, (max_eq_right (le_of_lt hz)).symm⟩
        · have hc2 : ¬ (y.toNat = (p.y - s.center.y).toNat ∧
              x.toNat = (p.x - s.center.x).toNat) := by
            intro ⟨h1, h2⟩
            exact hc ⟨by omega, by omega⟩
          rw [if_neg hc2, if_neg hc]
          refine ⟨?_, rfl⟩
          constructor
          · rintro ⟨_, h1, h2⟩
            exact absurd ⟨h1, h2⟩ hc
          · rintro ⟨h1, h2, _⟩
            exact absurd ⟨h1, h2⟩ hc
    · rw [if_neg hz] at hcb
      refine ⟨s, false, hcb, ?_, hwf, hinv, rfl, rfl, ?_⟩
      · unfold PutPixel
        rw [hcb]
      · intro y x hy0 hy1 hx0 hx1
        by_cases hc : p.x - s.center.x = x ∧ p.y - s.center.y = y
        · obtain ⟨hcx, hcy⟩ := hc
          subst hcx hcy
          simp only [and_self, if_true, and_true, true_and]
          refine ⟨?_, (max_eq_left (not_lt.mp hz)).symm⟩
          constructor
          · intro h
            exact absurd h (by decide)
          · intro h
            exact absurd h hz
        · rw [if_neg hc]
          refine ⟨?_, rfl⟩
          constructor
          · rintro ⟨_, h1, h2⟩
            exact absurd ⟨h1, h2⟩ hc
          · rintro ⟨h1, h2, _⟩
            exact absurd ⟨h1, h2⟩ hc


/-- The depth array after a sequence of calls, from any well-formed sink. -/
theorem putAll_depth (I : IViewport V) (Inv : V → Prop) (hI : I.Safe Inv) :
    ∀ (ws : List Write) (s : ViewportWithZBuffer V), s.WellFormed → Inv s.viewport →
    ∃ s1, putAll I s ws = some s1 ∧ s1.WellFormed ∧ Inv s1.viewport ∧
      s1.center = s.center ∧ s1.size = s.size ∧
      ∀ y x, 0 ≤ y → y < s.size.y → 0 ≤ x → x < s.size.x →
        s1.depthAt y x = (passingAt I y x s ws).foldl max (s.depthAt y x) ∧
        s1.depthAt y x = (attemptedAt s.center y x ws).foldl max (s.depthAt y x) ∧
        s.depthAt y x ≤ s1.depthAt y x ∧
        ∀ z ∈ passingAt I y x s ws, s.depthAt y x < z := by
  intro ws
  induction ws with
  | nil =>
    intro s hwf hinv
    refine ⟨s, rfl, hwf, hinv, rfl, rfl, ?_⟩
    intro y x _ _ _ _
    refine ⟨rfl, rfl, le_refl _, ?_⟩
    intro z hz
    simp [passingAt] at hz
  | cons w ws ih =>
    intro s hwf hinv
    obtain ⟨s1, b, hcb, hpp, hwf1, hinv1, hc1, hs1, hstep⟩ :=
      PutPixel_step I Inv hI hwf hinv w.point w.z w.color
    obtain ⟨s2, hall, hwf2, hinv2, hc2, hs2, hrest⟩ := ih s1 hwf1 hinv1
    refine ⟨s2, ?_, hwf2, hinv2, hc2.trans hc1, hs2.trans hs1, ?_⟩
    · simp only [putAll, hpp]
      exact hall
    · intro y x hy0 hy1 hx0 hx1
      obtain ⟨hflag, hd1⟩ := hstep y x hy0 hy1 hx0 hx1
      obtain ⟨hp2, ha2, hm2, hz2⟩ := hrest y x hy0 (by rw [hs1]; exact hy1) hx0
        (by rw [hs1]; exact hx1)
      have hmono : s.depthAt y x ≤ s1.depthAt y x := by
        rw [hd1]
        split
        · exact le_max_left _ _
        · exact le_refl _
      have hpass : passingAt I y x s (w :: ws) =
          if w.point.x - s.center.x = x ∧ w.point.y - s.center.y = y ∧ s.depthAt y x < w.z
          then w.z :: passingAt I y x s1 ws else passingAt I y x s1 ws := by
        simp only [passingAt, hcb, hpp, Option.map_some']
        cases b with
        | true =>
          simp only [true_and] at hflag
          by_cases hc : w.point.x - s.center.x = x ∧ w.point.y - s.center.y = y
          · rw [if_pos ⟨rfl, hc⟩, if_pos (hflag.mp hc)]
          · rw [if_neg (fun h => hc h.2), if_neg (fun h => hc ⟨h.1, h.2.1⟩)]
        | false =>
          have h1 : ¬ (w.point.x - s.center.x = x ∧ w.point.y - s.center.y = y ∧
              s.depthAt y x < w.z) := by
            intro h
            have := hflag.mpr h
            exact absurd this.1 (by decide)
          have h2 : ¬ (some false = some true ∧ w.point.x - s.center.x = x ∧
              w.point.y - s.center.y = y) := by
            intro h
            exact absurd h.1 (by decide)
          rw [if_neg h1, if_neg h2]
      have hatt : attemptedAt s.center y x (w :: ws) =
          if w.point.x - s.center.x = x ∧ w.point.y - s.center.y = y
          then w.z :: attemptedAt s1.center y x ws else attemptedAt s1.center y x ws := by
        rw [hc1]
        simp only [attemptedAt, List.filter_cons]
        by_cases hc : w.point.x - s.center.x = x ∧ w.point.y - s.center.y = y
        · simp [hc]
        · simp [hc]
      refine ⟨?_, ?_, le_trans hmono hm2, ?_⟩
      · rw [hp2, hpass, hd1]
        by_cases hc : w.point.x - s.center.x = x ∧ w.point.y - s.center.y = y
        · by_cases hz : s.depthAt y x < w.z
          · rw [if_pos hc, if_pos ⟨hc.1, hc.2, hz⟩, List.foldl_cons]
          · rw [if_pos hc, if_neg (fun h => hz h.2.2), max_eq_left (not_lt.mp hz)]
        · rw [if_neg hc, if_neg (fun h => hc ⟨h.1, h.2.1⟩)]
      · rw [ha2, hatt, hd1]
        by_cases hc : w.point.x - s.center.x = x ∧ w.point.y - s.center.y = y
        · rw [if_pos hc, if_pos hc, List.foldl_cons]
        · rw [if_neg hc, if_neg hc]
      · intro z hz
        rw [hpass] at hz
        split at hz
        · rename_i hc
          rcases List.mem_cons.mp hz with h | h
          · rw [h]
            exact hc.2.2
          · exact lt_of_le_of_lt hmono (hz2 z h)
        · exact lt_of_le_of_lt hmono (hz2 z hz)

/-- Running a concatenation is running the two parts in turn. -/
theorem putAll_append (I : IViewport V) :
    ∀ (ws1 ws2 : List Write) (s : ViewportWithZBuffer V),
    putAll I s (ws1 ++ ws2) = (putAll I s ws1).bind (fun s1 => putAll I s1 ws2) := by
  intro ws1
  induction ws1 with
  | nil => intro ws2 s; rfl
  | cons w ws ih =>
    intro ws2 s
    simp only [List.cons_append, putAll]
    cases s.PutPixel I w.point w.z w.color with
    | none => rfl
    | some s1 => exact ih ws2 s1

/-- C2: after any finite sequence `ws` of `PutPixel` calls on a fresh sink (over a
viewport that does not fail), the depth stored at every in-range cell is the
maximum of 0 and the `z` of the depth-test-passing writes to that cell, all of
which are positive; it is also the maximum of 0 and the `z` of all attempted
writes to that cell; and it never decreases from one call to the next. -/
theorem depth_is_running_maximum (I : IViewport V) (Inv : V → Prop) (hI : I.Safe Inv) (v : V)
    (hv : Inv v) (hW : 0 ≤ I.Width v) (hH : 0 ≤ I.Height v) (ws : List Write) :
    ∃ s0 s1, new I v = some s0 ∧ putAll I s0 ws = some s1 ∧
      ∀ y x, 0 ≤ y → y < I.Height v → 0 ≤ x → x < I.Width v →
        s1.depthAt y x = (passingAt I y x s0 ws).foldl max 0 ∧
        (∀ z ∈ passingAt I y x s0 ws, 0 < z) ∧
        s1.depthAt y x = (attemptedAt s0.center y x ws).foldl max 0 ∧
        ∀ k : Nat, ∃ sk sk1, putAll I s0 (ws.take k) = some sk ∧
          putAll I s0 (ws.take (k + 1)) = some sk1 ∧
          sk.depthAt y x ≤ sk1.depthAt y x ∧ sk1.depthAt y x ≤ s1.depthAt y x := by
  obtain ⟨s0, hnew, hwf0, hv0, hs0, hz0⟩ := new_eq_some I v hW hH
  have hinv0 : Inv s0.viewport := by rw [hv0]; exact hv
  obtain ⟨s1, hall, hwf1, hinv1, hc1, hs1, hdepth⟩ := putAll_depth I Inv hI ws s0 hwf0 hinv0
  refine ⟨s0, s1, hnew, hall, ?_⟩
  intro y x hy0 hy1 hx0 hx1
  have hy1s : y < s0.size.y := by rw [hs0]; exact hy1
  have hx1s : x < s0.size.x := by rw [hs0]; exact hx1
  obtain ⟨hp, ha, _, hz⟩ := hdepth y x hy0 hy1s hx0 hx1s
  rw [hz0] at hp ha hz
  refine ⟨hp, hz, ha, ?_⟩
  intro k
  obtain ⟨sk, hk, hwfk, hinvk, hck, hsk, _⟩ := putAll_depth I Inv hI (ws.take k) s0 hwf0 hinv0
  have hsplit1 : ws.take (k + 1) = ws.take k ++ (ws.drop k).take 1 := by
    rw [← List.take_append_drop k (ws.take (k + 1))]
    congr 1
    · rw [List.take_take]
      congr 1
      omega
    · rw [List.drop_take]
      congr 1
      omega
  obtain ⟨sk1, hk1, hwfk1, hinvk1, hck1, hsk1, hd1⟩ :=
    putAll_depth I Inv hI ((ws.drop k).take 1) sk hwfk hinvk
  have hk1all : putAll I s0 (ws.take (k + 1)) = some sk1 := by
    rw [hsplit1, putAll_append, hk]
    exact hk1
  have hsplit2 : ws = ws.take (k + 1) ++ ws.drop (k + 1) := (List.take_append_drop _ _).symm
  obtain ⟨s2, h2, _, _, _, _, hd2⟩ :=
    putAll_depth I Inv hI (ws.drop (k + 1)) sk1 hwfk1 hinvk1
  have h2all : putAll I s0 ws = some s2 := by
    conv_lhs => rw [hsplit2]
    rw [putAll_append, hk1all]
    exact h2
  have hs2 : s2 = s1 := by
    rw [hall] at h2all
    exact (Option.some.inj h2all).symm
  subst hs2
  refine ⟨sk, sk1, hk, hk1all, ?_, ?_⟩
  · exact (hd1 y x hy0 (by rw [hsk]; exact hy1s) hx0 (by rw [hsk]; exact hx1s)).2.2.1
  · exact (hd2 y x hy0 (by rw [hsk1, hsk]; exact hy1s) hx0
      (by rw [hsk1, hsk]; exact hx1s)).2.2.1

/-- C1, witness: the write of `z = 1` at the point `(0, 0)` of the 2 by 2
sample sink is accepted, forwarded, and stored at `depth[1][1]`. -/
theorem PutPixel_forwards_iff_witness :
    Sample.sink.WellFormed ∧
    ∃ s1 : ViewportWithZBuffer Canvas,
      Sample.sink.PutPixel CanvasViewport.viewport { x := 0, y := 0 } 1 Sample.red =
        (CanvasViewport.viewport.PutPixel Sample.sink.viewport { x := 0, y := 0 }
          Sample.red).map (fun v => { s1 with viewport := v }) ∧
      s1.depthAt 1 1 = 1 := by
  have wf : Sample.sink.WellFormed := ⟨by decide, by decide, rfl, by decide, rfl⟩
  obtain ⟨s1, h1, _, _, _, h2, _⟩ :=
    (PutPixel_forwards_iff CanvasViewport.viewport Sample.sink wf { x := 0, y := 0 } 1
      Sample.red).1 (by decide!)
  exact ⟨wf, s1, h1, h2⟩

end ViewportWithZBuffer

/-- A validated `(x, y)` gives a row-major index inside `[0, W * H)`. -/
theorem index_in_buffer {W H x y : Int} (hx0 : 0 ≤ x) (hx1 : x < W) (hy0 : 0 ≤ y) (hy1 : y < H) :
    0 ≤ y * W + x ∧ y * W + x < W * H := by
  constructor
  · have : 0 ≤ y * W := mul_nonneg hy0 (by omega)
    omega
  · have h1 : (y + 1) * W ≤ H * W := mul_le_mul_of_nonneg_right (by omega) (by omega)
    have h2 : (y + 1) * W = y * W + W := by ring
    have h3 : H * W = W * H := mul_comm _ _
    omega

/-- The two outcomes of `CanvasViewport::PutPixel` on a canvas whose buffer
holds `width * height` pixels. -/
theorem CanvasViewport.PutPixel_cases (canvas : Canvas)
    (hlen : canvas.pixels.length = (canvas.width * canvas.height).toNat)
    (point : CanvasPoint) (color : Color) :
    CanvasViewport.PutPixel canvas point color = some canvas ∨
      (0 ≤ point.x + Int.tdiv canvas.width 2 ∧ point.x + Int.tdiv canvas.width 2 < canvas.width ∧
        0 ≤ Int.tdiv canvas.height 2 - point.y ∧
        Int.tdiv canvas.height 2 - point.y < canvas.height ∧
        0 ≤ (Int.tdiv canvas.height 2 - point.y) * canvas.width +
          (point.x + Int.tdiv canvas.width 2) ∧
        (Int.tdiv canvas.height 2 - point.y) * canvas.width +
          (point.x + Int.tdiv canvas.width 2) < canvas.width * canvas.height ∧
        CanvasViewport.PutPixel canvas point color =
          some { canvas with
            pixels := (canvas.pixels.set
              ((Int.tdiv canvas.height 2 - point.y) * canvas.width +
                (point.x + Int.tdiv canvas.width 2)).toNat color) }) := by
  unfold CanvasViewport.PutPixel
  by_cases hval : CanvasViewport.ValidateCoordinates canvas
      (point.x + Int.tdiv canvas.width 2) (Int.tdiv canvas.height 2 - point.y) = true
  · right
    have hb : 0 ≤ point.x + Int.tdiv canvas.width 2 ∧
        point.x + Int.tdiv canvas.width 2 < canvas.width ∧
        0 ≤ Int.tdiv canvas.height 2 - point.y ∧
        Int.tdiv canvas.height 2 - point.y < canvas.height := by
      unfold CanvasViewport.ValidateCoordinates at hval
      split at hval
      · exact absurd hval (by decide)
      · split at hval
        · exact absurd hval (by decide)
        · omega
    obtain ⟨hx0, hx1, hy0, hy1⟩ := hb
    obtain ⟨hi0, hi1⟩ := index_in_buffer hx0 hx1 hy0 hy1
    refine ⟨hx0, hx1, hy0, hy1, hi0, hi1, ?_⟩
    have hidx : 0 ≤ (Int.tdiv canvas.height 2 - point.y) * canvas.width +
          (point.x + Int.tdiv canvas.width 2) ∧
        ((Int.tdiv canvas.height 2 - point.y) * canvas.width +
          (point.x + Int.tdiv canvas.width 2)).toNat < canvas.pixels.length := by
      refine ⟨hi0, ?_⟩
      rw [hlen]
      omega
    simp only [hval, Bool.not_true, Bool.false_eq_true, if_false, hidx, and_self, if_true]
  · left
    simp only [hval, Bool.not_false, if_true]

/-- The canvas wrapper never fails on a canvas whose buffer holds
`width * height` pixels, and keeps that shape. -/
theorem CanvasViewport.viewport_safe :
    CanvasViewport.viewport.Safe
      (fun canvas => canvas.pixels.length = (canvas.width * canvas.height).toNat) := by
  intro canvas point color hlen
  rcases CanvasViewport.PutPixel_cases canvas hlen point color with h | ⟨_, _, _, _, _, _, h⟩
  · exact ⟨canvas, h, hlen⟩
  · refine ⟨_, h, ?_⟩
    simp only [List.length_set]
    exact hlen

/-- C4: no pixel outside `[0, W) × [0, H)` is written.  On a canvas whose
buffer holds `W * H` pixels, `CanvasViewport::PutPixel` either returns the
canvas unchanged or stores the colour at exactly the index `y' * W + x'` with
`x' = point.x + W / 2`, `y' = H / 2 - point.y`, `0 ≤ x' < W`, `0 ≤ y' < H`, and
that index lies in `[0, W * H)`.  On a well-formed sink `CanBeChanged` never
indexes out of bounds: it reads `__zbuffer[y][x]` only when the range check
passed, and then `0 ≤ y < H`, `0 ≤ x < W`, the row exists and has the column. -/
theorem writes_stay_in_canvas (canvas : Canvas)
    (hlen : canvas.pixels.length = (canvas.width * canvas.height).toNat)
    (point : CanvasPoint) (color : Color) {V : Type} (s : ViewportWithZBuffer V)
    (hwf : s.WellFormed) (p : CanvasPoint) (z : ℚ) :
    (CanvasViewport.PutPixel canvas point color = some canvas ∨
      (0 ≤ point.x + Int.tdiv canvas.width 2 ∧ point.x + Int.tdiv canvas.width 2 < canvas.width ∧
        0 ≤ Int.tdiv canvas.height 2 - point.y ∧
        Int.tdiv canvas.height 2 - point.y < canvas.height ∧
        0 ≤ (Int.tdiv canvas.height 2 - point.y) * canvas.width +
          (point.x + Int.tdiv canvas.width 2) ∧
        (Int.tdiv canvas.height 2 - point.y) * canvas.width +
          (point.x + Int.tdiv canvas.width 2) < canvas.width * canvas.height ∧
        CanvasViewport.PutPixel canvas point color =
          some { canvas with
            pixels := (canvas.pixels.set
              ((Int.tdiv canvas.height 2 - point.y) * canvas.width +
                (point.x + Int.tdiv canvas.width 2)).toNat color) })) ∧
    (s.CanBeChanged p z).isSome = true ∧
    (s.CanBeChanged p z ≠ some (false, s) →
      0 ≤ p.y - s.center.y ∧ p.y - s.center.y < s.size.y ∧
      0 ≤ p.x - s.center.x ∧ p.x - s.center.x < s.size.x) ∧
    (¬ (p.x - s.center.x < 0 ∨ p.y - s.center.y < 0 ∨ s.size.x ≤ p.x - s.center.x ∨
        s.size.y ≤ p.y - s.center.y) →
      0 ≤ p.y - s.center.y ∧ p.y - s.center.y < s.size.y ∧
      0 ≤ p.x - s.center.x ∧ p.x - s.center.x < s.size.x ∧
      ∃ row, s.zbuffer[(p.y - s.center.y).toNat]? = some row ∧
        (p.x - s.center.x).toNat < row.length) := by
  refine ⟨CanvasViewport.PutPixel_cases canvas hlen point color, ?_, ?_, ?_⟩
  · by_cases hr : p.x - s.center.x < 0 ∨ p.y - s.center.y < 0 ∨ s.size.x ≤ p.x - s.center.x ∨
        s.size.y ≤ p.y - s.center.y
    · rw [ViewportWithZBuffer.CanBeChanged_reject_range s p z hr]
      rfl
    · obtain ⟨row, _, _, hcb⟩ := ViewportWithZBuffer.CanBeChanged_in_range hwf p z (by omega)
        (by omega) (by omega) (by omega)
      rw [hcb]
      split <;> rfl
  · intro hne
    by_contra hcon
    apply hne
    apply ViewportWithZBuffer.CanBeChanged_reject_range
    omega
  · intro hr
    obtain ⟨row, hrow, hlen2, _⟩ := ViewportWithZBuffer.CanBeChanged_in_range hwf p z (by omega)
      (by omega) (by omega) (by omega)
    exact ⟨by omega, by omega, by omega, by omega, row, hrow, hlen2⟩

/-- C4, witness: the point `(0, 0)` on the blank 2 by 2 canvas and on the
2 by 2 sample sink. -/
theorem writes_stay_in_canvas_witness :
    (Sample.blank 2 2).pixels.length =
      ((Sample.blank 2 2).width * (Sample.blank 2 2).height).toNat ∧
    Sample.sink.WellFormed ∧
    (Sample.sink.CanBeChanged { x := 0, y := 0 } 1).isSome = true :=
  ⟨by decide, ⟨by decide, by decide, rfl, by decide, rfl⟩,
    (writes_stay_in_canvas (Sample.blank 2 2) (by decide) { x := 0, y := 0 } Sample.red
      Sample.sink ⟨by decide, by decide, rfl, by decide, rfl⟩ { x := 0, y := 0 } 1).2.1⟩

/-- C2, witness: three writes at the point `(0, 0)` of a fresh sink over the
blank 2 by 2 canvas, with `z = 1`, `1/2`, `2`. -/
theorem depth_is_running_maximum_witness :
    (Sample.blank 2 2).pixels.length =
      ((Sample.blank 2 2).width * (Sample.blank 2 2).height).toNat ∧
    ∃ s0 s1, ViewportWithZBuffer.new CanvasViewport.viewport (Sample.blank 2 2) = some s0 ∧
      ViewportWithZBuffer.putAll CanvasViewport.viewport s0
        [{ point := { x := 0, y := 0 }, z := 1, color := Sample.red },
          { point := { x := 0, y := 0 }, z := 1 / 2, color := Sample.red },
          { point := { x := 0, y := 0 }, z := 2, color := Sample.red }] = some s1 ∧
      s1.depthAt 1 1 = (ViewportWithZBuffer.attemptedAt s0.center 1 1
        [{ point := { x := 0, y := 0 }, z := 1, color := Sample.red },
          { point := { x := 0, y := 0 }, z := 1 / 2, color := Sample.red },
          { point := { x := 0, y := 0 }, z := 2, color := Sample.red }]).foldl max 0 := by
  refine ⟨by decide, ?_⟩
  obtain ⟨s0, s1, h0, h1, h2⟩ :=
    ViewportWithZBuffer.depth_is_running_maximum CanvasViewport.viewport _
      CanvasViewport.viewport_safe (Sample.blank 2 2) (by decide) (by decide) (by decide)
      [{ point := { x := 0, y := 0 }, z := 1, color := Sample.red },
        { point := { x := 0, y := 0 }, z := 1 / 2, color := Sample.red },
        { point := { x := 0, y := 0 }, z := 2, color := Sample.red }]
  exact ⟨s0, s1, h0, h1, (h2 1 1 (by decide) (by decide) (by decide) (by decide)).2.2.1⟩

namespace Renderer

/-! ### Backface test -/

/-- Exchanging `P1` and `P2` negates `h . n`. -/
theorem hDotN_swap12 (t : Triangle) :
    IsBackFacing.hDotN { t with p1 := t.p2, p2 := t.p1 } = -IsBackFacing.hDotN t := by
  simp only [IsBackFacing.hDotN, Vector3.sub, Vector3.add, Vector3.smul, Vector3.Cross,
    Vector3.Dot]
  ring

/-- Exchanging `P0` and `P1` negates `h . n`. -/
theorem hDotN_swap01 (t : Triangle) :
    IsBackFacing.hDotN { t with p0 := t.p1, p1 := t.p0 } = -IsBackFacing.hDotN t := by
  simp only [IsBackFacing.hDotN, Vector3.sub, Vector3.add, Vector3.smul, Vector3.Cross,
    Vector3.Dot]
  ring

/-- Exchanging `P0` and `P2` negates `h . n`. -/
theorem hDotN_swap02 (t : Triangle) :
    IsBackFacing.hDotN { t with p0 := t.p2, p2 := t.p0 } = -IsBackFacing.hDotN t := by
  simp only [IsBackFacing.hDotN, Vector3.sub, Vector3.add, Vector3.smul, Vector3.Cross,
    Vector3.Dot]
  ring

/-- The sign test of a non-zero rational flips under negation. -/
theorem decide_neg_lt_zero {a : ℚ} (h : a ≠ 0) : decide (-a < 0) = !decide (a < 0) := by
  rcases lt_or_gt_of_ne h with h1 | h1
  · have h2 : ¬ (-a < 0) := by linarith
    simp [h1, h2]
  · have h2 : ¬ (a < 0) := by linarith
    have h3 : -a < 0 := by linarith
    simp [h2, h3]

/-- C7, counterexample to the claim as stated: for a triangle whose plane
contains the origin, the triangle and its reversal are both classified
front-facing, so the classification is not negated. -/
theorem IsBackFacing_swap_counterexample :
    IsBackFacing { Sample.triangleThroughOrigin with
      p1 := Sample.triangleThroughOrigin.p2, p2 := Sample.triangleThroughOrigin.p1 } ≠
      !IsBackFacing Sample.triangleThroughOrigin := by
  decide!

/-! ### Interpolation -/

/-- The loop of `Interpolate`: `m` iterations from offset `j` overwrite the
entries `j .. j + m - 1` with `d, d + a, d + 2a, ...` and leave the rest. -/
theorem Interpolate.fill_spec (a : ℚ) (i0 : Int) :
    ∀ (m j : Nat) (d : ℚ) (values : List ℚ), j + m ≤ values.length →
      (Interpolate.fill a i0 m (i0 + (j : Int)) d values).length = values.length ∧
      ∀ k : Nat, (Interpolate.fill a i0 m (i0 + (j : Int)) d values)[k]? =
        if j ≤ k ∧ k < j + m then some (d + ((k - j : Nat) : ℚ) * a) else values[k]? := by
  intro m
  induction m with
  | zero =>
    intro j d values _
    refine ⟨rfl, ?_⟩
    intro k
    have : ¬ (j ≤ k ∧ k < j + 0) := by omega
    rw [if_neg this]
    rfl
  | succ m ih =>
    intro j d values hlen
    have hidx : (i0 + (j : Int) - i0).toNat = j := by omega
    have hstep : i0 + (j : Int) + 1 = i0 + ((j + 1 : Nat) : Int) := by push_cast; ring
    have hlen2 : j + 1 + m ≤ (values.set j d).length := by
      rw [List.length_set]
      omega
    obtain ⟨h1, h2⟩ := ih (j + 1) (d + a) (values.set j d) hlen2
    simp only [Interpolate.fill, hidx, hstep]
    refine ⟨by rw [h1, List.length_set], ?_⟩
    intro k
    rw [h2 k]
    by_cases hk : j + 1 ≤ k ∧ k < j + 1 + m
    · have hk2 : j ≤ k ∧ k < j + (m + 1) := by omega
      rw [if_pos hk, if_pos hk2]
      congr 1
      have : ((k - j : Nat) : ℚ) = ((k - (j + 1) : Nat) : ℚ) + 1 := by
        have : k - j = (k - (j + 1)) + 1 := by omega
        rw [this]
        push_cast
        ring
      rw [this]
      ring
    · rw [if_neg hk]
      by_cases hkj : k = j
      · subst hkj
        have hk2 : k ≤ k ∧ k < k + (m + 1) := by omega
        rw [if_pos hk2]
        have hlt : k < values.length := by omega
        simp [List.getElem?_set, hlt]
      · have hk2 : ¬ (j ≤ k ∧ k < j + (m + 1)) := by omega
        have hjk : ¬ j = k := fun h => hkj h.symm
        rw [if_neg hk2]
        simp [List.getElem?_set, hjk]

/-- Closed form of `Interpolate` for `i0 < i1`, whatever the initial content of
the output vector. -/
theorem Interpolate_of_lt (i0 : Int) (d0 : ℚ) (i1 : Int) (d1 : ℚ) (values : List ℚ)
    (h : i0 < i1) :
    ∃ out, Interpolate i0 d0 i1 d1 values = some out ∧
      out.length = (i1 - i0 + 1).toNat ∧
      ∀ k : Nat, k ≤ (i1 - i0).toNat →
        out[k]? = some (d0 + (k : ℚ) * (d1 - d0) / ((i1 - i0 : Int) : ℚ)) := by
  have hne : ¬ i0 = i1 := by omega
  have hneg : ¬ i1 - i0 + 1 < 0 := by omega
  have hrl : (resize values (i1 - i0 + 1).toNat).length = (i1 - i0 + 1).toNat := by
    simp only [resize, List.length_append, List.length_take, List.length_replicate]
    omega
  obtain ⟨h1, h2⟩ := Interpolate.fill_spec ((d1 - d0) / ((i1 - i0 : Int) : ℚ)) i0
    (i1 - i0 + 1).toNat 0 d0 (resize values (i1 - i0 + 1).toNat) (by rw [hrl]; omega)
  simp only [Nat.cast_zero, add_zero] at h1 h2
  refine ⟨Interpolate.fill ((d1 - d0) / ((i1 - i0 : Int) : ℚ)) i0 (i1 - i0 + 1).toNat i0 d0
    (resize values (i1 - i0 + 1).toNat), by simp only [Interpolate, if_neg hne, if_neg hneg],
    by rw [h1, hrl], ?_⟩
  intro k hk
  rw [h2 k]
  have hk2 : 0 ≤ k ∧ k < 0 + (i1 - i0 + 1).toNat := by omega
  rw [if_pos hk2]
  congr 1
  simp only [Nat.sub_zero]
  ring

/-- C8: `Interpolate(i0, d0, i1, d1, values)` called with an empty output
vector.  If `i0 = i1` the result is the one-element sequence `[d0]`.  If
`i0 < i1` the result has length `i1 - i0 + 1` and, for every `0 ≤ k ≤ i1 - i0`,
entry `k` equals `d0 + k * (d1 - d0) / (i1 - i0)`; in particular the first
entry is `d0` and the last is `d1`. -/
theorem Interpolate_spec (i0 : Int) (d0 : ℚ) (i1 : Int) (d1 : ℚ) :
    (i0 = i1 → Interpolate i0 d0 i1 d1 [] = some [d0]) ∧
    (i0 < i1 → ∃ out, Interpolate i0 d0 i1 d1 [] = some out ∧
      ((out.length : Int) = i1 - i0 + 1) ∧
      (∀ k : Nat, (k : Int) ≤ i1 - i0 →
        out[k]? = some (d0 + (k : ℚ) * (d1 - d0) / ((i1 - i0 : Int) : ℚ))) ∧
      out[0]? = some d0 ∧ out[(i1 - i0).toNat]? = some d1) := by
  constructor
  · intro h
    simp only [Interpolate, if_pos h, List.nil_append]
  · intro h
    obtain ⟨out, h1, h2, h3⟩ := Interpolate_of_lt i0 d0 i1 d1 [] h
    refine ⟨out, h1, by rw [h2]; omega, fun k hk => h3 k (by omega), ?_, ?_⟩
    · rw [h3 0 (by omega)]
      simp
    · rw [h3 _ (le_refl _)]
      congr 1
      have hpos : (0 : ℚ) < ((i1 - i0 : Int) : ℚ) := by
        exact_mod_cast (by omega : (0 : Int) < i1 - i0)
      have hcast : (((i1 - i0).toNat : Nat) : ℚ) = ((i1 - i0 : Int) : ℚ) := by
        have : (((i1 - i0).toNat : Nat) : Int) = i1 - i0 := Int.toNat_of_nonneg (by omega)
        exact_mod_cast this
      rw [hcast, mul_div_cancel_left₀ _ hpos.ne']
      ring

/-! ### Near-plane line clip -/

/-- The result of `CutLine` when `begin` is out of range and `end` is in range. -/
theorem CutLine_begin_out (config : Config) (A B : Vector3 ℚ) (hA : A.z ≤ config.d)
    (hB : config.d < B.z) :
    B.z - A.z ≠ 0 ∧ 0 ≤ (config.d - A.z) / (B.z - A.z) ∧ (config.d - A.z) / (B.z - A.z) < 1 ∧
    CutLine config { begin_ := A, end_ := B } =
      { begin_ := A.add ((B.sub A).smul ((config.d - A.z) / (B.z - A.z))), end_ := B } ∧
    (A.add ((B.sub A).smul ((config.d - A.z) / (B.z - A.z)))).z = config.d := by
  have hpos : 0 < B.z - A.z := by linarith
  have hne : B.z - A.z ≠ 0 := hpos.ne'
  have ht0 : 0 ≤ (config.d - A.z) / (B.z - A.z) := div_nonneg (by linarith) hpos.le
  have ht1 : (config.d - A.z) / (B.z - A.z) < 1 := by
    rw [div_lt_one hpos]
    linarith
  refine ⟨hne, ht0, ht1, ?_, ?_⟩
  · simp only [CutLine, Vector3.sub, Vector3.add, Vector3.smul]
    rw [if_neg hne, if_pos ⟨ht0, ht1.le⟩, if_pos hpos]
  · simp only [Vector3.sub, Vector3.add, Vector3.smul]
    field_simp

/-- The result of `CutLine` when `begin` is in range and `end` is out of range. -/
theorem CutLine_end_out (config : Config) (A B : Vector3 ℚ) (hA : config.d < A.z)
    (hB : B.z ≤ config.d) :
    B.z - A.z ≠ 0 ∧ 0 < (config.d - A.z) / (B.z - A.z) ∧ (config.d - A.z) / (B.z - A.z) ≤ 1 ∧
    CutLine config { begin_ := A, end_ := B } =
      { begin_ := A, end_ := A.add ((B.sub A).smul ((config.d - A.z) / (B.z - A.z))) } ∧
    (A.add ((B.sub A).smul ((config.d - A.z) / (B.z - A.z)))).z = config.d := by
  have hneg : B.z - A.z < 0 := by linarith
  have hne : B.z - A.z ≠ 0 := hneg.ne
  have ht0 : 0 < (config.d - A.z) / (B.z - A.z) := div_pos_of_neg_of_neg (by linarith) hneg
  have ht1 : (config.d - A.z) / (B.z - A.z) ≤ 1 := by
    rw [div_le_one_of_neg hneg]
    linarith
  have hnpos : ¬ (B.z - A.z > 0) := by
    intro h
    linarith
  refine ⟨hne, ht0, ht1, ?_, ?_⟩
  · simp only [CutLine, Vector3.sub, Vector3.add, Vector3.smul]
    rw [if_neg hne, if_pos ⟨ht0.le, ht1⟩, if_neg hnpos]
  · simp only [Vector3.sub, Vector3.add, Vector3.smul]
    field_simp

/-- After the swap, the endpoints of `DrawLine` are strictly ordered along the
dominant axis. -/
theorem DrawLine.interpolateCalls_lt (a b : DepthPoint) :
    ∀ c ∈ DrawLine.interpolateCalls a b, c.1 < c.2 := by
  intro c hc
  unfold DrawLine.interpolateCalls at hc
  split at hc
  · simp at hc
  · rename_i hne
    split at hc
    · rename_i hdom
      have hx : a.1.x ≠ b.1.x := by omega
      have hc2 : c = ((DrawLine.orderX a b).1.1.x, (DrawLine.orderX a b).2.1.x) := by
        simpa using hc
      rw [hc2]
      unfold DrawLine.orderX
      split
      · rename_i hgt
        exact hgt
      · rename_i hgt
        show a.1.x < b.1.x
        omega
    · rename_i hdom
      have hy : a.1.y ≠ b.1.y := by
        intro hy
        have hx : a.1.x = b.1.x := by omega
        apply hne
        cases ha : a.1
        cases hb : b.1
        rw [ha, hb] at hx hy
        simp only at hx hy
        rw [hx, hy]
      have hc2 : c = ((DrawLine.orderY a b).1.1.y, (DrawLine.orderY a b).2.1.y) := by
        simpa using hc
      rw [hc2]
      unfold DrawLine.orderY
      split
      · rename_i hgt
        exact hgt
      · rename_i hgt
        show a.1.y < b.1.y
        omega

/-- The sort orders the three vertices by canvas `y`. -/
theorem sortByY_sorted (a b c : Vertex) :
    (sortByY a b c).1.p.y ≤ (sortByY a b c).2.1.p.y ∧
    (sortByY a b c).2.1.p.y ≤ (sortByY a b c).2.2.p.y := by
  unfold sortByY
  by_cases h1 : b.p.y < a.p.y
  · simp only [h1, if_true]
    by_cases h2 : c.p.y < b.p.y
    · simp only [h2, if_true]
      omega
    · simp only [h2, if_false]
      by_cases h3 : c.p.y < a.p.y
      · simp only [h3, if_true]
        omega
      · simp only [h3, if_false]
        omega
  · simp only [h1, if_false]
    by_cases h2 : c.p.y < a.p.y
    · simp only [h2, if_true]
      omega
    · simp only [h2, if_false]
      by_cases h3 : c.p.y < b.p.y
      · simp only [h3, if_true]
        omega
      · simp only [h3, if_false]
        omega

/-- After the swap, `x1 ≤ x2`. -/
theorem scanlineEnds_le (xa xb la lb za zb : ℚ) :
    (scanlineEnds xa xb la lb za zb).1 ≤ (scanlineEnds xa xb la lb za zb).2.1 := by
  unfold scanlineEnds
  by_cases h : truncToInt xb < truncToInt xa
  · simp only [h, if_true]
    omega
  · simp only [h, if_false]
    omega

/-- On `i0 ≤ i1` and an empty output vector `Interpolate` returns `i1 - i0 + 1`
entries. -/
theorem Interpolate_of_le (i0 : Int) (d0 : ℚ) (i1 : Int) (d1 : ℚ) (h : i0 ≤ i1) :
    ∃ out, Interpolate i0 d0 i1 d1 [] = some out ∧ out.length = (i1 - i0 + 1).toNat := by
  rcases eq_or_lt_of_le h with h1 | h1
  · subst h1
    refine ⟨[d0], by simp [Interpolate], ?_⟩
    simp
  · obtain ⟨out, h2, h3, _⟩ := Interpolate_of_lt i0 d0 i1 d1 [] h1
    exact ⟨out, h2, h3⟩

/-- A loop whose body keeps an invariant and never fails under it returns. -/
theorem forLoop_some {σ : Type} (P : σ → Prop) (body : Int → σ → Option σ) :
    ∀ (n : Nat) (start : Int),
      (∀ k : Nat, k < n → ∀ s, P s → ∃ s1, body (start + (k : Int)) s = some s1 ∧ P s1) →
      ∀ s, P s → ∃ s1, forLoop body n start s = some s1 ∧ P s1 := by
  intro n
  induction n with
  | zero =>
    intro start _ s hs
    exact ⟨s, rfl, hs⟩
  | succ n ih =>
    intro start hbody s hs
    obtain ⟨s1, h1, hp1⟩ := hbody 0 (by omega) s hs
    simp only [Nat.cast_zero, add_zero] at h1
    have hrest : ∀ k : Nat, k < n → ∀ s, P s →
        ∃ s2, body (start + 1 + (k : Int)) s = some s2 ∧ P s2 := by
      intro k hk s2 hs2
      have := hbody (k + 1) (by omega) s2 hs2
      have he : start + ((k + 1 : Nat) : Int) = start + 1 + (k : Int) := by push_cast; ring
      rw [he] at this
      exact this
    obtain ⟨s2, h2, hp2⟩ := ih (start + 1) hrest s1 hp1
    refine ⟨s2, ?_, hp2⟩
    simp only [forLoop, h1]
    exact h2

/-- The call `PutPixel` returns on a well-formed sink over a safe viewport, and keeps
both properties. -/
theorem PutPixel_some {V : Type} (I : IViewport V) (Inv : V → Prop) (hI : I.Safe Inv)
    (s : ViewportWithZBuffer V) (hs : s.WellFormed ∧ Inv s.viewport) (p : CanvasPoint) (z : ℚ)
    (color : Color) :
    ∃ s1, s.PutPixel I p z color = some s1 ∧ (s1.WellFormed ∧ Inv s1.viewport) := by
  obtain ⟨s1, _, _, h1, h2, h3, _⟩ :=
    ViewportWithZBuffer.PutPixel_step I Inv hI hs.1 hs.2 p z color
  exact ⟨s1, h1, h2, h3⟩

/-- The rasterizing part of `DrawLine` returns on a well-formed sink over a safe
viewport. -/
theorem DrawLine.raster_some {V : Type} (I : IViewport V) (Inv : V → Prop) (hI : I.Safe Inv)
    (s : ViewportWithZBuffer V) (hs : s.WellFormed ∧ Inv s.viewport) (a b : DepthPoint)
    (color : Color) :
    ∃ s1, DrawLine.raster I s a b color = some s1 ∧ (s1.WellFormed ∧ Inv s1.viewport) := by
  unfold DrawLine.raster
  split
  · exact PutPixel_some I Inv hI s hs _ _ _
  · split
    · have hlt : (DrawLine.orderX a b).1.1.x < (DrawLine.orderX a b).2.1.x := by
        have := DrawLine.interpolateCalls_lt a b
          ((DrawLine.orderX a b).1.1.x, (DrawLine.orderX a b).2.1.x)
          (by simp [DrawLine.interpolateCalls, *])
        exact this
      obtain ⟨ys, hys, hysl, hysk⟩ := Interpolate_of_lt (DrawLine.orderX a b).1.1.x
        ((DrawLine.orderX a b).1.1.y : ℚ) (DrawLine.orderX a b).2.1.x
        ((DrawLine.orderX a b).2.1.y : ℚ) [] hlt
      obtain ⟨zs, hzs, hzsl, hzsk⟩ := Interpolate_of_lt (DrawLine.orderX a b).1.1.x
        (DrawLine.orderX a b).1.2 (DrawLine.orderX a b).2.1.x (DrawLine.orderX a b).2.2 [] hlt
      simp only [hys, hzs]
      apply forLoop_some (fun s => s.WellFormed ∧ Inv s.viewport) _ _ _ _ s hs
      intro k hk s2 hs2
      have hk2 : k ≤ ((DrawLine.orderX a b).2.1.x - (DrawLine.orderX a b).1.1.x).toNat := by
        omega
      have hidx : ((0 : Int) + (k : Int)).toNat = k := by omega
      simp only [hidx, hysk k hk2, hzsk k hk2]
      exact PutPixel_some I Inv hI s2 hs2 _ _ _
    · have hlt : (DrawLine.orderY a b).1.1.y < (DrawLine.orderY a b).2.1.y := by
        have := DrawLine.interpolateCalls_lt a b
          ((DrawLine.orderY a b).1.1.y, (DrawLine.orderY a b).2.1.y)
          (by simp [DrawLine.interpolateCalls, *])
        exact this
      obtain ⟨xs, hxs, hxsl, hxsk⟩ := Interpolate_of_lt (DrawLine.orderY a b).1.1.y
        ((DrawLine.orderY a b).1.1.x : ℚ) (DrawLine.orderY a b).2.1.y
        ((DrawLine.orderY a b).2.1.x : ℚ) [] hlt
      obtain ⟨zs, hzs, hzsl, hzsk⟩ := Interpolate_of_lt (DrawLine.orderY a b).1.1.y
        (DrawLine.orderY a b).1.2 (DrawLine.orderY a b).2.1.y (DrawLine.orderY a b).2.2 [] hlt
      simp only [hxs, hzs]
      apply forLoop_some (fun s => s.WellFormed ∧ Inv s.viewport) _ _ _ _ s hs
      intro k hk s2 hs2
      have hk2 : k ≤ ((DrawLine.orderY a b).2.1.y - (DrawLine.orderY a b).1.1.y).toNat := by
        omega
      have hidx : ((0 : Int) + (k : Int)).toNat = k := by omega
      simp only [hidx, hxsk k hk2, hzsk k hk2]
      exact PutPixel_some I Inv hI s2 hs2 _ _ _

/-- For rows `y0 ≤ y1 ≤ y2` the long-edge and short-edge arrays are built and
both have `y2 - y0 + 1` entries. -/
theorem edgeArrays_some (y0 : Int) (d0 : ℚ) (y1 : Int) (d1 : ℚ) (y2 : Int) (d2 : ℚ)
    (h01 : y0 ≤ y1) (h12 : y1 ≤ y2) :
    ∃ d02 d012, edgeArrays y0 d0 y1 d1 y2 d2 = some (d02, d012) ∧
      d02.length = (y2 - y0 + 1).toNat ∧ d012.length = (y2 - y0 + 1).toNat := by
  obtain ⟨e02, h02, l02⟩ := Interpolate_of_le y0 d0 y2 d2 (le_trans h01 h12)
  obtain ⟨e01, h01e, l01⟩ := Interpolate_of_le y0 d0 y1 d1 h01
  obtain ⟨e12, h12e, l12⟩ := Interpolate_of_le y1 d1 y2 d2 h12
  have hne : e01 ≠ [] := by
    intro h
    rw [h] at l01
    simp only [List.length_nil] at l01
    omega
  refine ⟨e02, e01.dropLast ++ e12, ?_, l02, ?_⟩
  · simp only [edgeArrays, h02, h01e, h12e, pop_back, if_neg hne]
  · simp only [List.length_append, List.length_dropLast, l01, l12]
    omega

/-! ### Triangles behind the near plane and back-facing triangles -/

/-- The method `DrawLine` drops a segment with both endpoints out of visible range. -/
theorem DrawLine_both_out {V : Type} (I : IViewport V) (config : Config)
    (viewport : ViewportWithZBuffer V) (line : Line) (color : Color)
    (hb : IsOutOfVisibleRange config line.begin_ = true)
    (he : IsOutOfVisibleRange config line.end_ = true) :
    DrawLine I config viewport line color = some viewport := by
  unfold DrawLine
  simp only [hb, he, Bool.and_self, if_true]

/-- The method `DrawBorderedTriangle` writes nothing for three out-of-range vertices. -/
theorem DrawBorderedTriangle_all_out {V : Type} (I : IViewport V) (config : Config)
    (viewport : ViewportWithZBuffer V) (triangle : Triangle)
    (h0 : IsOutOfVisibleRange config triangle.p0 = true)
    (h1 : IsOutOfVisibleRange config triangle.p1 = true)
    (h2 : IsOutOfVisibleRange config triangle.p2 = true) :
    DrawBorderedTriangle I config viewport triangle = some viewport := by
  unfold DrawBorderedTriangle
  rw [DrawLine_both_out I config viewport _ _ h0 h1]
  simp only
  rw [DrawLine_both_out I config viewport _ _ h1 h2]
  simp only
  rw [DrawLine_both_out I config viewport _ _ h2 h0]

/-- The value `h . n` of each triangle built by the clipping branches, for
clip parameters `s`, `u`: the original value times `1 - s` or `s` per replaced
vertex. -/
theorem hDotN_clipped (t : Triangle) (s u : ℚ) :
    (IsBackFacing.hDotN (clipped t (t.p0.add ((t.p2.sub t.p0).smul s))
        (t.p1.add ((t.p2.sub t.p1).smul u)) t.p2) = (1 - s) * (1 - u) * IsBackFacing.hDotN t) ∧
    (IsBackFacing.hDotN (clipped t (t.p0.add ((t.p1.sub t.p0).smul s)) t.p1
        (t.p1.add ((t.p2.sub t.p1).smul u))) = (1 - s) * u * IsBackFacing.hDotN t) ∧
    (IsBackFacing.hDotN (clipped t t.p0 (t.p0.add ((t.p1.sub t.p0).smul s))
        (t.p0.add ((t.p2.sub t.p0).smul u))) = s * u * IsBackFacing.hDotN t) ∧
    (IsBackFacing.hDotN (clipped t (t.p0.add ((t.p1.sub t.p0).smul s)) t.p1 t.p2) =
      (1 - s) * IsBackFacing.hDotN t) ∧
    (IsBackFacing.hDotN (clipped t (t.p0.add ((t.p2.sub t.p0).smul s)) t.p1 t.p2) =
      (1 - s) * IsBackFacing.hDotN t) ∧
    (IsBackFacing.hDotN (clipped t t.p0 (t.p0.add ((t.p1.sub t.p0).smul s)) t.p2) =
      s * IsBackFacing.hDotN t) ∧
    (IsBackFacing.hDotN (clipped t t.p0 (t.p1.add ((t.p2.sub t.p1).smul s)) t.p2) =
      (1 - s) * IsBackFacing.hDotN t) ∧
    (IsBackFacing.hDotN (clipped t t.p0 t.p1 (t.p0.add ((t.p2.sub t.p0).smul s))) =
      s * IsBackFacing.hDotN t) ∧
    (IsBackFacing.hDotN (clipped t t.p0 t.p1 (t.p1.add ((t.p2.sub t.p1).smul s))) =
      s * IsBackFacing.hDotN t) := by
  simp only [IsBackFacing.hDotN, clipped, Vector3.sub, Vector3.add, Vector3.smul, Vector3.Cross,
    Vector3.Dot]
  refine ⟨?_, ?_, ?_, ?_, ?_, ?_, ?_, ?_, ?_⟩ <;> ring

/-- Every triangle that `DrawFilledTriangle` passes on for a triangle with a
vertex in visible range has `h . n` equal to a positive multiple of the
original value. -/
theorem calls_hDotN (config : Config) (t : Triangle)
    (hvis : IsOutOfVisibleRange config t.p0 = false ∨ IsOutOfVisibleRange config t.p1 = false ∨
      IsOutOfVisibleRange config t.p2 = false) :
    ∀ t1 ∈ DrawFilledTriangle.calls config t,
      ∃ f : ℚ, 0 < f ∧ IsBackFacing.hDotN t1 = f * IsBackFacing.hDotN t := by
  obtain ⟨e1, e2, e3, e4, e5, e6, e7, e8, e9⟩ :
      (∀ s u, _) ∧ (∀ s u, _) ∧ (∀ s u, _) ∧ (∀ s, _) ∧ (∀ s, _) ∧ (∀ s, _) ∧ (∀ s, _) ∧
      (∀ s, _) ∧ (∀ s, _) :=
    ⟨fun s u => (hDotN_clipped t s u).1, fun s u => (hDotN_clipped t s u).2.1,
      fun s u => (hDotN_clipped t s u).2.2.1, fun s => (hDotN_clipped t s 0).2.2.2.1,
      fun s => (hDotN_clipped t s 0).2.2.2.2.1, fun s => (hDotN_clipped t s 0).2.2.2.2.2.1,
      fun s => (hDotN_clipped t s 0).2.2.2.2.2.2.1,
      fun s => (hDotN_clipped t s 0).2.2.2.2.2.2.2.1,
      fun s => (hDotN_clipped t s 0).2.2.2.2.2.2.2.2⟩
  intro t1 ht1
  unfold DrawFilledTriangle.calls at ht1
  simp only [IsOutOfVisibleRange, decide_eq_false_iff_not, not_le] at hvis
  simp only [IsOutOfVisibleRange, Bool.and_eq_true, decide_eq_true_eq] at ht1
  by_cases ha : t.p0.z ≤ config.d
  · by_cases hb : t.p1.z ≤ config.d
    · have hc : config.d < t.p2.z := by
        rcases hvis with h | h | h
        · exact absurd ha (not_le.mpr h)
        · exact absurd hb (not_le.mpr h)
        · exact h
      obtain ⟨_, a0, a1, a2, _⟩ := CutLine_begin_out config t.p0 t.p2 ha hc
      obtain ⟨_, b0, b1, b2, _⟩ := CutLine_begin_out config t.p1 t.p2 hb hc
      simp only [ha, hb, and_self, if_true, a2, b2, List.mem_singleton] at ht1
      rw [ht1, e1]
      exact ⟨_, mul_pos (by linarith) (by linarith), rfl⟩
    · have hb2 : config.d < t.p1.z := not_le.mp hb
      by_cases hc : t.p2.z ≤ config.d
      · obtain ⟨_, a0, a1, a2, _⟩ := CutLine_begin_out config t.p0 t.p1 ha hb2
        obtain ⟨_, c0, c1, c2, _⟩ := CutLine_end_out config t.p1 t.p2 hb2 hc
        simp only [ha, hb, hc, and_false, and_self, if_false, if_true, a2, c2,
          List.mem_singleton] at ht1
        rw [ht1, e2]
        exact ⟨_, mul_pos (by linarith) c0, rfl⟩
      · have hc2 : config.d < t.p2.z := not_le.mp hc
        obtain ⟨_, a0, a1, a2, _⟩ := CutLine_begin_out config t.p0 t.p1 ha hb2
        obtain ⟨_, c0, c1, c2, _⟩ := CutLine_begin_out config t.p0 t.p2 ha hc2
        simp only [ha, hb, hc, and_false, false_and, if_false, if_true, a2, c2,
          List.mem_cons, List.mem_singleton, List.not_mem_nil, or_false] at ht1
        rcases ht1 with h | h
        · rw [h, e4]
          exact ⟨_, by linarith, rfl⟩
        · rw [h, e5]
          exact ⟨_, by linarith, rfl⟩
  · have ha2 : config.d < t.p0.z := not_le.mp ha
    by_cases hb : t.p1.z ≤ config.d
    · by_cases hc : t.p2.z ≤ config.d
      · obtain ⟨_, b0, b1, b2, _⟩ := CutLine_end_out config t.p0 t.p1 ha2 hb
        obtain ⟨_, c0, c1, c2, _⟩ := CutLine_end_out config t.p0 t.p2 ha2 hc
        simp only [ha, hb, hc, and_false, false_and, and_self, if_false, if_true, b2, c2,
          List.mem_singleton] at ht1
        rw [ht1, e3]
        exact ⟨_, mul_pos b0 c0, rfl⟩
      · have hc2 : config.d < t.p2.z := not_le.mp hc
        obtain ⟨_, b0, b1, b2, _⟩ := CutLine_end_out config t.p0 t.p1 ha2 hb
        obtain ⟨_, c0, c1, c2, _⟩ := CutLine_begin_out config t.p1 t.p2 hb hc2
        simp only [ha, hb, hc, and_false, false_and, if_false, if_true, b2, c2,
          List.mem_cons, List.mem_singleton, List.not_mem_nil, or_false] at ht1
        rcases ht1 with h | h
        · rw [h, e6]
          exact ⟨_, b0, rfl⟩
        · rw [h, e7]
          exact ⟨_, by linarith, rfl⟩
    · have hb2 : config.d < t.p1.z := not_le.mp hb
      by_cases hc : t.p2.z ≤ config.d
      · obtain ⟨_, b0, b1, b2, _⟩ := CutLine_end_out config t.p0 t.p2 ha2 hc
        obtain ⟨_, c0, c1, c2, _⟩ := CutLine_end_out config t.p1 t.p2 hb2 hc
        simp only [ha, hb, hc, and_false, false_and, if_false, if_true, b2, c2,
          List.mem_cons, List.mem_singleton, List.not_mem_nil, or_false] at ht1
        rcases ht1 with h | h
        · rw [h, e8]
          exact ⟨_, b0, rfl⟩
        · rw [h, e9]
          exact ⟨_, c0, rfl⟩
      · simp only [ha, hb, hc, and_false, false_and, if_false, List.mem_singleton] at ht1
        rw [ht1]
        exact ⟨1, one_pos, (one_mul _).symm⟩

/-- A list of back-facing triangles leaves the sink unchanged. -/
theorem drawFilledAll_back_facing {V : Type} (I : IViewport V) (fm : FloatMath ℚ)
    (config : Config) (lights : List (Light ℚ)) (viewport : ViewportWithZBuffer V) :
    ∀ ts : List Triangle, (∀ t ∈ ts, IsBackFacing t = true) →
      drawFilledAll I fm config lights viewport ts = some viewport := by
  intro ts
  induction ts with
  | nil => intro _; rfl
  | cons t ts ih =>
    intro h
    have ht : IsBackFacing t = true := h t (List.mem_cons_self _ _)
    simp only [drawFilledAll, DrawFilledTriangleImpl, ht, if_true]
    exact ih (fun u hu => h u (List.mem_cons_of_mem _ hu))

/-- Fill mode culls a back-facing triangle that has a vertex in visible range:
`DrawFilledTriangle` returns the sink unchanged. -/
theorem DrawFilledTriangle_culls_visible {V : Type} (I : IViewport V) (fm : FloatMath ℚ)
    (config : Config) (viewport : ViewportWithZBuffer V) (t : Triangle)
    (lights : List (Light ℚ)) (hback : IsBackFacing t = true)
    (hvis : IsOutOfVisibleRange config t.p0 = false ∨ IsOutOfVisibleRange config t.p1 = false ∨
      IsOutOfVisibleRange config t.p2 = false) :
    DrawFilledTriangle I fm config viewport t lights = some viewport := by
  unfold DrawFilledTriangle
  apply drawFilledAll_back_facing
  intro t1 ht1
  obtain ⟨f, hf, he⟩ := calls_hDotN config t hvis t1 ht1
  unfold IsBackFacing at hback ⊢
  have hneg : IsBackFacing.hDotN t < 0 := of_decide_eq_true hback
  exact decide_eq_true (by rw [he]; exact mul_neg_of_pos_of_neg hf hneg)

/-- C3, evaluation at the failing input: in Fill mode the triangle
`(-1,-1,0.5), (1,-1,0.5), (0,1,0.5)`, whose vertices are all at `z <= d = 1`,
is drawn: on a blank 4 by 4 canvas with one ambient light of intensity 1,
`Render` turns eleven of the sixteen pixels red. -/
theorem Render_fill_draws_triangle_behind_near_plane :
    IsOutOfVisibleRange Sample.configFill Sample.triangleBehind.p0 = true ∧
    IsOutOfVisibleRange Sample.configFill Sample.triangleBehind.p1 = true ∧
    IsOutOfVisibleRange Sample.configFill Sample.triangleBehind.p2 = true ∧
    Render CanvasViewport.viewport Sample.floatMath Sample.configFill (Sample.blank 4 4)
        [Sample.triangleBehind] [Light.AmbientLight 1] =
      some (Canvas.mk (List.replicate 5 (Color.mk 0 0 0 0) ++ List.replicate 11 Sample.red)
        4 4) ∧
    Render CanvasViewport.viewport Sample.floatMath Sample.configFill (Sample.blank 4 4)
        [Sample.triangleBehind] [Light.AmbientLight 1] ≠ some (Sample.blank 4 4) := by
  decide!

/-- C5, evaluation at the failing input: the triangle
`(0,1,0.5), (1,0,1), (0,0,1)` is back-facing, yet `Render` in Fill mode writes
two red pixels for it (the clip replaces its first vertex by the third, and the
degenerate result is not classified back-facing). -/
theorem Render_fill_draws_back_facing_triangle :
    IsBackFacing Sample.triangleBackOnPlane = true ∧
    DrawFilledTriangle.calls Sample.configFill Sample.triangleBackOnPlane =
      [clipped Sample.triangleBackOnPlane { x := 0, y := 0, z := 1 } { x := 1, y := 0, z := 1 }
        { x := 0, y := 0, z := 1 }] ∧
    Render CanvasViewport.viewport Sample.floatMath Sample.configFill (Sample.blank 4 4)
        [Sample.triangleBackOnPlane] [Light.AmbientLight 1] =
      some (Canvas.mk (List.replicate 10 (Color.mk 0 0 0 0) ++ [Sample.red, Sample.red] ++
        List.replicate 4 (Color.mk 0 0 0 0)) 4 4) := by
  decide!

/-- C6, counterexample to the claim as stated: `Sample.triangleBack` is
back-facing and in front of the near plane; in Wireframe mode `Render` draws
its outline on a blank 4 by 4 canvas. -/
theorem Render_wireframe_draws_back_facing_triangle :
    IsBackFacing Sample.triangleBack = true ∧
    Render CanvasViewport.viewport Sample.floatMath Sample.configWireframe (Sample.blank 4 4)
        [Sample.triangleBack] [] ≠ some (Sample.blank 4 4) := by
  decide!

/-! ### Near-plane triangle clip -/

/-- Every triangle passed to `DrawFilledTriangleImpl` carries the normals and
the colour of the input triangle; it is the input triangle itself or has
specular exponent 0. -/
theorem calls_attributes (config : Config) (t : Triangle) :
    ∀ t1 ∈ DrawFilledTriangle.calls config t,
      t1.n0 = t.n0 ∧ t1.n1 = t.n1 ∧ t1.n2 = t.n2 ∧ t1.color = t.color ∧
      (t1 = t ∨ t1.specular = 0) := by
  intro t1 h
  unfold DrawFilledTriangle.calls at h
  simp only at h
  split_ifs at h <;>
    simp only [List.mem_cons, List.mem_singleton, List.not_mem_nil, or_false] at h <;>
    first
    | (subst h; simp [clipped])
    | (rcases h with h | h <;> subst h <;> simp [clipped])

/-- C13, evaluation at the failing input: `Sample.triangleShiny` has specular
exponent 10 and its first vertex behind the near plane; the two triangles that
`DrawFilledTriangle` passes to `DrawFilledTriangleImpl` keep its normals and its
colour but have specular exponent 0. -/
theorem clip_drops_specular :
    Sample.triangleShiny.specular = 10 ∧
    (DrawFilledTriangle.calls Sample.configFill Sample.triangleShiny).map
      (fun t => t.specular) = [0, 0] ∧
    (DrawFilledTriangle.calls Sample.configFill Sample.triangleShiny).map
      (fun t => (t.n0, t.n1, t.n2, t.color)) =
      [(Sample.triangleShiny.n0, Sample.triangleShiny.n1, Sample.triangleShiny.n2,
          Sample.triangleShiny.color),
        (Sample.triangleShiny.n0, Sample.triangleShiny.n1, Sample.triangleShiny.n2,
          Sample.triangleShiny.color)] := by
  decide!

/-! ### Projection -/

/-- Truncation toward zero: the floor of a non-negative value, the ceiling of a
negative one. -/
theorem truncToInt_eq (q : ℚ) : truncToInt q = if 0 ≤ q then ⌊q⌋ else ⌈q⌉ := by
  unfold truncToInt
  have hden : (0 : Int) ≤ (q.den : Int) := Int.natCast_nonneg _
  split
  · rename_i h
    have hnum : 0 ≤ q.num := Rat.num_nonneg.mpr h
    rw [Int.tdiv_eq_ediv hnum hden, Rat.floor_def]
  · rename_i h
    have hnum : q.num < 0 := Rat.num_neg.mpr (not_le.mp h)
    have hc : ⌈q⌉ = -⌊-q⌋ := by rw [Int.floor_neg, neg_neg]
    have ht : Int.tdiv q.num (q.den : Int) = -((-q.num) / (q.den : Int)) := by
      calc Int.tdiv q.num (q.den : Int) = Int.tdiv (-(-q.num)) (q.den : Int) := by
            rw [neg_neg]
        _ = -(Int.tdiv (-q.num) (q.den : Int)) := Int.neg_tdiv _ _
        _ = -((-q.num) / (q.den : Int)) := by rw [Int.tdiv_eq_ediv (by omega) hden]
    rw [ht, hc, Rat.floor_def, Rat.neg_num, Rat.neg_den]

/-- C17 (amended): in exact arithmetic with unbounded integers, with canvas size `(W, H)` and non-zero view extents `(vw, vh)`,
`ProjectPoint` in PERSPECTIVE mode maps `(x, y, z)`, `z ≠ 0`, to
`(trunc((x*d/z)/vw*W), trunc((y*d/z)/vh*H))`, and in ISOMETRIC mode to
`(trunc(x/vw*W), trunc(y/vh*H))`, whatever `z` is; `trunc` rounds toward zero,
so `-0.9` maps to `0`. -/
theorem ProjectPoint_spec (config : Config) (W H : Int) (p : Vector3 ℚ)
    (hvw : config.viewSize0 ≠ 0) (hvh : config.viewSize1 ≠ 0) :
    (config.projection = ProjectionType.PERSPECTIVE → p.z ≠ 0 →
      ProjectPoint config (W, H) p = some
        { x := truncToInt (p.x * config.d / p.z / config.viewSize0 * (W : ℚ)),
          y := truncToInt (p.y * config.d / p.z / config.viewSize1 * (H : ℚ)) }) ∧
    (config.projection = ProjectionType.ISOMETRIC →
      ProjectPoint config (W, H) p = some
        { x := truncToInt (p.x / config.viewSize0 * (W : ℚ)),
          y := truncToInt (p.y / config.viewSize1 * (H : ℚ)) }) ∧
    (∀ q : ℚ, truncToInt q = if 0 ≤ q then ⌊q⌋ else ⌈q⌉) ∧
    truncToInt (-9 / 10) = 0 := by
  have hv : ¬ (config.viewSize0 = 0 ∨ config.viewSize1 = 0) := by
    rintro (h | h)
    · exact hvw h
    · exact hvh h
  refine ⟨?_, ?_, truncToInt_eq, by decide!⟩
  · intro hp hz
    simp only [ProjectPoint, hp, PerspectiveProject, ToCanvasCoordinates, hv, hz, if_false]
    rfl
  · intro hp
    simp only [ProjectPoint, hp, IsometricProject, ToCanvasCoordinates, hv, if_false, if_true]

/-- C17, witness: the point `(-0.9, 1, 2)` under the isometric variant of the
sample configuration on a 2 by 2 canvas: `-0.9 / 2 * 2 = -0.9` truncates to 0. -/
theorem ProjectPoint_spec_witness :
    ProjectPoint { Sample.configFill with projection := ProjectionType.ISOMETRIC } (2, 2)
      { x := -9 / 10, y := 1, z := 2 } = some
        { x := truncToInt (-9 / 10 / 2 * ((2 : Int) : ℚ)),
          y := truncToInt (1 / 2 * ((2 : Int) : ℚ)) } :=
  (ProjectPoint_spec { Sample.configFill with projection := ProjectionType.ISOMETRIC } 2 2
    { x := -9 / 10, y := 1, z := 2 } (by decide!) (by decide!)).2.1 rfl

/-! ### Light model -/

/-- C18, evaluation: `DirectionalLight::ComputeIntensity` returns 0 for every
input; at `N = D = (0,0,1)`, intensity 1, specular 0, where the diffuse term
`intensity * N.D / (|N| * |D|)` is 1, the returned value is 0. -/
theorem DirectionalLight_returns_zero :
    (∀ (fm : FloatMath ℚ) (i : ℚ) (D P N : Vector3 ℚ) (s : ℚ),
      Light.ComputeIntensity fm (Light.DirectionalLight i D) P N s = 0) ∧
    Light.ComputeIntensity Sample.floatMath
      (Light.DirectionalLight 1 { x := 0, y := 0, z := 1 }) { x := 0, y := 0, z := 5 }
      { x := 0, y := 0, z := 1 } 0 = 0 ∧
    (1 : ℚ) * (Vector3.mk (0 : ℚ) 0 1).Dot (Vector3.mk 0 0 1) /
      ((Vector3.mk (0 : ℚ) 0 1).Length Sample.floatMath *
        (Vector3.mk (0 : ℚ) 0 1).Length Sample.floatMath) = 1 := by
  refine ⟨fun fm i D P N s => rfl, rfl, by decide!⟩

/-- The length under the real square root: the root of the sum of squares. -/
theorem Length_real (fm : FloatMath ℝ) (hsqrt : fm.sqrt = Real.sqrt) (u : Vector3 ℝ) :
    u.Length fm = Real.sqrt (u.x * u.x + u.y * u.y + u.z * u.z) := by
  unfold Vector3.Length
  rw [hsqrt]

/-- A vector with a positive dot product against something has positive
length. -/
theorem Length_pos_of_dot_pos (fm : FloatMath ℝ) (hsqrt : fm.sqrt = Real.sqrt)
    (u v : Vector3 ℝ) (h : 0 < u.Dot v ∨ 0 < v.Dot u) : 0 < u.Length fm := by
  rw [Length_real fm hsqrt]
  apply Real.sqrt_pos.mpr
  by_contra hcon
  have h0 : u.x * u.x + u.y * u.y + u.z * u.z = 0 :=
    le_antisymm (not_lt.mp hcon)
      (add_nonneg (add_nonneg (mul_self_nonneg _) (mul_self_nonneg _)) (mul_self_nonneg _))
  have hx : u.x = 0 := by nlinarith [mul_self_nonneg u.x, mul_self_nonneg u.y, mul_self_nonneg u.z]
  have hy : u.y = 0 := by nlinarith [mul_self_nonneg u.x, mul_self_nonneg u.y, mul_self_nonneg u.z]
  have hz : u.z = 0 := by nlinarith [mul_self_nonneg u.x, mul_self_nonneg u.y, mul_self_nonneg u.z]
  simp only [Vector3.Dot, hx, hy, hz, zero_mul, mul_zero, add_zero] at h
  rcases h with h | h <;> exact lt_irrefl _ h

/-- The length is never negative. -/
theorem Length_nonneg (fm : FloatMath ℝ) (hsqrt : fm.sqrt = Real.sqrt) (u : Vector3 ℝ) :
    0 ≤ u.Length fm := by
  rw [Length_real fm hsqrt]
  exact Real.sqrt_nonneg _

/-- The vectors `P` and `P * (-1)` have the same length. -/
theorem Length_neg (fm : FloatMath ℝ) (P : Vector3 ℝ) :
    (P.smul (-1)).Length fm = P.Length fm := by
  simp only [Vector3.Length, Vector3.smul]
  congr 1
  ring

/-- C19: `PointLight::ComputeIntensity(P, N, s)` with light position `Q` and
`s ≥ 0`, over the reals (`sqrt` the real square root, `pow` the real power).
With `L = Q - P`, `R = 2N(N.L) - L` and `V = -P` the result is
`max(0, N.L / (|N||L|)) + (0 if s = 0, else max(0, R.V / (|R||V|)) ^ s)`, and
the divisions on the branches taken are by positive numbers: `N.L > 0` implies
`|N||L| > 0`, and `R.V > 0` implies `|R||P| > 0`. -/
theorem PointLight_spec (fm : FloatMath ℝ) (hsqrt : fm.sqrt = Real.sqrt)
    (hpow : fm.pow = fun x y => x ^ y) (i : ℝ) (Q P N : Vector3 ℝ) (s : ℝ) (_hs : 0 ≤ s) :
    Light.ComputeIntensity fm (Light.PointLight i Q) P N s =
      max 0 (N.Dot (Q.sub P) / (N.Length fm * (Q.sub P).Length fm)) +
      (if s = 0 then 0
        else (max 0 ((((N.smul 2).smul (N.Dot (Q.sub P))).sub (Q.sub P)).Dot (P.smul (-1)) /
          ((((N.smul 2).smul (N.Dot (Q.sub P))).sub (Q.sub P)).Length fm *
            (P.smul (-1)).Length fm))) ^ s) ∧
    (0 < N.Dot (Q.sub P) → 0 < N.Length fm * (Q.sub P).Length fm) ∧
    (0 < (((N.smul 2).smul (N.Dot (Q.sub P))).sub (Q.sub P)).Dot (P.smul (-1)) →
      0 < (((N.smul 2).smul (N.Dot (Q.sub P))).sub (Q.sub P)).Length fm * P.Length fm) := by
  have hden1 : 0 < N.Dot (Q.sub P) → 0 < N.Length fm * (Q.sub P).Length fm := by
    intro h
    exact mul_pos (Length_pos_of_dot_pos fm hsqrt _ _ (Or.inl h))
      (Length_pos_of_dot_pos fm hsqrt _ _ (Or.inr h))
  have hden2 : 0 < (((N.smul 2).smul (N.Dot (Q.sub P))).sub (Q.sub P)).Dot (P.smul (-1)) →
      0 < (((N.smul 2).smul (N.Dot (Q.sub P))).sub (Q.sub P)).Length fm * P.Length fm := by
    intro h
    have h2 := Length_pos_of_dot_pos fm hsqrt (P.smul (-1)) _ (Or.inr h)
    rw [Length_neg] at h2
    exact mul_pos (Length_pos_of_dot_pos fm hsqrt _ _ (Or.inl h)) h2
  refine ⟨?_, hden1, hden2⟩
  have hdiff : (if N.Dot (Q.sub P) > 0 then
        (0 : ℝ) + N.Dot (Q.sub P) / (N.Length fm * (Q.sub P).Length fm) else 0) =
      max 0 (N.Dot (Q.sub P) / (N.Length fm * (Q.sub P).Length fm)) := by
    split
    · rename_i h
      rw [zero_add, max_eq_right (div_pos h (hden1 h)).le]
    · rename_i h
      rw [max_eq_left]
      exact div_nonpos_of_nonpos_of_nonneg (not_lt.mp h)
        (mul_nonneg (Length_nonneg fm hsqrt _) (Length_nonneg fm hsqrt _))
  simp only [Light.ComputeIntensity, Light.pointIntensity]
  rw [hdiff, Length_neg]
  by_cases hs0 : s = 0
  · simp only [hs0, ne_eq, not_true_eq_false, if_false, if_true, add_zero]
  · simp only [ne_eq, hs0, not_false_eq_true, if_true, if_false]
    split
    · rename_i h
      rw [max_eq_right (div_pos h (hden2 h)).le, hpow]
    · rename_i h
      rw [max_eq_left (div_nonpos_of_nonpos_of_nonneg (not_lt.mp h)
        (mul_nonneg (Length_nonneg fm hsqrt _) (Length_nonneg fm hsqrt _))),
        Real.zero_rpow hs0, add_zero]


/-- C19, witness: the light at the origin, `P = (0,0,1)`, `N = (0,0,-1)`,
`s = 2`. -/
theorem PointLight_spec_witness :
    Light.ComputeIntensity { sqrt := Real.sqrt, pow := fun x y => x ^ y }
        (Light.PointLight 1 (Vector3.mk 0 0 0)) (Vector3.mk 0 0 1) (Vector3.mk 0 0 (-1))
        (2 : ℝ) =
      max 0 ((Vector3.mk (0 : ℝ) 0 (-1)).Dot ((Vector3.mk 0 0 0).sub (Vector3.mk 0 0 1)) /
        ((Vector3.mk (0 : ℝ) 0 (-1)).Length { sqrt := Real.sqrt, pow := fun x y => x ^ y } *
          ((Vector3.mk (0 : ℝ) 0 0).sub (Vector3.mk 0 0 1)).Length
            { sqrt := Real.sqrt, pow := fun x y => x ^ y })) +
      (if (2 : ℝ) = 0 then 0
        else (max 0 (((((Vector3.mk (0 : ℝ) 0 (-1)).smul 2).smul
            ((Vector3.mk (0 : ℝ) 0 (-1)).Dot ((Vector3.mk 0 0 0).sub (Vector3.mk 0 0 1)))).sub
              ((Vector3.mk 0 0 0).sub (Vector3.mk 0 0 1))).Dot ((Vector3.mk 0 0 1).smul (-1)) /
          (((((Vector3.mk (0 : ℝ) 0 (-1)).smul 2).smul
            ((Vector3.mk (0 : ℝ) 0 (-1)).Dot ((Vector3.mk 0 0 0).sub (Vector3.mk 0 0 1)))).sub
              ((Vector3.mk 0 0 0).sub (Vector3.mk 0 0 1))).Length
                { sqrt := Real.sqrt, pow := fun x y => x ^ y } *
            ((Vector3.mk (0 : ℝ) 0 1).smul (-1)).Length
              { sqrt := Real.sqrt, pow := fun x y => x ^ y }))) ^ (2 : ℝ)) :=
  (PointLight_spec { sqrt := Real.sqrt, pow := fun x y => x ^ y } rfl rfl 1 (Vector3.mk 0 0 0)
    (Vector3.mk 0 0 1) (Vector3.mk 0 0 (-1)) 2 (by norm_num)).1

end Renderer

/-! ### The drawing routines as sequences of `PutPixel` calls -/

namespace ViewportWithZBuffer
variable {V : Type}

/-- The test `CanBeChanged` keeps the size, the centre and the wrapped viewport. -/
theorem CanBeChanged_size (s s1 : ViewportWithZBuffer V) (p : CanvasPoint) (z : ℚ) (b : Bool)
    (h : s.CanBeChanged p z = some (b, s1)) :
    s1.size = s.size ∧ s1.center = s.center ∧ s1.viewport = s.viewport := by
  unfold CanBeChanged at h
  simp only at h
  split at h
  · cases h
    exact ⟨rfl, rfl, rfl⟩
  · split at h
    · exact Option.noConfusion h
    · split at h
      · exact Option.noConfusion h
      · split at h
        · cases h
          exact ⟨rfl, rfl, rfl⟩
        · cases h
          exact ⟨rfl, rfl, rfl⟩

/-- A call of `PutPixel` keeps the size and the centre of the sink. -/
theorem PutPixel_size (I : IViewport V) (s s1 : ViewportWithZBuffer V) (p : CanvasPoint)
    (z : ℚ) (c : Color) (h : s.PutPixel I p z c = some s1) :
    s1.size = s.size ∧ s1.center = s.center := by
  unfold PutPixel at h
  cases hcb : s.CanBeChanged p z with
  | none =>
    rw [hcb] at h
    exact Option.noConfusion h
  | some r =>
    obtain ⟨b, s2⟩ := r
    obtain ⟨h1, h2, _⟩ := CanBeChanged_size s s2 p z b hcb
    rw [hcb] at h
    cases b with
    | false =>
      simp only at h
      cases h
      exact ⟨h1, h2⟩
    | true =>
      simp only at h
      split at h
      · exact Option.noConfusion h
      · cases h
        exact ⟨h1, h2⟩

/-- A sequence of calls keeps the size and the centre of the sink. -/
theorem putAll_size (I : IViewport V) :
    ∀ (ws : List Write) (s s1 : ViewportWithZBuffer V), putAll I s ws = some s1 →
      s1.size = s.size ∧ s1.center = s.center := by
  intro ws
  induction ws with
  | nil =>
    intro s s1 h
    cases h
    exact ⟨rfl, rfl⟩
  | cons w ws ih =>
    intro s s1 h
    simp only [putAll] at h
    split at h
    · exact Option.noConfusion h
    · rename_i s2 h2
      obtain ⟨a1, a2⟩ := PutPixel_size I s s2 _ _ _ h2
      obtain ⟨b1, b2⟩ := ih s2 s1 h
      exact ⟨b1.trans a1, b2.trans a2⟩

end ViewportWithZBuffer

namespace Renderer
open ViewportWithZBuffer
variable {V : Type}

/-- Running two call sequences in turn is running their concatenation. -/
theorem runWrites_append (I : IViewport V) (a b : Option (List Write))
    (vp : ViewportWithZBuffer V) :
    runWrites I (appendWrites a b) vp = (runWrites I a vp).bind (runWrites I b) := by
  cases a with
  | none => rfl
  | some x =>
    cases b with
    | none =>
      simp only [appendWrites, runWrites]
      cases putAll I vp x <;> rfl
    | some y =>
      simp only [appendWrites, runWrites]
      exact putAll_append I x y vp

/-- A computed call sequence keeps the width and the height of the sink. -/
theorem runWrites_size (I : IViewport V) (ws : Option (List Write))
    (vp v1 : ViewportWithZBuffer V) (h : runWrites I ws vp = some v1) :
    (v1.Width, v1.Height) = (vp.Width, vp.Height) := by
  cases ws with
  | none => exact Option.noConfusion h
  | some l =>
    obtain ⟨h1, _⟩ := putAll_size I l vp v1 h
    simp only [ViewportWithZBuffer.Width, ViewportWithZBuffer.Height, h1]

/-- A single call, as a call sequence. -/
theorem runWrites_single (I : IViewport V) (w : Write) (vp : ViewportWithZBuffer V) :
    runWrites I (some [w]) vp = vp.PutPixel I w.point w.z w.color := by
  simp only [runWrites, putAll]
  cases vp.PutPixel I w.point w.z w.color <;> rfl

/-- A loop whose iterations are call sequences is the call sequence collected
over the iterations. -/
theorem forLoop_writes (I : IViewport V) (body : Int → ViewportWithZBuffer V →
    Option (ViewportWithZBuffer V)) (g : Int → Option (List Write))
    (hbody : ∀ i vp, body i vp = runWrites I (g i) vp) :
    ∀ (n : Nat) (start : Int) (vp : ViewportWithZBuffer V),
      forLoop body n start vp = runWrites I (collectWrites g n start) vp := by
  intro n
  induction n with
  | zero => intro start vp; rfl
  | succ n ih =>
    intro start vp
    simp only [forLoop, collectWrites]
    rw [runWrites_append, hbody]
    cases runWrites I (g start) vp with
    | none => rfl
    | some v1 => exact ih (start + 1) v1

/-- The rasterizing part of `DrawLine` runs the calls of `DrawLine.writes`. -/
theorem DrawLine.raster_eq_writes (I : IViewport V) (vp : ViewportWithZBuffer V)
    (a b : DepthPoint) (color : Color) :
    DrawLine.raster I vp a b color = runWrites I (DrawLine.writes a b color) vp := by
  unfold DrawLine.raster DrawLine.writes
  split
  · rw [runWrites_single]
  · split
    · simp only
      split
      · apply forLoop_writes
        intro i v
        split
        · rw [runWrites_single]
        · rfl
      · rfl
    · simp only
      split
      · apply forLoop_writes
        intro i v
        split
        · rw [runWrites_single]
        · rfl
      · rfl

/-- The method `DrawLine` runs the calls of `DrawLine.allWrites`. -/
theorem DrawLine_eq_writes (I : IViewport V) (config : Config) (vp : ViewportWithZBuffer V)
    (line : Line) (color : Color) :
    DrawLine I config vp line color =
      runWrites I (DrawLine.allWrites config (vp.Width, vp.Height) line color) vp := by
  unfold DrawLine DrawLine.allWrites
  simp only
  split
  · rfl
  · split
    · exact DrawLine.raster_eq_writes I vp _ _ color
    · rfl

/-- The method `DrawBorderedTriangle` runs the calls of
`DrawBorderedTriangle.writes`. -/
theorem DrawBorderedTriangle_eq_writes (I : IViewport V) (config : Config)
    (vp : ViewportWithZBuffer V) (triangle : Triangle) :
    DrawBorderedTriangle I config vp triangle =
      runWrites I (DrawBorderedTriangle.writes config (vp.Width, vp.Height) triangle) vp := by
  unfold DrawBorderedTriangle DrawBorderedTriangle.writes
  rw [runWrites_append, DrawLine_eq_writes]
  cases h : runWrites I (DrawLine.allWrites config (vp.Width, vp.Height)
      { begin_ := triangle.p0, end_ := triangle.p1 } triangle.color) vp with
  | none => rfl
  | some v1 =>
    simp only [Option.bind]
    rw [runWrites_append, DrawLine_eq_writes, runWrites_size I _ vp v1 h]
    cases h2 : runWrites I (DrawLine.allWrites config (vp.Width, vp.Height)
        { begin_ := triangle.p1, end_ := triangle.p2 } triangle.color) v1 with
    | none => rfl
    | some v2 =>
      simp only [Option.bind]
      rw [DrawLine_eq_writes, runWrites_size I _ v1 v2 h2, runWrites_size I _ vp v1 h]

/-- The scanline loop body runs the calls of `scanline.writes`. -/
theorem scanline_eq_writes (I : IViewport V) (color : Color) (y0 : Int)
    (x02 x012 z02 z012 l02 l012 : List ℚ) (i : Int) (vp : ViewportWithZBuffer V) :
    scanline I color y0 x02 x012 z02 z012 l02 l012 i vp =
      runWrites I (scanline.writes color y0 x02 x012 z02 z012 l02 l012 i) vp := by
  unfold scanline scanline.writes
  split
  · simp only
    split
    · apply forLoop_writes
      intro j v
      split
      · split
        · rw [runWrites_single]
        · rfl
      · rfl
    · rfl
  · rfl

/-- The method `DrawFilledTriangleImpl` runs the calls of
`DrawFilledTriangleImpl.writes`. -/
theorem DrawFilledTriangleImpl_eq_writes (I : IViewport V) (fm : FloatMath ℚ) (config : Config)
    (vp : ViewportWithZBuffer V) (triangle : Triangle) (lights : List (Light ℚ)) :
    DrawFilledTriangleImpl I fm config vp triangle lights =
      runWrites I (DrawFilledTriangleImpl.writes fm config (vp.Width, vp.Height) triangle
        lights) vp := by
  unfold DrawFilledTriangleImpl DrawFilledTriangleImpl.writes
  split
  · rfl
  · split
    · rfl
    · split
      · split
        · apply forLoop_writes
          intro i v
          exact scanline_eq_writes I _ _ _ _ _ _ _ _ i v
        · rfl
      · rfl

/-- Consecutive calls of `DrawFilledTriangleImpl` run the calls of
`drawFilledAll.writes`. -/
theorem drawFilledAll_eq_writes (I : IViewport V) (fm : FloatMath ℚ) (config : Config)
    (lights : List (Light ℚ)) :
    ∀ (ts : List Triangle) (vp : ViewportWithZBuffer V),
      drawFilledAll I fm config lights vp ts =
        runWrites I (drawFilledAll.writes fm config (vp.Width, vp.Height) lights ts) vp := by
  intro ts
  induction ts with
  | nil => intro vp; rfl
  | cons t ts ih =>
    intro vp
    simp only [drawFilledAll, drawFilledAll.writes]
    rw [runWrites_append, DrawFilledTriangleImpl_eq_writes]
    cases h : runWrites I (DrawFilledTriangleImpl.writes fm config (vp.Width, vp.Height) t
        lights) vp with
    | none => rfl
    | some v1 =>
      simp only [Option.bind]
      rw [ih v1, runWrites_size I _ vp v1 h]

/-- The method `DrawFilledTriangle` runs the calls of `DrawFilledTriangle.writes`. -/
theorem DrawFilledTriangle_eq_writes (I : IViewport V) (fm : FloatMath ℚ) (config : Config)
    (vp : ViewportWithZBuffer V) (triangle : Triangle) (lights : List (Light ℚ)) :
    DrawFilledTriangle I fm config vp triangle lights =
      runWrites I (DrawFilledTriangle.writes fm config (vp.Width, vp.Height) triangle lights)
        vp :=
  drawFilledAll_eq_writes I fm config lights _ vp

/-- The loop of `Render` runs the calls of `renderLoop.writes`. -/
theorem renderLoop_eq_writes (I : IViewport V) (fm : FloatMath ℚ) (config : Config)
    (lights : List (Light ℚ)) :
    ∀ (ts : List Triangle) (vp : ViewportWithZBuffer V),
      renderLoop I fm config lights vp ts =
        runWrites I (renderLoop.writes fm config (vp.Width, vp.Height) lights ts) vp := by
  intro ts
  induction ts with
  | nil => intro vp; rfl
  | cons t ts ih =>
    intro vp
    simp only [renderLoop, renderLoop.writes]
    rw [runWrites_append]
    have hstep : (if config.mode = RenderMode.WIREFRAME then
          DrawBorderedTriangle I config vp t
        else DrawFilledTriangle I fm config vp t lights) =
        runWrites I (if config.mode = RenderMode.WIREFRAME then
          DrawBorderedTriangle.writes config (vp.Width, vp.Height) t
        else DrawFilledTriangle.writes fm config (vp.Width, vp.Height) t lights) vp := by
      split
      · exact DrawBorderedTriangle_eq_writes I config vp t
      · exact DrawFilledTriangle_eq_writes I fm config vp t lights
    rw [hstep]
    cases h : runWrites I (if config.mode = RenderMode.WIREFRAME then
          DrawBorderedTriangle.writes config (vp.Width, vp.Height) t
        else DrawFilledTriangle.writes fm config (vp.Width, vp.Height) t lights) vp with
    | none => rfl
    | some v1 =>
      simp only [Option.bind]
      rw [ih v1, runWrites_size I _ vp v1 h]

/-- The method `Render` runs the calls of `renderLoop.writes` on a fresh sink and
returns the wrapped viewport. -/
theorem Render_eq_writes (I : IViewport V) (fm : FloatMath ℚ) (config : Config) (viewport : V)
    (triangles : List Triangle) (lights : List (Light ℚ)) :
    Render I fm config viewport triangles lights =
      match ViewportWithZBuffer.new I viewport with
      | none => none
      | some s0 =>
        (runWrites I (renderLoop.writes fm config (I.Width viewport, I.Height viewport) lights
          triangles) s0).map (fun s => s.viewport) := by
  unfold Render
  cases h : ViewportWithZBuffer.new I viewport with
  | none => rfl
  | some s0 =>
    simp only
    rw [renderLoop_eq_writes]
    have hsz : (s0.Width, s0.Height) = (I.Width viewport, I.Height viewport) := by
      obtain ⟨_, _, h3, _⟩ := ViewportWithZBuffer.new_fresh I viewport s0 h
      simp only [ViewportWithZBuffer.Width, ViewportWithZBuffer.Height, h3]
    rw [hsz]
    cases runWrites I (renderLoop.writes fm config (I.Width viewport, I.Height viewport) lights
      triangles) s0 <;> rfl

end Renderer

/-! ### Depths passed to the sink -/

namespace Renderer
open ViewportWithZBuffer

/-- A concatenation is computed exactly when both parts are. -/
theorem appendWrites_eq_some (a b : Option (List Write)) (ws : List Write)
    (h : appendWrites a b = some ws) : ∃ x y, a = some x ∧ b = some y ∧ ws = x ++ y := by
  cases a with
  | none => exact Option.noConfusion h
  | some x =>
    cases b with
    | none => exact Option.noConfusion h
    | some y =>
      simp only [appendWrites, Option.some.injEq] at h
      exact ⟨x, y, rfl, rfl, h.symm⟩

/-- Every call collected over a loop comes from one of its iterations. -/
theorem collectWrites_mem (g : Int → Option (List Write)) :
    ∀ (n : Nat) (start : Int) (ws : List Write), collectWrites g n start = some ws →
      ∀ w ∈ ws, ∃ k : Nat, k < n ∧ ∃ l, g (start + (k : Int)) = some l ∧ w ∈ l := by
  intro n
  induction n with
  | zero =>
    intro start ws h w hw
    simp only [collectWrites, Option.some.injEq] at h
    rw [← h] at hw
    simp at hw
  | succ n ih =>
    intro start ws h w hw
    simp only [collectWrites] at h
    obtain ⟨x, y, hx, hy, hws⟩ := appendWrites_eq_some _ _ _ h
    rw [hws] at hw
    rcases List.mem_append.mp hw with hw1 | hw1
    · exact ⟨0, by omega, x, by simpa using hx, hw1⟩
    · obtain ⟨k, hk, l, hl, hwl⟩ := ih (start + 1) y hy w hw1
      refine ⟨k + 1, by omega, l, ?_, hwl⟩
      have he : start + ((k + 1 : Nat) : Int) = start + 1 + (k : Int) := by push_cast; ring
      rw [he]
      exact hl

/-- Every entry of an interpolated sequence lies between the two end values. -/
theorem Interpolate_bounds (i0 : Int) (d0 : ℚ) (i1 : Int) (d1 : ℚ) (out : List ℚ) (lo hi : ℚ)
    (h : Interpolate i0 d0 i1 d1 [] = some out)
    (h0 : lo ≤ d0 ∧ d0 ≤ hi) (h1 : lo ≤ d1 ∧ d1 ≤ hi) :
    ∀ v ∈ out, lo ≤ v ∧ v ≤ hi := by
  intro v hv
  rcases lt_trichotomy i0 i1 with hlt | he | hgt
  rotate_left
  · subst he
    simp only [Interpolate, if_true, List.nil_append, Option.some.injEq] at h
    rw [← h] at hv
    simp only [List.mem_singleton] at hv
    rw [hv]
    exact h0
  · exfalso
    have hne : ¬ i0 = i1 := by omega
    simp only [Interpolate, if_neg hne] at h
    split at h
    · exact Option.noConfusion h
    · rename_i hneg
      have hz : (i1 - i0 + 1).toNat = 0 := by omega
      simp only [hz, Interpolate.fill, resize, List.take_zero, List.nil_append,
        List.length_nil, Nat.sub_self, List.replicate_zero, Option.some.injEq] at h
      rw [← h] at hv
      simp at hv
  · obtain ⟨out2, h2, hlen, hk⟩ := Interpolate_of_lt i0 d0 i1 d1 [] hlt
    rw [h] at h2
    cases h2
    obtain ⟨k, hklt, hkv⟩ := List.getElem_of_mem hv
    have hk2 : k ≤ (i1 - i0).toNat := by omega
    have hget := hk k hk2
    rw [List.getElem?_eq_getElem hklt, hkv] at hget
    have hv2 : v = d0 + (k : ℚ) * (d1 - d0) / ((i1 - i0 : Int) : ℚ) := Option.some.inj hget
    have hn : (0 : ℚ) < ((i1 - i0 : Int) : ℚ) := by exact_mod_cast (by omega : (0 : Int) < i1 - i0)
    have hkn : (k : ℚ) ≤ ((i1 - i0 : Int) : ℚ) := by
      have : (k : Int) ≤ i1 - i0 := by omega
      exact_mod_cast this
    have hk0 : (0 : ℚ) ≤ (k : ℚ) := Nat.cast_nonneg k
    have hlam0 : 0 ≤ (k : ℚ) / ((i1 - i0 : Int) : ℚ) := div_nonneg hk0 hn.le
    have hlam1 : (k : ℚ) / ((i1 - i0 : Int) : ℚ) ≤ 1 := (div_le_one hn).mpr hkn
    have hv3 : v = d0 + (k : ℚ) / ((i1 - i0 : Int) : ℚ) * (d1 - d0) := by
      rw [hv2]
      ring
    rw [hv3]
    constructor
    · nlinarith [h0.1, h1.1]
    · nlinarith [h0.2, h1.2]

/-- The calls of the rasterizing part of `DrawLine` carry the colour of the
line and a depth between the depths of the two endpoints. -/
theorem DrawLine.writes_depth_bounds (a b : DepthPoint) (color : Color) (ws : List Write) (lo hi : ℚ)
    (h : DrawLine.writes a b color = some ws) (ha : lo ≤ a.2 ∧ a.2 ≤ hi)
    (hb : lo ≤ b.2 ∧ b.2 ≤ hi) :
    ∀ w ∈ ws, (lo ≤ w.z ∧ w.z ≤ hi) ∧ w.color = color := by
  intro w hw
  unfold DrawLine.writes at h
  split at h
  · simp only [Option.some.injEq] at h
    rw [← h] at hw
    simp only [List.mem_singleton] at hw
    rw [hw]
    exact ⟨ha, rfl⟩
  · split at h
    · simp only at h
      split at h
      · rename_i ys zs hys hzs
        obtain ⟨k, _, l, hl, hwl⟩ := collectWrites_mem _ _ _ _ h w hw
        split at hl
        · rename_i y z hy hz
          simp only [Option.some.injEq] at hl
          rw [← hl] at hwl
          simp only [List.mem_singleton] at hwl
          rw [hwl]
          refine ⟨?_, rfl⟩
          have hzmem : z ∈ zs := List.getElem?_mem hz
          have hab : (lo ≤ (DrawLine.orderX a b).1.2 ∧ (DrawLine.orderX a b).1.2 ≤ hi) ∧
              (lo ≤ (DrawLine.orderX a b).2.2 ∧ (DrawLine.orderX a b).2.2 ≤ hi) := by
            unfold DrawLine.orderX
            split
            · exact ⟨hb, ha⟩
            · exact ⟨ha, hb⟩
          exact Interpolate_bounds _ _ _ _ zs lo hi hzs hab.1 hab.2 z hzmem
        · exact Option.noConfusion hl
      · exact Option.noConfusion h
    · simp only at h
      split at h
      · rename_i xs zs hxs hzs
        obtain ⟨k, _, l, hl, hwl⟩ := collectWrites_mem _ _ _ _ h w hw
        split at hl
        · rename_i x z hx hz
          simp only [Option.some.injEq] at hl
          rw [← hl] at hwl
          simp only [List.mem_singleton] at hwl
          rw [hwl]
          refine ⟨?_, rfl⟩
          have hzmem : z ∈ zs := List.getElem?_mem hz
          have hab : (lo ≤ (DrawLine.orderY a b).1.2 ∧ (DrawLine.orderY a b).1.2 ≤ hi) ∧
              (lo ≤ (DrawLine.orderY a b).2.2 ∧ (DrawLine.orderY a b).2.2 ≤ hi) := by
            unfold DrawLine.orderY
            split
            · exact ⟨hb, ha⟩
            · exact ⟨ha, hb⟩
          exact Interpolate_bounds _ _ _ _ zs lo hi hzs hab.1 hab.2 z hzmem
        · exact Option.noConfusion hl
      · exact Option.noConfusion h

/-- After the clipping step of `DrawLine`, a line that is not dropped has both
endpoints at `z ≥ d`. -/
theorem DrawLine.clip_z (config : Config) (line : Line)
    (h : ¬ (IsOutOfVisibleRange config line.begin_ = true ∧
      IsOutOfVisibleRange config line.end_ = true)) :
    config.d ≤ (DrawLine.clip config line).begin_.z ∧
    config.d ≤ (DrawLine.clip config line).end_.z := by
  obtain ⟨A, B⟩ := line
  simp only [IsOutOfVisibleRange, decide_eq_true_eq] at h
  simp only [DrawLine.clip, IsOutOfVisibleRange, Bool.or_eq_true, decide_eq_true_eq]
  by_cases hA : A.z ≤ config.d
  · have hB : config.d < B.z := by
      by_contra hcon
      exact h ⟨hA, not_lt.mp hcon⟩
    obtain ⟨_, _, _, h3, h4⟩ := CutLine_begin_out config A B hA hB
    rw [if_pos (Or.inl hA), h3]
    exact ⟨h4.ge, hB.le⟩
  · have hA2 : config.d < A.z := not_le.mp hA
    by_cases hB : B.z ≤ config.d
    · obtain ⟨_, _, _, h3, h4⟩ := CutLine_end_out config A B hA2 hB
      rw [if_pos (Or.inr hB), h3]
      exact ⟨hA2.le, h4.ge⟩
    · have hn : ¬ (A.z ≤ config.d ∨ B.z ≤ config.d) := by
        rintro (h1 | h1)
        · exact hA h1
        · exact hB h1
      rw [if_neg hn]
      exact ⟨hA2.le, (not_le.mp hB).le⟩

/-- Every `z` that `DrawLine` passes to `PutPixel` is at least `d`. -/
theorem DrawLine.allWrites_z (config : Config) (canvasSize : Int × Int) (line : Line)
    (color : Color) (ws : List Write)
    (h : DrawLine.allWrites config canvasSize line color = some ws) :
    ∀ w ∈ ws, config.d ≤ w.z ∧ w.color = color := by
  intro w hw
  unfold DrawLine.allWrites at h
  split at h
  · simp only [Option.some.injEq] at h
    rw [← h] at hw
    simp at hw
  · rename_i hout
    simp only [Bool.and_eq_true] at hout
    obtain ⟨hb, he⟩ := DrawLine.clip_z config line hout
    simp only at h
    split at h
    · rename_i pa pb _ _
      have := DrawLine.writes_depth_bounds _ _ color ws config.d
        (max (DrawLine.clip config line).begin_.z (DrawLine.clip config line).end_.z) h
        ⟨hb, le_max_left _ _⟩ ⟨he, le_max_right _ _⟩ w hw
      exact ⟨this.1.1, this.2⟩
    · exact Option.noConfusion h

/-- A property of the three vertices holds for the three sorted vertices. -/
theorem sortByY_forall (P : Vertex → Prop) (a b c : Vertex) (ha : P a) (hb : P b) (hc : P c) :
    P (sortByY a b c).1 ∧ P (sortByY a b c).2.1 ∧ P (sortByY a b c).2.2 := by
  unfold sortByY
  by_cases h1 : b.p.y < a.p.y
  · simp only [h1, if_true]
    split
    · exact ⟨hc, hb, ha⟩
    · split
      · exact ⟨hb, hc, ha⟩
      · exact ⟨hb, ha, hc⟩
  · simp only [h1, if_false]
    split
    · exact ⟨hc, ha, hb⟩
    · split
      · exact ⟨ha, hc, hb⟩
      · exact ⟨ha, hb, hc⟩

/-- A property of the three vertex depths holds for the depths of the three
sorted vertices. -/
theorem sortedVertices_z (fm : FloatMath ℚ) (config : Config) (canvasSize : Int × Int)
    (t : Triangle) (lights : List (Light ℚ)) (v0 v1 v2 : Vertex)
    (h : sortedVertices fm config canvasSize t lights = some (v0, v1, v2)) (P : ℚ → Prop)
    (h0 : P t.p0.z) (h1 : P t.p1.z) (h2 : P t.p2.z) : P v0.z ∧ P v1.z ∧ P v2.z := by
  unfold sortedVertices at h
  split at h
  · rename_i q0 q1 q2 _ _ _
    simp only [Option.some.injEq] at h
    have := sortByY_forall (fun v => P v.z)
      { p := q0, z := t.p0.z, l := ComputeLighting fm t.p0 t.n0 lights t.specular }
      { p := q1, z := t.p1.z, l := ComputeLighting fm t.p1 t.n1 lights t.specular }
      { p := q2, z := t.p2.z, l := ComputeLighting fm t.p2 t.n2 lights t.specular } h0 h1 h2
    rw [h] at this
    exact this
  · exact Option.noConfusion h

/-- The entries of the long-edge and short-edge arrays lie between the vertex
values. -/
theorem edgeArrays_bounds (y0 : Int) (d0 : ℚ) (y1 : Int) (d1 : ℚ) (y2 : Int) (d2 : ℚ)
    (d02 d012 : List ℚ) (lo hi : ℚ) (h : edgeArrays y0 d0 y1 d1 y2 d2 = some (d02, d012))
    (h0 : lo ≤ d0 ∧ d0 ≤ hi) (h1 : lo ≤ d1 ∧ d1 ≤ hi) (h2 : lo ≤ d2 ∧ d2 ≤ hi) :
    (∀ v ∈ d02, lo ≤ v ∧ v ≤ hi) ∧ (∀ v ∈ d012, lo ≤ v ∧ v ≤ hi) := by
  unfold edgeArrays at h
  split at h
  · rename_i e02 e01 e12 he02 he01 he12
    unfold pop_back at h
    split at h
    · rename_i e01' hpop
      split at hpop
      · exact Option.noConfusion hpop
      · simp only [Option.some.injEq] at hpop
        simp only [Option.some.injEq, Prod.mk.injEq] at h
        obtain ⟨ha, hb⟩ := h
        subst ha hb hpop
        refine ⟨Interpolate_bounds _ _ _ _ _ lo hi he02 h0 h2, ?_⟩
        intro v hv
        rcases List.mem_append.mp hv with hv1 | hv1
        · exact Interpolate_bounds _ _ _ _ _ lo hi he01 h0 h1 v (List.mem_of_mem_dropLast hv1)
        · exact Interpolate_bounds _ _ _ _ _ lo hi he12 h1 h2 v hv1
    · exact Option.noConfusion h
  · exact Option.noConfusion h

/-- The depth of every call of a scanline lies between the bounds of the two
depth arrays; its row is `y0 + i`. -/
theorem scanline.writes_row_bounds (color : Color) (y0 : Int) (x02 x012 z02 z012 l02 l012 : List ℚ)
    (i : Int) (ws : List Write) (lo hi : ℚ)
    (h : scanline.writes color y0 x02 x012 z02 z012 l02 l012 i = some ws)
    (hz02 : ∀ v ∈ z02, lo ≤ v ∧ v ≤ hi) (hz012 : ∀ v ∈ z012, lo ≤ v ∧ v ≤ hi) :
    ∀ w ∈ ws, lo ≤ w.z ∧ w.z ≤ hi := by
  intro w hw
  unfold scanline.writes at h
  split at h
  · rename_i xa xb la lb za zb hxa hxb hla hlb hza hzb
    simp only at h
    split at h
    · rename_i zs ls hzs hls
      obtain ⟨k, _, l, hl, hwl⟩ := collectWrites_mem _ _ _ _ h w hw
      split at hl
      · rename_i lv z hlv hz
        split at hl
        · simp only [Option.some.injEq] at hl
          rw [← hl] at hwl
          simp only [List.mem_singleton] at hwl
          rw [hwl]
          have hza2 := hz02 za (List.getElem?_mem hza)
          have hzb2 := hz012 zb (List.getElem?_mem hzb)
          have hends : (lo ≤ (scanlineEnds xa xb la lb za zb).2.2.2.2.1 ∧
                (scanlineEnds xa xb la lb za zb).2.2.2.2.1 ≤ hi) ∧
              (lo ≤ (scanlineEnds xa xb la lb za zb).2.2.2.2.2 ∧
                (scanlineEnds xa xb la lb za zb).2.2.2.2.2 ≤ hi) := by
            unfold scanlineEnds
            simp only
            split
            · exact ⟨hzb2, hza2⟩
            · exact ⟨hza2, hzb2⟩
          exact Interpolate_bounds _ _ _ _ zs lo hi hzs hends.1 hends.2 z (List.getElem?_mem hz)
        · exact Option.noConfusion hl
      · exact Option.noConfusion hl
    · exact Option.noConfusion h
  · exact Option.noConfusion h

/-- The depth of every call of `DrawFilledTriangleImpl` lies between any bounds
on the reciprocals `1 / z` of the three vertex depths. -/
theorem DrawFilledTriangleImpl.writes_recip_bounds (fm : FloatMath ℚ) (config : Config)
    (canvasSize : Int × Int) (t : Triangle) (lights : List (Light ℚ)) (ws : List Write)
    (lo hi : ℚ) (h : DrawFilledTriangleImpl.writes fm config canvasSize t lights = some ws)
    (h0 : lo ≤ 1 / t.p0.z ∧ 1 / t.p0.z ≤ hi) (h1 : lo ≤ 1 / t.p1.z ∧ 1 / t.p1.z ≤ hi)
    (h2 : lo ≤ 1 / t.p2.z ∧ 1 / t.p2.z ≤ hi) :
    ∀ w ∈ ws, lo ≤ w.z ∧ w.z ≤ hi := by
  intro w hw
  unfold DrawFilledTriangleImpl.writes at h
  split at h
  · simp only [Option.some.injEq] at h
    rw [← h] at hw
    simp at hw
  · split at h
    · exact Option.noConfusion h
    · rename_i v0 v1 v2 hsv
      have hP : (lo ≤ 1 / v0.z ∧ 1 / v0.z ≤ hi) ∧ (lo ≤ 1 / v1.z ∧ 1 / v1.z ≤ hi) ∧
          (lo ≤ 1 / v2.z ∧ 1 / v2.z ≤ hi) := by
        exact sortedVertices_z fm config canvasSize t lights v0 v1 v2 hsv
          (fun z => lo ≤ 1 / z ∧ 1 / z ≤ hi) h0 h1 h2
      split at h
      · rename_i x02 x012 r0 r1 r2 hx hr0 hr1 hr2
        have hrec : ∀ (z r : ℚ), recip z = some r → r = 1 / z := by
          intro z r hr
          unfold recip at hr
          split at hr
          · exact Option.noConfusion hr
          · exact (Option.some.inj hr).symm
        rw [hrec _ _ hr0, hrec _ _ hr1, hrec _ _ hr2] at h
        split at h
        · rename_i z02 z012 l02 l012 hz hl
          obtain ⟨hb1, hb2⟩ := edgeArrays_bounds _ _ _ _ _ _ z02 z012 lo hi hz hP.1 hP.2.1 hP.2.2
          obtain ⟨k, _, l, hl2, hwl⟩ := collectWrites_mem _ _ _ _ h w hw
          exact scanline.writes_row_bounds _ _ _ _ _ _ _ _ _ l lo hi hl2 hb1 hb2 w hwl
        · exact Option.noConfusion h
      · exact Option.noConfusion h

/-- A property of every call of every triangle of a list holds for the calls
of `drawFilledAll`. -/
theorem drawFilledAll.writes_forall (fm : FloatMath ℚ) (config : Config)
    (canvasSize : Int × Int) (lights : List (Light ℚ)) (P : Write → Prop) :
    ∀ (ts : List Triangle) (ws : List Write),
      (∀ t ∈ ts, ∀ l, DrawFilledTriangleImpl.writes fm config canvasSize t lights = some l →
        ∀ w ∈ l, P w) →
      drawFilledAll.writes fm config canvasSize lights ts = some ws → ∀ w ∈ ws, P w := by
  intro ts
  induction ts with
  | nil =>
    intro ws _ h w hw
    simp only [drawFilledAll.writes, Option.some.injEq] at h
    rw [← h] at hw
    simp at hw
  | cons t ts ih =>
    intro ws hP h w hw
    simp only [drawFilledAll.writes] at h
    obtain ⟨x, y, hx, hy, hws⟩ := appendWrites_eq_some _ _ _ h
    rw [hws] at hw
    rcases List.mem_append.mp hw with hw1 | hw1
    · exact hP t (List.mem_cons_self _ _) x hx w hw1
    · exact ih y (fun u hu => hP u (List.mem_cons_of_mem _ hu)) hy w hw1

/-- For a triangle with a vertex in visible range, every triangle passed to
`DrawFilledTriangleImpl` has its three vertices at `z ≥ d`. -/
theorem calls_z_ge (config : Config) (t : Triangle)
    (hvis : IsOutOfVisibleRange config t.p0 = false ∨ IsOutOfVisibleRange config t.p1 = false ∨
      IsOutOfVisibleRange config t.p2 = false) :
    ∀ t1 ∈ DrawFilledTriangle.calls config t,
      config.d ≤ t1.p0.z ∧ config.d ≤ t1.p1.z ∧ config.d ≤ t1.p2.z := by
  intro t1 ht1
  unfold DrawFilledTriangle.calls at ht1
  simp only [IsOutOfVisibleRange, decide_eq_false_iff_not, not_le] at hvis
  simp only [IsOutOfVisibleRange, Bool.and_eq_true, decide_eq_true_eq] at ht1
  by_cases ha : t.p0.z ≤ config.d
  · by_cases hb : t.p1.z ≤ config.d
    · have hc : config.d < t.p2.z := by
        rcases hvis with h | h | h
        · exact absurd ha (not_le.mpr h)
        · exact absurd hb (not_le.mpr h)
        · exact h
      obtain ⟨_, _, _, a2, a3⟩ := CutLine_begin_out config t.p0 t.p2 ha hc
      obtain ⟨_, _, _, b2, b3⟩ := CutLine_begin_out config t.p1 t.p2 hb hc
      simp only [ha, hb, and_self, if_true, a2, b2, List.mem_singleton] at ht1
      rw [ht1]
      exact ⟨a3.ge, b3.ge, hc.le⟩
    · have hb2 : config.d < t.p1.z := not_le.mp hb
      by_cases hc : t.p2.z ≤ config.d
      · obtain ⟨_, _, _, a2, a3⟩ := CutLine_begin_out config t.p0 t.p1 ha hb2
        obtain ⟨_, _, _, c2, c3⟩ := CutLine_end_out config t.p1 t.p2 hb2 hc
        simp only [ha, hb, hc, and_false, and_self, if_false, if_true, a2, c2,
          List.mem_singleton] at ht1
        rw [ht1]
        exact ⟨a3.ge, hb2.le, c3.ge⟩
      · have hc2 : config.d < t.p2.z := not_le.mp hc
        obtain ⟨_, _, _, a2, a3⟩ := CutLine_begin_out config t.p0 t.p1 ha hb2
        obtain ⟨_, _, _, c2, c3⟩ := CutLine_begin_out config t.p0 t.p2 ha hc2
        simp only [ha, hb, hc, and_false, false_and, if_false, if_true, a2, c2,
          List.mem_cons, List.mem_singleton, List.not_mem_nil, or_false] at ht1
        rcases ht1 with h | h
        · rw [h]
          exact ⟨a3.ge, hb2.le, hc2.le⟩
        · rw [h]
          exact ⟨c3.ge, hb2.le, hc2.le⟩
  · have ha2 : config.d < t.p0.z := not_le.mp ha
    by_cases hb : t.p1.z ≤ config.d
    · by_cases hc : t.p2.z ≤ config.d
      · obtain ⟨_, _, _, b2, b3⟩ := CutLine_end_out config t.p0 t.p1 ha2 hb
        obtain ⟨_, _, _, c2, c3⟩ := CutLine_end_out config t.p0 t.p2 ha2 hc
        simp only [ha, hb, hc, and_false, false_and, and_self, if_false, if_true, b2, c2,
          List.mem_singleton] at ht1
        rw [ht1]
        exact ⟨ha2.le, b3.ge, c3.ge⟩
      · have hc2 : config.d < t.p2.z := not_le.mp hc
        obtain ⟨_, _, _, b2, b3⟩ := CutLine_end_out config t.p0 t.p1 ha2 hb
        obtain ⟨_, _, _, c2, c3⟩ := CutLine_begin_out config t.p1 t.p2 hb hc2
        simp only [ha, hb, hc, and_false, false_and, if_false, if_true, b2, c2,
          List.mem_cons, List.mem_singleton, List.not_mem_nil, or_false] at ht1
        rcases ht1 with h | h
        · rw [h]
          exact ⟨ha2.le, b3.ge, hc2.le⟩
        · rw [h]
          exact ⟨ha2.le, c3.ge, hc2.le⟩
    · have hb2 : config.d < t.p1.z := not_le.mp hb
      by_cases hc : t.p2.z ≤ config.d
      · obtain ⟨_, _, _, b2, b3⟩ := CutLine_end_out config t.p0 t.p2 ha2 hc
        obtain ⟨_, _, _, c2, c3⟩ := CutLine_end_out config t.p1 t.p2 hb2 hc
        simp only [ha, hb, hc, and_false, false_and, if_false, if_true, b2, c2,
          List.mem_cons, List.mem_singleton, List.not_mem_nil, or_false] at ht1
        rcases ht1 with h | h
        · rw [h]
          exact ⟨ha2.le, hb2.le, b3.ge⟩
        · rw [h]
          exact ⟨ha2.le, hb2.le, c3.ge⟩
      · simp only [ha, hb, hc, and_false, false_and, if_false, List.mem_singleton] at ht1
        rw [ht1]
        exact ⟨ha2.le, hb2.le, (not_le.mp hc).le⟩

/-- For `d > 0`, the reciprocal of a depth `z ≥ d` lies in `(0, 1/d]`. -/
theorem recip_bounds {d z : ℚ} (hd : 0 < d) (hz : d ≤ z) : 0 < 1 / z ∧ 1 / z ≤ 1 / d :=
  ⟨one_div_pos.mpr (lt_of_lt_of_le hd hz), one_div_le_one_div_of_le hd hz⟩

/-- Every depth that `DrawFilledTriangle` passes to `PutPixel` for a triangle
with a vertex in visible range lies in `(0, 1/d]`, when `d > 0`. -/
theorem DrawFilledTriangle.writes_z (fm : FloatMath ℚ) (config : Config) (hd : 0 < config.d)
    (canvasSize : Int × Int) (t : Triangle) (lights : List (Light ℚ)) (ws : List Write)
    (hvis : IsOutOfVisibleRange config t.p0 = false ∨ IsOutOfVisibleRange config t.p1 = false ∨
      IsOutOfVisibleRange config t.p2 = false)
    (h : DrawFilledTriangle.writes fm config canvasSize t lights = some ws) :
    ∀ w ∈ ws, 0 < w.z ∧ w.z ≤ 1 / config.d := by
  apply drawFilledAll.writes_forall fm config canvasSize lights
    (fun w => 0 < w.z ∧ w.z ≤ 1 / config.d) _ ws _ h
  intro t1 ht1 l hl w hw
  obtain ⟨g0, g1, g2⟩ := calls_z_ge config t hvis t1 ht1
  obtain ⟨a0, a1⟩ := recip_bounds hd g0
  obtain ⟨b0, b1⟩ := recip_bounds hd g1
  obtain ⟨c0, c1⟩ := recip_bounds hd g2
  have hlo : 0 < min (1 / t1.p0.z) (min (1 / t1.p1.z) (1 / t1.p2.z)) :=
    lt_min a0 (lt_min b0 c0)
  have := DrawFilledTriangleImpl.writes_recip_bounds fm config canvasSize t1 lights l
    (min (1 / t1.p0.z) (min (1 / t1.p1.z) (1 / t1.p2.z))) (1 / config.d) hl
    ⟨min_le_left _ _, a1⟩
    ⟨le_trans (min_le_right _ _) (min_le_left _ _), b1⟩
    ⟨le_trans (min_le_right _ _) (min_le_right _ _), c1⟩ w hw
  exact ⟨lt_of_lt_of_le hlo this.1, this.2⟩

end Renderer

namespace Renderer
open ViewportWithZBuffer

/-- C14 (amended): in exact arithmetic, with `d > 0`, every `z` that `DrawLine` passes to `PutPixel` is at
least `d` (a segment with both endpoints out of range makes no call), and every
depth that `DrawFilledTriangle` passes to `PutPixel` for a triangle with a
vertex at `z > d` lies in `(0, 1/d]`.  The points handed to `ProjectPoint` (the
endpoints of the clipped segment, the vertices of the clipped triangles) have
`z ≥ d > 0`, so `PerspectiveProject` never divides by zero.  The calls are read
off the routines themselves: `DrawLine` and `DrawFilledTriangle` run exactly
the call sequences `DrawLine.allWrites` and `DrawFilledTriangle.writes`. -/
theorem sink_depths_positive (fm : FloatMath ℚ) (config : Config) (hd : 0 < config.d)
    (canvasSize : Int × Int) :
    (∀ (line : Line) (color : Color) (ws : List Write),
      DrawLine.allWrites config canvasSize line color = some ws →
      ∀ w ∈ ws, config.d ≤ w.z ∧ 0 < w.z) ∧
    (∀ (t : Triangle) (lights : List (Light ℚ)) (ws : List Write),
      (IsOutOfVisibleRange config t.p0 = false ∨ IsOutOfVisibleRange config t.p1 = false ∨
        IsOutOfVisibleRange config t.p2 = false) →
      DrawFilledTriangle.writes fm config canvasSize t lights = some ws →
      ∀ w ∈ ws, 0 < w.z ∧ w.z ≤ 1 / config.d) ∧
    (∀ line : Line,
      ¬ (IsOutOfVisibleRange config line.begin_ = true ∧
        IsOutOfVisibleRange config line.end_ = true) →
      0 < (DrawLine.clip config line).begin_.z ∧ 0 < (DrawLine.clip config line).end_.z) ∧
    (∀ t : Triangle,
      (IsOutOfVisibleRange config t.p0 = false ∨ IsOutOfVisibleRange config t.p1 = false ∨
        IsOutOfVisibleRange config t.p2 = false) →
      ∀ t1 ∈ DrawFilledTriangle.calls config t, 0 < t1.p0.z ∧ 0 < t1.p1.z ∧ 0 < t1.p2.z) ∧
    (∀ (V : Type) (I : IViewport V) (vp : ViewportWithZBuffer V) (line : Line) (color : Color)
      (t : Triangle) (lights : List (Light ℚ)),
      DrawLine I config vp line color =
        runWrites I (DrawLine.allWrites config (vp.Width, vp.Height) line color) vp ∧
      DrawFilledTriangle I fm config vp t lights =
        runWrites I (DrawFilledTriangle.writes fm config (vp.Width, vp.Height) t lights) vp) := by
  refine ⟨?_, ?_, ?_, ?_, ?_⟩
  · intro line color ws h w hw
    have := (DrawLine.allWrites_z config canvasSize line color ws h w hw).1
    exact ⟨this, lt_of_lt_of_le hd this⟩
  · intro t lights ws hvis h
    exact DrawFilledTriangle.writes_z fm config hd canvasSize t lights ws hvis h
  · intro line h
    obtain ⟨h1, h2⟩ := DrawLine.clip_z config line h
    exact ⟨lt_of_lt_of_le hd h1, lt_of_lt_of_le hd h2⟩
  · intro t hvis t1 ht1
    obtain ⟨h0, h1, h2⟩ := calls_z_ge config t hvis t1 ht1
    exact ⟨lt_of_lt_of_le hd h0, lt_of_lt_of_le hd h1, lt_of_lt_of_le hd h2⟩
  · intro V I vp line color t lights
    exact ⟨DrawLine_eq_writes I config vp line color,
      DrawFilledTriangle_eq_writes I fm config vp t lights⟩

/-- C14, witness: the sample configuration (`d = 1`) on a 4 by 4 sink, for the
edge from `(-1,-1,0.5)` to `(0,1,3)`. -/
theorem sink_depths_positive_witness :
    0 < Sample.configFill.d ∧
    ∀ ws : List Write,
      DrawLine.allWrites Sample.configFill (4, 4)
        { begin_ := { x := -1, y := -1, z := 1 / 2 }, end_ := { x := 0, y := 1, z := 3 } }
        Sample.red = some ws →
      ∀ w ∈ ws, Sample.configFill.d ≤ w.z ∧ 0 < w.z :=
  ⟨by decide!, fun ws h =>
    (sink_depths_positive Sample.floatMath Sample.configFill (by decide!) (4, 4)).1 _ _ ws h⟩

end Renderer
/-! ### One pixel under a sequence of calls -/

/-- Calls that all fail the depth test leave the depth and the colour. -/
theorem pixelRun_rejected : ∀ (ws : List ViewportWithZBuffer.Write) (d : ℚ) (c : Color),
    (∀ w ∈ ws, w.z ≤ d) → pixelRun (d, c) ws = (d, c) := by
  intro ws
  induction ws with
  | nil => intro d c _; rfl
  | cons w ws ih =>
    intro d c h
    have hw : ¬ w.z > d := not_lt.mpr (h w (List.mem_cons_self _ _))
    have : pixelRun (d, c) (w :: ws) = pixelRun (d, c) ws := by
      simp only [pixelRun, List.foldl_cons, pixelStep, hw, if_false]
    rw [this]
    exact ih d c (fun v hv => h v (List.mem_cons_of_mem _ hv))

/-- The depth of a pixel stays below a strict bound of the start depth and of
the calls. -/
theorem pixelRun_lt : ∀ (ws : List ViewportWithZBuffer.Write) (d : ℚ) (c : Color) (a : ℚ),
    d < a → (∀ w ∈ ws, w.z < a) → (pixelRun (d, c) ws).1 < a := by
  intro ws
  induction ws with
  | nil => intro d c a hd _; exact hd
  | cons w ws ih =>
    intro d c a hd h
    have hw := h w (List.mem_cons_self _ _)
    have hrest : ∀ v ∈ ws, v.z < a := fun v hv => h v (List.mem_cons_of_mem _ hv)
    by_cases hz : w.z > d
    · have : pixelRun (d, c) (w :: ws) = pixelRun (w.z, w.color) ws := by
        simp only [pixelRun, List.foldl_cons, pixelStep, hz, if_true]
      rw [this]
      exact ih _ _ a hw hrest
    · have : pixelRun (d, c) (w :: ws) = pixelRun (d, c) ws := by
        simp only [pixelRun, List.foldl_cons, pixelStep, hz, if_false]
      rw [this]
      exact ih _ _ a hd hrest

/-- The depth of a pixel never drops below a call aimed at it. -/
theorem pixelRun_ge : ∀ (ws : List ViewportWithZBuffer.Write) (d : ℚ) (c : Color),
    d ≤ (pixelRun (d, c) ws).1 ∧ ∀ w ∈ ws, w.z ≤ (pixelRun (d, c) ws).1 := by
  intro ws
  induction ws with
  | nil => intro d c; exact ⟨le_refl _, fun w hw => absurd hw (List.not_mem_nil _)⟩
  | cons w ws ih =>
    intro d c
    by_cases hz : w.z > d
    · have : pixelRun (d, c) (w :: ws) = pixelRun (w.z, w.color) ws := by
        simp only [pixelRun, List.foldl_cons, pixelStep, hz, if_true]
      rw [this]
      obtain ⟨h1, h2⟩ := ih w.z w.color
      refine ⟨le_trans (le_of_lt hz) h1, ?_⟩
      intro v hv
      rcases List.mem_cons.mp hv with h | h
      · rw [h]; exact h1
      · exact h2 v h
    · have : pixelRun (d, c) (w :: ws) = pixelRun (d, c) ws := by
        simp only [pixelRun, List.foldl_cons, pixelStep, hz, if_false]
      rw [this]
      obtain ⟨h1, h2⟩ := ih d c
      refine ⟨h1, ?_⟩
      intro v hv
      rcases List.mem_cons.mp hv with h | h
      · rw [h]; exact le_trans (not_lt.mp hz) h1
      · exact h2 v h

/-- Running two sequences in turn. -/
theorem pixelRun_append (st : ℚ × Color) (a b : List ViewportWithZBuffer.Write) :
    pixelRun st (a ++ b) = pixelRun (pixelRun st a) b := by
  simp only [pixelRun, List.foldl_append]

/-- Either no call passes the depth test, or the result does not depend on the
colour the pixel started with. -/
theorem pixelRun_colour : ∀ (ws : List ViewportWithZBuffer.Write) (d : ℚ) (c : Color),
    (∀ w ∈ ws, w.z ≤ d) ∨ (∀ c1, pixelRun (d, c1) ws = pixelRun (d, c) ws) := by
  intro ws
  induction ws with
  | nil => intro d c; left; intro w hw; exact absurd hw (List.not_mem_nil _)
  | cons w ws ih =>
    intro d c
    by_cases hz : w.z > d
    · right
      intro c1
      simp only [pixelRun, List.foldl_cons, pixelStep, hz, if_true]
    · rcases ih d c with h | h
      · left
        intro v hv
        rcases List.mem_cons.mp hv with h1 | h1
        · rw [h1]; exact not_lt.mp hz
        · exact h v h1
      · right
        intro c1
        have e1 : pixelRun (d, c1) (w :: ws) = pixelRun (d, c1) ws := by
          simp only [pixelRun, List.foldl_cons, pixelStep, hz, if_false]
        have e2 : pixelRun (d, c) (w :: ws) = pixelRun (d, c) ws := by
          simp only [pixelRun, List.foldl_cons, pixelStep, hz, if_false]
        rw [e1, e2]
        exact h c1

/-- Running the same calls a second time, from the depth 0 of a fresh buffer
and the colour the first run left, gives the colour of the first run. -/
theorem pixelRun_twice (ws : List ViewportWithZBuffer.Write) (d : ℚ) (c : Color) :
    (pixelRun (d, (pixelRun (d, c) ws).2) ws).2 = (pixelRun (d, c) ws).2 := by
  rcases pixelRun_colour ws d c with h | h
  · rw [pixelRun_rejected ws d c h, pixelRun_rejected ws d c h]
  · rw [h]

/-- Running the same calls a second time on the depths the first run left
changes nothing. -/
theorem pixelRun_again (ws : List ViewportWithZBuffer.Write) (st : ℚ × Color) :
    pixelRun (pixelRun st ws) ws = pixelRun st ws := by
  obtain ⟨d, c⟩ := st
  have h := (pixelRun_ge ws d c).2
  have : pixelRun (d, c) ws = ((pixelRun (d, c) ws).1, (pixelRun (d, c) ws).2) := rfl
  rw [this]
  exact pixelRun_rejected ws _ _ h

/-- The nearer of two surfaces of constant depth wins a pixel in either
order: calls of depth `a` (the first of them `wa`) and calls of depth below
`a`, from a start depth below `a`. -/
theorem pixelRun_nearer (l1 l2 : List ViewportWithZBuffer.Write) (wa : ViewportWithZBuffer.Write)
    (a d : ℚ) (c : Color) (hd : d < a) (h1 : ∀ w ∈ l1, w.z = a) (h2 : ∀ w ∈ l2, w.z < a)
    (hwa : l1.head? = some wa) :
    (pixelRun (d, c) (l1 ++ l2)).2 = wa.color ∧ (pixelRun (d, c) (l2 ++ l1)).2 = wa.color := by
  cases l1 with
  | nil => simp at hwa
  | cons w l1 =>
    simp only [List.head?_cons, Option.some.injEq] at hwa
    subst hwa
    have hwz : w.z = a := h1 w (List.mem_cons_self _ _)
    have hrest : ∀ v ∈ l1, v.z ≤ a := fun v hv => le_of_eq (h1 v (List.mem_cons_of_mem _ hv))
    have step : ∀ (d1 : ℚ) (c1 : Color) (rest : List ViewportWithZBuffer.Write), d1 < a →
        (∀ v ∈ rest, v.z ≤ a) → pixelRun (d1, c1) (w :: rest) = (a, w.color) := by
      intro d1 c1 rest hd1 hr
      have hz : w.z > d1 := by rw [hwz]; exact hd1
      have : pixelRun (d1, c1) (w :: rest) = pixelRun (w.z, w.color) rest := by
        simp only [pixelRun, List.foldl_cons, pixelStep, hz, if_true]
      rw [this, hwz]
      exact pixelRun_rejected rest a w.color hr
    constructor
    · rw [List.cons_append, step d c (l1 ++ l2) hd]
      intro v hv
      rcases List.mem_append.mp hv with h | h
      · exact hrest v h
      · exact le_of_lt (h2 v h)
    · rw [pixelRun_append]
      have hlt := pixelRun_lt l2 d c a hd h2
      have : pixelRun (d, c) l2 = ((pixelRun (d, c) l2).1, (pixelRun (d, c) l2).2) := rfl
      rw [this, step _ _ l1 hlt hrest]

/-! ### The canvas buffer, pixel by pixel -/

/-- The index of a valid point lies in the buffer. -/
theorem CanvasViewport.index_bounds {W H : Int} {p : CanvasPoint}
    (hp : CanvasViewport.Valid W H p) :
    0 ≤ CanvasViewport.index W H p ∧ CanvasViewport.index W H p < W * H := by
  obtain ⟨hx0, hx1, hy0, hy1⟩ := hp
  exact index_in_buffer hx0 hx1 hy0 hy1

/-- Two valid points with the same index are the same point. -/
theorem CanvasViewport.index_inj {W H : Int} {p q : CanvasPoint}
    (hp : CanvasViewport.Valid W H p) (hq : CanvasViewport.Valid W H q)
    (h : (CanvasViewport.index W H p).toNat = (CanvasViewport.index W H q).toNat) : p = q := by
  have hbp := CanvasViewport.index_bounds hp
  have hbq := CanvasViewport.index_bounds hq
  have h1 : CanvasViewport.index W H p = CanvasViewport.index W H q := by omega
  obtain ⟨hx0, hx1, hy0, hy1⟩ := hp
  obtain ⟨qx0, qx1, qy0, qy1⟩ := hq
  unfold CanvasViewport.index at h1
  have hW : 0 < W := by omega
  have em : ∀ (y x : Int), 0 ≤ x → x < W → (y * W + x) % W = x ∧ (y * W + x) / W = y := by
    intro y x h0 h1
    constructor
    · rw [add_comm, Int.add_mul_emod_self, Int.emod_eq_of_lt h0 h1]
    · rw [add_comm, Int.add_mul_ediv_right _ _ (ne_of_gt hW), Int.ediv_eq_zero_of_lt h0 h1,
        zero_add]
  have e1 := em (Int.tdiv H 2 - p.y) (p.x + Int.tdiv W 2) hx0 hx1
  have e2 := em (Int.tdiv H 2 - q.y) (q.x + Int.tdiv W 2) qx0 qx1
  rw [h1] at e1
  have hx : p.x + Int.tdiv W 2 = q.x + Int.tdiv W 2 := by rw [← e1.1, e2.1]
  have hy : Int.tdiv H 2 - p.y = Int.tdiv H 2 - q.y := by rw [← e1.2, e2.2]
  cases p
  cases q
  simp only [CanvasPoint.mk.injEq] at *
  constructor <;> omega

/-- Every cell of a `W` by `H` buffer is the index of a valid point. -/
theorem CanvasViewport.index_surj {W H : Int} (hW0 : 0 ≤ W) {k : Nat}
    (hk : k < (W * H).toNat) :
    ∃ p, CanvasViewport.Valid W H p ∧ (CanvasViewport.index W H p).toNat = k := by
  have hWH : 0 < W * H := by omega
  by_cases hW : 0 < W
  · have hkn : (k : Int) < W * H := by omega
    have hk0 : (0 : Int) ≤ k := Int.natCast_nonneg k
    refine ⟨{ x := (k : Int) % W - Int.tdiv W 2, y := Int.tdiv H 2 - (k : Int) / W }, ?_, ?_⟩
    · refine ⟨?_, ?_, ?_, ?_⟩
      · have := Int.emod_nonneg (k : Int) (ne_of_gt hW)
        simp only
        omega
      · have := Int.emod_lt_of_pos (k : Int) hW
        simp only
        omega
      · have := Int.ediv_nonneg hk0 (le_of_lt hW)
        simp only
        omega
      · have : (k : Int) / W < H := Int.ediv_lt_of_lt_mul hW (by rw [mul_comm]; exact hkn)
        simp only
        omega
    · unfold CanvasViewport.index
      have h := Int.ediv_add_emod (k : Int) W
      have e : (Int.tdiv H 2 - (Int.tdiv H 2 - (k : Int) / W)) * W +
          ((k : Int) % W - Int.tdiv W 2 + Int.tdiv W 2) = (k : Int) := by
        have : (Int.tdiv H 2 - (Int.tdiv H 2 - (k : Int) / W)) = (k : Int) / W := by omega
        rw [this, mul_comm]
        omega
      simp only
      rw [e]
      exact Int.toNat_natCast k
  · exfalso
    have hW1 : W = 0 := by omega
    rw [hW1, zero_mul] at hWH
    exact lt_irrefl _ hWH

/-- On a valid point the canvas stores the colour at the point's index. -/
theorem CanvasViewport.PutPixel_valid {W H : Int} {canvas : Canvas} (hs : canvas.HasShape W H)
    {p : CanvasPoint} (hp : CanvasViewport.Valid W H p) (color : Color) :
    CanvasViewport.PutPixel canvas p color =
      some { canvas with pixels := canvas.pixels.set (CanvasViewport.index W H p).toNat color } := by
  have hb := CanvasViewport.index_bounds hp
  obtain ⟨hw, hh, hlen⟩ := hs
  obtain ⟨hx0, hx1, hy0, hy1⟩ := hp
  subst hw hh
  unfold CanvasViewport.index at hb
  have hv : CanvasViewport.ValidateCoordinates canvas (p.x + Int.tdiv canvas.width 2)
      (Int.tdiv canvas.height 2 - p.y) = true := by
    unfold CanvasViewport.ValidateCoordinates
    rw [if_neg (by omega), if_neg (by omega)]
  have hidx : 0 ≤ (Int.tdiv canvas.height 2 - p.y) * canvas.width +
        (p.x + Int.tdiv canvas.width 2) ∧
      ((Int.tdiv canvas.height 2 - p.y) * canvas.width +
        (p.x + Int.tdiv canvas.width 2)).toNat < canvas.pixels.length := by
    refine ⟨hb.1, ?_⟩
    rw [hlen]
    omega
  unfold CanvasViewport.PutPixel CanvasViewport.index
  simp only [hv, Bool.not_true, Bool.false_eq_true, if_false, hidx, and_self, if_true]

/-- On a point that fails the coordinate test the canvas is left as it is. -/
theorem CanvasViewport.PutPixel_invalid {W H : Int} {canvas : Canvas} (hs : canvas.HasShape W H)
    {p : CanvasPoint} (hp : ¬ CanvasViewport.Valid W H p) (color : Color) :
    CanvasViewport.PutPixel canvas p color = some canvas := by
  obtain ⟨hw, hh, _⟩ := hs
  subst hw hh
  have hv : CanvasViewport.ValidateCoordinates canvas (p.x + Int.tdiv canvas.width 2)
      (Int.tdiv canvas.height 2 - p.y) = false := by
    unfold CanvasViewport.Valid at hp
    unfold CanvasViewport.ValidateCoordinates
    by_cases hx : p.x + Int.tdiv canvas.width 2 < 0 ∨ canvas.width ≤ p.x + Int.tdiv canvas.width 2
    · rw [if_pos hx]
    · rw [if_neg hx, if_pos (by omega)]
  unfold CanvasViewport.PutPixel
  simp only [hv, Bool.not_false, if_true]

/-- One call of `CanvasViewport::PutPixel`, read pixel by pixel. -/
theorem CanvasViewport.PutPixel_pixel {W H : Int} {canvas : Canvas} (hs : canvas.HasShape W H)
    (q : CanvasPoint) (color : Color) :
    ∃ c1, CanvasViewport.PutPixel canvas q color = some c1 ∧ c1.HasShape W H ∧
      ∀ p, CanvasViewport.Valid W H p →
        c1.pixels[(CanvasViewport.index W H p).toNat]? =
          if q = p then some color else canvas.pixels[(CanvasViewport.index W H p).toNat]? := by
  by_cases hq : CanvasViewport.Valid W H q
  · refine ⟨_, CanvasViewport.PutPixel_valid hs hq color, ?_, ?_⟩
    · obtain ⟨hw, hh, hlen⟩ := hs
      exact ⟨hw, hh, by simpa using hlen⟩
    · intro p hp
      have hb := CanvasViewport.index_bounds hq
      have hlen := hs.2.2
      by_cases hqp : q = p
      · subst hqp
        have hlt : (CanvasViewport.index W H q).toNat < canvas.pixels.length := by
          rw [hlen]; omega
        simp [List.getElem?_set, hlt]
      · have hne : (CanvasViewport.index W H q).toNat ≠ (CanvasViewport.index W H p).toNat :=
          fun h => hqp (CanvasViewport.index_inj hq hp h)
        simp [List.getElem?_set, hne, hqp]
  · refine ⟨canvas, CanvasViewport.PutPixel_invalid hs hq color, hs, ?_⟩
    intro p hp
    have hqp : q ≠ p := fun h => hq (h ▸ hp)
    rw [if_neg hqp]

namespace ViewportWithZBuffer
variable {V : Type}

/-- A call outside the range, or whose `z` is not above the stored depth,
returns the sink as it is. -/
theorem PutPixel_reject (I : IViewport V) {s : ViewportWithZBuffer V} (hwf : s.WellFormed)
    (p : CanvasPoint) (z : ℚ) (color : Color)
    (h : ¬ (s.InRange p ∧ s.depthAt (p.y - s.center.y) (p.x - s.center.x) < z)) :
    s.PutPixel I p z color = some s := by
  unfold PutPixel
  by_cases hr : s.InRange p
  · obtain ⟨hx0, hx1, hy0, hy1⟩ := hr
    obtain ⟨row, _, _, hcb⟩ := CanBeChanged_in_range hwf p z hx0 hx1 hy0 hy1
    have hz : ¬ z > s.depthAt (p.y - s.center.y) (p.x - s.center.x) :=
      fun hz => h ⟨⟨hx0, hx1, hy0, hy1⟩, hz⟩
    rw [hcb, if_neg hz]
  · have hr2 : p.x - s.center.x < 0 ∨ p.y - s.center.y < 0 ∨ s.size.x ≤ p.x - s.center.x ∨
        s.size.y ≤ p.y - s.center.y := by
      unfold InRange at hr
      omega
    rw [CanBeChanged_reject_range s p z hr2]

/-- A call inside the range with `z` above the stored depth stores `z` in its
cell and forwards the point and the colour. -/
theorem PutPixel_accept (I : IViewport V) {s : ViewportWithZBuffer V} (hwf : s.WellFormed)
    (p : CanvasPoint) (z : ℚ) (color : Color) (hr : s.InRange p)
    (hz : s.depthAt (p.y - s.center.y) (p.x - s.center.x) < z) :
    ∃ s1 : ViewportWithZBuffer V, s1.WellFormed ∧ s1.viewport = s.viewport ∧
      s1.center = s.center ∧ s1.size = s.size ∧
      (∀ y x, 0 ≤ y → 0 ≤ x → s1.depthAt y x =
        if y = p.y - s.center.y ∧ x = p.x - s.center.x then z else s.depthAt y x) ∧
      s.PutPixel I p z color =
        (I.PutPixel s.viewport p color).map (fun v => { s1 with viewport := v }) := by
  obtain ⟨hx0, hx1, hy0, hy1⟩ := hr
  obtain ⟨row, hrow, hlt, hcb⟩ := CanBeChanged_in_range hwf p z hx0 hx1 hy0 hy1
  rw [if_pos hz] at hcb
  refine ⟨{ s with zbuffer := (s.zbuffer.set (p.y - s.center.y).toNat
      (row.set (p.x - s.center.x).toNat z)) },
    wellFormed_set hwf _ _ row hrow z, rfl, rfl, rfl, ?_, ?_⟩
  · intro y x hy hx
    rw [depthAt_set s _ _ row hrow hlt z y x]
    have e : (y.toNat = (p.y - s.center.y).toNat ∧ x.toNat = (p.x - s.center.x).toNat) ↔
        (y = p.y - s.center.y ∧ x = p.x - s.center.x) := by omega
    simp only [e]
  · unfold PutPixel
    rw [hcb]
    dsimp only
    cases I.PutPixel s.viewport p color <;> rfl

end ViewportWithZBuffer

namespace ViewportWithZBuffer

/-- The range check only reads the centre and the size. -/
theorem InRange_congr {V : Type} {s s1 : ViewportWithZBuffer V} (hc : s1.center = s.center)
    (hs : s1.size = s.size) (p : CanvasPoint) : s1.InRange p ↔ s.InRange p := by
  unfold InRange
  rw [hc, hs]

/-- One call on a sink over a canvas, read at one pixel: outside the range of
the depth buffer the pixel keeps its colour; inside, the depth and the colour
of the pixel make one `pixelStep` when the call is aimed at it. -/
theorem PutPixel_canvas {W H : Int} {s : ViewportWithZBuffer Canvas} (hwf : s.WellFormed)
    (hshape : s.viewport.HasShape W H) (w : Write) :
    ∃ s1, s.PutPixel CanvasViewport.viewport w.point w.z w.color = some s1 ∧ s1.WellFormed ∧
      s1.center = s.center ∧ s1.size = s.size ∧ s1.viewport.HasShape W H ∧
      ∀ p, CanvasViewport.Valid W H p →
        (¬ s.InRange p → s1.viewport.pixels[(CanvasViewport.index W H p).toNat]? =
          s.viewport.pixels[(CanvasViewport.index W H p).toNat]?) ∧
        (s.InRange p → ∀ col, s.viewport.pixels[(CanvasViewport.index W H p).toNat]? = some col →
          s1.depthAt (p.y - s.center.y) (p.x - s.center.x) =
            (if w.point = p then
              pixelStep (s.depthAt (p.y - s.center.y) (p.x - s.center.x), col) w
            else (s.depthAt (p.y - s.center.y) (p.x - s.center.x), col)).1 ∧
          s1.viewport.pixels[(CanvasViewport.index W H p).toNat]? =
            some (if w.point = p then
              pixelStep (s.depthAt (p.y - s.center.y) (p.x - s.center.x), col) w
            else (s.depthAt (p.y - s.center.y) (p.x - s.center.x), col)).2) := by
  by_cases hacc : s.InRange w.point ∧
      s.depthAt (w.point.y - s.center.y) (w.point.x - s.center.x) < w.z
  · obtain ⟨t, hwft, _, hct, hst, hdt, hput⟩ :=
      PutPixel_accept CanvasViewport.viewport hwf w.point w.z w.color hacc.1 hacc.2
    obtain ⟨c1, hc1, hshape1, hpix⟩ := CanvasViewport.PutPixel_pixel hshape w.point w.color
    have hc1b : CanvasViewport.viewport.PutPixel s.viewport w.point w.color = some c1 := hc1
    rw [hc1b] at hput
    refine ⟨{ t with viewport := c1 }, hput, hwft, hct, hst, hshape1, ?_⟩
    intro p hp
    constructor
    · intro hnr
      have hwp : w.point ≠ p := fun h => hnr (h ▸ hacc.1)
      show c1.pixels[(CanvasViewport.index W H p).toNat]? = _
      rw [hpix p hp, if_neg hwp]
    · intro hr col hcol
      obtain ⟨hx0, _, hy0, _⟩ := hr
      have hd := hdt (p.y - s.center.y) (p.x - s.center.x) hy0 hx0
      by_cases hwp : w.point = p
      · subst hwp
        have hz : w.z > (s.depthAt (w.point.y - s.center.y) (w.point.x - s.center.x), col).1 :=
          hacc.2
        constructor
        · show t.depthAt _ _ = _
          rw [hd, if_pos ⟨rfl, rfl⟩, if_pos rfl]
          simp only [pixelStep, hz, if_true]
        · show c1.pixels[(CanvasViewport.index W H w.point).toNat]? = _
          rw [hpix _ hp, if_pos rfl, if_pos rfl]
          simp only [pixelStep, hz, if_true]
      · have hcell : ¬ (p.y - s.center.y = w.point.y - s.center.y ∧
            p.x - s.center.x = w.point.x - s.center.x) := by
          rintro ⟨h1, h2⟩
          apply hwp
          cases hwpt : w.point
          cases p
          rw [hwpt] at h1 h2
          simp only [CanvasPoint.mk.injEq] at *
          constructor <;> omega
        constructor
        · show t.depthAt _ _ = _
          rw [hd, if_neg hcell, if_neg hwp]
        · show c1.pixels[(CanvasViewport.index W H p).toNat]? = _
          rw [hpix _ hp, if_neg hwp, if_neg hwp]
          exact hcol
  · refine ⟨s, PutPixel_reject CanvasViewport.viewport hwf w.point w.z w.color hacc, hwf, rfl, rfl,
      hshape, ?_⟩
    intro p hp
    refine ⟨fun _ => rfl, ?_⟩
    intro hr col hcol
    by_cases hwp : w.point = p
    · subst hwp
      have hz : ¬ w.z > (s.depthAt (w.point.y - s.center.y) (w.point.x - s.center.x), col).1 :=
        fun hz => hacc ⟨hr, hz⟩
      rw [if_pos rfl]
      simp only [pixelStep, hz, if_false]
      exact ⟨trivial, hcol⟩
    · rw [if_neg hwp]
      exact ⟨rfl, hcol⟩

/-- A sequence of calls on a sink over a canvas, read at one pixel: outside
the range of the depth buffer the pixel keeps its colour; inside, its depth
and colour are `pixelRun` over the calls aimed at it. -/
theorem putAll_canvas {W H : Int} : ∀ (ws : List Write) (s : ViewportWithZBuffer Canvas),
    s.WellFormed → s.viewport.HasShape W H →
    ∃ s1, putAll CanvasViewport.viewport s ws = some s1 ∧ s1.WellFormed ∧
      s1.center = s.center ∧ s1.size = s.size ∧ s1.viewport.HasShape W H ∧
      ∀ p, CanvasViewport.Valid W H p →
        (¬ s.InRange p → s1.viewport.pixels[(CanvasViewport.index W H p).toNat]? =
          s.viewport.pixels[(CanvasViewport.index W H p).toNat]?) ∧
        (s.InRange p → ∀ col, s.viewport.pixels[(CanvasViewport.index W H p).toNat]? = some col →
          s1.depthAt (p.y - s.center.y) (p.x - s.center.x) =
            (pixelRun (s.depthAt (p.y - s.center.y) (p.x - s.center.x), col)
              (ws.filter (fun w => decide (w.point = p)))).1 ∧
          s1.viewport.pixels[(CanvasViewport.index W H p).toNat]? =
            some (pixelRun (s.depthAt (p.y - s.center.y) (p.x - s.center.x), col)
              (ws.filter (fun w => decide (w.point = p)))).2) := by
  intro ws
  induction ws with
  | nil =>
    intro s hwf hshape
    refine ⟨s, rfl, hwf, rfl, rfl, hshape, ?_⟩
    intro p _
    exact ⟨fun _ => rfl, fun _ col hcol => ⟨rfl, hcol⟩⟩
  | cons w ws ih =>
    intro s hwf hshape
    obtain ⟨s1, hput, hwf1, hc1, hs1, hshape1, hstep⟩ := PutPixel_canvas hwf hshape w
    obtain ⟨s2, hall, hwf2, hc2, hs2, hshape2, hrest⟩ := ih s1 hwf1 hshape1
    refine ⟨s2, ?_, hwf2, hc2.trans hc1, hs2.trans hs1, hshape2, ?_⟩
    · simp only [putAll, hput]
      exact hall
    · intro p hp
      obtain ⟨hstepN, hstepR⟩ := hstep p hp
      obtain ⟨hrestN, hrestR⟩ := hrest p hp
      have hrange := InRange_congr hc1 hs1 p
      constructor
      · intro hnr
        rw [hrestN (fun h => hnr (hrange.mp h)), hstepN hnr]
      · intro hr col hcol
        obtain ⟨hd1, hp1⟩ := hstepR hr col hcol
        obtain ⟨hd2, hp2⟩ := hrestR (hrange.mpr hr) _ hp1
        rw [hc1] at hd2 hp2
        rw [hd1] at hd2 hp2
        by_cases hwp : w.point = p
        · have hf : (w :: ws).filter (fun w => decide (w.point = p)) =
              w :: ws.filter (fun w => decide (w.point = p)) := by
            simp [List.filter_cons, hwp]
          rw [hf]
          rw [if_pos hwp] at hd2 hp2
          exact ⟨hd2, hp2⟩
        · have hf : (w :: ws).filter (fun w => decide (w.point = p)) =
              ws.filter (fun w => decide (w.point = p)) := by
            simp [List.filter_cons, hwp]
          rw [hf]
          rw [if_neg hwp] at hd2 hp2
          exact ⟨hd2, hp2⟩

end ViewportWithZBuffer

namespace ViewportWithZBuffer
variable {V : Type}

/-- A running maximum is at least its start value and every element. -/
theorem foldl_max_ge : ∀ (l : List ℚ) (init : ℚ),
    init ≤ l.foldl max init ∧ ∀ z ∈ l, z ≤ l.foldl max init := by
  intro l
  induction l with
  | nil => intro init; exact ⟨le_refl _, fun z hz => absurd hz (List.not_mem_nil _)⟩
  | cons a l ih =>
    intro init
    obtain ⟨h1, h2⟩ := ih (max init a)
    refine ⟨le_trans (le_max_left _ _) h1, ?_⟩
    intro z hz
    rcases List.mem_cons.mp hz with h | h
    · rw [h]; exact le_trans (le_max_right _ _) h1
    · exact h2 z h

/-- Calls that all fail the range check or the depth test leave the sink as it
is. -/
theorem putAll_rejected (I : IViewport V) {s : ViewportWithZBuffer V} (hwf : s.WellFormed) :
    ∀ ws : List Write,
    (∀ w ∈ ws, s.InRange w.point →
      w.z ≤ s.depthAt (w.point.y - s.center.y) (w.point.x - s.center.x)) →
    putAll I s ws = some s := by
  intro ws
  induction ws with
  | nil => intro _; rfl
  | cons w ws ih =>
    intro h
    have hrej : ¬ (s.InRange w.point ∧
        s.depthAt (w.point.y - s.center.y) (w.point.x - s.center.x) < w.z) := by
      rintro ⟨hr, hz⟩
      exact absurd hz (not_lt.mpr (h w (List.mem_cons_self _ _) hr))
    simp only [putAll, PutPixel_reject I hwf w.point w.z w.color hrej]
    exact ih (fun v hv => h v (List.mem_cons_of_mem _ hv))

/-- After a sequence of calls on a safe viewport, each of its calls that is in
range has `z` not greater than the depth stored in its cell. -/
theorem putAll_stored_ge (I : IViewport V) (Inv : V → Prop) (hI : I.Safe Inv)
    (ws : List Write) (s s1 : ViewportWithZBuffer V) (hwf : s.WellFormed)
    (hinv : Inv s.viewport) (h : putAll I s ws = some s1) :
    s1.WellFormed ∧ Inv s1.viewport ∧ s1.center = s.center ∧ s1.size = s.size ∧
    ∀ w ∈ ws, s1.InRange w.point →
      w.z ≤ s1.depthAt (w.point.y - s1.center.y) (w.point.x - s1.center.x) := by
  obtain ⟨s2, h2, hwf2, hinv2, hc, hs, hdepth⟩ := putAll_depth I Inv hI ws s hwf hinv
  rw [h] at h2
  cases h2
  refine ⟨hwf2, hinv2, hc, hs, ?_⟩
  intro w hw hr
  obtain ⟨hx0, hx1, hy0, hy1⟩ := hr
  simp only [hc, hs] at hx0 hx1 hy0 hy1
  rw [hc]
  obtain ⟨_, hd, _, _⟩ := hdepth _ _ hy0 hy1 hx0 hx1
  rw [hd]
  apply (foldl_max_ge _ _).2
  unfold attemptedAt
  exact List.mem_map.mpr ⟨w, List.mem_filter.mpr ⟨hw, by simp⟩, rfl⟩

end ViewportWithZBuffer

namespace Renderer
open ViewportWithZBuffer

/-- Concatenation of computed call sequences is associative. -/
theorem appendWrites_assoc (a b c : Option (List Write)) :
    appendWrites (appendWrites a b) c = appendWrites a (appendWrites b c) := by
  cases a <;> cases b <;> cases c <;> simp [appendWrites]

/-- The calls of the loop of `Render` over a concatenation. -/
theorem renderLoop.writes_append (fm : FloatMath ℚ) (config : Config) (canvasSize : Int × Int)
    (lights : List (Light ℚ)) : ∀ a b : List Triangle,
    renderLoop.writes fm config canvasSize lights (a ++ b) =
      appendWrites (renderLoop.writes fm config canvasSize lights a)
        (renderLoop.writes fm config canvasSize lights b) := by
  intro a
  induction a with
  | nil =>
    intro b
    simp only [List.nil_append, renderLoop.writes]
    cases renderLoop.writes fm config canvasSize lights b <;> rfl
  | cons t a ih =>
    intro b
    show appendWrites _ (renderLoop.writes fm config canvasSize lights (a ++ b)) =
      appendWrites (appendWrites _ (renderLoop.writes fm config canvasSize lights a)) _
    rw [ih, appendWrites_assoc]

/-- Rendering a list concatenated with itself on a safe viewport is rendering
it once. -/
theorem Render_append_self {V : Type} (I : IViewport V) (Inv : V → Prop) (hI : I.Safe Inv)
    (fm : FloatMath ℚ) (config : Config) (viewport : V) (hinv : Inv viewport)
    (triangles : List Triangle) (lights : List (Light ℚ)) :
    Render I fm config viewport (triangles ++ triangles) lights =
      Render I fm config viewport triangles lights := by
  rw [Render_eq_writes, Render_eq_writes]
  cases hnew : ViewportWithZBuffer.new I viewport with
  | none => rfl
  | some s0 =>
    simp only
    obtain ⟨hwf, hv, _, _⟩ := new_fresh I viewport s0 hnew
    rw [renderLoop.writes_append, runWrites_append]
    cases hws : renderLoop.writes fm config (I.Width viewport, I.Height viewport) lights
      triangles with
    | none => rfl
    | some ws =>
      show ((putAll I s0 ws).bind (fun s1 => putAll I s1 ws)).map (fun s => s.viewport) =
        (putAll I s0 ws).map (fun s => s.viewport)
      cases hput : putAll I s0 ws with
      | none => rfl
      | some s1 =>
        obtain ⟨hwf1, _, _, _, hge⟩ :=
          putAll_stored_ge I Inv hI ws s0 s1 hwf (hv ▸ hinv) hput
        show (putAll I s1 ws).map (fun s => s.viewport) = some s1.viewport
        rw [putAll_rejected I hwf1 ws hge]
        rfl

end Renderer

/-- Two canvases of the same shape that agree at the index of every valid
point are equal. -/
theorem Canvas.eq_of_pixels {W H : Int} (hW : 0 ≤ W) {c1 c2 : Canvas} (h1 : c1.HasShape W H)
    (h2 : c2.HasShape W H)
    (h : ∀ p, CanvasViewport.Valid W H p →
      c2.pixels[(CanvasViewport.index W H p).toNat]? =
        c1.pixels[(CanvasViewport.index W H p).toNat]?) : c2 = c1 := by
  obtain ⟨hw1, hh1, hl1⟩ := h1
  obtain ⟨hw2, hh2, hl2⟩ := h2
  have hpix : c2.pixels = c1.pixels := by
    apply List.ext_getElem?
    intro k
    by_cases hk : k < (W * H).toNat
    · obtain ⟨p, hp, hidx⟩ := CanvasViewport.index_surj hW hk
      rw [← hidx]
      exact h p hp
    · rw [List.getElem?_eq_none (by omega), List.getElem?_eq_none (by omega)]
  cases c1
  cases c2
  simp only at hw1 hw2 hh1 hh2 hpix
  simp only [Canvas.mk.injEq]
  exact ⟨hpix, hw2.trans hw1.symm, hh2.trans hh1.symm⟩

namespace Renderer
open ViewportWithZBuffer

/-- The method `Render` on a canvas, read pixel by pixel: a pixel outside the
range of the depth buffer keeps its colour; a pixel inside ends with the colour
of `pixelRun` from depth 0 over the calls aimed at it. -/
theorem Render_canvas (fm : FloatMath ℚ) (config : Config) {W H : Int} (canvas : Canvas)
    (hshape : canvas.HasShape W H) (s0 : ViewportWithZBuffer Canvas)
    (hnew : ViewportWithZBuffer.new CanvasViewport.viewport canvas = some s0)
    (triangles : List Triangle) (lights : List (Light ℚ)) (ws : List Write)
    (hws : renderLoop.writes fm config (W, H) lights triangles = some ws) :
    ∃ c1, Render CanvasViewport.viewport fm config canvas triangles lights = some c1 ∧
      c1.HasShape W H ∧
      ∀ p, CanvasViewport.Valid W H p →
        (¬ s0.InRange p → c1.pixels[(CanvasViewport.index W H p).toNat]? =
          canvas.pixels[(CanvasViewport.index W H p).toNat]?) ∧
        (s0.InRange p → ∀ col, canvas.pixels[(CanvasViewport.index W H p).toNat]? = some col →
          c1.pixels[(CanvasViewport.index W H p).toNat]? =
            some (pixelRun (0, col) (ws.filter (fun w => decide (w.point = p)))).2) := by
  obtain ⟨hwf, hv, _, hzero⟩ := new_fresh CanvasViewport.viewport canvas s0 hnew
  have hshape0 : s0.viewport.HasShape W H := by rw [hv]; exact hshape
  obtain ⟨s1, hput, _, _, _, hshape1, hpix⟩ := putAll_canvas ws s0 hwf hshape0
  have hWH : (CanvasViewport.viewport.Width canvas, CanvasViewport.viewport.Height canvas) =
      (W, H) := by
    show (canvas.width, canvas.height) = (W, H)
    rw [hshape.1, hshape.2.1]
  refine ⟨s1.viewport, ?_, hshape1, ?_⟩
  · rw [Render_eq_writes, hnew]
    simp only
    rw [hWH, hws]
    show (putAll CanvasViewport.viewport s0 ws).map (fun s => s.viewport) = _
    rw [hput]
    rfl
  · intro p hp
    obtain ⟨hN, hR⟩ := hpix p hp
    rw [hv] at hN hR
    refine ⟨hN, ?_⟩
    intro hr col hcol
    have := (hR hr col hcol).2
    rw [hzero] at this
    exact this

end Renderer

namespace Renderer
open ViewportWithZBuffer

/-- C16: `Render` is idempotent on a canvas whose buffer holds
`width * height` pixels.  Calling `Render` and then `Render` again with the
same arguments on the resulting canvas gives the canvas of the first call
(when the first call leaves the model, so does the pair).  Within one call,
rendering the list concatenated with itself gives the result of rendering it
once: after the first pass every call of the second pass that is in range has
`z` not greater than the stored depth, so the second pass leaves the sink as it
is. -/
theorem Render_idempotent (fm : FloatMath ℚ) (config : Config) (canvas : Canvas)
    (hlen : canvas.pixels.length = (canvas.width * canvas.height).toNat)
    (triangles : List Triangle) (lights : List (Light ℚ)) :
    (Render CanvasViewport.viewport fm config canvas triangles lights).bind
        (fun c1 => Render CanvasViewport.viewport fm config c1 triangles lights) =
      Render CanvasViewport.viewport fm config canvas triangles lights ∧
    Render CanvasViewport.viewport fm config canvas (triangles ++ triangles) lights =
      Render CanvasViewport.viewport fm config canvas triangles lights ∧
    ∀ (s0 s1 : ViewportWithZBuffer Canvas) (ws : List Write),
      ViewportWithZBuffer.new CanvasViewport.viewport canvas = some s0 →
      renderLoop.writes fm config (canvas.width, canvas.height) lights triangles = some ws →
      putAll CanvasViewport.viewport s0 ws = some s1 →
      (∀ w ∈ ws, s1.InRange w.point →
        w.z ≤ s1.depthAt (w.point.y - s1.center.y) (w.point.x - s1.center.x)) ∧
      putAll CanvasViewport.viewport s1 ws = some s1 := by
  refine ⟨?_, ?_, ?_⟩
  · by_cases hneg : canvas.width < 0 ∨ canvas.height < 0
    · have hnone : Render CanvasViewport.viewport fm config canvas triangles lights = none := by
        have hn : ViewportWithZBuffer.new CanvasViewport.viewport canvas = none := by
          unfold ViewportWithZBuffer.new
          exact if_pos hneg
        rw [Render_eq_writes, hn]
      rw [hnone]
      rfl
    · have hW : 0 ≤ canvas.width := by omega
      have hH : 0 ≤ canvas.height := by omega
      have hshape : canvas.HasShape canvas.width canvas.height := ⟨rfl, rfl, hlen⟩
      obtain ⟨s0, hnew, hwf0, _, hsize0, _⟩ :=
        new_eq_some CanvasViewport.viewport canvas hW hH
      cases hws : renderLoop.writes fm config (canvas.width, canvas.height) lights triangles with
      | none =>
        have hnone : Render CanvasViewport.viewport fm config canvas triangles lights = none := by
          rw [Render_eq_writes, hnew]
          show (runWrites CanvasViewport.viewport (renderLoop.writes fm config
            (canvas.width, canvas.height) lights triangles) s0).map _ = none
          rw [hws]
          rfl
        rw [hnone]
        rfl
      | some ws =>
        obtain ⟨c1, hr1, hshape1, hpix1⟩ :=
          Render_canvas fm config canvas hshape s0 hnew triangles lights ws hws
        have hW1 : 0 ≤ CanvasViewport.viewport.Width c1 := by
          show 0 ≤ c1.width
          rw [hshape1.1]; exact hW
        have hH1 : 0 ≤ CanvasViewport.viewport.Height c1 := by
          show 0 ≤ c1.height
          rw [hshape1.2.1]; exact hH
        obtain ⟨t0, hnewt, hwft, _, hsizet, _⟩ :=
          new_eq_some CanvasViewport.viewport c1 hW1 hH1
        obtain ⟨c2, hr2, hshape2, hpix2⟩ :=
          Render_canvas fm config c1 hshape1 t0 hnewt triangles lights ws hws
        have hsz : t0.size = s0.size := by
          rw [hsizet, hsize0]
          show CanvasPoint.mk c1.width c1.height = CanvasPoint.mk canvas.width canvas.height
          rw [hshape1.1, hshape1.2.1]
        have hct : t0.center = s0.center := by
          rw [hwft.2.2.2.2, hwf0.2.2.2.2, hsz]
        rw [hr1]
        show Render CanvasViewport.viewport fm config c1 triangles lights = some c1
        rw [hr2]
        congr 1
        apply Canvas.eq_of_pixels hW hshape1 hshape2
        intro p hp
        obtain ⟨hN1, hR1⟩ := hpix1 p hp
        obtain ⟨hN2, hR2⟩ := hpix2 p hp
        have hrange := InRange_congr hct hsz p
        by_cases hr : s0.InRange p
        · have hlt : (CanvasViewport.index canvas.width canvas.height p).toNat <
              canvas.pixels.length := by
            have := CanvasViewport.index_bounds hp
            rw [hlen]
            omega
          have hcol := List.getElem?_eq_getElem hlt
          have e1 := hR1 hr _ hcol
          rw [hR2 (hrange.mpr hr) _ e1, e1, pixelRun_twice]
        · exact hN2 (fun h => hr (hrange.mp h))
  · exact Render_append_self CanvasViewport.viewport _ CanvasViewport.viewport_safe fm config
      canvas hlen triangles lights
  · intro s0 s1 ws hnew _ hput
    obtain ⟨hwf, hv, _, _⟩ := new_fresh CanvasViewport.viewport canvas s0 hnew
    obtain ⟨hwf1, _, _, _, hge⟩ :=
      putAll_stored_ge CanvasViewport.viewport _ CanvasViewport.viewport_safe ws s0 s1 hwf
        (by rw [hv]; exact hlen) hput
    exact ⟨hge, putAll_rejected CanvasViewport.viewport hwf1 ws hge⟩

/-- C16, witness: the triangle `(-1,-1,0.5), (1,-1,3), (0,1,3)` in Fill mode
on the blank 4 by 4 canvas with one ambient light of intensity 1; the first
call returns a canvas that is not the blank one. -/
theorem Render_idempotent_witness :
    (Sample.blank 4 4).pixels.length =
      ((Sample.blank 4 4).width * (Sample.blank 4 4).height).toNat ∧
    (Render CanvasViewport.viewport Sample.floatMath Sample.configFill (Sample.blank 4 4)
        [Sample.triangleShiny] [Light.AmbientLight 1]).isSome = true ∧
    Render CanvasViewport.viewport Sample.floatMath Sample.configFill (Sample.blank 4 4)
        [Sample.triangleShiny] [Light.AmbientLight 1] ≠ some (Sample.blank 4 4) ∧
    (Render CanvasViewport.viewport Sample.floatMath Sample.configFill (Sample.blank 4 4)
        [Sample.triangleShiny] [Light.AmbientLight 1]).bind
        (fun c1 => Render CanvasViewport.viewport Sample.floatMath Sample.configFill c1
          [Sample.triangleShiny] [Light.AmbientLight 1]) =
      Render CanvasViewport.viewport Sample.floatMath Sample.configFill (Sample.blank 4 4)
        [Sample.triangleShiny] [Light.AmbientLight 1] :=
  ⟨by decide, by decide!, by decide!,
    (Render_idempotent Sample.floatMath Sample.configFill (Sample.blank 4 4) (by decide)
      [Sample.triangleShiny] [Light.AmbientLight 1]).1⟩

end Renderer

namespace Renderer
open ViewportWithZBuffer

/-- A triangle with no vertex out of visible range is passed on as it is. -/
theorem calls_all_in (config : Config) (t : Triangle)
    (h0 : IsOutOfVisibleRange config t.p0 = false) (h1 : IsOutOfVisibleRange config t.p1 = false)
    (h2 : IsOutOfVisibleRange config t.p2 = false) : DrawFilledTriangle.calls config t = [t] := by
  simp [DrawFilledTriangle.calls, h0, h1, h2]

/-- For a triangle whose vertices are all at the depth `z0 > d`, every call of
`DrawFilledTriangle` passes the depth `1 / z0`. -/
theorem DrawFilledTriangle.writes_const (fm : FloatMath ℚ) (config : Config)
    (canvasSize : Int × Int) (t : Triangle) (lights : List (Light ℚ)) (ws : List Write) (z0 : ℚ)
    (hz : config.d < z0) (ht : t.p0.z = z0 ∧ t.p1.z = z0 ∧ t.p2.z = z0)
    (h : DrawFilledTriangle.writes fm config canvasSize t lights = some ws) :
    ∀ w ∈ ws, w.z = 1 / z0 := by
  obtain ⟨e0, e1, e2⟩ := ht
  have hout : ∀ p : Vector3 ℚ, p.z = z0 → IsOutOfVisibleRange config p = false := by
    intro p hp
    simp only [IsOutOfVisibleRange, hp, decide_eq_false_iff_not, not_le]
    exact hz
  unfold DrawFilledTriangle.writes at h
  rw [calls_all_in config t (hout _ e0) (hout _ e1) (hout _ e2)] at h
  refine drawFilledAll.writes_forall fm config canvasSize lights (fun w => w.z = 1 / z0) [t] ws
    ?_ h
  intro t1 ht1 l hl w hw
  rw [List.mem_singleton] at ht1
  subst ht1
  have hb := DrawFilledTriangleImpl.writes_recip_bounds fm config canvasSize t1 lights l (1 / z0)
    (1 / z0) hl (by rw [e0]; exact ⟨le_refl _, le_refl _⟩)
    (by rw [e1]; exact ⟨le_refl _, le_refl _⟩) (by rw [e2]; exact ⟨le_refl _, le_refl _⟩) w hw
  exact le_antisymm hb.2 hb.1

/-- The calls of `Render` in Fill mode on a list of two triangles. -/
theorem renderLoop.writes_pair (fm : FloatMath ℚ) (config : Config)
    (hmode : config.mode = RenderMode.FILL) (canvasSize : Int × Int) (lights : List (Light ℚ))
    (A B : Triangle) (wA wB : List Write)
    (hwA : DrawFilledTriangle.writes fm config canvasSize A lights = some wA)
    (hwB : DrawFilledTriangle.writes fm config canvasSize B lights = some wB) :
    renderLoop.writes fm config canvasSize lights [A, B] = some (wA ++ wB) := by
  have hm : ¬ config.mode = RenderMode.WIREFRAME := by rw [hmode]; decide
  simp only [renderLoop.writes, hm, if_false, hwA, hwB, appendWrites, List.append_nil]

/-- C15 (amended): depth ordering in Fill mode, in exact arithmetic.  Let `d > 0` and let `A`, `B` be
triangles of constant depth `za` and `zb` with `d < za < zb`, drawn on a canvas
of `W * H` pixels; `wA` and `wB` are the `PutPixel` calls `DrawFilledTriangle`
makes for them (empty for a back-facing triangle).  Every call for `A` passes
the depth `1 / za` and every call for `B` the depth `1 / zb`, which is smaller.
`Render` returns for both orders of the list, and at every canvas pixel in the
range of the depth buffer that `A` writes, the canvas ends with the colour of
the first call of `A` aimed at that pixel, whether `A` or `B` comes first. -/
theorem nearer_triangle_wins (fm : FloatMath ℚ) (config : Config) (hd : 0 < config.d)
    (hmode : config.mode = RenderMode.FILL) (canvas : Canvas)
    (hlen : canvas.pixels.length = (canvas.width * canvas.height).toNat)
    (hW : 0 ≤ canvas.width) (hH : 0 ≤ canvas.height) (A B : Triangle) (lights : List (Light ℚ))
    (za zb : ℚ) (hA : A.p0.z = za ∧ A.p1.z = za ∧ A.p2.z = za)
    (hB : B.p0.z = zb ∧ B.p1.z = zb ∧ B.p2.z = zb) (hza : config.d < za) (hzb : za < zb)
    (wA wB : List Write)
    (hwA : DrawFilledTriangle.writes fm config (canvas.width, canvas.height) A lights = some wA)
    (hwB : DrawFilledTriangle.writes fm config (canvas.width, canvas.height) B lights = some wB) :
    (∀ w ∈ wA, w.z = 1 / za) ∧ (∀ w ∈ wB, w.z = 1 / zb) ∧ 1 / zb < 1 / za ∧
    ∃ s0 c1 c2, ViewportWithZBuffer.new CanvasViewport.viewport canvas = some s0 ∧
      Render CanvasViewport.viewport fm config canvas [A, B] lights = some c1 ∧
      Render CanvasViewport.viewport fm config canvas [B, A] lights = some c2 ∧
      ∀ p, CanvasViewport.Valid canvas.width canvas.height p → s0.InRange p →
        ∀ wa, (wA.filter (fun w => decide (w.point = p))).head? = some wa →
          c1.pixels[(CanvasViewport.index canvas.width canvas.height p).toNat]? =
            some wa.color ∧
          c2.pixels[(CanvasViewport.index canvas.width canvas.height p).toNat]? =
            some wa.color := by
  have hza0 : 0 < za := lt_trans hd hza
  have hzA := DrawFilledTriangle.writes_const fm config _ A lights wA za hza hA hwA
  have hzB := DrawFilledTriangle.writes_const fm config _ B lights wB zb (lt_trans hza hzb) hB hwB
  have hlt : 1 / zb < 1 / za := one_div_lt_one_div_of_lt hza0 hzb
  refine ⟨hzA, hzB, hlt, ?_⟩
  have hshape : canvas.HasShape canvas.width canvas.height := ⟨rfl, rfl, hlen⟩
  obtain ⟨s0, hnew, _, _, _, _⟩ := new_eq_some CanvasViewport.viewport canvas hW hH
  obtain ⟨c1, hr1, _, hpix1⟩ := Render_canvas fm config canvas hshape s0 hnew [A, B] lights
    (wA ++ wB) (renderLoop.writes_pair fm config hmode _ lights A B wA wB hwA hwB)
  obtain ⟨c2, hr2, _, hpix2⟩ := Render_canvas fm config canvas hshape s0 hnew [B, A] lights
    (wB ++ wA) (renderLoop.writes_pair fm config hmode _ lights B A wB wA hwB hwA)
  refine ⟨s0, c1, c2, hnew, hr1, hr2, ?_⟩
  intro p hp hr wa hwa
  have hidx : (CanvasViewport.index canvas.width canvas.height p).toNat <
      canvas.pixels.length := by
    have := CanvasViewport.index_bounds hp
    rw [hlen]
    omega
  have hcol := List.getElem?_eq_getElem hidx
  have e1 := (hpix1 p hp).2 hr _ hcol
  have e2 := (hpix2 p hp).2 hr _ hcol
  rw [List.filter_append] at e1 e2
  have hfA : ∀ w ∈ wA.filter (fun w => decide (w.point = p)), w.z = 1 / za :=
    fun w hw => hzA w (List.mem_filter.mp hw).1
  have hfB : ∀ w ∈ wB.filter (fun w => decide (w.point = p)), w.z < 1 / za :=
    fun w hw => by rw [hzB w (List.mem_filter.mp hw).1]; exact hlt
  obtain ⟨n1, n2⟩ := pixelRun_nearer _ _ wa (1 / za) 0
    (canvas.pixels[(CanvasViewport.index canvas.width canvas.height p).toNat])
    (one_div_pos.mpr hza0) hfA hfB hwa
  rw [e1, e2, n1, n2]
  exact ⟨rfl, rfl⟩

/-- C15, witness: `d = 1`, the red triangle at `za = 2` and the blue triangle
at `zb = 4` over the same pixels of the blank 4 by 4 canvas, one ambient light
of intensity 1.  In both orders the five covered pixels end red, among them the
pixel of the point `(0, 0)`. -/
theorem nearer_triangle_wins_witness :
    0 < Sample.configFill.d ∧ Sample.configFill.d < 2 ∧ (2 : ℚ) < 4 ∧
    Render CanvasViewport.viewport Sample.floatMath Sample.configFill (Sample.blank 4 4)
        [Sample.triangleNear, Sample.triangleFar] [Light.AmbientLight 1] =
      some (Canvas.mk (List.replicate 6 (Color.mk 0 0 0 0) ++ [Sample.red] ++
        List.replicate 3 (Color.mk 0 0 0 0) ++ [Sample.red] ++
        List.replicate 2 (Color.mk 0 0 0 0) ++ [Sample.red, Sample.red, Sample.red]) 4 4) ∧
    Render CanvasViewport.viewport Sample.floatMath Sample.configFill (Sample.blank 4 4)
        [Sample.triangleFar, Sample.triangleNear] [Light.AmbientLight 1] =
      some (Canvas.mk (List.replicate 6 (Color.mk 0 0 0 0) ++ [Sample.red] ++
        List.replicate 3 (Color.mk 0 0 0 0) ++ [Sample.red] ++
        List.replicate 2 (Color.mk 0 0 0 0) ++ [Sample.red, Sample.red, Sample.red]) 4 4) ∧
    ∃ c1 c2,
      Render CanvasViewport.viewport Sample.floatMath Sample.configFill (Sample.blank 4 4)
        [Sample.triangleNear, Sample.triangleFar] [Light.AmbientLight 1] = some c1 ∧
      Render CanvasViewport.viewport Sample.floatMath Sample.configFill (Sample.blank 4 4)
        [Sample.triangleFar, Sample.triangleNear] [Light.AmbientLight 1] = some c2 ∧
      c1.pixels[(CanvasViewport.index 4 4 { x := 0, y := 0 }).toNat]? = some Sample.red ∧
      c2.pixels[(CanvasViewport.index 4 4 { x := 0, y := 0 }).toNat]? = some Sample.red := by
  refine ⟨by decide!, by decide!, by decide!, by decide!, by decide!, ?_⟩
  obtain ⟨_, _, _, s0, c1, c2, hnew, h1, h2, hpix⟩ :=
    nearer_triangle_wins Sample.floatMath Sample.configFill (by decide!) rfl (Sample.blank 4 4)
      (by decide) (by decide) (by decide) Sample.triangleNear Sample.triangleFar
      [Light.AmbientLight 1] 2 4 (by decide!) (by decide!) (by decide!) (by decide!)
      ((DrawFilledTriangle.writes Sample.floatMath Sample.configFill (4, 4) Sample.triangleNear
        [Light.AmbientLight 1]).getD [])
      ((DrawFilledTriangle.writes Sample.floatMath Sample.configFill (4, 4) Sample.triangleFar
        [Light.AmbientLight 1]).getD [])
      (by decide!) (by decide!)
  have hs0 : ViewportWithZBuffer.new CanvasViewport.viewport (Sample.blank 4 4) =
      some { zbuffer := List.replicate 4 (List.replicate 4 0), viewport := Sample.blank 4 4,
             center := { x := -2, y := -2 }, size := { x := 4, y := 4 } } := by decide!
  rw [hs0] at hnew
  cases hnew
  exact ⟨c1, c2, h1, h2,
    hpix { x := 0, y := 0 } (by unfold CanvasViewport.Valid; decide)
      (by unfold ViewportWithZBuffer.InRange; decide)
      { point := { x := 0, y := 0 }, z := 1 / 2, color := Sample.red } (by decide!)⟩

end Renderer

namespace Renderer

/-- The value `h.Dot(n)` of `IsBackFacing` is the scalar triple product of the
three vertices. -/
theorem hDotN_eq_triple (t : Triangle) :
    IsBackFacing.hDotN t = t.p0.Dot (t.p1.Cross t.p2) := by
  simp only [IsBackFacing.hDotN, Vector3.Dot, Vector3.Cross, Vector3.sub, Vector3.add,
    Vector3.smul]
  ring

/-- C30: in exact arithmetic the backface test is a scalar triple product.
For every triangle, `h . n` with `n = (P1 - P0) x (P2 - P0)` and
`h = (P0 + P1 + P2) / 3` equals `P0 . (P1 x P2)`, the determinant of the three
vertices; `IsBackFacing` holds iff that determinant is negative; it is
unchanged by the two cyclic rotations of the vertices; it is false for a
triangle of zero area (`n = 0`) and for a triangle whose plane passes through
the origin (the origin is `P0 + s (P1 - P0) + u (P2 - P0)` for some `s`, `u`,
or some non-zero vector is orthogonal to the three vertices). -/
theorem IsBackFacing_triple_product (t : Triangle) :
    IsBackFacing.hDotN t = t.p0.Dot (t.p1.Cross t.p2) ∧
    t.p0.Dot (t.p1.Cross t.p2) =
      t.p0.x * (t.p1.y * t.p2.z - t.p2.y * t.p1.z) -
      t.p0.y * (t.p1.x * t.p2.z - t.p2.x * t.p1.z) +
      t.p0.z * (t.p1.x * t.p2.y - t.p2.x * t.p1.y) ∧
    (IsBackFacing t = true ↔ t.p0.Dot (t.p1.Cross t.p2) < 0) ∧
    IsBackFacing { t with p0 := t.p1, p1 := t.p2, p2 := t.p0 } = IsBackFacing t ∧
    IsBackFacing { t with p0 := t.p2, p1 := t.p0, p2 := t.p1 } = IsBackFacing t ∧
    ((t.p1.sub t.p0).Cross (t.p2.sub t.p0) = { x := 0, y := 0, z := 0 } →
      IsBackFacing t = false) ∧
    (∀ s u : ℚ,
      (t.p0.add ((t.p1.sub t.p0).smul s)).add ((t.p2.sub t.p0).smul u) =
        { x := 0, y := 0, z := 0 } → IsBackFacing t = false) ∧
    (∀ m : Vector3 ℚ, m ≠ { x := 0, y := 0, z := 0 } → m.Dot t.p0 = 0 → m.Dot t.p1 = 0 →
      m.Dot t.p2 = 0 → IsBackFacing t = false) := by
  have hfalse : ∀ t1 : Triangle, t1.p0.Dot (t1.p1.Cross t1.p2) = 0 → IsBackFacing t1 = false := by
    intro t1 h
    simp only [IsBackFacing, hDotN_eq_triple, h, lt_irrefl, decide_False]
  refine ⟨hDotN_eq_triple t, ?_, ?_, ?_, ?_, ?_, ?_, ?_⟩
  · simp only [Vector3.Dot, Vector3.Cross]
    ring
  · simp only [IsBackFacing, hDotN_eq_triple, decide_eq_true_eq]
  · simp only [IsBackFacing, hDotN_eq_triple]
    congr 1
    simp only [Vector3.Dot, Vector3.Cross]
    apply propext
    constructor <;> intro h <;> linarith
  · simp only [IsBackFacing, hDotN_eq_triple]
    congr 1
    simp only [Vector3.Dot, Vector3.Cross]
    apply propext
    constructor <;> intro h <;> linarith
  · intro h
    apply hfalse
    simp only [Vector3.Cross, Vector3.sub, Vector3.mk.injEq] at h
    obtain ⟨h1, h2, h3⟩ := h
    simp only [Vector3.Dot, Vector3.Cross]
    linear_combination t.p0.x * h1 + t.p0.y * h2 + t.p0.z * h3
  · intro s u h
    apply hfalse
    simp only [Vector3.add, Vector3.sub, Vector3.smul, Vector3.mk.injEq] at h
    obtain ⟨h1, h2, h3⟩ := h
    simp only [Vector3.Dot, Vector3.Cross]
    linear_combination
      ((t.p1.y - t.p0.y) * (t.p2.z - t.p0.z) - (t.p2.y - t.p0.y) * (t.p1.z - t.p0.z)) * h1 +
      ((t.p1.z - t.p0.z) * (t.p2.x - t.p0.x) - (t.p1.x - t.p0.x) * (t.p2.z - t.p0.z)) * h2 +
      ((t.p1.x - t.p0.x) * (t.p2.y - t.p0.y) - (t.p2.x - t.p0.x) * (t.p1.y - t.p0.y)) * h3
  · intro m hm h0 h1 h2
    apply hfalse
    simp only [Vector3.Dot] at h0 h1 h2
    have hx : m.x * t.p0.Dot (t.p1.Cross t.p2) = 0 := by
      simp only [Vector3.Dot, Vector3.Cross]
      linear_combination (t.p1.y * t.p2.z - t.p2.y * t.p1.z) * h0 +
        (t.p2.y * t.p0.z - t.p0.y * t.p2.z) * h1 + (t.p0.y * t.p1.z - t.p1.y * t.p0.z) * h2
    have hy : m.y * t.p0.Dot (t.p1.Cross t.p2) = 0 := by
      simp only [Vector3.Dot, Vector3.Cross]
      linear_combination (t.p1.z * t.p2.x - t.p1.x * t.p2.z) * h0 +
        (t.p2.z * t.p0.x - t.p2.x * t.p0.z) * h1 + (t.p0.z * t.p1.x - t.p0.x * t.p1.z) * h2
    have hz : m.z * t.p0.Dot (t.p1.Cross t.p2) = 0 := by
      simp only [Vector3.Dot, Vector3.Cross]
      linear_combination (t.p1.x * t.p2.y - t.p2.x * t.p1.y) * h0 +
        (t.p2.x * t.p0.y - t.p0.x * t.p2.y) * h1 + (t.p0.x * t.p1.y - t.p1.x * t.p0.y) * h2
    by_contra hdet
    apply hm
    rcases mul_eq_zero.mp hx with hx0 | hx0
    · rcases mul_eq_zero.mp hy with hy0 | hy0
      · rcases mul_eq_zero.mp hz with hz0 | hz0
        · cases m
          simp only [Vector3.mk.injEq]
          exact ⟨hx0, hy0, hz0⟩
        · exact absurd hz0 hdet
      · exact absurd hy0 hdet
    · exact absurd hx0 hdet

end Renderer

namespace Renderer

/-- The sort returns its three arguments in some order. -/
theorem sortByY_perm (a b c : Vertex) :
    [(sortByY a b c).1, (sortByY a b c).2.1, (sortByY a b c).2.2].Perm [a, b, c] := by
  unfold sortByY
  by_cases h1 : b.p.y < a.p.y
  · simp only [h1, if_true]
    by_cases h2 : c.p.y < b.p.y
    · simp only [h2, if_true]
      exact ((List.Perm.swap b c [a]).trans (List.Perm.cons b (List.Perm.swap a c []))).trans
        (List.Perm.swap a b [c])
    · simp only [h2, if_false]
      by_cases h3 : c.p.y < a.p.y
      · simp only [h3, if_true]
        exact (List.Perm.cons b (List.Perm.swap a c [])).trans (List.Perm.swap a b [c])
      · simp only [h3, if_false]
        exact List.Perm.swap a b [c]
  · simp only [h1, if_false]
    by_cases h2 : c.p.y < a.p.y
    · simp only [h2, if_true]
      exact (List.Perm.swap a c [b]).trans (List.Perm.cons a (List.Perm.swap b c []))
    · simp only [h2, if_false]
      by_cases h3 : c.p.y < b.p.y
      · simp only [h3, if_true]
        exact List.Perm.cons a (List.Perm.swap b c [])
      · simp only [h3, if_false]
        exact List.Perm.refl _

/-- C29: the vertex sort of `DrawFilledTriangleImpl`.  Whenever the three
vertices project, the sorted entries `(v0, v1, v2)` of `points[3]` are a
permutation of the three records (projected point, depth `z`, intensity) built
from `points[0..2]` of the triangle, each record moved as a whole, and
`v0.p.y ≤ v1.p.y ≤ v2.p.y`.  The sort itself returns a sorted permutation of
any three records. -/
theorem sort_is_sorted_permutation (fm : FloatMath ℚ) (config : Config) (canvasSize : Int × Int)
    (triangle : Triangle) (lights : List (Light ℚ)) :
    (∀ a b c : Vertex,
      [(sortByY a b c).1, (sortByY a b c).2.1, (sortByY a b c).2.2].Perm [a, b, c] ∧
      (sortByY a b c).1.p.y ≤ (sortByY a b c).2.1.p.y ∧
      (sortByY a b c).2.1.p.y ≤ (sortByY a b c).2.2.p.y) ∧
    (∀ q0 q1 q2 : CanvasPoint,
      ProjectPoint config canvasSize triangle.p0 = some q0 →
      ProjectPoint config canvasSize triangle.p1 = some q1 →
      ProjectPoint config canvasSize triangle.p2 = some q2 →
      ∃ v0 v1 v2 : Vertex,
        sortedVertices fm config canvasSize triangle lights = some (v0, v1, v2) ∧
        [v0, v1, v2].Perm
          [{ p := q0, z := triangle.p0.z,
             l := ComputeLighting fm triangle.p0 triangle.n0 lights triangle.specular },
           { p := q1, z := triangle.p1.z,
             l := ComputeLighting fm triangle.p1 triangle.n1 lights triangle.specular },
           { p := q2, z := triangle.p2.z,
             l := ComputeLighting fm triangle.p2 triangle.n2 lights triangle.specular }] ∧
        v0.p.y ≤ v1.p.y ∧ v1.p.y ≤ v2.p.y) := by
  refine ⟨fun a b c => ⟨sortByY_perm a b c, sortByY_sorted a b c⟩, ?_⟩
  intro q0 q1 q2 h0 h1 h2
  refine ⟨_, _, _, ?_, sortByY_perm _ _ _, sortByY_sorted _ _ _⟩
  simp only [sortedVertices, h0, h1, h2]

end Renderer

/-- C26: scene DTO decoding.  `DeserializeConfig` maps mode code 1 to
`WIREFRAME` and 2 to `FILL`, projection code 1 to `ISOMETRIC` and 2 to
`PERSPECTIVE`, and copies `d` and both view extents unchanged.
`DeserializeLight` maps type 0 to an `AmbientLight`, 1 to a `PointLight` at the
DTO position, and every other type code (2 among them) to a `DirectionalLight`
whose direction is the DTO position field, each with the DTO intensity. -/
theorem Deserialize_codes :
    (∀ (d v0 v1 : ℚ) (projection : Int), projection = 1 ∨ projection = 2 →
      ∃ c, DeserializeConfig (ConfigDTO.mk d v0 v1 1 projection) = some c ∧
        c.mode = RenderMode.WIREFRAME ∧ c.d = d ∧ c.viewSize0 = v0 ∧ c.viewSize1 = v1) ∧
    (∀ (d v0 v1 : ℚ) (projection : Int), projection = 1 ∨ projection = 2 →
      ∃ c, DeserializeConfig (ConfigDTO.mk d v0 v1 2 projection) = some c ∧
        c.mode = RenderMode.FILL ∧ c.d = d ∧ c.viewSize0 = v0 ∧ c.viewSize1 = v1) ∧
    (∀ (d v0 v1 : ℚ) (mode : Int), mode = 1 ∨ mode = 2 →
      ∃ c, DeserializeConfig (ConfigDTO.mk d v0 v1 mode 1) = some c ∧
        c.projection = ProjectionType.ISOMETRIC ∧ c.d = d ∧ c.viewSize0 = v0 ∧
        c.viewSize1 = v1) ∧
    (∀ (d v0 v1 : ℚ) (mode : Int), mode = 1 ∨ mode = 2 →
      ∃ c, DeserializeConfig (ConfigDTO.mk d v0 v1 mode 2) = some c ∧
        c.projection = ProjectionType.PERSPECTIVE ∧ c.d = d ∧ c.viewSize0 = v0 ∧
        c.viewSize1 = v1) ∧
    (∀ (i : ℚ) (p : Vector3DTO),
      DeserializeLight { type := 0, intensity := i, position := p } = Light.AmbientLight i) ∧
    (∀ (i : ℚ) (p : Vector3DTO),
      DeserializeLight { type := 1, intensity := i, position := p } =
        Light.PointLight i { x := p.v0, y := p.v1, z := p.v2 }) ∧
    (∀ (code : Int) (i : ℚ) (p : Vector3DTO), code ≠ 0 → code ≠ 1 →
      DeserializeLight { type := code, intensity := i, position := p } =
        Light.DirectionalLight i { x := p.v0, y := p.v1, z := p.v2 }) ∧
    (∀ light : LightDTO, (DeserializeLight light).intensity = light.intensity) := by
  refine ⟨?_, ?_, ?_, ?_, ?_, ?_, ?_, ?_⟩
  · intro d v0 v1 projection h
    rcases h with h | h <;> subst h <;>
      exact ⟨_, rfl, rfl, rfl, rfl, rfl⟩
  · intro d v0 v1 projection h
    rcases h with h | h <;> subst h <;>
      exact ⟨_, rfl, rfl, rfl, rfl, rfl⟩
  · intro d v0 v1 mode h
    rcases h with h | h <;> subst h <;>
      exact ⟨_, rfl, rfl, rfl, rfl, rfl⟩
  · intro d v0 v1 mode h
    rcases h with h | h <;> subst h <;>
      exact ⟨_, rfl, rfl, rfl, rfl, rfl⟩
  · intro i p
    simp [DeserializeLight]
  · intro i p
    simp [DeserializeLight, DeserializeVector]
  · intro code i p h0 h1
    simp [DeserializeLight, DeserializeVector, h0, h1]
  · intro light
    unfold DeserializeLight
    split
    · rfl
    · split <;> rfl

namespace Renderer

/-- Closed form of `Interpolate` on `i0 ≤ i1` and an empty output vector: entry
`k` is `d0 + k * (d1 - d0) / (i1 - i0)`, the first entry is `d0`, and for
`i0 < i1` the last entry is `d1`. -/
theorem Interpolate_closed (i0 : Int) (d0 : ℚ) (i1 : Int) (d1 : ℚ) (h : i0 ≤ i1) :
    ∃ out, Interpolate i0 d0 i1 d1 [] = some out ∧ out.length = (i1 - i0 + 1).toNat ∧
      (∀ k : Nat, k ≤ (i1 - i0).toNat →
        out[k]? = some (d0 + (k : ℚ) * (d1 - d0) / ((i1 - i0 : Int) : ℚ))) ∧
      out[0]? = some d0 ∧ (i0 < i1 → out[(i1 - i0).toNat]? = some d1) := by
  rcases eq_or_lt_of_le h with h1 | h1
  · subst h1
    refine ⟨[d0], by simp [Interpolate], by simp, ?_, rfl, fun hlt => absurd hlt (lt_irrefl _)⟩
    intro k hk
    have hk0 : k = 0 := by omega
    subst hk0
    simp
  · obtain ⟨out, h2, h3, h4⟩ := Interpolate_of_lt i0 d0 i1 d1 [] h1
    refine ⟨out, h2, h3, h4, ?_, fun _ => ?_⟩
    · rw [h4 0 (by omega)]
      simp
    · rw [h4 _ (le_refl _)]
      congr 1
      have hpos : (0 : ℚ) < ((i1 - i0 : Int) : ℚ) := by
        exact_mod_cast (by omega : (0 : Int) < i1 - i0)
      have hcast : (((i1 - i0).toNat : Nat) : ℚ) = ((i1 - i0 : Int) : ℚ) := by
        have : (((i1 - i0).toNat : Nat) : Int) = i1 - i0 := Int.toNat_of_nonneg (by omega)
        exact_mod_cast this
      rw [hcast, mul_div_cancel_left₀ _ hpos.ne']
      ring

/-- C24: the shape of the edge arrays.  For rows `y0 ≤ y1 ≤ y2` (equalities
included) and any attribute values `d0`, `d1`, `d2` (the `x`, the `1/z` and the
intensity blocks of `DrawFilledTriangleImpl` are this same block), the
long-edge array and the concatenated short-edge array are built and both have
exactly `y2 - y0 + 1` entries, so every index `i` in `0 .. y2 - y0` is in
bounds of both; the first short segment has `y1 - y0 + 1 ≥ 1` entries when
`pop_back` is applied to it; and entry `y1 - y0` of the concatenation is `d1`
(`x012[p1.y - p0.y] = p1.x`). -/
theorem edgeArrays_shape (y0 : Int) (d0 : ℚ) (y1 : Int) (d1 : ℚ) (y2 : Int) (d2 : ℚ)
    (h01 : y0 ≤ y1) (h12 : y1 ≤ y2) :
    ∃ d02 d012 d01 d12,
      edgeArrays y0 d0 y1 d1 y2 d2 = some (d02, d012) ∧
      (d02.length : Int) = y2 - y0 + 1 ∧ (d012.length : Int) = y2 - y0 + 1 ∧
      (∀ i : Int, 0 ≤ i → i ≤ y2 - y0 →
        ∃ a b, d02[i.toNat]? = some a ∧ d012[i.toNat]? = some b) ∧
      Interpolate y0 d0 y1 d1 [] = some d01 ∧ (d01.length : Int) = y1 - y0 + 1 ∧
      pop_back d01 = some d01.dropLast ∧
      Interpolate y1 d1 y2 d2 [] = some d12 ∧ d012 = d01.dropLast ++ d12 ∧
      d012[(y1 - y0).toNat]? = some d1 := by
  obtain ⟨e02, h02, l02, _⟩ := Interpolate_closed y0 d0 y2 d2 (le_trans h01 h12)
  obtain ⟨e01, h01e, l01, _⟩ := Interpolate_closed y0 d0 y1 d1 h01
  obtain ⟨e12, h12e, l12, _, hfirst, _⟩ := Interpolate_closed y1 d1 y2 d2 h12
  have hne : e01 ≠ [] := by
    intro h
    rw [h] at l01
    simp only [List.length_nil] at l01
    omega
  have hpop : pop_back e01 = some e01.dropLast := by
    simp only [pop_back, if_neg hne]
  have hlen012 : (e01.dropLast ++ e12).length = (y2 - y0 + 1).toNat := by
    simp only [List.length_append, List.length_dropLast, l01, l12]
    omega
  refine ⟨e02, e01.dropLast ++ e12, e01, e12, ?_, by rw [l02]; omega, by rw [hlen012]; omega,
    ?_, h01e, by rw [l01]; omega, hpop, h12e, rfl, ?_⟩
  · simp only [edgeArrays, h02, h01e, h12e, hpop]
  · intro i hi0 hi1
    have ha : i.toNat < e02.length := by rw [l02]; omega
    have hb : i.toNat < (e01.dropLast ++ e12).length := by rw [hlen012]; omega
    exact ⟨_, _, List.getElem?_eq_getElem ha, List.getElem?_eq_getElem hb⟩
  · have hd : e01.dropLast.length = (y1 - y0).toNat := by
      rw [List.length_dropLast, l01]
      omega
    rw [List.getElem?_append_right (by rw [hd]), hd, Nat.sub_self]
    exact hfirst

/-- C24, witness: rows `0 = 0 ≤ 2` (a flat-topped triangle) with the values
`1, 3, 5`. -/
theorem edgeArrays_shape_witness :
    (0 : Int) ≤ 0 ∧ (0 : Int) ≤ 2 ∧
    ∃ d02 d012 d01 d12,
      edgeArrays 0 1 0 3 2 5 = some (d02, d012) ∧
      (d02.length : Int) = 2 - 0 + 1 ∧ (d012.length : Int) = 2 - 0 + 1 ∧
      (∀ i : Int, 0 ≤ i → i ≤ 2 - 0 →
        ∃ a b, d02[i.toNat]? = some a ∧ d012[i.toNat]? = some b) ∧
      Interpolate 0 1 0 3 [] = some d01 ∧ (d01.length : Int) = 0 - 0 + 1 ∧
      pop_back d01 = some d01.dropLast ∧
      Interpolate 0 3 2 5 [] = some d12 ∧ d012 = d01.dropLast ++ d12 ∧
      d012[((0 : Int) - 0).toNat]? = some 3 :=
  ⟨by decide, by decide, edgeArrays_shape 0 1 0 3 2 5 (by decide) (by decide)⟩

end Renderer

namespace Renderer
open ViewportWithZBuffer

/-- A finite list of rationals is bounded above. -/
theorem exists_upper_bound (l : List ℚ) : ∃ hi, ∀ v ∈ l, v ≤ hi := by
  induction l with
  | nil => exact ⟨0, fun v hv => absurd hv (List.not_mem_nil _)⟩
  | cons a l ih =>
    obtain ⟨hi, h⟩ := ih
    refine ⟨max a hi, ?_⟩
    intro v hv
    rcases List.mem_cons.mp hv with h1 | h1
    · rw [h1]; exact le_max_left _ _
    · exact le_trans (h v h1) (le_max_right _ _)

/-- The conversion to a byte of a value in `[0, 255]` is its floor. -/
theorem toUChar_min (v : ℚ) (hv : 0 ≤ v) :
    toUChar (min 255 v) = some ⌊min 255 v⌋.toNat ∧ 0 ≤ ⌊min 255 v⌋ ∧ ⌊min 255 v⌋ ≤ 255 := by
  have h0 : (0 : ℚ) ≤ min 255 v := le_min (by norm_num) hv
  have h1 : ¬ min 255 v ≤ -1 := by
    intro h
    linarith
  refine ⟨?_, Int.floor_nonneg.mpr h0, ?_⟩
  · simp only [toUChar, if_neg h1, truncToInt_eq, if_pos h0]
  · have : ⌊min 255 v⌋ ≤ ⌊(255 : ℚ)⌋ := Int.floor_le_floor (min_le_left _ _)
    have h255 : ⌊(255 : ℚ)⌋ = 255 := by
      have : ((255 : Int) : ℚ) = 255 := by norm_num
      rw [← this, Int.floor_intCast]
    rw [h255] at this
    exact this

/-- The colour emitted for a non-negative intensity, in closed form. -/
theorem shade_of_nonneg (color : Color) (l : ℚ) (hl : 0 ≤ l) :
    shade color l = some
      (Color.mk ⌊min 255 ((color.r : ℚ) * l)⌋.toNat ⌊min 255 ((color.g : ℚ) * l)⌋.toNat
        ⌊min 255 ((color.b : ℚ) * l)⌋.toNat color.a) := by
  have hr : (0 : ℚ) ≤ (color.r : ℚ) * l := mul_nonneg (Nat.cast_nonneg _) hl
  have hg : (0 : ℚ) ≤ (color.g : ℚ) * l := mul_nonneg (Nat.cast_nonneg _) hl
  have hb : (0 : ℚ) ≤ (color.b : ℚ) * l := mul_nonneg (Nat.cast_nonneg _) hl
  simp only [shade, (toUChar_min _ hr).1, (toUChar_min _ hg).1, (toUChar_min _ hb).1]

/-- The colour of every call of a scanline is the base colour modulated by an
intensity that lies between the bounds of the two intensity arrays. -/
theorem scanline.writes_row_shade (color : Color) (y0 : Int) (x02 x012 z02 z012 l02 l012 : List ℚ)
    (i : Int) (ws : List Write) (lo hi : ℚ)
    (h : scanline.writes color y0 x02 x012 z02 z012 l02 l012 i = some ws)
    (hl02 : ∀ v ∈ l02, lo ≤ v ∧ v ≤ hi) (hl012 : ∀ v ∈ l012, lo ≤ v ∧ v ≤ hi) :
    ∀ w ∈ ws, ∃ l, lo ≤ l ∧ l ≤ hi ∧ shade color l = some w.color := by
  intro w hw
  unfold scanline.writes at h
  split at h
  · rename_i xa xb la lb za zb hxa hxb hla hlb hza hzb
    simp only at h
    split at h
    · rename_i zs ls hzs hls
      obtain ⟨k, _, l, hl, hwl⟩ := collectWrites_mem _ _ _ _ h w hw
      split at hl
      · rename_i lv z hlv hz
        split at hl
        · rename_i c hc
          simp only [Option.some.injEq] at hl
          rw [← hl] at hwl
          simp only [List.mem_singleton] at hwl
          rw [hwl]
          have hla2 := hl02 la (List.getElem?_mem hla)
          have hlb2 := hl012 lb (List.getElem?_mem hlb)
          have hends : (lo ≤ (scanlineEnds xa xb la lb za zb).2.2.1 ∧
                (scanlineEnds xa xb la lb za zb).2.2.1 ≤ hi) ∧
              (lo ≤ (scanlineEnds xa xb la lb za zb).2.2.2.1 ∧
                (scanlineEnds xa xb la lb za zb).2.2.2.1 ≤ hi) := by
            unfold scanlineEnds
            simp only
            split
            · exact ⟨hlb2, hla2⟩
            · exact ⟨hla2, hlb2⟩
          have hb := Interpolate_bounds _ _ _ _ ls lo hi hls hends.1 hends.2 lv
            (List.getElem?_mem hlv)
          exact ⟨lv, hb.1, hb.2, hc⟩
        · exact Option.noConfusion hl
      · exact Option.noConfusion hl
    · exact Option.noConfusion h
  · exact Option.noConfusion h

/-- A property of the three vertex intensities holds for the intensities of
the three sorted vertices. -/
theorem sortedVertices_l (fm : FloatMath ℚ) (config : Config) (canvasSize : Int × Int)
    (t : Triangle) (lights : List (Light ℚ)) (v0 v1 v2 : Vertex)
    (h : sortedVertices fm config canvasSize t lights = some (v0, v1, v2)) (P : ℚ → Prop)
    (h0 : P (ComputeLighting fm t.p0 t.n0 lights t.specular))
    (h1 : P (ComputeLighting fm t.p1 t.n1 lights t.specular))
    (h2 : P (ComputeLighting fm t.p2 t.n2 lights t.specular)) : P v0.l ∧ P v1.l ∧ P v2.l := by
  unfold sortedVertices at h
  split at h
  · rename_i q0 q1 q2 _ _ _
    simp only [Option.some.injEq] at h
    have := sortByY_forall (fun v => P v.l)
      { p := q0, z := t.p0.z, l := ComputeLighting fm t.p0 t.n0 lights t.specular }
      { p := q1, z := t.p1.z, l := ComputeLighting fm t.p1 t.n1 lights t.specular }
      { p := q2, z := t.p2.z, l := ComputeLighting fm t.p2 t.n2 lights t.specular } h0 h1 h2
    rw [h] at this
    exact this
  · exact Option.noConfusion h

/-- The colour of every call of `DrawFilledTriangleImpl` is the triangle's
colour modulated by an intensity between any bounds on the intensities computed
at the three vertices. -/
theorem DrawFilledTriangleImpl.writes_vertex_shade (fm : FloatMath ℚ) (config : Config)
    (canvasSize : Int × Int) (t : Triangle) (lights : List (Light ℚ)) (ws : List Write)
    (lo hi : ℚ) (h : DrawFilledTriangleImpl.writes fm config canvasSize t lights = some ws)
    (h0 : lo ≤ ComputeLighting fm t.p0 t.n0 lights t.specular ∧
      ComputeLighting fm t.p0 t.n0 lights t.specular ≤ hi)
    (h1 : lo ≤ ComputeLighting fm t.p1 t.n1 lights t.specular ∧
      ComputeLighting fm t.p1 t.n1 lights t.specular ≤ hi)
    (h2 : lo ≤ ComputeLighting fm t.p2 t.n2 lights t.specular ∧
      ComputeLighting fm t.p2 t.n2 lights t.specular ≤ hi) :
    ∀ w ∈ ws, ∃ l, lo ≤ l ∧ l ≤ hi ∧ shade t.color l = some w.color := by
  intro w hw
  unfold DrawFilledTriangleImpl.writes at h
  split at h
  · simp only [Option.some.injEq] at h
    rw [← h] at hw
    simp at hw
  · split at h
    · exact Option.noConfusion h
    · rename_i v0 v1 v2 hsv
      have hP := sortedVertices_l fm config canvasSize t lights v0 v1 v2 hsv
        (fun l => lo ≤ l ∧ l ≤ hi) h0 h1 h2
      split at h
      · rename_i x02 x012 r0 r1 r2 hx hr0 hr1 hr2
        split at h
        · rename_i z02 z012 l02 l012 hz hl
          obtain ⟨hb1, hb2⟩ := edgeArrays_bounds _ _ _ _ _ _ l02 l012 lo hi hl hP.1 hP.2.1 hP.2.2
          obtain ⟨k, _, l, hl2, hwl⟩ := collectWrites_mem _ _ _ _ h w hw
          exact scanline.writes_row_shade _ _ _ _ _ _ _ _ _ l lo hi hl2 hb1 hb2 w hwl
        · exact Option.noConfusion h
      · exact Option.noConfusion h

/-- C22 (amended): colour modulation clamps per channel, in exact arithmetic.  For every base colour
`(r, g, b, a)` and every intensity `l ≥ 0`, the colour the filled path emits is
`(⌊min(255, r l)⌋, ⌊min(255, g l)⌋, ⌊min(255, b l)⌋, a)`: each of the three
channels lies in `[0, 255]` however large `l` is, and alpha is the base alpha.
The colour of every call of a scanline is this modulation of the base colour by
one interpolated intensity. -/
theorem shade_clamps (color : Color) (l : ℚ) (hl : 0 ≤ l) :
    shade color l = some
      (Color.mk ⌊min 255 ((color.r : ℚ) * l)⌋.toNat ⌊min 255 ((color.g : ℚ) * l)⌋.toNat
        ⌊min 255 ((color.b : ℚ) * l)⌋.toNat color.a) ∧
    (0 ≤ ⌊min 255 ((color.r : ℚ) * l)⌋ ∧ ⌊min 255 ((color.r : ℚ) * l)⌋ ≤ 255) ∧
    (0 ≤ ⌊min 255 ((color.g : ℚ) * l)⌋ ∧ ⌊min 255 ((color.g : ℚ) * l)⌋ ≤ 255) ∧
    (0 ≤ ⌊min 255 ((color.b : ℚ) * l)⌋ ∧ ⌊min 255 ((color.b : ℚ) * l)⌋ ≤ 255) ∧
    (∀ (y0 : Int) (x02 x012 z02 z012 l02 l012 : List ℚ) (i : Int) (ws : List Write),
      (∀ v ∈ l02, 0 ≤ v) → (∀ v ∈ l012, 0 ≤ v) →
      scanline.writes color y0 x02 x012 z02 z012 l02 l012 i = some ws →
      ∀ w ∈ ws, ∃ l1, 0 ≤ l1 ∧
        w.color = Color.mk ⌊min 255 ((color.r : ℚ) * l1)⌋.toNat
          ⌊min 255 ((color.g : ℚ) * l1)⌋.toNat ⌊min 255 ((color.b : ℚ) * l1)⌋.toNat color.a ∧
        w.color.r ≤ 255 ∧ w.color.g ≤ 255 ∧ w.color.b ≤ 255 ∧ w.color.a = color.a) := by
  have hch : ∀ (n : Nat) (l1 : ℚ), 0 ≤ l1 →
      0 ≤ ⌊min 255 ((n : ℚ) * l1)⌋ ∧ ⌊min 255 ((n : ℚ) * l1)⌋ ≤ 255 :=
    fun n l1 h1 => (toUChar_min _ (mul_nonneg (Nat.cast_nonneg _) h1)).2
  refine ⟨shade_of_nonneg color l hl, hch _ l hl, hch _ l hl, hch _ l hl, ?_⟩
  intro y0 x02 x012 z02 z012 l02 l012 i ws h02 h012 h w hw
  obtain ⟨hi, hhi⟩ := exists_upper_bound (l02 ++ l012)
  obtain ⟨l1, h0, _, hs⟩ := scanline.writes_row_shade color y0 x02 x012 z02 z012 l02 l012 i ws 0 hi h
    (fun v hv => ⟨h02 v hv, hhi v (List.mem_append_left _ hv)⟩)
    (fun v hv => ⟨h012 v hv, hhi v (List.mem_append_right _ hv)⟩) w hw
  rw [shade_of_nonneg color l1 h0] at hs
  have hc := (Option.some.inj hs).symm
  refine ⟨l1, h0, hc, ?_, ?_, ?_, ?_⟩
  · rw [hc]
    have := (hch color.r l1 h0).2
    show ⌊min 255 ((color.r : ℚ) * l1)⌋.toNat ≤ 255
    omega
  · rw [hc]
    have := (hch color.g l1 h0).2
    show ⌊min 255 ((color.g : ℚ) * l1)⌋.toNat ≤ 255
    omega
  · rw [hc]
    have := (hch color.b l1 h0).2
    show ⌊min 255 ((color.b : ℚ) * l1)⌋.toNat ≤ 255
    omega
  · rw [hc]

/-- C22, witness: the base colour `(100, 200, 50, 255)` at intensity `3` gives
`(255, 255, 150, 255)`. -/
theorem shade_clamps_witness :
    (0 : ℚ) ≤ 3 ∧
    shade (Color.mk 100 200 50 255) 3 = some (Color.mk 255 255 150 255) := by
  refine ⟨by norm_num, ?_⟩
  rw [(shade_clamps (Color.mk 100 200 50 255) 3 (by norm_num)).1]
  decide!

end Renderer

namespace Renderer
open ViewportWithZBuffer

/-- With a single ambient light of intensity `k` the intensity computed at any
vertex is `k`. -/
theorem ComputeLighting_ambient (fm : FloatMath ℚ) (p n : Vector3 ℚ) (k s : ℚ) :
    ComputeLighting fm p n [Light.AmbientLight k] s = k := by
  simp [ComputeLighting, Light.ComputeIntensity, Light.intensity]

/-- C21 (amended): ambient-only illumination, in exact arithmetic.  In the filled path with the light list
`[AmbientLight k]`, `k ≥ 0`, the intensity computed at every vertex is `k`,
every interpolated sequence between equal end values `k` is constantly `k`, and
every call `DrawFilledTriangle` makes for a triangle with base colour
`(r, g, b, a)` carries the colour
`(trunc(min(255, r k)), trunc(min(255, g k)), trunc(min(255, b k)), a)`. -/
theorem ambient_only_colour (fm : FloatMath ℚ) (config : Config) (canvasSize : Int × Int)
    (t : Triangle) (k : ℚ) (hk : 0 ≤ k) (ws : List Write)
    (h : DrawFilledTriangle.writes fm config canvasSize t [Light.AmbientLight k] = some ws) :
    (∀ (p n : Vector3 ℚ) (s : ℚ), ComputeLighting fm p n [Light.AmbientLight k] s = k) ∧
    (∀ (i0 i1 : Int) (out : List ℚ), Interpolate i0 k i1 k [] = some out → ∀ v ∈ out, v = k) ∧
    ∀ w ∈ ws, w.color =
      Color.mk (truncToInt (min 255 ((t.color.r : ℚ) * k))).toNat
        (truncToInt (min 255 ((t.color.g : ℚ) * k))).toNat
        (truncToInt (min 255 ((t.color.b : ℚ) * k))).toNat t.color.a := by
  refine ⟨fun p n s => ComputeLighting_ambient fm p n k s, ?_, ?_⟩
  · intro i0 i1 out hout v hv
    have := Interpolate_bounds i0 k i1 k out k k hout ⟨le_refl _, le_refl _⟩
      ⟨le_refl _, le_refl _⟩ v hv
    exact le_antisymm this.2 this.1
  · unfold DrawFilledTriangle.writes at h
    refine drawFilledAll.writes_forall fm config canvasSize [Light.AmbientLight k] _
      (DrawFilledTriangle.calls config t) ws ?_ h
    intro t1 ht1 l hl w hw
    obtain ⟨_, _, _, hcol, _⟩ := calls_attributes config t t1 ht1
    obtain ⟨l1, h1, h2, hs⟩ := DrawFilledTriangleImpl.writes_vertex_shade fm config canvasSize t1
      [Light.AmbientLight k] l k k hl
      (by rw [ComputeLighting_ambient]; exact ⟨le_refl _, le_refl _⟩)
      (by rw [ComputeLighting_ambient]; exact ⟨le_refl _, le_refl _⟩)
      (by rw [ComputeLighting_ambient]; exact ⟨le_refl _, le_refl _⟩) w hw
    have hl1 : l1 = k := le_antisymm h2 h1
    subst hl1
    rw [hcol, shade_of_nonneg t.color l1 hk] at hs
    have hc := (Option.some.inj hs).symm
    rw [hc]
    have htr : ∀ n : Nat, truncToInt (min 255 ((n : ℚ) * l1)) = ⌊min 255 ((n : ℚ) * l1)⌋ := by
      intro n
      have h0 : (0 : ℚ) ≤ min 255 ((n : ℚ) * l1) :=
        le_min (by norm_num) (mul_nonneg (Nat.cast_nonneg _) hk)
      rw [truncToInt_eq, if_pos h0]
    rw [htr, htr, htr]

/-- C21, witness: the triangle of base colour `(100, 200, 50, 255)` under one
ambient light of intensity `1/2` on a 4 by 4 sink: five calls, each with the
colour `(50, 100, 25, 255)`, and `Render` stores that colour in the five
pixels. -/
theorem ambient_only_colour_witness :
    (0 : ℚ) ≤ 1 / 2 ∧
    ((DrawFilledTriangle.writes Sample.floatMath Sample.configFill (4, 4) Sample.triangleOlive
      [Light.AmbientLight (1 / 2)]).getD []).length = 5 ∧
    (∀ w ∈ (DrawFilledTriangle.writes Sample.floatMath Sample.configFill (4, 4)
        Sample.triangleOlive [Light.AmbientLight (1 / 2)]).getD [],
      w.color = Color.mk 50 100 25 255) ∧
    Render CanvasViewport.viewport Sample.floatMath Sample.configFill (Sample.blank 4 4)
        [Sample.triangleOlive] [Light.AmbientLight (1 / 2)] =
      some (Canvas.mk (List.replicate 6 (Color.mk 0 0 0 0) ++ [Color.mk 50 100 25 255] ++
        List.replicate 3 (Color.mk 0 0 0 0) ++ [Color.mk 50 100 25 255] ++
        List.replicate 2 (Color.mk 0 0 0 0) ++
        [Color.mk 50 100 25 255, Color.mk 50 100 25 255, Color.mk 50 100 25 255]) 4 4) := by
  refine ⟨by norm_num, by decide!, ?_, by decide!⟩
  intro w hw
  rw [(ambient_only_colour Sample.floatMath Sample.configFill (4, 4) Sample.triangleOlive (1 / 2)
    (by norm_num) _ (by decide!)).2.2 w hw]
  decide!

end Renderer

namespace Renderer
open ViewportWithZBuffer

/-- A loop whose every iteration makes exactly one call makes the calls of its
iterations in order. -/
theorem collectWrites_singletons (g : Int → Option (List Write)) (f : Int → Write) :
    ∀ (n : Nat) (start : Int),
      (∀ k : Nat, k < n → g (start + (k : Int)) = some [f (start + (k : Int))]) →
      collectWrites g n start = some ((List.range n).map (fun k : Nat => f (start + (k : Int)))) := by
  intro n
  induction n with
  | zero => intro start _; rfl
  | succ n ih =>
    intro start h
    have h0 : g start = some [f start] := by
      have := h 0 (by omega)
      simpa using this
    have hrest : ∀ k : Nat, k < n →
        g (start + 1 + (k : Int)) = some [f (start + 1 + (k : Int))] := by
      intro k hk
      have := h (k + 1) (by omega)
      have e : start + ((k + 1 : Nat) : Int) = start + 1 + (k : Int) := by push_cast; ring
      rw [e] at this
      exact this
    simp only [collectWrites, h0, ih (start + 1) hrest, appendWrites, List.singleton_append]
    have e : List.range (n + 1) = 0 :: (List.range n).map Nat.succ := List.range_succ_eq_map n
    rw [e]
    simp only [List.map_cons, List.map_map, Nat.cast_zero, add_zero, Option.some.injEq,
      List.cons.injEq, true_and]
    apply List.map_congr_left
    intro k _
    simp only [Function.comp, Nat.succ_eq_add_one]
    congr 1
    push_cast
    ring

/-- The calls of the branch of `DrawLine` that iterates over `x`: one per
column from `lo.x` to `hi.x`, where `(lo, hi)` are the endpoints after the
swap. -/
theorem DrawLine.writes_horizontal (a b : DepthPoint) (color : Color) (hne : a.1 ≠ b.1)
    (hdom : (a.1.x - b.1.x).natAbs > (a.1.y - b.1.y).natAbs) :
    DrawLine.writes a b color =
      some ((List.range ((a.1.x - b.1.x).natAbs + 1)).map (fun k : Nat =>
        Write.mk
          (CanvasPoint.mk (min a.1.x b.1.x + (k : Int))
            (truncToInt (((DrawLine.orderX a b).1.1.y : ℚ) +
              (k : ℚ) * (((DrawLine.orderX a b).2.1.y : ℚ) - ((DrawLine.orderX a b).1.1.y : ℚ)) /
                (((DrawLine.orderX a b).2.1.x - (DrawLine.orderX a b).1.1.x : Int) : ℚ))))
          ((DrawLine.orderX a b).1.2 +
            (k : ℚ) * ((DrawLine.orderX a b).2.2 - (DrawLine.orderX a b).1.2) /
              (((DrawLine.orderX a b).2.1.x - (DrawLine.orderX a b).1.1.x : Int) : ℚ))
          color)) := by
  have hlt : (DrawLine.orderX a b).1.1.x < (DrawLine.orderX a b).2.1.x := by
    unfold DrawLine.orderX
    split
    · assumption
    · show a.1.x < b.1.x
      omega
  have hmin : (DrawLine.orderX a b).1.1.x = min a.1.x b.1.x := by
    unfold DrawLine.orderX
    split
    · show b.1.x = min a.1.x b.1.x
      omega
    · show a.1.x = min a.1.x b.1.x
      omega
  have hn : ((DrawLine.orderX a b).2.1.x - (DrawLine.orderX a b).1.1.x + 1).toNat =
      (a.1.x - b.1.x).natAbs + 1 := by
    unfold DrawLine.orderX
    split
    · show (a.1.x - b.1.x + 1).toNat = _
      omega
    · show (b.1.x - a.1.x + 1).toNat = _
      omega
  obtain ⟨ys, hys, _, hyk, _⟩ := Interpolate_closed (DrawLine.orderX a b).1.1.x
    ((DrawLine.orderX a b).1.1.y : ℚ) (DrawLine.orderX a b).2.1.x
    ((DrawLine.orderX a b).2.1.y : ℚ) (le_of_lt hlt)
  obtain ⟨zs, hzs, _, hzk, _⟩ := Interpolate_closed (DrawLine.orderX a b).1.1.x
    (DrawLine.orderX a b).1.2 (DrawLine.orderX a b).2.1.x (DrawLine.orderX a b).2.2 (le_of_lt hlt)
  unfold DrawLine.writes
  rw [if_neg hne, if_pos hdom]
  simp only [hys, hzs]
  rw [collectWrites_singletons _ (fun i : Int =>
    Write.mk
      (CanvasPoint.mk ((DrawLine.orderX a b).1.1.x + i)
        (truncToInt (((DrawLine.orderX a b).1.1.y : ℚ) +
          ((i.toNat : Nat) : ℚ) *
            (((DrawLine.orderX a b).2.1.y : ℚ) - ((DrawLine.orderX a b).1.1.y : ℚ)) /
            (((DrawLine.orderX a b).2.1.x - (DrawLine.orderX a b).1.1.x : Int) : ℚ))))
      ((DrawLine.orderX a b).1.2 +
        ((i.toNat : Nat) : ℚ) * ((DrawLine.orderX a b).2.2 - (DrawLine.orderX a b).1.2) /
          (((DrawLine.orderX a b).2.1.x - (DrawLine.orderX a b).1.1.x : Int) : ℚ))
      color)]
  · rw [hn, hmin]
    simp only [zero_add, Int.toNat_natCast]
  · intro k hk
    have hk2 : k ≤ ((DrawLine.orderX a b).2.1.x - (DrawLine.orderX a b).1.1.x).toNat := by omega
    simp only [zero_add, Int.toNat_natCast, hyk k hk2, hzk k hk2]

/-- The calls of the branch of `DrawLine` that iterates over `y`: one per row
from `lo.y` to `hi.y`, where `(lo, hi)` are the endpoints after the swap. -/
theorem DrawLine.writes_vertical (a b : DepthPoint) (color : Color) (hne : a.1 ≠ b.1)
    (hdom : ¬ (a.1.x - b.1.x).natAbs > (a.1.y - b.1.y).natAbs) :
    DrawLine.writes a b color =
      some ((List.range ((a.1.y - b.1.y).natAbs + 1)).map (fun k : Nat =>
        Write.mk
          (CanvasPoint.mk
            (truncToInt (((DrawLine.orderY a b).1.1.x : ℚ) +
              (k : ℚ) * (((DrawLine.orderY a b).2.1.x : ℚ) - ((DrawLine.orderY a b).1.1.x : ℚ)) /
                (((DrawLine.orderY a b).2.1.y - (DrawLine.orderY a b).1.1.y : Int) : ℚ)))
            (min a.1.y b.1.y + (k : Int)))
          ((DrawLine.orderY a b).1.2 +
            (k : ℚ) * ((DrawLine.orderY a b).2.2 - (DrawLine.orderY a b).1.2) /
              (((DrawLine.orderY a b).2.1.y - (DrawLine.orderY a b).1.1.y : Int) : ℚ))
          color)) := by
  have hyne : a.1.y ≠ b.1.y := by
    intro hy
    apply hne
    have hx : a.1.x = b.1.x := by
      rw [hy] at hdom
      simp only [sub_self, Int.natAbs_zero, gt_iff_lt, not_lt, Nat.le_zero_eq,
        Int.natAbs_eq_zero] at hdom
      omega
    cases ha : a.1
    cases hb : b.1
    rw [ha, hb] at hx hy
    simp only at hx hy
    rw [hx, hy]
  have hlt : (DrawLine.orderY a b).1.1.y < (DrawLine.orderY a b).2.1.y := by
    unfold DrawLine.orderY
    split
    · assumption
    · show a.1.y < b.1.y
      omega
  have hmin : (DrawLine.orderY a b).1.1.y = min a.1.y b.1.y := by
    unfold DrawLine.orderY
    split
    · show b.1.y = min a.1.y b.1.y
      omega
    · show a.1.y = min a.1.y b.1.y
      omega
  have hn : ((DrawLine.orderY a b).2.1.y - (DrawLine.orderY a b).1.1.y + 1).toNat =
      (a.1.y - b.1.y).natAbs + 1 := by
    unfold DrawLine.orderY
    split
    · show (a.1.y - b.1.y + 1).toNat = _
      omega
    · show (b.1.y - a.1.y + 1).toNat = _
      omega
  obtain ⟨xs, hxs, _, hxk, _⟩ := Interpolate_closed (DrawLine.orderY a b).1.1.y
    ((DrawLine.orderY a b).1.1.x : ℚ) (DrawLine.orderY a b).2.1.y
    ((DrawLine.orderY a b).2.1.x : ℚ) (le_of_lt hlt)
  obtain ⟨zs, hzs, _, hzk, _⟩ := Interpolate_closed (DrawLine.orderY a b).1.1.y
    (DrawLine.orderY a b).1.2 (DrawLine.orderY a b).2.1.y (DrawLine.orderY a b).2.2 (le_of_lt hlt)
  unfold DrawLine.writes
  rw [if_neg hne, if_neg hdom]
  simp only [hxs, hzs]
  rw [collectWrites_singletons _ (fun i : Int =>
    Write.mk
      (CanvasPoint.mk
        (truncToInt (((DrawLine.orderY a b).1.1.x : ℚ) +
          ((i.toNat : Nat) : ℚ) *
            (((DrawLine.orderY a b).2.1.x : ℚ) - ((DrawLine.orderY a b).1.1.x : ℚ)) /
            (((DrawLine.orderY a b).2.1.y - (DrawLine.orderY a b).1.1.y : Int) : ℚ)))
        ((DrawLine.orderY a b).1.1.y + i))
      ((DrawLine.orderY a b).1.2 +
        ((i.toNat : Nat) : ℚ) * ((DrawLine.orderY a b).2.2 - (DrawLine.orderY a b).1.2) /
          (((DrawLine.orderY a b).2.1.y - (DrawLine.orderY a b).1.1.y : Int) : ℚ))
      color)]
  · rw [hn, hmin]
    simp only [zero_add, Int.toNat_natCast]
  · intro k hk
    have hk2 : k ≤ ((DrawLine.orderY a b).2.1.y - (DrawLine.orderY a b).1.1.y).toNat := by omega
    simp only [zero_add, Int.toNat_natCast, hxk k hk2, hzk k hk2]

/-- The calls of the rasterizing part of `DrawLine`, with `a` and `b` the
projected endpoints.  If `a = b` there is exactly one call, at `a` with the
depth of `a`.  Otherwise, if `|dx| > |dy|`, there are exactly `|dx| + 1` calls,
call `k` at column `min(a.x, b.x) + k` (the last column is `max(a.x, b.x)`) and
at the row that is the truncation of the `y` interpolated from the endpoint
`lo` of smaller `x` to the other endpoint `hi`.  Otherwise (`|dx| ≤ |dy|`)
there are exactly `|dy| + 1` calls, call `k` at row `min(a.y, b.y) + k` and at
the column that is the truncation of the interpolated `x`.  Every call carries
the colour passed to `DrawLine`, which `DrawBorderedTriangle` takes from the
triangle. -/
theorem DrawLine.writes_rasterization (a b : DepthPoint) (color : Color) :
    (a.1 = b.1 → DrawLine.writes a b color = some [Write.mk a.1 a.2 color]) ∧
    (a.1 ≠ b.1 → (a.1.x - b.1.x).natAbs > (a.1.y - b.1.y).natAbs →
      ∃ ws, DrawLine.writes a b color = some ws ∧
        ws.length = (a.1.x - b.1.x).natAbs + 1 ∧
        min a.1.x b.1.x + ((a.1.x - b.1.x).natAbs : Int) = max a.1.x b.1.x ∧
        (∀ w ∈ ws, w.color = color) ∧
        ws = (List.range ((a.1.x - b.1.x).natAbs + 1)).map (fun k : Nat =>
          Write.mk
            (CanvasPoint.mk (min a.1.x b.1.x + (k : Int))
              (truncToInt (((DrawLine.orderX a b).1.1.y : ℚ) +
                (k : ℚ) *
                  (((DrawLine.orderX a b).2.1.y : ℚ) - ((DrawLine.orderX a b).1.1.y : ℚ)) /
                  (((DrawLine.orderX a b).2.1.x - (DrawLine.orderX a b).1.1.x : Int) : ℚ))))
            ((DrawLine.orderX a b).1.2 +
              (k : ℚ) * ((DrawLine.orderX a b).2.2 - (DrawLine.orderX a b).1.2) /
                (((DrawLine.orderX a b).2.1.x - (DrawLine.orderX a b).1.1.x : Int) : ℚ))
            color)) ∧
    (a.1 ≠ b.1 → (a.1.x - b.1.x).natAbs ≤ (a.1.y - b.1.y).natAbs →
      ∃ ws, DrawLine.writes a b color = some ws ∧
        ws.length = (a.1.y - b.1.y).natAbs + 1 ∧
        min a.1.y b.1.y + ((a.1.y - b.1.y).natAbs : Int) = max a.1.y b.1.y ∧
        (∀ w ∈ ws, w.color = color) ∧
        ws = (List.range ((a.1.y - b.1.y).natAbs + 1)).map (fun k : Nat =>
          Write.mk
            (CanvasPoint.mk
              (truncToInt (((DrawLine.orderY a b).1.1.x : ℚ) +
                (k : ℚ) *
                  (((DrawLine.orderY a b).2.1.x : ℚ) - ((DrawLine.orderY a b).1.1.x : ℚ)) /
                  (((DrawLine.orderY a b).2.1.y - (DrawLine.orderY a b).1.1.y : Int) : ℚ)))
              (min a.1.y b.1.y + (k : Int)))
            ((DrawLine.orderY a b).1.2 +
              (k : ℚ) * ((DrawLine.orderY a b).2.2 - (DrawLine.orderY a b).1.2) /
                (((DrawLine.orderY a b).2.1.y - (DrawLine.orderY a b).1.1.y : Int) : ℚ))
            color)) ∧
    (DrawLine.orderX a b = if a.1.x > b.1.x then (b, a) else (a, b)) ∧
    (DrawLine.orderY a b = if a.1.y > b.1.y then (b, a) else (a, b)) ∧
    (∀ (triangle : Triangle) (config : Config) (canvasSize : Int × Int),
      DrawBorderedTriangle.writes config canvasSize triangle =
        appendWrites
          (DrawLine.allWrites config canvasSize (Line.mk triangle.p0 triangle.p1) triangle.color)
          (appendWrites
            (DrawLine.allWrites config canvasSize (Line.mk triangle.p1 triangle.p2)
              triangle.color)
            (DrawLine.allWrites config canvasSize (Line.mk triangle.p2 triangle.p0)
              triangle.color))) := by
  refine ⟨?_, ?_, ?_, rfl, rfl, fun _ _ _ => rfl⟩
  · intro h
    simp only [DrawLine.writes, if_pos h]
  · intro hne hdom
    refine ⟨_, DrawLine.writes_horizontal a b color hne hdom, by simp, by omega, ?_, rfl⟩
    intro w hw
    obtain ⟨k, _, hk⟩ := List.mem_map.mp hw
    rw [← hk]
  · intro hne hdom
    refine ⟨_, DrawLine.writes_vertical a b color hne (by omega), by simp, by omega, ?_, rfl⟩
    intro w hw
    obtain ⟨k, _, hk⟩ := List.mem_map.mp hw
    rw [← hk]

end Renderer

namespace Renderer
open ViewportWithZBuffer

/-- When the calls of a loop are computed, the calls of each iteration are. -/
theorem collectWrites_all_some (g : Int → Option (List Write)) :
    ∀ (n : Nat) (start : Int) (ws : List Write), collectWrites g n start = some ws →
      ∀ k : Nat, k < n → ∃ l, g (start + (k : Int)) = some l := by
  intro n
  induction n with
  | zero => intro start ws _ k hk; omega
  | succ n ih =>
    intro start ws h k hk
    simp only [collectWrites] at h
    obtain ⟨x, y, hx, hy, _⟩ := appendWrites_eq_some _ _ _ h
    cases k with
    | zero => exact ⟨x, by simpa using hx⟩
    | succ k =>
      obtain ⟨l, hl⟩ := ih (start + 1) y hy k (by omega)
      refine ⟨l, ?_⟩
      have e : start + ((k + 1 : Nat) : Int) = start + 1 + (k : Int) := by push_cast; ring
      rw [e]
      exact hl

/-- The calls of one scanline, in closed form: with
`(x1, x2, l1, l2, z1, z2)` the span after the swap, call `k` is at column
`x1 + k` of row `y0 + i`, with the depth and the intensity interpolated from
`(z1, l1)` at `x1` to `(z2, l2)` at `x2`. -/
theorem scanline.writes_closed (color : Color) (y0 : Int)
    (x02 x012 z02 z012 l02 l012 : List ℚ) (i : Int) (xa xb la lb za zb : ℚ)
    (hxa : x02[i.toNat]? = some xa) (hxb : x012[i.toNat]? = some xb)
    (hla : l02[i.toNat]? = some la) (hlb : l012[i.toNat]? = some lb)
    (hza : z02[i.toNat]? = some za) (hzb : z012[i.toNat]? = some zb) (ws : List Write)
    (h : scanline.writes color y0 x02 x012 z02 z012 l02 l012 i = some ws) :
    ws.length = ((scanlineEnds xa xb la lb za zb).2.1 - (scanlineEnds xa xb la lb za zb).1 +
      1).toNat ∧
    ∀ k : Nat, k < ws.length → ∃ w, ws[k]? = some w ∧
      w.point = CanvasPoint.mk ((scanlineEnds xa xb la lb za zb).1 + (k : Int)) (y0 + i) ∧
      w.z = (scanlineEnds xa xb la lb za zb).2.2.2.2.1 +
        (k : ℚ) * ((scanlineEnds xa xb la lb za zb).2.2.2.2.2 -
          (scanlineEnds xa xb la lb za zb).2.2.2.2.1) /
          (((scanlineEnds xa xb la lb za zb).2.1 - (scanlineEnds xa xb la lb za zb).1 : Int) : ℚ) ∧
      shade color ((scanlineEnds xa xb la lb za zb).2.2.1 +
        (k : ℚ) * ((scanlineEnds xa xb la lb za zb).2.2.2.1 -
          (scanlineEnds xa xb la lb za zb).2.2.1) /
          (((scanlineEnds xa xb la lb za zb).2.1 - (scanlineEnds xa xb la lb za zb).1 : Int) : ℚ)) =
        some w.color := by
  have hle := scanlineEnds_le xa xb la lb za zb
  obtain ⟨zs, hzs, hzlen, hzk, _⟩ := Interpolate_closed (scanlineEnds xa xb la lb za zb).1
    (scanlineEnds xa xb la lb za zb).2.2.2.2.1 (scanlineEnds xa xb la lb za zb).2.1
    (scanlineEnds xa xb la lb za zb).2.2.2.2.2 hle
  obtain ⟨ls, hls, hllen, hlk, _⟩ := Interpolate_closed (scanlineEnds xa xb la lb za zb).1
    (scanlineEnds xa xb la lb za zb).2.2.1 (scanlineEnds xa xb la lb za zb).2.1
    (scanlineEnds xa xb la lb za zb).2.2.2.1 hle
  unfold scanline.writes at h
  simp only [hxa, hxb, hla, hlb, hza, hzb, hzs, hls] at h
  have hall := collectWrites_all_some _ _ _ _ h
  have hsingle : ∀ k : Nat,
      k < ((scanlineEnds xa xb la lb za zb).2.1 - (scanlineEnds xa xb la lb za zb).1 + 1).toNat →
      ∃ c, shade color ((scanlineEnds xa xb la lb za zb).2.2.1 +
          (k : ℚ) * ((scanlineEnds xa xb la lb za zb).2.2.2.1 -
            (scanlineEnds xa xb la lb za zb).2.2.1) /
            (((scanlineEnds xa xb la lb za zb).2.1 - (scanlineEnds xa xb la lb za zb).1 : Int) :
              ℚ)) = some c := by
    intro k hk
    obtain ⟨l, hl⟩ := hall k hk
    have hk2 : k ≤ ((scanlineEnds xa xb la lb za zb).2.1 -
        (scanlineEnds xa xb la lb za zb).1).toNat := by omega
    simp only [zero_add, Int.toNat_natCast, hlk k hk2, hzk k hk2] at hl
    split at hl
    · rename_i c hc
      exact ⟨c, hc⟩
    · exact Option.noConfusion hl
  rw [collectWrites_singletons _ (fun j : Int =>
    Write.mk (CanvasPoint.mk ((scanlineEnds xa xb la lb za zb).1 + j) (y0 + i))
      ((scanlineEnds xa xb la lb za zb).2.2.2.2.1 +
        ((j.toNat : Nat) : ℚ) * ((scanlineEnds xa xb la lb za zb).2.2.2.2.2 -
          (scanlineEnds xa xb la lb za zb).2.2.2.2.1) /
          (((scanlineEnds xa xb la lb za zb).2.1 - (scanlineEnds xa xb la lb za zb).1 : Int) : ℚ))
      ((shade color ((scanlineEnds xa xb la lb za zb).2.2.1 +
        ((j.toNat : Nat) : ℚ) * ((scanlineEnds xa xb la lb za zb).2.2.2.1 -
          (scanlineEnds xa xb la lb za zb).2.2.1) /
          (((scanlineEnds xa xb la lb za zb).2.1 - (scanlineEnds xa xb la lb za zb).1 : Int) :
            ℚ))).getD color))] at h
  · have hws2 := (Option.some.inj h).symm
    have hlen : ws.length = ((scanlineEnds xa xb la lb za zb).2.1 -
        (scanlineEnds xa xb la lb za zb).1 + 1).toNat := by
      rw [hws2]
      simp
    refine ⟨hlen, ?_⟩
    intro k hk
    rw [hlen] at hk
    obtain ⟨c, hc⟩ := hsingle k hk
    refine ⟨_, by rw [hws2, List.getElem?_map, List.getElem?_range hk]; rfl, ?_, ?_, ?_⟩
    · simp only [zero_add]
    · simp only [zero_add, Int.toNat_natCast]
    · simp only [zero_add, Int.toNat_natCast, hc, Option.getD_some]
  · intro k hk
    have hk2 : k ≤ ((scanlineEnds xa xb la lb za zb).2.1 -
        (scanlineEnds xa xb la lb za zb).1).toNat := by omega
    obtain ⟨c, hc⟩ := hsingle k hk
    simp only [zero_add, Int.toNat_natCast, hlk k hk2, hzk k hk2, hc, Option.getD_some]

/-- The last entry of an interpolation from `d1` at `x1` to `d2` at `x2 > x1`
is `d2`. -/
theorem interpolated_last (x1 x2 : Int) (d1 d2 : ℚ) (h : x1 < x2) :
    d1 + (((x2 - x1).toNat : Nat) : ℚ) * (d2 - d1) / ((x2 - x1 : Int) : ℚ) = d2 := by
  have hpos : (0 : ℚ) < ((x2 - x1 : Int) : ℚ) := by
    exact_mod_cast (by omega : (0 : Int) < x2 - x1)
  have hcast : (((x2 - x1).toNat : Nat) : ℚ) = ((x2 - x1 : Int) : ℚ) := by
    have : (((x2 - x1).toNat : Nat) : Int) = x2 - x1 := Int.toNat_of_nonneg (by omega)
    exact_mod_cast this
  rw [hcast, mul_div_cancel_left₀ _ hpos.ne']
  ring

end Renderer

namespace Lab2
namespace Viewport

/-- C27 (refuted): in the lab-2 renderer a canvas access leaves the canvas.
On every canvas of `W` columns of `H ≥ 1` entries with `H ≤ W` (every square
canvas among them), for every point of the bottom row of the range
(`y = point.y - center.y = 0`, `0 ≤ x < W`) and every `z > 0`, the fresh
viewport accepts the call and `PutPixel` accesses `canvas[x][size.y - y]` with
second index `W`, which is not below `H`: the access is out of bounds. -/
theorem PutPixel_leaves_canvas (W H : Nat) (hH : 1 ≤ H) (hHW : H ≤ W) (c0 color : Color)
    (p : CanvasPoint) (z : ℚ) (hz : 0 < z)
    (hx0 : 0 ≤ p.x - Int.tdiv (-(W : Int)) 2) (hx1 : p.x - Int.tdiv (-(W : Int)) 2 < W)
    (hy : p.y - Int.tdiv (-(H : Int)) 2 = 0) :
    ∃ s, new (List.replicate W (List.replicate H c0)) = some s ∧
      (s.CanBeChanged p z).map Prod.fst = some true ∧
      canvasIndex s p = (p.x - Int.tdiv (-(W : Int)) 2, (W : Int)) ∧
      ¬ ((W : Int) < H) ∧
      s.PutPixel p z color = none := by
  have hW : 0 < W := by omega
  have hnew : new (List.replicate W (List.replicate H c0)) = some
      { zbuffer := List.replicate W (List.replicate H 0)
        canvas := List.replicate W (List.replicate H c0)
        center := { x := Int.tdiv (-(W : Int)) 2, y := Int.tdiv (-(H : Int)) 2 }
        size := { x := (W : Int), y := (W : Int) } } := by
    simp [new, List.getElem?_replicate, hW]
  have hxn : (p.x - Int.tdiv (-(W : Int)) 2).toNat < W := by omega
  have hr : ¬ (p.x - Int.tdiv (-(W : Int)) 2 < 0 ∨ p.y - Int.tdiv (-(H : Int)) 2 < 0 ∨
      (W : Int) ≤ p.x - Int.tdiv (-(W : Int)) 2 ∨ (W : Int) ≤ p.y - Int.tdiv (-(H : Int)) 2) := by
    omega
  have hcb : CanBeChanged
      { zbuffer := List.replicate W (List.replicate H 0)
        canvas := List.replicate W (List.replicate H c0)
        center := { x := Int.tdiv (-(W : Int)) 2, y := Int.tdiv (-(H : Int)) 2 }
        size := { x := (W : Int), y := (W : Int) } } p z =
      some (true,
        { zbuffer := (List.replicate W (List.replicate H (0 : ℚ))).set
            (p.x - Int.tdiv (-(W : Int)) 2).toNat ((List.replicate H (0 : ℚ)).set 0 z)
          canvas := List.replicate W (List.replicate H c0)
          center := { x := Int.tdiv (-(W : Int)) 2, y := Int.tdiv (-(H : Int)) 2 }
          size := { x := (W : Int), y := (W : Int) } }) := by
    unfold CanBeChanged
    dsimp only
    rw [if_neg hr]
    simp only [List.getElem?_replicate, hxn, if_true, hy, Int.toNat_zero,
      (by omega : 0 < H), gt_iff_lt, hz]
  refine ⟨_, hnew, ?_, ?_, by omega, ?_⟩
  · rw [hcb]
    rfl
  · simp only [canvasIndex, hy, sub_zero]
  · unfold PutPixel
    rw [hcb]
    have hneg : ¬ (p.x - Int.tdiv (-(W : Int)) 2 < 0 ∨ ((W : Int) - 0) < 0) := by omega
    have hlen : ¬ ((W : Int) - 0).toNat < H := by omega
    dsimp only [canvasIndex]
    rw [hy, if_neg hneg]
    simp only [List.getElem?_replicate, hxn, if_true, List.length_replicate, hlen, if_false]

/-- C27, witness: the claim's input, a 100 by 100 canvas and the point
`(0, -50)` with `z = 1`: the canvas access is `canvas[50][100]`. -/
theorem PutPixel_leaves_canvas_witness :
    1 ≤ 100 ∧ 100 ≤ 100 ∧ (0 : ℚ) < 1 ∧
    ∃ s, new (List.replicate 100 (List.replicate 100 (Color.mk 0 0 0 0))) = some s ∧
      (s.CanBeChanged { x := 0, y := -50 } 1).map Prod.fst = some true ∧
      canvasIndex s { x := 0, y := -50 } = (50, 100) ∧
      s.PutPixel { x := 0, y := -50 } 1 Sample.red = none := by
  obtain ⟨s, h1, h2, h3, _, h5⟩ := PutPixel_leaves_canvas 100 100 (by decide) (by decide)
    (Color.mk 0 0 0 0) Sample.red { x := 0, y := -50 } 1 (by norm_num) (by decide) (by decide)
    (by decide)
  exact ⟨by decide, by decide, by norm_num, s, h1, h2, h3, h5⟩

end Viewport
end Lab2

namespace Lab2
namespace Renderer

/-- In lab-2, `CutLine` on a line whose `begin` is out of range and whose
`end` is in range replaces `begin` by the intersection point, which has
`z = d`, and keeps `end`. -/
theorem lab2_CutLine_begin_out (config : Config) (A B : Vector3 ℚ) (hA : A.z ≤ config.d)
    (hB : config.d < B.z) :
    CutLine config { begin_ := A, end_ := B } =
      { begin_ := CutLine.point config { begin_ := A, end_ := B }, end_ := B } ∧
    (CutLine.point config { begin_ := A, end_ := B }).z = config.d := by
  have hpos : 0 < B.z - A.z := by linarith
  have hne : B.z - A.z ≠ 0 := hpos.ne'
  have ht0 : 0 ≤ (config.d - A.z) / (B.z - A.z) := div_nonneg (by linarith) hpos.le
  have ht1 : (config.d - A.z) / (B.z - A.z) ≤ 1 := by
    rw [div_le_one hpos]
    linarith
  constructor
  · simp only [CutLine, CutLine.point, Vector3.sub, Vector3.add, Vector3.smul]
    rw [if_neg hne, if_pos ⟨ht0, ht1⟩, if_pos hpos]
  · simp only [CutLine.point, Vector3.sub, Vector3.add, Vector3.smul]
    field_simp

/-- In lab-2, `CutLine` on a line whose `begin` is in range and whose `end` is
out of range keeps `begin` and replaces `end` by the intersection point, which
has `z = d`. -/
theorem lab2_CutLine_end_out (config : Config) (A B : Vector3 ℚ) (hA : config.d < A.z)
    (hB : B.z ≤ config.d) :
    CutLine config { begin_ := A, end_ := B } =
      { begin_ := A, end_ := CutLine.point config { begin_ := A, end_ := B } } ∧
    (CutLine.point config { begin_ := A, end_ := B }).z = config.d := by
  have hneg : B.z - A.z < 0 := by linarith
  have hne : B.z - A.z ≠ 0 := hneg.ne
  have ht0 : 0 ≤ (config.d - A.z) / (B.z - A.z) :=
    div_nonneg_of_nonpos (by linarith) hneg.le
  have ht1 : (config.d - A.z) / (B.z - A.z) ≤ 1 := by
    rw [div_le_one_of_neg hneg]
    linarith
  have hnpos : ¬ B.z - A.z > 0 := by linarith
  constructor
  · simp only [CutLine, CutLine.point, Vector3.sub, Vector3.add, Vector3.smul]
    rw [if_neg hne, if_pos ⟨ht0, ht1⟩, if_neg hnpos]
  · simp only [CutLine.point, Vector3.sub, Vector3.add, Vector3.smul]
    field_simp

/-- C28 (refuted): the one-vertex-out clip of lab-2 when `B` is the only vertex
out of range (`A.z > d`, `C.z > d`, `B.z ≤ d`).  The code takes `.begin` of
`CutLine({a, b})` and `.end` of `CutLine({b, c})`, which are the unclipped ends
`A` and `C`: the two triangles passed to `DrawFilledTriangleImpl` are
`{A, A, C}` and `{A, C, C}`, whose second vertices have `z > d`.  The
near-plane intersections `B1` of edge `AB` and `B2` of edge `BC` (both at
`z = d`) are the other ends, `.end` and `.begin`, which the code does not
use; the `A`-out and `C`-out cases do take the intersection ends. -/
theorem lab2_clip_B_out (config : Config) (t : Triangle) (hA : config.d < t.p0.z)
    (hB : t.p1.z ≤ config.d) (hC : config.d < t.p2.z) :
    DrawFilledTriangle.calls config t =
      [{ p0 := t.p0, p1 := t.p0, p2 := t.p2, color := t.color },
       { p0 := t.p0, p1 := t.p2, p2 := t.p2, color := t.color }] ∧
    (CutLine config { begin_ := t.p0, end_ := t.p1 }).begin_ = t.p0 ∧
    (CutLine config { begin_ := t.p1, end_ := t.p2 }).end_ = t.p2 ∧
    (CutLine config { begin_ := t.p0, end_ := t.p1 }).end_ =
      CutLine.point config { begin_ := t.p0, end_ := t.p1 } ∧
    (CutLine.point config { begin_ := t.p0, end_ := t.p1 }).z = config.d ∧
    (CutLine config { begin_ := t.p1, end_ := t.p2 }).begin_ =
      CutLine.point config { begin_ := t.p1, end_ := t.p2 } ∧
    (CutLine.point config { begin_ := t.p1, end_ := t.p2 }).z = config.d ∧
    DrawFilledTriangle.calls config t ≠
      [{ p0 := t.p0, p1 := CutLine.point config { begin_ := t.p0, end_ := t.p1 }, p2 := t.p2,
         color := t.color },
       { p0 := t.p0, p1 := CutLine.point config { begin_ := t.p1, end_ := t.p2 }, p2 := t.p2,
         color := t.color }] := by
  obtain ⟨hab, habz⟩ := lab2_CutLine_end_out config t.p0 t.p1 hA hB
  obtain ⟨hbc, hbcz⟩ := lab2_CutLine_begin_out config t.p1 t.p2 hB hC
  have ha : IsOutOfVisibleRange config t.p0 = false := by
    simp only [IsOutOfVisibleRange, decide_eq_false_iff_not, not_le]
    exact hA
  have hb : IsOutOfVisibleRange config t.p1 = true := by
    simp only [IsOutOfVisibleRange, decide_eq_true_eq]
    exact hB
  have hc : IsOutOfVisibleRange config t.p2 = false := by
    simp only [IsOutOfVisibleRange, decide_eq_false_iff_not, not_le]
    exact hC
  have hcalls : DrawFilledTriangle.calls config t =
      [{ p0 := t.p0, p1 := t.p0, p2 := t.p2, color := t.color },
       { p0 := t.p0, p1 := t.p2, p2 := t.p2, color := t.color }] := by
    simp [DrawFilledTriangle.calls, ha, hb, hc, hab, hbc]
  refine ⟨hcalls, by rw [hab], by rw [hbc], by rw [hab], habz, by rw [hbc], hbcz, ?_⟩
  rw [hcalls]
  intro h
  simp only [List.cons.injEq, Triangle.mk.injEq, true_and, and_true] at h
  have hz : t.p0.z = config.d := by
    have := congrArg Vector3.z h.1
    rw [habz] at this
    exact this
  linarith

/-- C28, witness: `d = 1`, `A = (-1,-1,3)`, `B = (1,-1,1/2)`, `C = (0,1,3)`:
the triangles passed on are `{A, A, C}` and `{A, C, C}`. -/
theorem lab2_clip_B_out_witness :
    Sample.configFill.d < 3 ∧ (1 / 2 : ℚ) ≤ Sample.configFill.d ∧
    DrawFilledTriangle.calls Sample.configFill
        { p0 := { x := -1, y := -1, z := 3 }, p1 := { x := 1, y := -1, z := 1 / 2 },
          p2 := { x := 0, y := 1, z := 3 }, color := Sample.red } =
      [{ p0 := { x := -1, y := -1, z := 3 }, p1 := { x := -1, y := -1, z := 3 },
         p2 := { x := 0, y := 1, z := 3 }, color := Sample.red },
       { p0 := { x := -1, y := -1, z := 3 }, p1 := { x := 0, y := 1, z := 3 },
         p2 := { x := 0, y := 1, z := 3 }, color := Sample.red }] :=
  ⟨by decide!, by decide!,
    (lab2_clip_B_out Sample.configFill
      { p0 := { x := -1, y := -1, z := 3 }, p1 := { x := 1, y := -1, z := 1 / 2 },
        p2 := { x := 0, y := 1, z := 3 }, color := Sample.red }
      (by decide!) (by decide!) (by decide!)).1⟩

end Renderer
end Lab2

/-! ### Directional lights in the two lit versions -/

namespace Renderer

/-- Removing lights whose contribution is zero does not change the running
sum of `ComputeLighting`, from any start value. -/
theorem foldl_lighting_filter (g : Light ℚ → ℚ)
    (hg : ∀ light : Light ℚ, light.isDirectional = true → g light = 0) :
    ∀ (lights : List (Light ℚ)) (init : ℚ),
      lights.foldl (fun total light => total + g light) init =
        (lights.filter (fun light => !light.isDirectional)).foldl
          (fun total light => total + g light) init := by
  intro lights
  induction lights with
  | nil => intro init; rfl
  | cons l ls ih =>
    intro init
    by_cases hl : l.isDirectional = true
    · simp only [List.foldl_cons, List.filter_cons, hl, Bool.not_true, Bool.false_eq_true,
        if_false, hg l hl, add_zero]
      exact ih init
    · have hl2 : l.isDirectional = false := by
        cases h : l.isDirectional
        · rfl
        · exact absurd h hl
      simp only [List.foldl_cons, List.filter_cons, hl2, Bool.not_false, if_true]
      exact ih _

/-- C35: directional lights are inert in both lit versions of the source.
`DirectionalLight::ComputeIntensity` of engine/core.hpp and of lab-3 returns
`0` for every `P`, `N`, `specular`, `direction` and `intensity` (over any
ordered field and any `sqrt`, `pow`), so the two versions are the same
function; and `ComputeLighting` of a light list, in either version, equals
`ComputeLighting` of the list with all directional lights removed. -/
theorem DirectionalLight_inert :
    (∀ (K : Type) (_ : LinearOrderedField K) (fm : FloatMath K) (intensity : K)
        (direction P N : Vector3 K) (specular : K),
      Light.directionalIntensity fm intensity direction P N specular = 0 ∧
      Lab3.directionalIntensity fm intensity direction P N specular = 0 ∧
      (Light.DirectionalLight intensity direction).ComputeIntensity fm P N specular = 0 ∧
      Lab3.ComputeIntensity fm (Light.DirectionalLight intensity direction) P N specular = 0) ∧
    (∀ (K : Type) (_ : LinearOrderedField K),
      (Light.directionalIntensity :
          FloatMath K → K → Vector3 K → Vector3 K → Vector3 K → K → K) =
        Lab3.directionalIntensity) ∧
    (∀ (fm : FloatMath ℚ) (p n : Vector3 ℚ) (lights : List (Light ℚ)) (specular : ℚ),
      ComputeLighting fm p n lights specular =
        ComputeLighting fm p n (lights.filter (fun light => !light.isDirectional)) specular ∧
      Lab3.ComputeLighting fm p n lights specular =
        Lab3.ComputeLighting fm p n (lights.filter (fun light => !light.isDirectional))
          specular) := by
  refine ⟨fun K _ fm intensity direction P N specular => ⟨rfl, rfl, rfl, rfl⟩,
    fun K _ => rfl, ?_⟩
  intro fm p n lights specular
  constructor
  · unfold ComputeLighting
    apply foldl_lighting_filter (fun light => light.ComputeIntensity fm p n specular *
      light.intensity)
    intro light hl
    cases light with
    | AmbientLight i => exact absurd hl (by simp [Light.isDirectional])
    | PointLight i q => exact absurd hl (by simp [Light.isDirectional])
    | DirectionalLight i dir =>
      show Light.directionalIntensity fm i dir p n specular * _ = 0
      simp only [Light.directionalIntensity, zero_mul]
  · unfold Lab3.ComputeLighting
    apply foldl_lighting_filter (fun light => Lab3.ComputeIntensity fm light p n specular *
      light.intensity)
    intro light hl
    cases light with
    | AmbientLight i => exact absurd hl (by simp [Light.isDirectional])
    | PointLight i q => exact absurd hl (by simp [Light.isDirectional])
    | DirectionalLight i dir =>
      show Lab3.directionalIntensity fm i dir p n specular * _ = 0
      simp only [Lab3.directionalIntensity, zero_mul]

end Renderer

/-! ### Facing of the clipped triangles -/

namespace Renderer
open ViewportWithZBuffer

/-- C31: near-plane clipping preserves facing.  For every triangle with a
vertex at `z > d` (whatever the number of vertices at `z ≤ d`), every triangle
that `DrawFilledTriangle` passes to `DrawFilledTriangleImpl` has its
determinant `P0 . (P1 x P2)`, and so `h . n`, equal to the original's times a
strictly positive factor, hence is back-facing iff the original is.  Culling
after clipping is culling before clipping: for a back-facing original no call
is made and the sink is returned unchanged, and for a front-facing original no
passed triangle is culled. -/
theorem clip_preserves_facing (config : Config) (t : Triangle)
    (hvis : IsOutOfVisibleRange config t.p0 = false ∨ IsOutOfVisibleRange config t.p1 = false ∨
      IsOutOfVisibleRange config t.p2 = false) :
    (∀ t1 ∈ DrawFilledTriangle.calls config t,
      (∃ f : ℚ, 0 < f ∧
        t1.p0.Dot (t1.p1.Cross t1.p2) = f * t.p0.Dot (t.p1.Cross t.p2) ∧
        IsBackFacing.hDotN t1 = f * IsBackFacing.hDotN t) ∧
      IsBackFacing t1 = IsBackFacing t) ∧
    (IsBackFacing t = true →
      ∀ (fm : FloatMath ℚ) (lights : List (Light ℚ)),
        (∀ canvasSize : Int × Int,
          DrawFilledTriangle.writes fm config canvasSize t lights = some []) ∧
        ∀ (V : Type) (I : IViewport V) (viewport : ViewportWithZBuffer V),
          DrawFilledTriangle I fm config viewport t lights = some viewport) ∧
    (IsBackFacing t = false →
      ∀ t1 ∈ DrawFilledTriangle.calls config t, IsBackFacing t1 = false) := by
  have hkey : ∀ t1 ∈ DrawFilledTriangle.calls config t,
      (∃ f : ℚ, 0 < f ∧
        t1.p0.Dot (t1.p1.Cross t1.p2) = f * t.p0.Dot (t.p1.Cross t.p2) ∧
        IsBackFacing.hDotN t1 = f * IsBackFacing.hDotN t) ∧
      IsBackFacing t1 = IsBackFacing t := by
    intro t1 ht1
    obtain ⟨f, hf, he⟩ := calls_hDotN config t hvis t1 ht1
    refine ⟨⟨f, hf, by rw [← hDotN_eq_triple, ← hDotN_eq_triple]; exact he, he⟩, ?_⟩
    unfold IsBackFacing
    rw [he]
    congr 1
    apply propext
    constructor
    · intro h
      by_contra hn
      have : 0 ≤ f * IsBackFacing.hDotN t := mul_nonneg hf.le (not_lt.mp hn)
      linarith
    · intro h
      exact mul_neg_of_pos_of_neg hf h
  refine ⟨hkey, ?_, ?_⟩
  · intro hback fm lights
    have hall : ∀ canvasSize : Int × Int, ∀ ts : List Triangle,
        (∀ t1 ∈ ts, IsBackFacing t1 = true) →
        drawFilledAll.writes fm config canvasSize lights ts = some [] := by
      intro canvasSize ts
      induction ts with
      | nil => intro _; rfl
      | cons u us ih =>
        intro h
        have hu : IsBackFacing u = true := h u (List.mem_cons_self _ _)
        simp only [drawFilledAll.writes, DrawFilledTriangleImpl.writes, hu, if_true,
          ih (fun v hv => h v (List.mem_cons_of_mem _ hv)), appendWrites, List.append_nil]
    refine ⟨fun canvasSize => ?_, fun V I viewport => ?_⟩
    · unfold DrawFilledTriangle.writes
      exact hall canvasSize _ (fun t1 ht1 => by rw [(hkey t1 ht1).2]; exact hback)
    · exact DrawFilledTriangle_culls_visible I fm config viewport t lights hback hvis
  · intro hfront t1 ht1
    rw [(hkey t1 ht1).2]
    exact hfront

/-- C31, witness: `d = 1` and the triangle `(-1,-1,0.5), (1,-1,3), (0,1,3)`,
whose first vertex is behind the near plane: it is front-facing and so are the
two triangles passed on. -/
theorem clip_preserves_facing_witness :
    (IsOutOfVisibleRange Sample.configFill Sample.triangleShiny.p0 = false ∨
      IsOutOfVisibleRange Sample.configFill Sample.triangleShiny.p1 = false ∨
      IsOutOfVisibleRange Sample.configFill Sample.triangleShiny.p2 = false) ∧
    IsOutOfVisibleRange Sample.configFill Sample.triangleShiny.p0 = true ∧
    (DrawFilledTriangle.calls Sample.configFill Sample.triangleShiny).length = 2 ∧
    IsBackFacing Sample.triangleShiny = false ∧
    ∀ t1 ∈ DrawFilledTriangle.calls Sample.configFill Sample.triangleShiny,
      IsBackFacing t1 = false :=
  ⟨by decide!, by decide!, by decide!, by decide!,
    (clip_preserves_facing Sample.configFill Sample.triangleShiny (by decide!)).2.2
      (by decide!)⟩

end Renderer

/-! ### The ranges of the depth sink and of the canvas wrapper -/

/-- The method `ValidateCoordinates` accepts exactly the coordinates inside
the canvas. -/
theorem CanvasViewport.ValidateCoordinates_iff (canvas : Canvas) (x y : Int) :
    CanvasViewport.ValidateCoordinates canvas x y = true ↔
      (0 ≤ x ∧ x < canvas.width) ∧ (0 ≤ y ∧ y < canvas.height) := by
  unfold CanvasViewport.ValidateCoordinates
  by_cases hx : x < 0 ∨ canvas.width ≤ x
  · rw [if_pos hx]
    constructor
    · intro h; exact absurd h (by decide)
    · intro h; omega
  · rw [if_neg hx]
    by_cases hy : y < 0 ∨ canvas.height ≤ y
    · rw [if_pos hy]
      constructor
      · intro h; exact absurd h (by decide)
      · intro h; omega
    · rw [if_neg hy]
      constructor
      · intro _; omega
      · intro _; rfl

/-- The row tests of the depth sink and of the canvas wrapper differ exactly
at `y = -(H / 2)` for an even `H`. -/
theorem row_mismatch (H y : Int) (hH : 0 ≤ H) (hin : 0 ≤ y + Int.tdiv H 2 ∧ y + Int.tdiv H 2 < H) :
    ¬ (0 ≤ Int.tdiv H 2 - y ∧ Int.tdiv H 2 - y < H) ↔ (H % 2 = 0 ∧ y = -(Int.tdiv H 2)) := by
  rw [Int.tdiv_eq_ediv hH (by decide)] at hin ⊢
  omega

namespace Renderer
open ViewportWithZBuffer

/-- C37: range mismatch between the depth sink and the canvas wrapper, on a
canvas of `W` by `H` pixels.  For every well-formed sink of that size: the `x`
tests of `CanBeChanged` and of `ValidateCoordinates` coincide; a point that
passes the range check of `CanBeChanged` is refused by `ValidateCoordinates`
iff `H` is even and `point.y = -(H / 2)`; such a point still stores its depth
when it passes the depth test, and the canvas is left as it is; for odd `H`
every accepted call stores its colour in the pixel buffer.  For even `H` the
image row `y' = 0` (the first `W` pixels) is the same after `Render` as
before. -/
theorem range_mismatch (canvas : Canvas) (W H : Int) (hshape : canvas.HasShape W H)
    (hW : 0 ≤ W) (hH : 0 ≤ H) :
    (∀ s : ViewportWithZBuffer Canvas, s.WellFormed → s.size = CanvasPoint.mk W H →
      s.viewport.HasShape W H → ∀ p : CanvasPoint,
      ((0 ≤ p.x - s.center.x ∧ p.x - s.center.x < s.size.x) ↔
        (0 ≤ p.x + Int.tdiv W 2 ∧ p.x + Int.tdiv W 2 < W)) ∧
      (s.InRange p →
        (CanvasViewport.ValidateCoordinates s.viewport (p.x + Int.tdiv W 2)
            (Int.tdiv H 2 - p.y) = false ↔
          (H % 2 = 0 ∧ p.y = -(Int.tdiv H 2)))) ∧
      (H % 2 = 0 → p.y = -(Int.tdiv H 2) → s.InRange p → ∀ (z : ℚ) (color : Color),
        s.depthAt (p.y - s.center.y) (p.x - s.center.x) < z →
        ∃ s1, s.PutPixel CanvasViewport.viewport p z color = some s1 ∧
          s1.viewport = s.viewport ∧ s1.depthAt (p.y - s.center.y) (p.x - s.center.x) = z) ∧
      (H % 2 = 1 → s.InRange p → ∀ (z : ℚ) (color : Color),
        s.depthAt (p.y - s.center.y) (p.x - s.center.x) < z →
        ∃ s1, s.PutPixel CanvasViewport.viewport p z color = some s1 ∧
          CanvasViewport.Valid W H p ∧
          s1.viewport.pixels[(CanvasViewport.index W H p).toNat]? = some color)) ∧
    (H % 2 = 0 → ∀ (fm : FloatMath ℚ) (config : Config) (triangles : List Triangle)
      (lights : List (Light ℚ)) (c1 : Canvas),
      Render CanvasViewport.viewport fm config canvas triangles lights = some c1 →
      ∀ k : Nat, (k : Int) < W → c1.pixels[k]? = canvas.pixels[k]?) := by
  constructor
  · intro s hwf hsize hsh p
    have hsx : s.size.x = W := by rw [hsize]
    have hsy : s.size.y = H := by rw [hsize]
    have hcx := center_x_of_wellFormed hwf p
    have hcy := center_y_of_wellFormed hwf p
    rw [hsx] at hcx
    rw [hsy] at hcy
    have hrange : s.InRange p → (0 ≤ p.x + Int.tdiv W 2 ∧ p.x + Int.tdiv W 2 < W) ∧
        (0 ≤ p.y + Int.tdiv H 2 ∧ p.y + Int.tdiv H 2 < H) := by
      intro hr
      obtain ⟨h1, h2, h3, h4⟩ := hr
      rw [hcx] at h1 h2
      rw [hcy] at h3 h4
      rw [hsx] at h2
      rw [hsy] at h4
      exact ⟨⟨h1, h2⟩, ⟨h3, h4⟩⟩
    have hvalid : s.InRange p →
        (CanvasViewport.Valid W H p ↔ ¬ (H % 2 = 0 ∧ p.y = -(Int.tdiv H 2))) := by
      intro hr
      obtain ⟨hx, hy⟩ := hrange hr
      have hm := row_mismatch H p.y hH hy
      unfold CanvasViewport.Valid
      constructor
      · intro hv hbad
        exact (hm.mpr hbad) ⟨hv.2.2.1, hv.2.2.2⟩
      · intro hgood
        by_contra hv
        apply hgood
        apply hm.mp
        intro hrow
        exact hv ⟨hx.1, hx.2, hrow.1, hrow.2⟩
    refine ⟨?_, ?_, ?_, ?_⟩
    · rw [hcx, hsx]
    · intro hr
      obtain ⟨hx, hy⟩ := hrange hr
      have hm := row_mismatch H p.y hH hy
      have hiff := CanvasViewport.ValidateCoordinates_iff s.viewport (p.x + Int.tdiv W 2)
        (Int.tdiv H 2 - p.y)
      rw [hsh.1, hsh.2.1] at hiff
      constructor
      · intro hfalse
        apply hm.mp
        intro hrow
        have := hiff.mpr ⟨hx, hrow⟩
        rw [hfalse] at this
        exact absurd this (by decide)
      · intro hbad
        cases hval : CanvasViewport.ValidateCoordinates s.viewport (p.x + Int.tdiv W 2)
          (Int.tdiv H 2 - p.y)
        · rfl
        · exact absurd (hiff.mp hval).2 (hm.mpr hbad)
    · intro heven hpy hr z color hz
      obtain ⟨s1, _, hv1, hc1, _, hd1, hput⟩ :=
        PutPixel_accept CanvasViewport.viewport hwf p z color hr hz
      have hnv : ¬ CanvasViewport.Valid W H p := fun hv => (hvalid hr).mp hv ⟨heven, hpy⟩
      have hdrop : CanvasViewport.viewport.PutPixel s.viewport p color = some s.viewport :=
        CanvasViewport.PutPixel_invalid hsh hnv color
      rw [hdrop] at hput
      refine ⟨{ s1 with viewport := s.viewport }, hput, rfl, ?_⟩
      show s1.depthAt _ _ = z
      rw [hd1 _ _ hr.2.2.1 hr.1, if_pos ⟨rfl, rfl⟩]
    · intro hodd hr z color hz
      have hv : CanvasViewport.Valid W H p := (hvalid hr).mpr (fun hbad => by omega)
      obtain ⟨s1, hput, _, _, _, _, hpix⟩ := PutPixel_canvas hwf hsh (Write.mk p z color)
      have hidx : (CanvasViewport.index W H p).toNat < s.viewport.pixels.length := by
        have := CanvasViewport.index_bounds hv
        rw [hsh.2.2]
        omega
      have hcol := List.getElem?_eq_getElem hidx
      have h2 := ((hpix p hv).2 hr _ hcol).2
      have hstep : pixelStep (s.depthAt (p.y - s.center.y) (p.x - s.center.x),
          s.viewport.pixels[(CanvasViewport.index W H p).toNat]) (Write.mk p z color) =
          (z, color) := by
        simp only [pixelStep, gt_iff_lt, hz, if_true]
      rw [if_pos rfl, hstep] at h2
      exact ⟨s1, hput, hv, h2⟩
  · intro heven fm config triangles lights c1 hrender k hk
    by_cases hH0 : H = 0
    · have hlen0 : canvas.pixels.length = 0 := by
        rw [hshape.2.2, hH0, mul_zero]
        rfl
      have hnew := new_eq_some CanvasViewport.viewport canvas
        (by show 0 ≤ canvas.width; rw [hshape.1]; exact hW)
        (by show 0 ≤ canvas.height; rw [hshape.2.1]; exact hH)
      obtain ⟨s0, hs0, _⟩ := hnew
      rw [Render_eq_writes, hs0] at hrender
      simp only at hrender
      have hWH : (CanvasViewport.viewport.Width canvas, CanvasViewport.viewport.Height canvas) =
          (W, H) := by
        show (canvas.width, canvas.height) = (W, H)
        rw [hshape.1, hshape.2.1]
      rw [hWH] at hrender
      cases hws : renderLoop.writes fm config (W, H) lights triangles with
      | none =>
        rw [hws] at hrender
        exact Option.noConfusion hrender
      | some ws =>
        obtain ⟨c2, hr2, hsh2, _⟩ :=
          Render_canvas fm config canvas hshape s0 hs0 triangles lights ws hws
        rw [Render_eq_writes, hs0] at hr2
        simp only at hr2
        rw [hWH] at hr2
        rw [hr2] at hrender
        have : c2 = c1 := Option.some.inj hrender
        subst this
        have hlen2 : c2.pixels.length = 0 := by
          rw [hsh2.2.2, hH0, mul_zero]
          rfl
        rw [List.getElem?_eq_none (by omega), List.getElem?_eq_none (by omega)]
    · have hHpos : 0 < H := by omega
      obtain ⟨s0, hs0, hwf0, _, hsize0, _⟩ := new_eq_some CanvasViewport.viewport canvas
        (by show 0 ≤ canvas.width; rw [hshape.1]; exact hW)
        (by show 0 ≤ canvas.height; rw [hshape.2.1]; exact hH)
      have hsize : s0.size = CanvasPoint.mk W H := by
        rw [hsize0]
        show CanvasPoint.mk canvas.width canvas.height = _
        rw [hshape.1, hshape.2.1]
      have hWH : (CanvasViewport.viewport.Width canvas, CanvasViewport.viewport.Height canvas) =
          (W, H) := by
        show (canvas.width, canvas.height) = (W, H)
        rw [hshape.1, hshape.2.1]
      cases hws : renderLoop.writes fm config (W, H) lights triangles with
      | none =>
        rw [Render_eq_writes, hs0] at hrender
        simp only at hrender
        rw [hWH, hws] at hrender
        exact Option.noConfusion hrender
      | some ws =>
        obtain ⟨c2, hr2, _, hpix⟩ :=
          Render_canvas fm config canvas hshape s0 hs0 triangles lights ws hws
        rw [hr2] at hrender
        have : c2 = c1 := Option.some.inj hrender
        subst this
        have hp : CanvasViewport.Valid W H
            (CanvasPoint.mk ((k : Int) - Int.tdiv W 2) (Int.tdiv H 2)) := by
          unfold CanvasViewport.Valid
          simp only
          omega
        have hidx : (CanvasViewport.index W H
            (CanvasPoint.mk ((k : Int) - Int.tdiv W 2) (Int.tdiv H 2))).toNat = k := by
          unfold CanvasViewport.index
          simp only [sub_self, zero_mul, zero_add, sub_add_cancel, Int.toNat_natCast]
        have hnr : ¬ s0.InRange (CanvasPoint.mk ((k : Int) - Int.tdiv W 2) (Int.tdiv H 2)) := by
          intro hr
          obtain ⟨_, _, _, h4⟩ := hr
          rw [center_y_of_wellFormed hwf0, hsize] at h4
          simp only at h4
          rw [Int.tdiv_eq_ediv hH (by decide)] at h4
          omega
        have := (hpix _ hp).1 hnr
        rw [hidx] at this
        exact this

/-- C37, witness: the blank 4 by 4 canvas (even `H`) and the triangle
`(-1,-1,0.5), (1,-1,0.5), (0,1,0.5)`, whose projection covers the whole canvas:
`Render` colours eleven pixels and leaves the four pixels of row `y' = 0` as
they were. -/
theorem range_mismatch_witness :
    (Sample.blank 4 4).HasShape 4 4 ∧ (0 : Int) ≤ 4 ∧ (4 : Int) % 2 = 0 ∧
    Render CanvasViewport.viewport Sample.floatMath Sample.configFill (Sample.blank 4 4)
        [Sample.triangleBehind] [Light.AmbientLight 1] =
      some (Canvas.mk (List.replicate 5 (Color.mk 0 0 0 0) ++ List.replicate 11 Sample.red)
        4 4) ∧
    ∀ c1, Render CanvasViewport.viewport Sample.floatMath Sample.configFill (Sample.blank 4 4)
        [Sample.triangleBehind] [Light.AmbientLight 1] = some c1 →
      ∀ k : Nat, (k : Int) < 4 → c1.pixels[k]? = (Sample.blank 4 4).pixels[k]? :=
  ⟨⟨rfl, rfl, by decide⟩, by decide, by decide, by decide!,
    fun c1 h => (range_mismatch (Sample.blank 4 4) 4 4 ⟨rfl, rfl, by decide⟩ (by decide)
      (by decide)).2 (by decide) Sample.floatMath Sample.configFill [Sample.triangleBehind]
      [Light.AmbientLight 1] c1 h⟩

end Renderer

/-! ### Bounding box of the filled pixels -/

namespace Renderer
open ViewportWithZBuffer

/-- Truncation toward zero of a value between two integers stays between
them. -/
theorem truncToInt_between (lo hi : Int) (q : ℚ) (h0 : (lo : ℚ) ≤ q) (h1 : q ≤ (hi : ℚ)) :
    lo ≤ truncToInt q ∧ truncToInt q ≤ hi := by
  rw [truncToInt_eq]
  split
  · constructor
    · exact Int.le_floor.mpr h0
    · have : ((⌊q⌋ : Int) : ℚ) ≤ (hi : ℚ) := le_trans (Int.floor_le q) h1
      exact_mod_cast this
  · constructor
    · have : (lo : ℚ) ≤ ((⌈q⌉ : Int) : ℚ) := le_trans h0 (Int.le_ceil q)
      exact_mod_cast this
    · exact Int.ceil_le.mpr h1

/-- Every call of a scanline is at row `y0 + i` and at a column between any
integer bounds of the two `x` arrays. -/
theorem scanline.writes_points (color : Color) (y0 : Int)
    (x02 x012 z02 z012 l02 l012 : List ℚ) (i : Int) (ws : List Write) (lo hi : Int)
    (h : scanline.writes color y0 x02 x012 z02 z012 l02 l012 i = some ws)
    (hx02 : ∀ v ∈ x02, (lo : ℚ) ≤ v ∧ v ≤ (hi : ℚ))
    (hx012 : ∀ v ∈ x012, (lo : ℚ) ≤ v ∧ v ≤ (hi : ℚ)) :
    ∀ w ∈ ws, w.point.y = y0 + i ∧ lo ≤ w.point.x ∧ w.point.x ≤ hi := by
  intro w hw
  have h' := h
  unfold scanline.writes at h'
  split at h'
  · rename_i xa xb la lb za zb hxa hxb hla hlb hza hzb
    obtain ⟨hlen, hk⟩ := scanline.writes_closed color y0 x02 x012 z02 z012 l02 l012 i xa xb la
      lb za zb hxa hxb hla hlb hza hzb ws h
    obtain ⟨k, hkl, hwk⟩ := List.getElem_of_mem hw
    obtain ⟨w1, hw1, hp, _, _⟩ := hk k hkl
    rw [List.getElem?_eq_getElem hkl, hwk] at hw1
    have hww : w = w1 := Option.some.inj hw1
    subst hww
    have ha := hx02 xa (List.getElem?_mem hxa)
    have hb := hx012 xb (List.getElem?_mem hxb)
    obtain ⟨ta0, ta1⟩ := truncToInt_between lo hi xa ha.1 ha.2
    obtain ⟨tb0, tb1⟩ := truncToInt_between lo hi xb hb.1 hb.2
    rw [hlen] at hkl
    have hends : lo ≤ (scanlineEnds xa xb la lb za zb).1 ∧
        (scanlineEnds xa xb la lb za zb).2.1 ≤ hi := by
      unfold scanlineEnds
      simp only
      split
      · exact ⟨tb0, ta1⟩
      · exact ⟨ta0, tb1⟩
    rw [hp]
    refine ⟨rfl, ?_, ?_⟩
    · show lo ≤ (scanlineEnds xa xb la lb za zb).1 + (k : Int)
      omega
    · show (scanlineEnds xa xb la lb za zb).1 + (k : Int) ≤ hi
      omega
  · exact Option.noConfusion h'

/-- C32 (amended): in exact arithmetic, filled pixels stay inside the bounding box of the
projected vertices.
When `DrawFilledTriangleImpl` computes its calls for a triangle whose sorted
projected vertices are `v0, v1, v2`, every point `(x, y)` passed to `PutPixel`
has `v0.y ≤ y ≤ v2.y` and
`min(v0.x, v1.x, v2.x) ≤ x ≤ max(v0.x, v1.x, v2.x)`. -/
theorem filled_points_in_bounding_box (fm : FloatMath ℚ) (config : Config)
    (canvasSize : Int × Int) (t : Triangle) (lights : List (Light ℚ)) (ws : List Write)
    (v0 v1 v2 : Vertex)
    (hsv : sortedVertices fm config canvasSize t lights = some (v0, v1, v2))
    (h : DrawFilledTriangleImpl.writes fm config canvasSize t lights = some ws) :
    ∀ w ∈ ws, (v0.p.y ≤ w.point.y ∧ w.point.y ≤ v2.p.y) ∧
      (min v0.p.x (min v1.p.x v2.p.x) ≤ w.point.x ∧
        w.point.x ≤ max v0.p.x (max v1.p.x v2.p.x)) := by
  intro w hw
  unfold DrawFilledTriangleImpl.writes at h
  split at h
  · simp only [Option.some.injEq] at h
    rw [← h] at hw
    simp at hw
  · rw [hsv] at h
    simp only at h
    split at h
    · rename_i x02 x012 r0 r1 r2 hx hr0 hr1 hr2
      split at h
      · rename_i z02 z012 l02 l012 hz hl
        have hb : ∀ n : Int, (n = v0.p.x ∨ n = v1.p.x ∨ n = v2.p.x) →
            ((min v0.p.x (min v1.p.x v2.p.x) : Int) : ℚ) ≤ (n : ℚ) ∧
            (n : ℚ) ≤ ((max v0.p.x (max v1.p.x v2.p.x) : Int) : ℚ) := by
          intro n hn
          constructor
          · exact_mod_cast (by omega : min v0.p.x (min v1.p.x v2.p.x) ≤ n)
          · exact_mod_cast (by omega : n ≤ max v0.p.x (max v1.p.x v2.p.x))
        obtain ⟨hb1, hb2⟩ := edgeArrays_bounds _ _ _ _ _ _ x02 x012 _ _ hx
          (hb _ (Or.inl rfl)) (hb _ (Or.inr (Or.inl rfl))) (hb _ (Or.inr (Or.inr rfl)))
        obtain ⟨k, hk, l, hl2, hwl⟩ := collectWrites_mem _ _ _ _ h w hw
        obtain ⟨hy, hx0, hx1⟩ := scanline.writes_points _ _ _ _ _ _ _ _ _ l _ _ hl2 hb1 hb2 w hwl
        refine ⟨?_, hx0, hx1⟩
        rw [hy]
        omega
      · exact Option.noConfusion h
    · exact Option.noConfusion h

/-- C32, witness: the triangle `(-1,-1,2), (1,-1,2), (0,1,2)` on a 4 by 4 sink:
its sorted projected vertices are `(-1,-1), (1,-1), (0,1)` and its five calls
lie in the box `[-1, 1] x [-1, 1]`. -/
theorem filled_points_in_bounding_box_witness :
    sortedVertices Sample.floatMath Sample.configFill (4, 4) Sample.triangleNear
        [Light.AmbientLight 1] =
      some (Vertex.mk (CanvasPoint.mk (-1) (-1)) 2 1, Vertex.mk (CanvasPoint.mk 1 (-1)) 2 1,
        Vertex.mk (CanvasPoint.mk 0 1) 2 1) ∧
    ((DrawFilledTriangleImpl.writes Sample.floatMath Sample.configFill (4, 4)
      Sample.triangleNear [Light.AmbientLight 1]).getD []).length = 5 ∧
    ∀ w ∈ (DrawFilledTriangleImpl.writes Sample.floatMath Sample.configFill (4, 4)
        Sample.triangleNear [Light.AmbientLight 1]).getD [],
      (-1 ≤ w.point.y ∧ w.point.y ≤ 1) ∧ (-1 ≤ w.point.x ∧ w.point.x ≤ 1) := by
  refine ⟨by decide!, by decide!, ?_⟩
  intro w hw
  exact filled_points_in_bounding_box Sample.floatMath Sample.configFill (4, 4)
    Sample.triangleNear [Light.AmbientLight 1] _ (Vertex.mk (CanvasPoint.mk (-1) (-1)) 2 1)
    (Vertex.mk (CanvasPoint.mk 1 (-1)) 2 1) (Vertex.mk (CanvasPoint.mk 0 1) 2 1) (by decide!)
    (by decide!) w hw

end Renderer

/-! ### Connectedness of the line raster -/

namespace Renderer
open ViewportWithZBuffer

/-- Truncation toward zero of an integer is the integer. -/
theorem truncToInt_intCast (n : Int) : truncToInt (n : ℚ) = n := by
  rw [truncToInt_eq]
  split
  · exact Int.floor_intCast n
  · exact Int.ceil_intCast n

/-- Truncation toward zero is monotone. -/
theorem truncToInt_mono {a b : ℚ} (h : a ≤ b) : truncToInt a ≤ truncToInt b := by
  rw [truncToInt_eq, truncToInt_eq]
  by_cases ha : 0 ≤ a
  · have hb : 0 ≤ b := le_trans ha h
    rw [if_pos ha, if_pos hb]
    exact Int.floor_le_floor h
  · rw [if_neg ha]
    by_cases hb : 0 ≤ b
    · rw [if_pos hb]
      have h1 : ⌈a⌉ ≤ 0 := Int.ceil_le.mpr (by push_cast; linarith)
      have h2 : 0 ≤ ⌊b⌋ := Int.floor_nonneg.mpr hb
      omega
    · rw [if_neg hb]
      exact Int.ceil_le_ceil h

/-- Adding one raises the truncation by at most one. -/
theorem truncToInt_add_one_le (a : ℚ) : truncToInt (a + 1) ≤ truncToInt a + 1 := by
  rw [truncToInt_eq, truncToInt_eq]
  by_cases ha : 0 ≤ a
  · have hb : 0 ≤ a + 1 := by linarith
    rw [if_pos ha, if_pos hb, Int.floor_add_one]
  · rw [if_neg ha]
    by_cases hb : 0 ≤ a + 1
    · rw [if_pos hb]
      have h1 : ⌊a + 1⌋ ≤ 0 := by
        have : ⌊a + 1⌋ < 1 := Int.floor_lt.mpr (by push_cast; linarith)
        omega
      have h2 : (-1 : Int) ≤ ⌈a⌉ := by
        have : ((-1 : Int) : ℚ) ≤ ((⌈a⌉ : Int) : ℚ) :=
          le_trans (by push_cast; linarith) (Int.le_ceil a)
        exact_mod_cast this
      omega
    · rw [if_neg hb, Int.ceil_add_one]

/-- A step of size at most one moves the truncation by at most one. -/
theorem truncToInt_step (y s : ℚ) (hs : |s| ≤ 1) :
    (truncToInt (y + s) - truncToInt y).natAbs ≤ 1 := by
  obtain ⟨hs0, hs1⟩ := abs_le.mp hs
  by_cases h : 0 ≤ s
  · have h1 : truncToInt y ≤ truncToInt (y + s) := truncToInt_mono (by linarith)
    have h2 : truncToInt (y + s) ≤ truncToInt y + 1 :=
      le_trans (truncToInt_mono (by linarith)) (truncToInt_add_one_le y)
    omega
  · have h1 : truncToInt (y + s) ≤ truncToInt y := truncToInt_mono (by linarith)
    have h2 : truncToInt y ≤ truncToInt (y + s) + 1 := by
      have := truncToInt_add_one_le (y + s)
      exact le_trans (truncToInt_mono (by linarith)) this
    omega

/-- The entries of an integer interpolation over `D > 0` steps whose total
rise is at most `D` in absolute value: the first truncates to `y0`, the last to
`y1`, and two neighbours truncate to integers at most one apart. -/
theorem interpolated_truncations (D y0 y1 : Int) (hD : 0 < D)
    (hy : (y1 - y0).natAbs ≤ D.natAbs) :
    truncToInt ((y0 : ℚ) + ((0 : Nat) : ℚ) * ((y1 : ℚ) - (y0 : ℚ)) / (D : ℚ)) = y0 ∧
    truncToInt ((y0 : ℚ) + ((D.toNat : Nat) : ℚ) * ((y1 : ℚ) - (y0 : ℚ)) / (D : ℚ)) = y1 ∧
    ∀ k : Nat,
      (truncToInt ((y0 : ℚ) + ((k + 1 : Nat) : ℚ) * ((y1 : ℚ) - (y0 : ℚ)) / (D : ℚ)) -
        truncToInt ((y0 : ℚ) + (k : ℚ) * ((y1 : ℚ) - (y0 : ℚ)) / (D : ℚ))).natAbs ≤ 1 := by
  have hpos : (0 : ℚ) < (D : ℚ) := by exact_mod_cast hD
  have hDn : ((D.toNat : Nat) : ℚ) = (D : ℚ) := by
    have : ((D.toNat : Nat) : Int) = D := Int.toNat_of_nonneg (le_of_lt hD)
    exact_mod_cast this
  refine ⟨?_, ?_, ?_⟩
  · have : (y0 : ℚ) + ((0 : Nat) : ℚ) * ((y1 : ℚ) - (y0 : ℚ)) / (D : ℚ) = ((y0 : Int) : ℚ) := by
      simp
    rw [this, truncToInt_intCast]
  · have : (y0 : ℚ) + ((D.toNat : Nat) : ℚ) * ((y1 : ℚ) - (y0 : ℚ)) / (D : ℚ) =
        ((y1 : Int) : ℚ) := by
      rw [hDn]
      field_simp
    rw [this, truncToInt_intCast]
  · intro k
    have hstep : (y0 : ℚ) + ((k + 1 : Nat) : ℚ) * ((y1 : ℚ) - (y0 : ℚ)) / (D : ℚ) =
        ((y0 : ℚ) + (k : ℚ) * ((y1 : ℚ) - (y0 : ℚ)) / (D : ℚ)) +
          ((y1 : ℚ) - (y0 : ℚ)) / (D : ℚ) := by
      push_cast
      ring
    rw [hstep]
    apply truncToInt_step
    rw [abs_div, abs_of_pos hpos, div_le_one hpos]
    have h1 : |y1 - y0| ≤ D := by
      rw [Int.abs_eq_natAbs]
      omega
    have h2 : ((|y1 - y0| : Int) : ℚ) ≤ ((D : Int) : ℚ) := by exact_mod_cast h1
    simpa using h2

/-- The first and last entries of a list produced by mapping over
`0, ..., n`. -/
theorem range_map_ends {α : Type} (f : Nat → α) (n : Nat) :
    ((List.range (n + 1)).map f).head? = some (f 0) ∧
      ((List.range (n + 1)).map f).getLast? = some (f n) := by
  constructor
  · rw [List.range_succ_eq_map]
    rfl
  · rw [List.range_succ, List.map_append]
    simp

/-- The entry at index `k` of a list produced by mapping over a range. -/
theorem range_map_get {α : Type} (f : Nat → α) (n k : Nat) (w : α)
    (h : ((List.range n).map f)[k]? = some w) : w = f k := by
  rw [List.getElem?_map] at h
  by_cases hk : k < n
  · rw [List.getElem?_range hk] at h
    simpa using h.symm
  · rw [List.getElem?_eq_none (by simpa using hk)] at h
    simp at h

/-- The calls of the rasterizing part of `DrawLine` between two distinct
projected endpoints `a` and `b`: they are defined, one more than the larger of
the two coordinate differences, start at one endpoint and end at the other with
the depth of that endpoint, and two consecutive calls differ by exactly one
along the dominant axis and by at most one along the other axis. -/
theorem DrawLine.writes_connected (a b : DepthPoint) (color : Color) (hne : a.1 ≠ b.1) :
    ∃ ws first last, DrawLine.writes a b color = some ws ∧
      ws.length = max (a.1.x - b.1.x).natAbs (a.1.y - b.1.y).natAbs + 1 ∧
      ws.head? = some first ∧ ws.getLast? = some last ∧
      ((first.point = a.1 ∧ first.z = a.2 ∧ last.point = b.1 ∧ last.z = b.2) ∨
        (first.point = b.1 ∧ first.z = b.2 ∧ last.point = a.1 ∧ last.z = a.2)) ∧
      ∀ (k : Nat) (w1 w2 : Write), ws[k]? = some w1 → ws[k + 1]? = some w2 →
        if (a.1.x - b.1.x).natAbs > (a.1.y - b.1.y).natAbs then
          w2.point.x = w1.point.x + 1 ∧ (w2.point.y - w1.point.y).natAbs ≤ 1
        else
          w2.point.y = w1.point.y + 1 ∧ (w2.point.x - w1.point.x).natAbs ≤ 1 := by
  by_cases hdom : (a.1.x - b.1.x).natAbs > (a.1.y - b.1.y).natAbs
  · obtain ⟨lo, hi, hord, hcase⟩ : ∃ lo hi, DrawLine.orderX a b = (lo, hi) ∧
        ((lo = a ∧ hi = b) ∨ (lo = b ∧ hi = a)) := by
      unfold DrawLine.orderX
      split
      · exact ⟨b, a, rfl, Or.inr ⟨rfl, rfl⟩⟩
      · exact ⟨a, b, rfl, Or.inl ⟨rfl, rfl⟩⟩
    have hlt : lo.1.x < hi.1.x := by
      have h : (DrawLine.orderX a b).1.1.x < (DrawLine.orderX a b).2.1.x := by
        unfold DrawLine.orderX
        split
        · assumption
        · show a.1.x < b.1.x
          omega
      rw [hord] at h
      exact h
    have hmin : min a.1.x b.1.x = lo.1.x := by
      rcases hcase with ⟨rfl, rfl⟩ | ⟨rfl, rfl⟩ <;> omega
    have hn : (a.1.x - b.1.x).natAbs = (hi.1.x - lo.1.x).toNat := by
      rcases hcase with ⟨rfl, rfl⟩ | ⟨rfl, rfl⟩ <;> omega
    have hdy : (hi.1.y - lo.1.y).natAbs ≤ (hi.1.x - lo.1.x).natAbs := by
      rcases hcase with ⟨rfl, rfl⟩ | ⟨rfl, rfl⟩ <;> omega
    obtain ⟨e0, e1, estep⟩ := interpolated_truncations (hi.1.x - lo.1.x) lo.1.y hi.1.y
      (by omega) hdy
    have hw := DrawLine.writes_horizontal a b color hne hdom
    rw [hord, hmin, hn] at hw
    dsimp only at hw
    obtain ⟨hhead, hlast⟩ := range_map_ends (fun k : Nat =>
        Write.mk
          (CanvasPoint.mk (lo.1.x + (k : Int))
            (truncToInt ((lo.1.y : ℚ) + (k : ℚ) * ((hi.1.y : ℚ) - (lo.1.y : ℚ)) /
                ((hi.1.x - lo.1.x : Int) : ℚ))))
          (lo.2 + (k : ℚ) * (hi.2 - lo.2) / ((hi.1.x - lo.1.x : Int) : ℚ))
          color) (hi.1.x - lo.1.x).toNat
    refine ⟨_, _, _, hw, ?_, hhead, hlast, ?_, ?_⟩
    · rw [List.length_map, List.length_range, ← hn]
      omega
    · have hfirst : (CanvasPoint.mk (lo.1.x + ((0 : Nat) : Int))
            (truncToInt ((lo.1.y : ℚ) + ((0 : Nat) : ℚ) * ((hi.1.y : ℚ) - (lo.1.y : ℚ)) /
                ((hi.1.x - lo.1.x : Int) : ℚ)))) = lo.1 := by
        rw [e0]
        simp
      have hlastp : (CanvasPoint.mk (lo.1.x + (((hi.1.x - lo.1.x).toNat : Nat) : Int))
            (truncToInt ((lo.1.y : ℚ) + (((hi.1.x - lo.1.x).toNat : Nat) : ℚ) *
              ((hi.1.y : ℚ) - (lo.1.y : ℚ)) / ((hi.1.x - lo.1.x : Int) : ℚ)))) = hi.1 := by
        rw [e1, Int.toNat_of_nonneg (by omega)]
        simp
      have hz0 : lo.2 + ((0 : Nat) : ℚ) * (hi.2 - lo.2) / ((hi.1.x - lo.1.x : Int) : ℚ) = lo.2 := by
        simp
      have hz1 := interpolated_last lo.1.x hi.1.x lo.2 hi.2 hlt
      dsimp only
      rw [hfirst, hlastp, hz0, hz1]
      rcases hcase with ⟨rfl, rfl⟩ | ⟨rfl, rfl⟩
      · exact Or.inl ⟨rfl, rfl, rfl, rfl⟩
      · exact Or.inr ⟨rfl, rfl, rfl, rfl⟩
    · intro k w1 w2 h1 h2
      rw [if_pos hdom]
      have g1 := range_map_get _ _ _ _ h1
      have g2 := range_map_get _ _ _ _ h2
      subst g1 g2
      dsimp only
      refine ⟨by push_cast; ring, estep k⟩
  · obtain ⟨lo, hi, hord, hcase⟩ : ∃ lo hi, DrawLine.orderY a b = (lo, hi) ∧
        ((lo = a ∧ hi = b) ∨ (lo = b ∧ hi = a)) := by
      unfold DrawLine.orderY
      split
      · exact ⟨b, a, rfl, Or.inr ⟨rfl, rfl⟩⟩
      · exact ⟨a, b, rfl, Or.inl ⟨rfl, rfl⟩⟩
    have hxy : a.1.x ≠ b.1.x ∨ a.1.y ≠ b.1.y := by
      by_contra hc
      push_neg at hc
      apply hne
      cases ha : a.1
      cases hb : b.1
      rw [ha, hb] at hc
      obtain ⟨h1, h2⟩ := hc
      dsimp only at h1 h2
      rw [h1, h2]
    have hlt : lo.1.y < hi.1.y := by
      have h : (DrawLine.orderY a b).1.1.y < (DrawLine.orderY a b).2.1.y := by
        unfold DrawLine.orderY
        split
        · assumption
        · show a.1.y < b.1.y
          omega
      rw [hord] at h
      exact h
    have hmin : min a.1.y b.1.y = lo.1.y := by
      rcases hcase with ⟨rfl, rfl⟩ | ⟨rfl, rfl⟩ <;> omega
    have hn : (a.1.y - b.1.y).natAbs = (hi.1.y - lo.1.y).toNat := by
      rcases hcase with ⟨rfl, rfl⟩ | ⟨rfl, rfl⟩ <;> omega
    have hdx : (hi.1.x - lo.1.x).natAbs ≤ (hi.1.y - lo.1.y).natAbs := by
      rcases hcase with ⟨rfl, rfl⟩ | ⟨rfl, rfl⟩ <;> omega
    obtain ⟨e0, e1, estep⟩ := interpolated_truncations (hi.1.y - lo.1.y) lo.1.x hi.1.x
      (by omega) hdx
    have hw := DrawLine.writes_vertical a b color hne hdom
    rw [hord, hmin, hn] at hw
    dsimp only at hw
    obtain ⟨hhead, hlast⟩ := range_map_ends (fun k : Nat =>
        Write.mk
          (CanvasPoint.mk
            (truncToInt ((lo.1.x : ℚ) + (k : ℚ) * ((hi.1.x : ℚ) - (lo.1.x : ℚ)) /
                ((hi.1.y - lo.1.y : Int) : ℚ)))
            (lo.1.y + (k : Int)))
          (lo.2 + (k : ℚ) * (hi.2 - lo.2) / ((hi.1.y - lo.1.y : Int) : ℚ))
          color) (hi.1.y - lo.1.y).toNat
    refine ⟨_, _, _, hw, ?_, hhead, hlast, ?_, ?_⟩
    · rw [List.length_map, List.length_range, ← hn]
      omega
    · have hfirst : (CanvasPoint.mk
            (truncToInt ((lo.1.x : ℚ) + ((0 : Nat) : ℚ) * ((hi.1.x : ℚ) - (lo.1.x : ℚ)) /
                ((hi.1.y - lo.1.y : Int) : ℚ)))
            (lo.1.y + ((0 : Nat) : Int))) = lo.1 := by
        rw [e0]
        simp
      have hlastp : (CanvasPoint.mk
            (truncToInt ((lo.1.x : ℚ) + (((hi.1.y - lo.1.y).toNat : Nat) : ℚ) *
              ((hi.1.x : ℚ) - (lo.1.x : ℚ)) / ((hi.1.y - lo.1.y : Int) : ℚ)))
            (lo.1.y + (((hi.1.y - lo.1.y).toNat : Nat) : Int))) = hi.1 := by
        rw [e1, Int.toNat_of_nonneg (by omega)]
        simp
      have hz0 : lo.2 + ((0 : Nat) : ℚ) * (hi.2 - lo.2) / ((hi.1.y - lo.1.y : Int) : ℚ) = lo.2 := by
        simp
      have hz1 := interpolated_last lo.1.y hi.1.y lo.2 hi.2 hlt
      dsimp only
      rw [hfirst, hlastp, hz0, hz1]
      rcases hcase with ⟨rfl, rfl⟩ | ⟨rfl, rfl⟩
      · exact Or.inl ⟨rfl, rfl, rfl, rfl⟩
      · exact Or.inr ⟨rfl, rfl, rfl, rfl⟩
    · intro k w1 w2 h1 h2
      rw [if_neg hdom]
      have g1 := range_map_get _ _ _ _ h1
      have g2 := range_map_get _ _ _ _ h2
      subst g1 g2
      dsimp only
      refine ⟨by push_cast; ring, estep k⟩

end Renderer

/-! ### Depth ordering in Wireframe mode -/

namespace Renderer
open ViewportWithZBuffer

/-- Every `z` that `DrawLine` passes to `PutPixel` for a line with both
endpoints in visible range lies between the depths of the endpoints: it is the
scene depth itself. -/
theorem DrawLine.allWrites_between (config : Config) (canvasSize : Int × Int) (line : Line)
    (color : Color) (ws : List Write) (lo hi : ℚ) (hlo : config.d < lo)
    (ha : lo ≤ line.begin_.z ∧ line.begin_.z ≤ hi) (hb : lo ≤ line.end_.z ∧ line.end_.z ≤ hi)
    (h : DrawLine.allWrites config canvasSize line color = some ws) :
    ∀ w ∈ ws, (lo ≤ w.z ∧ w.z ≤ hi) ∧ w.color = color := by
  have hA : IsOutOfVisibleRange config line.begin_ = false := by
    simp only [IsOutOfVisibleRange, decide_eq_false_iff_not, not_le]
    exact lt_of_lt_of_le hlo ha.1
  have hB : IsOutOfVisibleRange config line.end_ = false := by
    simp only [IsOutOfVisibleRange, decide_eq_false_iff_not, not_le]
    exact lt_of_lt_of_le hlo hb.1
  have hclip : DrawLine.clip config line = line := by
    simp only [DrawLine.clip, hA, hB, Bool.or_self, Bool.false_eq_true, if_false]
  unfold DrawLine.allWrites at h
  simp only [hA, hB, Bool.and_self, Bool.false_eq_true, if_false, hclip] at h
  split at h
  · exact DrawLine.writes_depth_bounds _ _ color ws lo hi h ha hb
  · exact Option.noConfusion h

/-- For a triangle whose vertices are all at the depth `z0 > d`, every call of
`DrawBorderedTriangle` passes the depth `z0` and the colour of the triangle. -/
theorem DrawBorderedTriangle.writes_depth_const (config : Config) (canvasSize : Int × Int)
    (t : Triangle) (ws : List Write) (z0 : ℚ) (hz : config.d < z0)
    (ht : t.p0.z = z0 ∧ t.p1.z = z0 ∧ t.p2.z = z0)
    (h : DrawBorderedTriangle.writes config canvasSize t = some ws) :
    ∀ w ∈ ws, w.z = z0 ∧ w.color = t.color := by
  obtain ⟨e0, e1, e2⟩ := ht
  unfold DrawBorderedTriangle.writes at h
  obtain ⟨x, yz, hx, hyz, rfl⟩ := appendWrites_eq_some _ _ _ h
  obtain ⟨y, z, hy, hz2, rfl⟩ := appendWrites_eq_some _ _ _ hyz
  have key : ∀ (line : Line) (l : List Write), line.begin_.z = z0 → line.end_.z = z0 →
      DrawLine.allWrites config canvasSize line t.color = some l →
      ∀ w ∈ l, w.z = z0 ∧ w.color = t.color := by
    intro line l hb he hl w hw
    obtain ⟨⟨h1, h2⟩, h3⟩ := DrawLine.allWrites_between config canvasSize line t.color l z0 z0 hz
      (by rw [hb]; exact ⟨le_refl _, le_refl _⟩) (by rw [he]; exact ⟨le_refl _, le_refl _⟩) hl w hw
    exact ⟨le_antisymm h2 h1, h3⟩
  intro w hw
  rcases List.mem_append.mp hw with hw | hw
  · exact key _ x e0 e1 hx w hw
  · rcases List.mem_append.mp hw with hw | hw
    · exact key _ y e1 e2 hy w hw
    · exact key _ z e2 e0 hz2 w hw

/-- The calls of `Render` in Wireframe mode on a list of two triangles. -/
theorem renderLoop.writes_wireframe_pair (fm : FloatMath ℚ) (config : Config)
    (hmode : config.mode = RenderMode.WIREFRAME) (canvasSize : Int × Int)
    (lights : List (Light ℚ)) (A B : Triangle) (wA wB : List Write)
    (hwA : DrawBorderedTriangle.writes config canvasSize A = some wA)
    (hwB : DrawBorderedTriangle.writes config canvasSize B = some wB) :
    renderLoop.writes fm config canvasSize lights [A, B] = some (wA ++ wB) := by
  simp only [renderLoop.writes, hmode, if_true, hwA, hwB, appendWrites, List.append_nil]

/-- C34: Wireframe and Fill order depths in opposite ways.  Let `d > 0` and let
`A`, `B` be triangles whose edges are segments of constant depth `za` and `zb`
with `d < za < zb`, drawn on a canvas of `W * H` pixels; `wA` and `wB` are the
`PutPixel` calls `DrawBorderedTriangle` makes for them through `DrawLine`.
Every call for `A` passes the scene depth `za` itself and every call for `B`
the depth `zb`, whereas every call of the filled path passes `1 / za` and
`1 / zb`, and `1 / zb < 1 / za`.  In Wireframe mode `Render` returns for both
orders of the list, and at every canvas pixel in the range of the depth buffer
that `B` writes, the canvas ends with the colour of `B`, the farther of the
two, whether `A` or `B` comes first. -/
theorem wireframe_farther_wins (fm : FloatMath ℚ) (config : Config) (hd : 0 < config.d)
    (hmode : config.mode = RenderMode.WIREFRAME) (canvas : Canvas)
    (hlen : canvas.pixels.length = (canvas.width * canvas.height).toNat)
    (hW : 0 ≤ canvas.width) (hH : 0 ≤ canvas.height) (A B : Triangle) (lights : List (Light ℚ))
    (za zb : ℚ) (hA : A.p0.z = za ∧ A.p1.z = za ∧ A.p2.z = za)
    (hB : B.p0.z = zb ∧ B.p1.z = zb ∧ B.p2.z = zb) (hza : config.d < za) (hzb : za < zb)
    (wA wB : List Write)
    (hwA : DrawBorderedTriangle.writes config (canvas.width, canvas.height) A = some wA)
    (hwB : DrawBorderedTriangle.writes config (canvas.width, canvas.height) B = some wB) :
    (∀ w ∈ wA, w.z = za ∧ w.color = A.color) ∧ (∀ w ∈ wB, w.z = zb ∧ w.color = B.color) ∧
    (∀ fA, DrawFilledTriangle.writes fm config (canvas.width, canvas.height) A lights = some fA →
      ∀ w ∈ fA, w.z = 1 / za) ∧
    (∀ fB, DrawFilledTriangle.writes fm config (canvas.width, canvas.height) B lights = some fB →
      ∀ w ∈ fB, w.z = 1 / zb) ∧
    1 / zb < 1 / za ∧
    ∃ s0 c1 c2, ViewportWithZBuffer.new CanvasViewport.viewport canvas = some s0 ∧
      Render CanvasViewport.viewport fm config canvas [A, B] lights = some c1 ∧
      Render CanvasViewport.viewport fm config canvas [B, A] lights = some c2 ∧
      ∀ p, CanvasViewport.Valid canvas.width canvas.height p → s0.InRange p →
        (∃ w ∈ wB, w.point = p) →
          c1.pixels[(CanvasViewport.index canvas.width canvas.height p).toNat]? =
            some B.color ∧
          c2.pixels[(CanvasViewport.index canvas.width canvas.height p).toNat]? =
            some B.color := by
  have hza0 : 0 < za := lt_trans hd hza
  have hzb0 : 0 < zb := lt_trans hza0 hzb
  have hzA := DrawBorderedTriangle.writes_depth_const config _ A wA za hza hA hwA
  have hzB := DrawBorderedTriangle.writes_depth_const config _ B wB zb (lt_trans hza hzb) hB hwB
  refine ⟨hzA, hzB,
    fun fA hfA => DrawFilledTriangle.writes_const fm config _ A lights fA za hza hA hfA,
    fun fB hfB => DrawFilledTriangle.writes_const fm config _ B lights fB zb (lt_trans hza hzb)
      hB hfB,
    one_div_lt_one_div_of_lt hza0 hzb, ?_⟩
  have hshape : canvas.HasShape canvas.width canvas.height := ⟨rfl, rfl, hlen⟩
  obtain ⟨s0, hnew, _, _, _, _⟩ := new_eq_some CanvasViewport.viewport canvas hW hH
  obtain ⟨c1, hr1, _, hpix1⟩ := Render_canvas fm config canvas hshape s0 hnew [A, B] lights
    (wA ++ wB) (renderLoop.writes_wireframe_pair fm config hmode _ lights A B wA wB hwA hwB)
  obtain ⟨c2, hr2, _, hpix2⟩ := Render_canvas fm config canvas hshape s0 hnew [B, A] lights
    (wB ++ wA) (renderLoop.writes_wireframe_pair fm config hmode _ lights B A wB wA hwB hwA)
  refine ⟨s0, c1, c2, hnew, hr1, hr2, ?_⟩
  intro p hp hr hex
  obtain ⟨w0, hw0, hw0p⟩ := hex
  have hne : wB.filter (fun w => decide (w.point = p)) ≠ [] := by
    intro hnil
    have hmem : w0 ∈ wB.filter (fun w => decide (w.point = p)) :=
      List.mem_filter.mpr ⟨hw0, by simpa using hw0p⟩
    rw [hnil] at hmem
    exact absurd hmem (List.not_mem_nil _)
  obtain ⟨wb, rest, hcons⟩ := List.exists_cons_of_ne_nil hne
  have hwb : (wB.filter (fun w => decide (w.point = p))).head? = some wb := by
    rw [hcons]
    rfl
  have hwbmem : wb ∈ wB := by
    have : wb ∈ wB.filter (fun w => decide (w.point = p)) := by
      rw [hcons]
      exact List.mem_cons_self _ _
    exact (List.mem_filter.mp this).1
  have hidx : (CanvasViewport.index canvas.width canvas.height p).toNat <
      canvas.pixels.length := by
    have := CanvasViewport.index_bounds hp
    rw [hlen]
    omega
  have hcol := List.getElem?_eq_getElem hidx
  have e1 := (hpix1 p hp).2 hr _ hcol
  have e2 := (hpix2 p hp).2 hr _ hcol
  rw [List.filter_append] at e1 e2
  have hfB : ∀ w ∈ wB.filter (fun w => decide (w.point = p)), w.z = zb :=
    fun w hw => (hzB w (List.mem_filter.mp hw).1).1
  have hfA : ∀ w ∈ wA.filter (fun w => decide (w.point = p)), w.z < zb :=
    fun w hw => by rw [(hzA w (List.mem_filter.mp hw).1).1]; exact hzb
  obtain ⟨n1, n2⟩ := pixelRun_nearer _ _ wb zb 0
    (canvas.pixels[(CanvasViewport.index canvas.width canvas.height p).toNat])
    hzb0 hfB hfA hwb
  rw [e1, e2, n2, n1, (hzB wb hwbmem).2]
  exact ⟨rfl, rfl⟩

/-- The red triangle at `za = 2` and the blue triangle at `zb = 4`, `d = 1`,
outlined over the same pixels of the blank 4 by 4 canvas in Wireframe mode: in
both orders the five outlined pixels end blue, among them the pixel of the
point `(0, 0)`. -/
theorem wireframe_farther_wins_witness :
    0 < Sample.configWireframe.d ∧ Sample.configWireframe.d < 2 ∧ (2 : ℚ) < 4 ∧
    Render CanvasViewport.viewport Sample.floatMath Sample.configWireframe (Sample.blank 4 4)
        [Sample.triangleNear, Sample.triangleFar] [Light.AmbientLight 1] =
      some (Canvas.mk (List.replicate 6 (Color.mk 0 0 0 0) ++ [Sample.blue] ++
        List.replicate 3 (Color.mk 0 0 0 0) ++ [Sample.blue] ++
        List.replicate 2 (Color.mk 0 0 0 0) ++ [Sample.blue, Sample.blue, Sample.blue]) 4 4) ∧
    Render CanvasViewport.viewport Sample.floatMath Sample.configWireframe (Sample.blank 4 4)
        [Sample.triangleFar, Sample.triangleNear] [Light.AmbientLight 1] =
      some (Canvas.mk (List.replicate 6 (Color.mk 0 0 0 0) ++ [Sample.blue] ++
        List.replicate 3 (Color.mk 0 0 0 0) ++ [Sample.blue] ++
        List.replicate 2 (Color.mk 0 0 0 0) ++ [Sample.blue, Sample.blue, Sample.blue]) 4 4) ∧
    ∃ c1 c2,
      Render CanvasViewport.viewport Sample.floatMath Sample.configWireframe (Sample.blank 4 4)
        [Sample.triangleNear, Sample.triangleFar] [Light.AmbientLight 1] = some c1 ∧
      Render CanvasViewport.viewport Sample.floatMath Sample.configWireframe (Sample.blank 4 4)
        [Sample.triangleFar, Sample.triangleNear] [Light.AmbientLight 1] = some c2 ∧
      c1.pixels[(CanvasViewport.index 4 4 { x := 0, y := 0 }).toNat]? = some Sample.blue ∧
      c2.pixels[(CanvasViewport.index 4 4 { x := 0, y := 0 }).toNat]? = some Sample.blue := by
  refine ⟨by decide!, by decide!, by decide!, by decide!, by decide!, ?_⟩
  obtain ⟨_, _, _, _, _, s0, c1, c2, hnew, h1, h2, hpix⟩ :=
    wireframe_farther_wins Sample.floatMath Sample.configWireframe (by decide!) rfl
      (Sample.blank 4 4) (by decide) (by decide) (by decide) Sample.triangleNear
      Sample.triangleFar [Light.AmbientLight 1] 2 4 (by decide!) (by decide!) (by decide!)
      (by decide!)
      ((DrawBorderedTriangle.writes Sample.configWireframe (4, 4) Sample.triangleNear).getD [])
      ((DrawBorderedTriangle.writes Sample.configWireframe (4, 4) Sample.triangleFar).getD [])
      (by decide!) (by decide!)
  have hs0 : ViewportWithZBuffer.new CanvasViewport.viewport (Sample.blank 4 4) =
      some { zbuffer := List.replicate 4 (List.replicate 4 0), viewport := Sample.blank 4 4,
             center := { x := -2, y := -2 }, size := { x := 4, y := 4 } } := by decide!
  rw [hs0] at hnew
  cases hnew
  exact ⟨c1, c2, h1, h2,
    hpix { x := 0, y := 0 } (by unfold CanvasViewport.Valid; decide)
      (by unfold ViewportWithZBuffer.InRange; decide)
      ⟨{ point := { x := 0, y := 0 }, z := 4, color := Sample.blue }, by decide!, rfl⟩⟩

end Renderer

/-! ### The diffuse term of the point light -/

namespace Renderer

/-- Cauchy-Schwarz for `Vector3` over the reals: the dot product is at most
the product of the lengths. -/
theorem Dot_le_Length_mul (fm : FloatMath ℝ) (hsqrt : fm.sqrt = Real.sqrt) (u v : Vector3 ℝ) :
    u.Dot v ≤ u.Length fm * v.Length fm := by
  rw [Length_real fm hsqrt, Length_real fm hsqrt, ← Real.sqrt_mul
    (add_nonneg (add_nonneg (mul_self_nonneg _) (mul_self_nonneg _)) (mul_self_nonneg _))]
  apply Real.le_sqrt_of_sq_le
  unfold Vector3.Dot
  nlinarith [sq_nonneg (u.x * v.y - u.y * v.x), sq_nonneg (u.x * v.z - u.z * v.x),
    sq_nonneg (u.y * v.z - u.z * v.y)]

/-- Scaling a vector by a positive factor scales its length. -/
theorem Length_smul (fm : FloatMath ℝ) (hsqrt : fm.sqrt = Real.sqrt) (u : Vector3 ℝ) (c : ℝ)
    (hc : 0 < c) : (u.smul c).Length fm = c * u.Length fm := by
  rw [Length_real fm hsqrt, Length_real fm hsqrt]
  have h : (u.smul c).x * (u.smul c).x + (u.smul c).y * (u.smul c).y +
      (u.smul c).z * (u.smul c).z = c ^ 2 * (u.x * u.x + u.y * u.y + u.z * u.z) := by
    simp only [Vector3.smul]
    ring
  rw [h, Real.sqrt_mul (sq_nonneg c), Real.sqrt_sq hc.le]

/-- The diffuse part of `PointLight::ComputeIntensity`: with `specular = 0` the
result is the quotient `N.L / (|N||L|)` when `N.L > 0` and `0` otherwise. -/
theorem pointIntensity_diffuse (fm : FloatMath ℝ) (Q P N : Vector3 ℝ) :
    Light.pointIntensity fm Q P N 0 =
      if N.Dot (Q.sub P) > 0 then
        N.Dot (Q.sub P) / (N.Length fm * (Q.sub P).Length fm)
      else 0 := by
  simp only [Light.pointIntensity, ne_eq, not_true_eq_false, if_false, zero_add]

/-- The quotient of a positive dot product by the product of the lengths lies
in `(0, 1]`. -/
theorem cosine_bounds (fm : FloatMath ℝ) (hsqrt : fm.sqrt = Real.sqrt) (u v : Vector3 ℝ)
    (h : 0 < u.Dot v) :
    0 < u.Dot v / (u.Length fm * v.Length fm) ∧ u.Dot v / (u.Length fm * v.Length fm) ≤ 1 := by
  have hden : 0 < u.Length fm * v.Length fm :=
    mul_pos (Length_pos_of_dot_pos fm hsqrt _ _ (Or.inl h))
      (Length_pos_of_dot_pos fm hsqrt _ _ (Or.inr h))
  exact ⟨div_pos h hden, (div_le_one hden).mpr (Dot_le_Length_mul fm hsqrt u v)⟩

/-- C36: over the reals (`sqrt` the real square root, `pow` the real power),
for every point `P`, normal `N` and light position `Q`, the result of
`PointLight::ComputeIntensity(P, N, 0)` is the cosine `N.L / (|N||L|)` of the
angle between `N` and `L = Q - P` when `N.L > 0`, lies in `[0, 1]`, is `0`
exactly when `N.L ≤ 0`, and does not change when `N` is scaled by a positive
factor; with `specular > 0` the result lies in `[0, 2]`. -/
theorem PointLight_diffuse_is_cosine (fm : FloatMath ℝ) (hsqrt : fm.sqrt = Real.sqrt)
    (hpow : fm.pow = fun x y => x ^ y) (i : ℝ) (Q P N : Vector3 ℝ) :
    (0 < N.Dot (Q.sub P) →
      Light.ComputeIntensity fm (Light.PointLight i Q) P N 0 =
        N.Dot (Q.sub P) / (N.Length fm * (Q.sub P).Length fm)) ∧
    (0 ≤ Light.ComputeIntensity fm (Light.PointLight i Q) P N 0 ∧
      Light.ComputeIntensity fm (Light.PointLight i Q) P N 0 ≤ 1) ∧
    (Light.ComputeIntensity fm (Light.PointLight i Q) P N 0 = 0 ↔ N.Dot (Q.sub P) ≤ 0) ∧
    (∀ c : ℝ, 0 < c →
      Light.ComputeIntensity fm (Light.PointLight i Q) P (N.smul c) 0 =
        Light.ComputeIntensity fm (Light.PointLight i Q) P N 0) ∧
    (∀ s : ℝ, 0 < s →
      0 ≤ Light.ComputeIntensity fm (Light.PointLight i Q) P N s ∧
        Light.ComputeIntensity fm (Light.PointLight i Q) P N s ≤ 2) := by
  have hcomp : ∀ (M : Vector3 ℝ) (s : ℝ),
      Light.ComputeIntensity fm (Light.PointLight i Q) P M s = Light.pointIntensity fm Q P M s :=
    fun _ _ => rfl
  simp only [hcomp]
  refine ⟨?_, ?_, ?_, ?_, ?_⟩
  · intro h
    rw [pointIntensity_diffuse, if_pos h]
  · rw [pointIntensity_diffuse]
    split
    · rename_i h
      exact ⟨(cosine_bounds fm hsqrt _ _ h).1.le, (cosine_bounds fm hsqrt _ _ h).2⟩
    · exact ⟨le_refl _, zero_le_one⟩
  · rw [pointIntensity_diffuse]
    split
    · rename_i h
      constructor
      · intro h0
        exact absurd h0 (ne_of_gt (cosine_bounds fm hsqrt _ _ h).1)
      · intro h0
        exact absurd h (not_lt.mpr h0)
    · rename_i h
      exact ⟨fun _ => not_lt.mp h, fun _ => rfl⟩
  · intro c hc
    rw [pointIntensity_diffuse, pointIntensity_diffuse]
    have hdot : (N.smul c).Dot (Q.sub P) = c * N.Dot (Q.sub P) := by
      simp only [Vector3.Dot, Vector3.smul]
      ring
    rw [hdot, Length_smul fm hsqrt N c hc]
    by_cases h : N.Dot (Q.sub P) > 0
    · rw [if_pos h, if_pos (mul_pos hc h), mul_assoc,
        mul_div_mul_left _ _ (ne_of_gt hc)]
    · rw [if_neg h, if_neg]
      intro hcon
      exact absurd hcon (not_lt.mpr (mul_nonpos_of_nonneg_of_nonpos hc.le (not_lt.mp h)))
  · intro s hs
    have hd : 0 ≤ Light.pointIntensity fm Q P N 0 ∧ Light.pointIntensity fm Q P N 0 ≤ 1 := by
      rw [pointIntensity_diffuse]
      split
      · rename_i h
        exact ⟨(cosine_bounds fm hsqrt _ _ h).1.le, (cosine_bounds fm hsqrt _ _ h).2⟩
      · exact ⟨le_refl _, zero_le_one⟩
    have hsplit : Light.pointIntensity fm Q P N s =
        Light.pointIntensity fm Q P N 0 +
          (if (((N.smul 2).smul (N.Dot (Q.sub P))).sub (Q.sub P)).Dot (P.smul (-1)) > 0 then
            ((((N.smul 2).smul (N.Dot (Q.sub P))).sub (Q.sub P)).Dot (P.smul (-1)) /
              ((((N.smul 2).smul (N.Dot (Q.sub P))).sub (Q.sub P)).Length fm *
                (P.smul (-1)).Length fm)) ^ s
          else 0) := by
      rw [pointIntensity_diffuse, Length_neg]
      simp only [Light.pointIntensity, ne_eq, ne_of_gt hs, not_false_eq_true, if_true, zero_add,
        hpow]
      split <;> split <;> simp
    rw [hsplit]
    have hspec : 0 ≤ (if (((N.smul 2).smul (N.Dot (Q.sub P))).sub (Q.sub P)).Dot (P.smul (-1)) > 0
          then
            ((((N.smul 2).smul (N.Dot (Q.sub P))).sub (Q.sub P)).Dot (P.smul (-1)) /
              ((((N.smul 2).smul (N.Dot (Q.sub P))).sub (Q.sub P)).Length fm *
                (P.smul (-1)).Length fm)) ^ s
          else 0) ∧
        (if (((N.smul 2).smul (N.Dot (Q.sub P))).sub (Q.sub P)).Dot (P.smul (-1)) > 0
          then
            ((((N.smul 2).smul (N.Dot (Q.sub P))).sub (Q.sub P)).Dot (P.smul (-1)) /
              ((((N.smul 2).smul (N.Dot (Q.sub P))).sub (Q.sub P)).Length fm *
                (P.smul (-1)).Length fm)) ^ s
          else 0) ≤ 1 := by
      split
      · rename_i h
        obtain ⟨h0, h1⟩ := cosine_bounds fm hsqrt _ _ h
        exact ⟨Real.rpow_nonneg h0.le s, Real.rpow_le_one h0.le h1 hs.le⟩
      · exact ⟨le_refl _, zero_le_one⟩
    constructor
    · linarith [hd.1, hspec.1]
    · linarith [hd.2, hspec.2]

/-- The light at the origin, `P = (0,0,1)`, `N = (0,0,-1)`: the diffuse result
lies in `[0, 1]`, vanishes exactly when `N.L ≤ 0`, is the same for `N` scaled
by any positive factor, and the result with a positive exponent lies in
`[0, 2]`. -/
theorem PointLight_diffuse_is_cosine_witness :
    (0 ≤ Light.ComputeIntensity { sqrt := Real.sqrt, pow := fun x y => x ^ y }
        (Light.PointLight 1 (Vector3.mk 0 0 0)) (Vector3.mk 0 0 1) (Vector3.mk 0 0 (-1)) (0 : ℝ) ∧
      Light.ComputeIntensity { sqrt := Real.sqrt, pow := fun x y => x ^ y }
        (Light.PointLight 1 (Vector3.mk 0 0 0)) (Vector3.mk 0 0 1) (Vector3.mk 0 0 (-1)) (0 : ℝ) ≤ 1) ∧
    (Light.ComputeIntensity { sqrt := Real.sqrt, pow := fun x y => x ^ y }
        (Light.PointLight 1 (Vector3.mk 0 0 0)) (Vector3.mk 0 0 1) (Vector3.mk 0 0 (-1)) (0 : ℝ) = 0 ↔
      (Vector3.mk (0 : ℝ) 0 (-1)).Dot ((Vector3.mk 0 0 0).sub (Vector3.mk 0 0 1)) ≤ 0) ∧
    (∀ c : ℝ, 0 < c →
      Light.ComputeIntensity { sqrt := Real.sqrt, pow := fun x y => x ^ y }
        (Light.PointLight 1 (Vector3.mk 0 0 0)) (Vector3.mk 0 0 1) ((Vector3.mk 0 0 (-1)).smul c) (0 : ℝ) =
      Light.ComputeIntensity { sqrt := Real.sqrt, pow := fun x y => x ^ y }
        (Light.PointLight 1 (Vector3.mk 0 0 0)) (Vector3.mk 0 0 1) (Vector3.mk 0 0 (-1)) (0 : ℝ)) ∧
    (∀ s : ℝ, 0 < s →
      0 ≤ Light.ComputeIntensity { sqrt := Real.sqrt, pow := fun x y => x ^ y }
        (Light.PointLight 1 (Vector3.mk 0 0 0)) (Vector3.mk 0 0 1) (Vector3.mk 0 0 (-1)) s ∧
      Light.ComputeIntensity { sqrt := Real.sqrt, pow := fun x y => x ^ y }
        (Light.PointLight 1 (Vector3.mk 0 0 0)) (Vector3.mk 0 0 1) (Vector3.mk 0 0 (-1)) s ≤ 2) :=
  (PointLight_diffuse_is_cosine { sqrt := Real.sqrt, pow := fun x y => x ^ y } rfl rfl 1
    (Vector3.mk 0 0 0) (Vector3.mk 0 0 1) (Vector3.mk 0 0 (-1))).2

end Renderer

namespace Renderer
open ViewportWithZBuffer

/-! ### Wireframe mode and facing, winding order -/

/-- The loop of `Render` in Wireframe mode does not read the lights or the
library functions. -/
theorem renderLoop_wireframe_lights {V : Type} (I : IViewport V) (config : Config)
    (hmode : config.mode = RenderMode.WIREFRAME) (fm fm2 : FloatMath ℚ)
    (lights lights2 : List (Light ℚ)) :
    ∀ (triangles : List Triangle) (s : ViewportWithZBuffer V),
      renderLoop I fm2 config lights2 s triangles = renderLoop I fm config lights s triangles := by
  intro triangles
  induction triangles with
  | nil => intro s; rfl
  | cons t rest ih =>
    intro s
    simp only [renderLoop, hmode, if_true]
    cases DrawBorderedTriangle I config s t with
    | none => rfl
    | some v1 => exact ih v1

/-- The method `DrawBorderedTriangle` is three calls of `DrawLine`, on the
edges `P0 P1`, `P1 P2`, `P2 P0` in this order, each with the colour of the
triangle. -/
theorem DrawBorderedTriangle_three_lines {V : Type} (I : IViewport V) (config : Config)
    (s : ViewportWithZBuffer V) (triangle : Triangle) :
    DrawBorderedTriangle I config s triangle =
      ((DrawLine I config s { begin_ := triangle.p0, end_ := triangle.p1 }
          triangle.color).bind
        (fun v1 => DrawLine I config v1 { begin_ := triangle.p1, end_ := triangle.p2 }
          triangle.color)).bind
        (fun v2 => DrawLine I config v2 { begin_ := triangle.p2, end_ := triangle.p0 }
          triangle.color) := by
  unfold DrawBorderedTriangle
  cases DrawLine I config s { begin_ := triangle.p0, end_ := triangle.p1 } triangle.color with
  | none => rfl
  | some v1 =>
    simp only [Option.bind]
    cases DrawLine I config v1 { begin_ := triangle.p1, end_ := triangle.p2 }
      triangle.color with
    | none => rfl
    | some v2 => rfl

/-- C6 (amended): Wireframe mode makes no facing test.  For every triangle,
back-facing or not, `Render` with `mode = WIREFRAME` makes for it exactly the
three `DrawLine` calls of `DrawBorderedTriangle`, on the edges `P0 P1`,
`P1 P2`, `P2 P0` in this order with the colour of the triangle: `Render` of
the one-triangle list is these three calls on the fresh sink, and one
iteration of the loop of `Render` is these three calls followed by the rest of
the list.  The result does not depend on the lights.  The triangle is skipped
(the viewport is returned unchanged) when its three vertices are out of
visible range. -/
theorem Render_wireframe_ignores_facing {V : Type} (I : IViewport V) (fm : FloatMath ℚ)
    (config : Config) (hmode : config.mode = RenderMode.WIREFRAME) (viewport : V)
    (hW : 0 ≤ I.Width viewport) (hH : 0 ≤ I.Height viewport) (triangle : Triangle)
    (lights : List (Light ℚ)) :
    (∃ s0, ViewportWithZBuffer.new I viewport = some s0 ∧
      Render I fm config viewport [triangle] lights =
        (((DrawLine I config s0 { begin_ := triangle.p0, end_ := triangle.p1 }
            triangle.color).bind
          (fun v1 => DrawLine I config v1 { begin_ := triangle.p1, end_ := triangle.p2 }
            triangle.color)).bind
          (fun v2 => DrawLine I config v2 { begin_ := triangle.p2, end_ := triangle.p0 }
            triangle.color)).map (fun s => s.viewport)) ∧
    (∀ (s : ViewportWithZBuffer V) (rest : List Triangle),
      renderLoop I fm config lights s (triangle :: rest) =
        (((DrawLine I config s { begin_ := triangle.p0, end_ := triangle.p1 }
            triangle.color).bind
          (fun v1 => DrawLine I config v1 { begin_ := triangle.p1, end_ := triangle.p2 }
            triangle.color)).bind
          (fun v2 => DrawLine I config v2 { begin_ := triangle.p2, end_ := triangle.p0 }
            triangle.color)).bind
          (fun v3 => renderLoop I fm config lights v3 rest)) ∧
    (∀ (fm2 : FloatMath ℚ) (lights2 : List (Light ℚ)) (triangles : List Triangle),
      Render I fm2 config viewport triangles lights2 =
        Render I fm config viewport triangles lights) ∧
    (IsOutOfVisibleRange config triangle.p0 = true →
      IsOutOfVisibleRange config triangle.p1 = true →
      IsOutOfVisibleRange config triangle.p2 = true →
      Render I fm config viewport [triangle] lights = some viewport) := by
  have hchain := fun s : ViewportWithZBuffer V =>
    DrawBorderedTriangle_three_lines I config s triangle
  obtain ⟨s0, hnew, _, hv0, _, _⟩ := ViewportWithZBuffer.new_eq_some I viewport hW hH
  have hrender : Render I fm config viewport [triangle] lights =
      (DrawBorderedTriangle I config s0 triangle).map (fun s => s.viewport) := by
    simp only [Render, hnew, renderLoop, hmode, if_true]
    cases DrawBorderedTriangle I config s0 triangle <;> rfl
  refine ⟨⟨s0, hnew, ?_⟩, ?_, ?_, ?_⟩
  · rw [hrender, hchain]
  · intro s rest
    rw [← hchain]
    simp only [renderLoop, hmode, if_true]
    cases DrawBorderedTriangle I config s triangle <;> rfl
  · intro fm2 lights2 triangles
    simp only [Render, hnew]
    rw [renderLoop_wireframe_lights I config hmode fm fm2 lights lights2 triangles s0]
  · intro h0 h1 h2
    rw [hrender, DrawBorderedTriangle_all_out I config s0 triangle h0 h1 h2]
    simp only [Option.map_some', hv0]

/-- C6, witness: the back-facing `Sample.triangleBack` in Wireframe mode on the
blank 4 by 4 canvas: `Render` is the three `DrawLine` calls on the fresh sink,
and they draw the outline. -/
theorem Render_wireframe_ignores_facing_witness :
    Sample.configWireframe.mode = RenderMode.WIREFRAME ∧
    IsBackFacing Sample.triangleBack = true ∧
    Render CanvasViewport.viewport Sample.floatMath Sample.configWireframe (Sample.blank 4 4)
        [Sample.triangleBack] [] =
      some (Canvas.mk (List.replicate 6 (Color.mk 0 0 0 0) ++ [Sample.red] ++
        List.replicate 3 (Color.mk 0 0 0 0) ++ [Sample.red] ++
        List.replicate 2 (Color.mk 0 0 0 0) ++ [Sample.red, Sample.red, Sample.red]) 4 4) ∧
    ∃ s0, ViewportWithZBuffer.new CanvasViewport.viewport (Sample.blank 4 4) = some s0 ∧
      Render CanvasViewport.viewport Sample.floatMath Sample.configWireframe (Sample.blank 4 4)
          [Sample.triangleBack] [] =
        (((DrawLine CanvasViewport.viewport Sample.configWireframe s0
            { begin_ := Sample.triangleBack.p0, end_ := Sample.triangleBack.p1 }
            Sample.triangleBack.color).bind
          (fun v1 => DrawLine CanvasViewport.viewport Sample.configWireframe v1
            { begin_ := Sample.triangleBack.p1, end_ := Sample.triangleBack.p2 }
            Sample.triangleBack.color)).bind
          (fun v2 => DrawLine CanvasViewport.viewport Sample.configWireframe v2
            { begin_ := Sample.triangleBack.p2, end_ := Sample.triangleBack.p0 }
            Sample.triangleBack.color)).map (fun s => s.viewport) :=
  ⟨rfl, by decide!, by decide!,
    (Render_wireframe_ignores_facing CanvasViewport.viewport Sample.floatMath
      Sample.configWireframe rfl (Sample.blank 4 4) (by decide) (by decide) Sample.triangleBack
      []).1⟩

/-- C7 (amended): for every triangle `(P0, P1, P2)`, when `h . n ≠ 0` the
classification `IsBackFacing` of the triangle with two vertices exchanged
(`P1` and `P2`, `P0` and `P1`, or `P0` and `P2`) is the negation of
`IsBackFacing(P0, P1, P2)`; when `h . n = 0` the triangle and the three
exchanged triangles are all classified front-facing. -/
theorem IsBackFacing_swap (t : Triangle) :
    (IsBackFacing.hDotN t ≠ 0 →
      IsBackFacing { t with p1 := t.p2, p2 := t.p1 } = !IsBackFacing t ∧
      IsBackFacing { t with p0 := t.p1, p1 := t.p0 } = !IsBackFacing t ∧
      IsBackFacing { t with p0 := t.p2, p2 := t.p0 } = !IsBackFacing t) ∧
    (IsBackFacing.hDotN t = 0 →
      IsBackFacing t = false ∧
      IsBackFacing { t with p1 := t.p2, p2 := t.p1 } = false ∧
      IsBackFacing { t with p0 := t.p1, p1 := t.p0 } = false ∧
      IsBackFacing { t with p0 := t.p2, p2 := t.p0 } = false) := by
  constructor
  · intro h
    unfold IsBackFacing
    rw [hDotN_swap12, hDotN_swap01, hDotN_swap02]
    exact ⟨decide_neg_lt_zero h, decide_neg_lt_zero h, decide_neg_lt_zero h⟩
  · intro h
    unfold IsBackFacing
    rw [hDotN_swap12, hDotN_swap01, hDotN_swap02, h]
    simp

/-- C7, witness: reversing the back-facing `Sample.triangleBack` (`h . n ≠ 0`)
gives a front-facing triangle; `Sample.triangleThroughOrigin` (`h . n = 0`) and
its reversal are both front-facing. -/
theorem IsBackFacing_swap_witness :
    (IsBackFacing.hDotN Sample.triangleBack ≠ 0 ∧ IsBackFacing Sample.triangleBack = true ∧
      IsBackFacing { Sample.triangleBack with
        p1 := Sample.triangleBack.p2, p2 := Sample.triangleBack.p1 } =
        !IsBackFacing Sample.triangleBack) ∧
    (IsBackFacing.hDotN Sample.triangleThroughOrigin = 0 ∧
      IsBackFacing Sample.triangleThroughOrigin = false ∧
      IsBackFacing { Sample.triangleThroughOrigin with
        p1 := Sample.triangleThroughOrigin.p2, p2 := Sample.triangleThroughOrigin.p1 } =
        false) :=
  ⟨⟨by decide!, by decide!, ((IsBackFacing_swap Sample.triangleBack).1 (by decide!)).1⟩,
    ⟨by decide!, ((IsBackFacing_swap Sample.triangleThroughOrigin).2 (by decide!)).1,
      ((IsBackFacing_swap Sample.triangleThroughOrigin).2 (by decide!)).2.1⟩⟩

end Renderer

namespace Renderer
open ViewportWithZBuffer

/-! ### The calls of `DrawFilledTriangle` on the clipped triangles -/

end Renderer

namespace Renderer
open ViewportWithZBuffer

/-! ### The scanline and the line raster as executed on a sink -/

/-- C25 (amended): line rasterization in `DrawLine` in exact arithmetic, with
`a` and `b` the projected endpoints handed to the rasterizing part
`DrawLine.raster`.  If `a = b` the routine is exactly one `PutPixel` call, at
`a` with the depth of `a`.  Otherwise, if `|dx| > |dy|`, the routine makes
exactly `|dx| + 1` calls on the sink, call `k` at column `min(a.x, b.x) + k`
(the last column is `max(a.x, b.x)`) and at the row that is the truncation of
the `y` interpolated from the endpoint `lo` of smaller `x` to the other
endpoint `hi`.  Otherwise (`|dx| ≤ |dy|`) it makes exactly `|dy| + 1` calls,
call `k` at row `min(a.y, b.y) + k` and at the column that is the truncation of
the interpolated `x`.  Every call carries the colour passed to `DrawLine`, and
`DrawBorderedTriangle` passes the colour of the triangle to its three
`DrawLine` calls. -/
theorem DrawLine_rasterization (a b : DepthPoint) (color : Color) :
    (a.1 = b.1 →
      DrawLine.writes a b color = some [Write.mk a.1 a.2 color] ∧
      ∀ (V : Type) (I : IViewport V) (vp : ViewportWithZBuffer V),
        DrawLine.raster I vp a b color = vp.PutPixel I a.1 a.2 color) ∧
    (a.1 ≠ b.1 → (a.1.x - b.1.x).natAbs > (a.1.y - b.1.y).natAbs →
      ∃ ws, DrawLine.writes a b color = some ws ∧
        (∀ (V : Type) (I : IViewport V) (vp : ViewportWithZBuffer V),
          DrawLine.raster I vp a b color = putAll I vp ws) ∧
        ws.length = (a.1.x - b.1.x).natAbs + 1 ∧
        min a.1.x b.1.x + ((a.1.x - b.1.x).natAbs : Int) = max a.1.x b.1.x ∧
        (∀ w ∈ ws, w.color = color) ∧
        ws = (List.range ((a.1.x - b.1.x).natAbs + 1)).map (fun k : Nat =>
          Write.mk
            (CanvasPoint.mk (min a.1.x b.1.x + (k : Int))
              (truncToInt (((DrawLine.orderX a b).1.1.y : ℚ) +
                (k : ℚ) *
                  (((DrawLine.orderX a b).2.1.y : ℚ) - ((DrawLine.orderX a b).1.1.y : ℚ)) /
                  (((DrawLine.orderX a b).2.1.x - (DrawLine.orderX a b).1.1.x : Int) : ℚ))))
            ((DrawLine.orderX a b).1.2 +
              (k : ℚ) * ((DrawLine.orderX a b).2.2 - (DrawLine.orderX a b).1.2) /
                (((DrawLine.orderX a b).2.1.x - (DrawLine.orderX a b).1.1.x : Int) : ℚ))
            color)) ∧
    (a.1 ≠ b.1 → (a.1.x - b.1.x).natAbs ≤ (a.1.y - b.1.y).natAbs →
      ∃ ws, DrawLine.writes a b color = some ws ∧
        (∀ (V : Type) (I : IViewport V) (vp : ViewportWithZBuffer V),
          DrawLine.raster I vp a b color = putAll I vp ws) ∧
        ws.length = (a.1.y - b.1.y).natAbs + 1 ∧
        min a.1.y b.1.y + ((a.1.y - b.1.y).natAbs : Int) = max a.1.y b.1.y ∧
        (∀ w ∈ ws, w.color = color) ∧
        ws = (List.range ((a.1.y - b.1.y).natAbs + 1)).map (fun k : Nat =>
          Write.mk
            (CanvasPoint.mk
              (truncToInt (((DrawLine.orderY a b).1.1.x : ℚ) +
                (k : ℚ) *
                  (((DrawLine.orderY a b).2.1.x : ℚ) - ((DrawLine.orderY a b).1.1.x : ℚ)) /
                  (((DrawLine.orderY a b).2.1.y - (DrawLine.orderY a b).1.1.y : Int) : ℚ)))
              (min a.1.y b.1.y + (k : Int)))
            ((DrawLine.orderY a b).1.2 +
              (k : ℚ) * ((DrawLine.orderY a b).2.2 - (DrawLine.orderY a b).1.2) /
                (((DrawLine.orderY a b).2.1.y - (DrawLine.orderY a b).1.1.y : Int) : ℚ))
            color)) ∧
    (DrawLine.orderX a b = if a.1.x > b.1.x then (b, a) else (a, b)) ∧
    (DrawLine.orderY a b = if a.1.y > b.1.y then (b, a) else (a, b)) ∧
    (∀ (V : Type) (I : IViewport V) (config : Config) (vp : ViewportWithZBuffer V)
        (triangle : Triangle),
      DrawBorderedTriangle I config vp triangle =
        ((DrawLine I config vp { begin_ := triangle.p0, end_ := triangle.p1 }
            triangle.color).bind
          (fun v1 => DrawLine I config v1 { begin_ := triangle.p1, end_ := triangle.p2 }
            triangle.color)).bind
          (fun v2 => DrawLine I config v2 { begin_ := triangle.p2, end_ := triangle.p0 }
            triangle.color)) := by
  obtain ⟨h1, h2, h3, h4, h5, _⟩ := DrawLine.writes_rasterization a b color
  refine ⟨?_, ?_, ?_, h4, h5,
    fun V I config vp triangle => DrawBorderedTriangle_three_lines I config vp triangle⟩
  · intro h
    refine ⟨h1 h, fun V I vp => ?_⟩
    rw [DrawLine.raster_eq_writes, h1 h, runWrites_single]
  · intro hne hdom
    obtain ⟨ws, hws, rest⟩ := h2 hne hdom
    refine ⟨ws, hws, fun V I vp => ?_, rest⟩
    rw [DrawLine.raster_eq_writes, hws]
    rfl
  · intro hne hdom
    obtain ⟨ws, hws, rest⟩ := h3 hne hdom
    refine ⟨ws, hws, fun V I vp => ?_, rest⟩
    rw [DrawLine.raster_eq_writes, hws]
    rfl

/-- C25, witness: the projected endpoints `(-2, 2)` and `(1, 1)`, both at depth
2, with `|dx| = 3 > |dy| = 1`.  In exact arithmetic the interpolated rows are
`2, 5/3, 4/3, 1`, so the four calls are at `(-2, 2)`, `(-1, 1)`, `(0, 1)`,
`(1, 1)`; on the blank 8 by 8 canvas the routine makes them and leaves these
four pixels red. -/
theorem DrawLine_rasterization_witness :
    (CanvasPoint.mk (-2) 2) ≠ (CanvasPoint.mk 1 1) ∧
    (((-2 : Int) - 1).natAbs > ((2 : Int) - 1).natAbs) ∧
    (DrawLine.raster CanvasViewport.viewport Sample.sink8 (CanvasPoint.mk (-2) 2, 2)
        (CanvasPoint.mk 1 1, 2) Sample.red).map (fun s => s.viewport.pixels) =
      some (((((Sample.blank 8 8).pixels.set 18 Sample.red).set 27 Sample.red).set 28
        Sample.red).set 29 Sample.red) ∧
    ∃ ws, DrawLine.writes (CanvasPoint.mk (-2) 2, 2) (CanvasPoint.mk 1 1, 2) Sample.red = some ws ∧
      DrawLine.raster CanvasViewport.viewport Sample.sink8 (CanvasPoint.mk (-2) 2, 2)
        (CanvasPoint.mk 1 1, 2) Sample.red = putAll CanvasViewport.viewport Sample.sink8 ws ∧
      ws = [Write.mk (CanvasPoint.mk (-2) 2) 2 Sample.red,
        Write.mk (CanvasPoint.mk (-1) 1) 2 Sample.red,
        Write.mk (CanvasPoint.mk 0 1) 2 Sample.red,
        Write.mk (CanvasPoint.mk 1 1) 2 Sample.red] := by
  obtain ⟨ws, hws, hrun, _, _, _, hclosed⟩ :=
    (DrawLine_rasterization (CanvasPoint.mk (-2) 2, 2) (CanvasPoint.mk 1 1, 2) Sample.red).2.1
      (by decide) (by decide)
  refine ⟨by decide, by decide, by decide!, ws, hws,
    hrun Canvas CanvasViewport.viewport Sample.sink8, ?_⟩
  rw [hclosed]
  decide!

/-- C33: the raster of a line between two distinct projected endpoints `a` and
`b`, in exact arithmetic.  The rasterizing part of `DrawLine` makes a sequence
of `PutPixel` calls on the sink that has one call more than the larger of the
two coordinate differences, starts at one endpoint and ends at the other with
the depth of that endpoint, and in which two consecutive calls differ by
exactly one along the dominant axis and by at most one along the other axis. -/
theorem DrawLine_raster_connected (a b : DepthPoint) (color : Color) (hne : a.1 ≠ b.1) :
    ∃ ws first last, DrawLine.writes a b color = some ws ∧
      (∀ (V : Type) (I : IViewport V) (vp : ViewportWithZBuffer V),
        DrawLine.raster I vp a b color = putAll I vp ws) ∧
      ws.length = max (a.1.x - b.1.x).natAbs (a.1.y - b.1.y).natAbs + 1 ∧
      ws.head? = some first ∧ ws.getLast? = some last ∧
      ((first.point = a.1 ∧ first.z = a.2 ∧ last.point = b.1 ∧ last.z = b.2) ∨
        (first.point = b.1 ∧ first.z = b.2 ∧ last.point = a.1 ∧ last.z = a.2)) ∧
      ∀ (k : Nat) (w1 w2 : Write), ws[k]? = some w1 → ws[k + 1]? = some w2 →
        if (a.1.x - b.1.x).natAbs > (a.1.y - b.1.y).natAbs then
          w2.point.x = w1.point.x + 1 ∧ (w2.point.y - w1.point.y).natAbs ≤ 1
        else
          w2.point.y = w1.point.y + 1 ∧ (w2.point.x - w1.point.x).natAbs ≤ 1 := by
  obtain ⟨ws, first, last, hws, rest⟩ := DrawLine.writes_connected a b color hne
  refine ⟨ws, first, last, hws, fun V I vp => ?_, rest⟩
  rw [DrawLine.raster_eq_writes, hws]
  rfl

/-- C33, witness: the raster of the line from `(0, 0)` at depth 2 to `(3, 1)`
at depth 4: four calls, from the first endpoint to the second, one column apart
and at most one row apart; on the blank 8 by 8 canvas the routine makes them
and leaves the pixels of `(0, 0)`, `(1, 0)`, `(2, 0)`, `(3, 1)` red. -/
theorem DrawLine_raster_connected_witness :
    (CanvasPoint.mk 0 0) ≠ (CanvasPoint.mk 3 1) ∧
    DrawLine.writes (CanvasPoint.mk 0 0, 2) (CanvasPoint.mk 3 1, 4) Sample.red =
      some [Write.mk (CanvasPoint.mk 0 0) 2 Sample.red,
        Write.mk (CanvasPoint.mk 1 0) (8 / 3) Sample.red,
        Write.mk (CanvasPoint.mk 2 0) (10 / 3) Sample.red,
        Write.mk (CanvasPoint.mk 3 1) 4 Sample.red] ∧
    (DrawLine.raster CanvasViewport.viewport Sample.sink8 (CanvasPoint.mk 0 0, 2)
        (CanvasPoint.mk 3 1, 4) Sample.red).map (fun s => s.viewport.pixels) =
      some (((((Sample.blank 8 8).pixels.set 36 Sample.red).set 37 Sample.red).set 38
        Sample.red).set 31 Sample.red) ∧
    ∃ ws first last,
      DrawLine.writes (CanvasPoint.mk 0 0, 2) (CanvasPoint.mk 3 1, 4) Sample.red = some ws ∧
      (∀ (V : Type) (I : IViewport V) (vp : ViewportWithZBuffer V),
        DrawLine.raster I vp (CanvasPoint.mk 0 0, 2) (CanvasPoint.mk 3 1, 4) Sample.red =
          putAll I vp ws) ∧
      ws.length = max ((0 : Int) - 3).natAbs ((0 : Int) - 1).natAbs + 1 ∧
      ws.head? = some first ∧ ws.getLast? = some last ∧
      ((first.point = CanvasPoint.mk 0 0 ∧ first.z = 2 ∧
          last.point = CanvasPoint.mk 3 1 ∧ last.z = 4) ∨
        (first.point = CanvasPoint.mk 3 1 ∧ first.z = 4 ∧
          last.point = CanvasPoint.mk 0 0 ∧ last.z = 2)) ∧
      ∀ (k : Nat) (w1 w2 : Write), ws[k]? = some w1 → ws[k + 1]? = some w2 →
        if ((0 : Int) - 3).natAbs > ((0 : Int) - 1).natAbs then
          w2.point.x = w1.point.x + 1 ∧ (w2.point.y - w1.point.y).natAbs ≤ 1
        else
          w2.point.y = w1.point.y + 1 ∧ (w2.point.x - w1.point.x).natAbs ≤ 1 :=
  ⟨by decide, by decide!, by decide!,
    DrawLine_raster_connected (CanvasPoint.mk 0 0, 2) (CanvasPoint.mk 3 1, 4) Sample.red
      (by decide)⟩

end Renderer

namespace Renderer
open ViewportWithZBuffer

/-! ### The precondition of `Interpolate` -/

/-- After the conditional swap the first endpoint has the smaller `x`. -/
theorem DrawLine.orderX_le (a b : DepthPoint) :
    (DrawLine.orderX a b).1.1.x ≤ (DrawLine.orderX a b).2.1.x := by
  unfold DrawLine.orderX
  split
  · show b.1.x ≤ a.1.x
    omega
  · show a.1.x ≤ b.1.x
    omega

/-- After the conditional swap the first endpoint has the smaller `y`. -/
theorem DrawLine.orderY_le (a b : DepthPoint) :
    (DrawLine.orderY a b).1.1.y ≤ (DrawLine.orderY a b).2.1.y := by
  unfold DrawLine.orderY
  split
  · show b.1.y ≤ a.1.y
    omega
  · show a.1.y ≤ b.1.y
    omega

/-- The three entries of `points[3]` after the sort are ordered by canvas `y`. -/
theorem sortedVertices_sorted (fm : FloatMath ℚ) (config : Config) (canvasSize : Int × Int)
    (t : Triangle) (lights : List (Light ℚ)) (v0 v1 v2 : Vertex)
    (h : sortedVertices fm config canvasSize t lights = some (v0, v1, v2)) :
    v0.p.y ≤ v1.p.y ∧ v1.p.y ≤ v2.p.y := by
  unfold sortedVertices at h
  split at h
  · rename_i q0 q1 q2 _ _ _
    simp only [Option.some.injEq] at h
    have hs := sortByY_sorted
      { p := q0, z := t.p0.z, l := ComputeLighting fm t.p0 t.n0 lights t.specular }
      { p := q1, z := t.p1.z, l := ComputeLighting fm t.p1 t.n1 lights t.specular }
      { p := q2, z := t.p2.z, l := ComputeLighting fm t.p2 t.n2 lights t.specular }
    rw [h] at hs
    exact hs
  · exact Option.noConfusion h

/-- The rasterizing part of `DrawLine` calls `Interpolate` on ordered arguments
only. -/
theorem DrawLine.rasterWith_eq {V : Type} (interp : Interpolator)
    (h : ∀ (i0 : Int) (d0 : ℚ) (i1 : Int) (d1 : ℚ), i0 ≤ i1 →
      interp i0 d0 i1 d1 [] = Interpolate i0 d0 i1 d1 [])
    (I : IViewport V) (viewport : ViewportWithZBuffer V) (a b : DepthPoint) (color : Color) :
    DrawLine.rasterWith interp I viewport a b color = DrawLine.raster I viewport a b color := by
  unfold DrawLine.rasterWith DrawLine.raster
  split
  · rfl
  · split
    · simp only [h _ _ _ _ (DrawLine.orderX_le a b)]
    · simp only [h _ _ _ _ (DrawLine.orderY_le a b)]

/-- The edge arrays of ordered rows call `Interpolate` on ordered arguments
only. -/
theorem edgeArraysWith_eq (interp : Interpolator)
    (h : ∀ (i0 : Int) (d0 : ℚ) (i1 : Int) (d1 : ℚ), i0 ≤ i1 →
      interp i0 d0 i1 d1 [] = Interpolate i0 d0 i1 d1 [])
    (y0 : Int) (d0 : ℚ) (y1 : Int) (d1 : ℚ) (y2 : Int) (d2 : ℚ) (h01 : y0 ≤ y1) (h12 : y1 ≤ y2) :
    edgeArraysWith interp y0 d0 y1 d1 y2 d2 = edgeArrays y0 d0 y1 d1 y2 d2 := by
  unfold edgeArraysWith edgeArrays
  rw [h _ _ _ _ (le_trans h01 h12), h _ _ _ _ h01, h _ _ _ _ h12]

/-- The scanline loop body calls `Interpolate` on ordered arguments only. -/
theorem scanlineWith_eq {V : Type} (interp : Interpolator)
    (h : ∀ (i0 : Int) (d0 : ℚ) (i1 : Int) (d1 : ℚ), i0 ≤ i1 →
      interp i0 d0 i1 d1 [] = Interpolate i0 d0 i1 d1 [])
    (I : IViewport V) (color : Color) (y0 : Int) (x02 x012 z02 z012 l02 l012 : List ℚ) (i : Int)
    (viewport : ViewportWithZBuffer V) :
    scanlineWith interp I color y0 x02 x012 z02 z012 l02 l012 i viewport =
      scanline I color y0 x02 x012 z02 z012 l02 l012 i viewport := by
  unfold scanlineWith scanline
  simp only [h _ _ _ _ (scanlineEnds_le _ _ _ _ _ _)]

/-- The method `DrawFilledTriangleImpl` calls `Interpolate` on ordered
arguments only. -/
theorem DrawFilledTriangleImplWith_eq {V : Type} (interp : Interpolator)
    (h : ∀ (i0 : Int) (d0 : ℚ) (i1 : Int) (d1 : ℚ), i0 ≤ i1 →
      interp i0 d0 i1 d1 [] = Interpolate i0 d0 i1 d1 [])
    (I : IViewport V) (fm : FloatMath ℚ) (config : Config) (viewport : ViewportWithZBuffer V)
    (triangle : Triangle) (lights : List (Light ℚ)) :
    DrawFilledTriangleImplWith interp I fm config viewport triangle lights =
      DrawFilledTriangleImpl I fm config viewport triangle lights := by
  unfold DrawFilledTriangleImplWith DrawFilledTriangleImpl
  split
  · rfl
  · cases hsv : sortedVertices fm config (viewport.Width, viewport.Height) triangle lights with
    | none => rfl
    | some v =>
      obtain ⟨v0, v1, v2⟩ := v
      obtain ⟨h01, h12⟩ := sortedVertices_sorted fm config _ triangle lights v0 v1 v2 hsv
      have hfun : ∀ (x02 x012 z02 z012 l02 l012 : List ℚ),
          scanlineWith interp I triangle.color v0.p.y x02 x012 z02 z012 l02 l012 =
            scanline I triangle.color v0.p.y x02 x012 z02 z012 l02 l012 := by
        intro x02 x012 z02 z012 l02 l012
        funext i vp
        exact scanlineWith_eq interp h I triangle.color v0.p.y x02 x012 z02 z012 l02 l012 i vp
      simp only [edgeArraysWith_eq interp h _ _ _ _ _ _ h01 h12, hfun]

/-- C9: every call of `Interpolate` made by `DrawLine` and by
`DrawFilledTriangleImpl` has `i0 ≤ i1`.  The two methods are written with their
callee as the parameter `interp` (`DrawLineWith`, `DrawFilledTriangleImplWith`;
with `Interpolate` itself they are `DrawLine` and `DrawFilledTriangleImpl`).
For every `interp` that agrees with `Interpolate` whenever `i0 ≤ i1`, and is
arbitrary otherwise, the two methods behave as with `Interpolate`, on every
sink and every input: after the endpoint swap of `DrawLine`, after the sort by
canvas `y` for the edge arrays, and after the `x1`/`x2` swap of each scanline,
no call leaves the precondition.  The methods do call `interp`: with a callee
that always fails, the raster of two distinct endpoints fails, and so does the
fill of a front-facing triangle whose vertices project.  On `i0 ≤ i1`
`Interpolate` returns `i1 - i0 + 1 ≥ 1` entries and reaches its division only
with `i1 - i0 > 0`. -/
theorem interpolate_calls_ordered (interp : Interpolator)
    (h : ∀ (i0 : Int) (d0 : ℚ) (i1 : Int) (d1 : ℚ), i0 ≤ i1 →
      interp i0 d0 i1 d1 [] = Interpolate i0 d0 i1 d1 []) :
    (∀ (V : Type) (I : IViewport V) (config : Config) (viewport : ViewportWithZBuffer V)
        (line : Line) (color : Color),
      DrawLineWith interp I config viewport line color = DrawLine I config viewport line color ∧
      DrawLineWith Interpolate I config viewport line color =
        DrawLine I config viewport line color) ∧
    (∀ (V : Type) (I : IViewport V) (fm : FloatMath ℚ) (config : Config)
        (viewport : ViewportWithZBuffer V) (triangle : Triangle) (lights : List (Light ℚ)),
      DrawFilledTriangleImplWith interp I fm config viewport triangle lights =
        DrawFilledTriangleImpl I fm config viewport triangle lights ∧
      DrawFilledTriangleImplWith Interpolate I fm config viewport triangle lights =
        DrawFilledTriangleImpl I fm config viewport triangle lights) ∧
    (∀ (V : Type) (I : IViewport V) (viewport : ViewportWithZBuffer V) (a b : DepthPoint)
        (color : Color), a.1 ≠ b.1 →
      DrawLine.rasterWith (fun _ _ _ _ _ => none) I viewport a b color = none) ∧
    (∀ (V : Type) (I : IViewport V) (fm : FloatMath ℚ) (config : Config)
        (viewport : ViewportWithZBuffer V) (triangle : Triangle) (lights : List (Light ℚ))
        (v : Vertex × Vertex × Vertex), IsBackFacing triangle = false →
      sortedVertices fm config (viewport.Width, viewport.Height) triangle lights = some v →
      DrawFilledTriangleImplWith (fun _ _ _ _ _ => none) I fm config viewport triangle lights =
        none) ∧
    (∀ (i0 i1 : Int) (d0 d1 : ℚ), i0 ≤ i1 →
      (i0 = i1 ∨ 0 < i1 - i0) ∧
      ∃ out, Interpolate i0 d0 i1 d1 [] = some out ∧ (out.length : Int) = i1 - i0 + 1 ∧
        1 ≤ out.length) := by
  refine ⟨?_, ?_, ?_, ?_, ?_⟩
  · intro V I config viewport line color
    refine ⟨?_, rfl⟩
    unfold DrawLineWith DrawLine
    simp only [DrawLine.rasterWith_eq interp h]
  · intro V I fm config viewport triangle lights
    exact ⟨DrawFilledTriangleImplWith_eq interp h I fm config viewport triangle lights, rfl⟩
  · intro V I viewport a b color hne
    unfold DrawLine.rasterWith
    rw [if_neg hne]
    split <;> rfl
  · intro V I fm config viewport triangle lights v hfront hsv
    obtain ⟨v0, v1, v2⟩ := v
    unfold DrawFilledTriangleImplWith
    rw [hfront, hsv]
    simp only [Bool.false_eq_true, if_false, edgeArraysWith]
  · intro i0 i1 d0 d1 hle
    obtain ⟨out, h1, h2⟩ := Interpolate_of_le i0 d0 i1 d1 hle
    refine ⟨by omega, out, h1, by rw [h2]; omega, by rw [h2]; omega⟩

/-- C9, witness: a callee that is `Interpolate` on `i0 ≤ i1` and returns the
one-entry vector `[0]` otherwise (where `Interpolate` returns an empty vector
or throws).  `DrawLine` and `DrawFilledTriangleImpl` behave with it as with
`Interpolate`. -/
theorem interpolate_calls_ordered_witness :
    (∀ (i0 : Int) (d0 : ℚ) (i1 : Int) (d1 : ℚ), i0 ≤ i1 →
      (fun (i0 : Int) (d0 : ℚ) (i1 : Int) (d1 : ℚ) (values : List ℚ) =>
        if i0 ≤ i1 then Interpolate i0 d0 i1 d1 values else some [0]) i0 d0 i1 d1 [] =
        Interpolate i0 d0 i1 d1 []) ∧
    Interpolate 1 0 0 0 [] = some [] ∧
    (∀ (V : Type) (I : IViewport V) (config : Config) (viewport : ViewportWithZBuffer V)
        (line : Line) (color : Color),
      DrawLineWith
        (fun (i0 : Int) (d0 : ℚ) (i1 : Int) (d1 : ℚ) (values : List ℚ) =>
          if i0 ≤ i1 then Interpolate i0 d0 i1 d1 values else some [0])
        I config viewport line color = DrawLine I config viewport line color) ∧
    (∀ (V : Type) (I : IViewport V) (fm : FloatMath ℚ) (config : Config)
        (viewport : ViewportWithZBuffer V) (triangle : Triangle) (lights : List (Light ℚ)),
      DrawFilledTriangleImplWith
        (fun (i0 : Int) (d0 : ℚ) (i1 : Int) (d1 : ℚ) (values : List ℚ) =>
          if i0 ≤ i1 then Interpolate i0 d0 i1 d1 values else some [0])
        I fm config viewport triangle lights =
        DrawFilledTriangleImpl I fm config viewport triangle lights) :=
  ⟨fun _ _ _ _ hle => if_pos hle, by decide!,
    fun V I config viewport line color =>
      ((interpolate_calls_ordered
        (fun (i0 : Int) (d0 : ℚ) (i1 : Int) (d1 : ℚ) (values : List ℚ) =>
          if i0 ≤ i1 then Interpolate i0 d0 i1 d1 values else some [0])
        (fun _ _ _ _ hle => if_pos hle)).1 V I config viewport line color).1,
    fun V I fm config viewport triangle lights =>
      ((interpolate_calls_ordered
        (fun (i0 : Int) (d0 : ℚ) (i1 : Int) (d1 : ℚ) (values : List ℚ) =>
          if i0 ≤ i1 then Interpolate i0 d0 i1 d1 values else some [0])
        (fun _ _ _ _ hle => if_pos hle)).2.1 V I fm config viewport triangle lights).1⟩

end Renderer

namespace Renderer
open ViewportWithZBuffer

/-! ### The claims that hold in exact arithmetic only: runs in binary32 -/

/-- Rounding to binary32 at some standard values: `1/3`, `0.1`, the ties
`2^24 + 1` and `2^24 + 3` (to the even neighbour), the largest value that
stays finite and `2^128` (an infinity), half the smallest subnormal (a tie, to
zero) and three halves of it. -/
theorem round32_values :
    F32.round (1 / 3) = some (11184811 / 33554432) ∧
    F32.round (1 / 10) = some (13421773 / 134217728) ∧
    F32.round 16777217 = some 16777216 ∧
    F32.round 16777219 = some 16777220 ∧
    F32.round (-16777219) = some (-16777220) ∧
    F32.round 340282356779733661637539395458142568447 =
      some 340282346638528859811704183484516925440 ∧
    F32.round 340282366920938463463374607431768211456 = none ∧
    F32.round (1 / 1427247692705959881058285969449495136382746624) = some 0 ∧
    F32.round (3 / 1427247692705959881058285969449495136382746624) =
      some (1 / 356811923176489970264571492362373784095686656) := by
  decide!

/-- C14, counterexample to the claim as stated: in binary32 arithmetic, with
`d = 1`, `DrawLine` on the segment from `(0, 0, 0.125)` to `(1, 1, 3)` (one
endpoint at `z > d`) clips the first endpoint to a point with
`z = 16777215 / 16777216 < d` and passes this `z` to `PutPixel`, which stores
it; on the segment from `(1, 1, -10^10)` to `(1, 1, 2)` the clipped endpoint has
`z = 0` and `PerspectiveProject` divides by it. -/
theorem DrawLine_binary32_depth_below_near_plane :
    0 < Sample.configWireframe.d ∧ Sample.configWireframe.d < 3 ∧
    F32.CutLine Sample.configWireframe
        { begin_ := { x := 0, y := 0, z := 1 / 8 }, end_ := { x := 1, y := 1, z := 3 } } =
      some { begin_ := { x := 5106109 / 16777216, y := 5106109 / 16777216,
                         z := 16777215 / 16777216 },
             end_ := { x := 1, y := 1, z := 3 } } ∧
    (F32.DrawLine CanvasViewport.viewport Sample.configWireframe Sample.sink4
        { begin_ := { x := 0, y := 0, z := 1 / 8 }, end_ := { x := 1, y := 1, z := 3 } }
        Sample.red).map (fun s => s.zbuffer) =
      some [[0, 0, 0, 0], [0, 0, 0, 0], [0, 0, 16777215 / 16777216, 0], [0, 0, 0, 0]] ∧
    (16777215 / 16777216 : ℚ) < Sample.configWireframe.d ∧
    F32.CutLine Sample.configWireframe
        { begin_ := { x := 1, y := 1, z := -10000000000 }, end_ := { x := 1, y := 1, z := 2 } } =
      some { begin_ := { x := 1, y := 1, z := 0 }, end_ := { x := 1, y := 1, z := 2 } } ∧
    F32.PerspectiveProject Sample.configWireframe (4, 4) { x := 1, y := 1, z := 0 } = none ∧
    F32.DrawLine CanvasViewport.viewport Sample.configWireframe Sample.sink4
        { begin_ := { x := 1, y := 1, z := -10000000000 }, end_ := { x := 1, y := 1, z := 2 } }
        Sample.red = none := by
  decide!

/-- C15, counterexample to the claim as stated: in binary32 arithmetic the
depths `3.875` and the next `float`, `3.875 + 2^-22`, have the same reciprocal.
The red triangle at the nearer depth and the blue triangle at the farther one
are front-facing and each covers the pixel of `(0, 0)`; with the farther
triangle first in the list, `Render` leaves that pixel blue. -/
theorem Render_binary32_farther_triangle_wins :
    Sample.configFill.d < 31 / 8 ∧ (31 / 8 : ℚ) < Sample.float3875next ∧
    F32.round (31 / 8) = some (31 / 8) ∧
    F32.round Sample.float3875next = some Sample.float3875next ∧
    F32.recip (31 / 8) = F32.recip Sample.float3875next ∧
    F32.IsBackFacing (Sample.triangleAt (31 / 8) Sample.red) = some false ∧
    F32.IsBackFacing (Sample.triangleAt Sample.float3875next Sample.blue) = some false ∧
    (F32.Render CanvasViewport.viewport Sample.floatMath Sample.configFill (Sample.blank 4 4)
        [Sample.triangleAt (31 / 8) Sample.red] [Light.AmbientLight 1]).map
      (fun c => c.pixels[(CanvasViewport.index 4 4 { x := 0, y := 0 }).toNat]?) =
      some (some Sample.red) ∧
    (F32.Render CanvasViewport.viewport Sample.floatMath Sample.configFill (Sample.blank 4 4)
        [Sample.triangleAt Sample.float3875next Sample.blue] [Light.AmbientLight 1]).map
      (fun c => c.pixels[(CanvasViewport.index 4 4 { x := 0, y := 0 }).toNat]?) =
      some (some Sample.blue) ∧
    (F32.Render CanvasViewport.viewport Sample.floatMath Sample.configFill (Sample.blank 4 4)
        [Sample.triangleAt (31 / 8) Sample.red,
          Sample.triangleAt Sample.float3875next Sample.blue] [Light.AmbientLight 1]).map
      (fun c => c.pixels[(CanvasViewport.index 4 4 { x := 0, y := 0 }).toNat]?) =
      some (some Sample.red) ∧
    (F32.Render CanvasViewport.viewport Sample.floatMath Sample.configFill (Sample.blank 4 4)
        [Sample.triangleAt Sample.float3875next Sample.blue,
          Sample.triangleAt (31 / 8) Sample.red] [Light.AmbientLight 1]).map
      (fun c => c.pixels[(CanvasViewport.index 4 4 { x := 0, y := 0 }).toNat]?) =
      some (some Sample.blue) := by
  decide!

/-- C17, counterexample to the claim as stated: in binary32 arithmetic, in
ISOMETRIC mode with view extents `(1, 1)` on a canvas of 10 by 10 pixels, the
point with `x = 0.7f` projects to column `7`, where the claim gives
`trunc(x / vw * W) = 6`; and for `x = 3 * 10^8` the product `3 * 10^9` is not
an `int`, so the conversion is undefined, where the claim gives the column
`3000000000`. -/
theorem ProjectPoint_binary32_differs :
    Sample.configUnit.projection = ProjectionType.ISOMETRIC ∧
    F32.round Sample.float07 = some Sample.float07 ∧
    F32.ProjectPoint Sample.configUnit (10, 10) { x := Sample.float07, y := 0, z := 1 } =
      some { x := 7, y := 0 } ∧
    truncToInt (Sample.float07 / Sample.configUnit.viewSize0 * ((10 : Int) : ℚ)) = 6 ∧
    F32.round 300000000 = some 300000000 ∧
    F32.ProjectPoint Sample.configUnit (10, 10) { x := 300000000, y := 0, z := 1 } = none ∧
    truncToInt ((300000000 : ℚ) / Sample.configUnit.viewSize0 * ((10 : Int) : ℚ)) =
      3000000000 := by
  decide!

/-- C21, counterexample to the claim as stated: in binary32 arithmetic, with
the single ambient light of intensity `k = 0.7f` and the base colour
`(10, 20, 30, 255)`, `Render` in Fill mode writes the colour `(7, 14, 21, 255)`
at the pixel of `(0, 0)`, where the claim gives
`(trunc(10 k), trunc(20 k), trunc(30 k), 255) = (6, 13, 20, 255)`. -/
theorem Render_binary32_ambient_colour :
    0 ≤ Sample.float07 ∧ F32.round Sample.float07 = some Sample.float07 ∧
    (F32.Render CanvasViewport.viewport Sample.floatMath Sample.configFill (Sample.blank 4 4)
        [Sample.triangleDim] [Light.AmbientLight Sample.float07]).map
      (fun c => c.pixels[(CanvasViewport.index 4 4 { x := 0, y := 0 }).toNat]?) =
      some (some (Color.mk 7 14 21 255)) ∧
    Color.mk (truncToInt (min 255 ((Sample.triangleDim.color.r : ℚ) * Sample.float07))).toNat
        (truncToInt (min 255 ((Sample.triangleDim.color.g : ℚ) * Sample.float07))).toNat
        (truncToInt (min 255 ((Sample.triangleDim.color.b : ℚ) * Sample.float07))).toNat
        Sample.triangleDim.color.a =
      Color.mk 6 13 20 255 := by
  decide!

/-- C22, counterexample to the claim as stated: in binary32 arithmetic, for
the base colour `(100, 200, 50, 255)` and the intensity `l = 0.7f ≥ 0`, the
colour computed for a pixel is `(70, 140, 35, 255)`, where the claim gives
`(⌊100 l⌋, ⌊200 l⌋, ⌊50 l⌋, 255) = (69, 139, 34, 255)`; the filled path emits
it at the pixel of `(0, 0)` for `Sample.triangleOlive` under an ambient light of
that intensity. -/
theorem shade_binary32_rounds_up :
    0 ≤ Sample.float07 ∧
    F32.shade (Color.mk 100 200 50 255) Sample.float07 = some (Color.mk 70 140 35 255) ∧
    Color.mk (truncToInt (min 255 ((100 : ℚ) * Sample.float07))).toNat
        (truncToInt (min 255 ((200 : ℚ) * Sample.float07))).toNat
        (truncToInt (min 255 ((50 : ℚ) * Sample.float07))).toNat 255 =
      Color.mk 69 139 34 255 ∧
    (F32.DrawFilledTriangleImpl CanvasViewport.viewport Sample.floatMath Sample.configFill
        Sample.sink4 Sample.triangleOlive [Light.AmbientLight Sample.float07]).map
      (fun s => s.viewport.pixels[(CanvasViewport.index 4 4 { x := 0, y := 0 }).toNat]?) =
      some (some (Color.mk 70 140 35 255)) := by
  decide!

/-- C25, counterexample to the claim as stated: in binary32 arithmetic, for
the projected endpoints `(-2, 2)` and `(1, 1)` the rows accumulated by
`Interpolate` are `2, 1.6666666, 1.3333333, 0.9999999`, so the call for the
column `x = 1` is made at `(1, 0)`, where the claim gives the row
`trunc(2 + 3 * (1 - 2) / 3) = 1`: on the blank 8 by 8 canvas the raster leaves
the pixels of `(-2, 2)`, `(-1, 1)`, `(0, 1)` and `(1, 0)` red and the pixel of
`(1, 1)` untouched.  `DrawLine` does the same on the scene segment from
`(-2, 2, 2)` to `(1, 1, 2)`, which projects to these endpoints. -/
theorem DrawLine_binary32_misses_endpoint :
    F32.Interpolate (-2) 2 1 1 [] =
      some [2, 13981013 / 8388608, 5592405 / 4194304, 8388607 / 8388608] ∧
    truncToInt ((2 : ℚ) + 3 * (1 - 2) / 3) = 1 ∧
    (CanvasViewport.index 8 8 { x := -2, y := 2 }, CanvasViewport.index 8 8 { x := -1, y := 1 },
      CanvasViewport.index 8 8 { x := 0, y := 1 }, CanvasViewport.index 8 8 { x := 1, y := 0 },
      CanvasViewport.index 8 8 { x := 1, y := 1 }) = (18, 27, 28, 37, 29) ∧
    (F32.DrawLine.raster CanvasViewport.viewport Sample.sink8 (CanvasPoint.mk (-2) 2, 2)
        (CanvasPoint.mk 1 1, 2) Sample.red).map (fun s => s.viewport.pixels) =
      some (((((Sample.blank 8 8).pixels.set 18 Sample.red).set 27 Sample.red).set 28
        Sample.red).set 37 Sample.red) ∧
    F32.ProjectPoint Sample.configPixel (8, 8) { x := -2, y := 2, z := 2 } =
      some { x := -2, y := 2 } ∧
    F32.ProjectPoint Sample.configPixel (8, 8) { x := 1, y := 1, z := 2 } =
      some { x := 1, y := 1 } ∧
    (F32.DrawLine CanvasViewport.viewport Sample.configPixel Sample.sink8
        { begin_ := { x := -2, y := 2, z := 2 }, end_ := { x := 1, y := 1, z := 2 } }
        Sample.red).map (fun s => s.viewport.pixels) =
      some (((((Sample.blank 8 8).pixels.set 18 Sample.red).set 27 Sample.red).set 28
        Sample.red).set 37 Sample.red) := by
  decide!

/-- C32, counterexample to the claim as stated: in binary32 arithmetic, for
the front-facing `Sample.triangleSlanted`, whose vertices project to
`(-3, -2)`, `(-1, -2)`, `(-1, 1)`, the long-edge array accumulated by
`Interpolate` ends with `-0.9999998`, which converts to `0`; the scanline of
row `1` runs from column `-1` to column `0`, and `DrawFilledTriangleImpl` writes
the pixel of `(0, 1)`, to the right of the three projected vertices. -/
theorem DrawFilledTriangleImpl_binary32_leaves_bounding_box :
    F32.IsBackFacing Sample.triangleSlanted = some false ∧
    F32.sortedVertices Sample.floatMath Sample.configPixel (8, 8) Sample.triangleSlanted
        [Light.AmbientLight 1] =
      some ({ p := { x := -3, y := -2 }, z := 2, l := 1 },
        { p := { x := -1, y := -2 }, z := 2, l := 1 },
        { p := { x := -1, y := 1 }, z := 2, l := 1 }) ∧
    F32.Interpolate (-2) (-3) 1 (-1) [] =
      some [-3, -9786709 / 4194304, -3495253 / 2097152, -16777213 / 16777216] ∧
    F32.toInt (-16777213 / 16777216) = some 0 ∧
    max (-3 : Int) (max (-1) (-1)) < 0 ∧
    CanvasViewport.index 8 8 { x := 0, y := 1 } = 28 ∧
    (F32.DrawFilledTriangleImpl CanvasViewport.viewport Sample.floatMath Sample.configPixel
        Sample.sink8 Sample.triangleSlanted [Light.AmbientLight 1]).map
      (fun s => (s.viewport.pixels[28]?, s.depthAt 5 4)) =
      some (some Sample.red, 1 / 2) := by
  decide!

end Renderer

end Engine
